import Mathlib

/-!
# Binary-encoded genetic algorithm: individuals, genetic operators and the engine

A shallow embedding of `src/Individual.cpp`, `src/FitnessFunction.cpp` and
`src/GeneticAlgorithm.cpp` (namespace `GA`).

Modelling conventions
* `Chromosome` (`std::vector<bool>`) is a `List Bool`.
* `double` is modelled in exact arithmetic by `ℚ`; infinities and NaN are outside the model.
  Rounding is modelled by `roundDouble` (IEEE 754 binary64, round to nearest, ties to even)
  in two places: a product that the source converts to `int` is rounded before it is
  truncated, because the rounding decides the integer; and the functions whose name ends in
  `Double` repeat a computation of the source with every conversion and operation rounded,
  for the properties that hold in exact arithmetic only.
* `uint64_t` values are natural numbers reduced modulo `2 ^ 64`.
* `int` values are `Int`, without overflow; `static_cast<int>(chromosome.size())` is the
  length itself (chromosome lengths are far below `2 ^ 31`), and the `int` that counts the
  pairs of the diversity stays below `2 ^ 31` for populations of up to 65536 individuals.
* A C++ exception or an operation whose behaviour C++ leaves undefined is an `Except.error`.
* `std::mt19937` seen through a distribution is the stream of the values still to be drawn.
-/

namespace GA

/-! ## Data model (`GeneticTypes.h`, `Individual.h`) -/

/-- Chromosome: binary representation of an individual, `std::vector<bool>`. -/
abbrev Chromosome := List Bool

/-- FitnessValue: `double` in the source, exact rationals here. -/
abbrev FitnessValue := ℚ

/-- Failures of an operation: the exceptions thrown by the source, and behaviour that C++
leaves undefined (a shift by 64 or more, an index past the end of a vector). -/
inductive Error where
  | invalidArgument (msg : String)
  | runtimeError (msg : String)
  | lengthError
  | undefinedBehaviour
  deriving DecidableEq, Repr

/-- Individual: a chromosome, the cached raw fitness, the cached percentage and the flag
telling whether the cached fitness is valid. -/
structure Individual where
  chromosome : Chromosome
  fitness : FitnessValue
  fitnessPercentage : ℚ
  fitnessCalculated : Bool
  deriving DecidableEq, Repr

/-- The random source: the values in `[0,1)` still to be drawn, in order. -/
abbrev Rng := Nat → ℚ

/-- Take the next value from the random source. -/
def Rng.draw (rng : Rng) : ℚ × Rng := (rng 0, fun n => rng (n + 1))

/-- `std::uniform_real_distribution<double>(0.0, 1.0)` applied to the source. -/
def uniformReal01 (rng : Rng) : ℚ × Rng := rng.draw

/-- `std::uniform_int_distribution<int>(lo, hi)` applied to the source: the unit draw `u`
is mapped to `lo + ⌊u * (hi - lo + 1)⌋`. -/
def uniformInt (lo hi : Int) (rng : Rng) : Int × Rng :=
  (lo + ⌊rng 0 * ((hi - lo + 1 : Int) : ℚ)⌋, fun n => rng (n + 1))

/-! ## Constructors -/

/-- Default constructor `Individual()`. -/
def Individual.default : Individual :=
  { chromosome := [], fitness := 0, fitnessPercentage := 0, fitnessCalculated := false }

/-- Constructor `Individual(int chromosomeLength)`: `resize(chromosomeLength, false)`. -/
def Individual.ofLength (chromosomeLength : Nat) : Individual :=
  { chromosome := List.replicate chromosomeLength false, fitness := 0,
    fitnessPercentage := 0, fitnessCalculated := false }

/-- Constructor `Individual(const Chromosome&)`. -/
def Individual.ofChromosome (chromosome : Chromosome) : Individual :=
  { chromosome := chromosome, fitness := 0, fitnessPercentage := 0,
    fitnessCalculated := false }

/-! ## Fitness cache -/

/-- Individual::setFitness. -/
def Individual.setFitness (self : Individual) (fitnessValue : FitnessValue) : Individual :=
  { self with fitness := fitnessValue, fitnessCalculated := true }

/-- Individual::getFitness: throws when the fitness has not been calculated. -/
def Individual.getFitness (self : Individual) : Except Error FitnessValue :=
  if !self.fitnessCalculated then
    .error (.runtimeError "Fitness has not been calculated yet")
  else .ok self.fitness

/-- Individual::isFitnessValid. -/
def Individual.isFitnessValid (self : Individual) : Bool := self.fitnessCalculated

/-- Individual::invalidateFitness. -/
def Individual.invalidateFitness (self : Individual) : Individual :=
  { self with fitnessCalculated := false, fitnessPercentage := 0 }

/-- Individual::setFitnessPercentage: clamps to 0-100. -/
def Individual.setFitnessPercentage (self : Individual) (percentage : ℚ) : Individual :=
  { self with fitnessPercentage := max 0 (min 100 percentage) }

/-- Individual::getFitnessPercentage. -/
def Individual.getFitnessPercentage (self : Individual) : ℚ := self.fitnessPercentage

/-- Individual::getChromosome. -/
def Individual.getChromosome (self : Individual) : Chromosome := self.chromosome

/-- Individual::setChromosome. -/
def Individual.setChromosome (self : Individual) (newChromosome : Chromosome) : Individual :=
  ({ self with chromosome := newChromosome }).invalidateFitness

/-- Individual::getChromosomeLength. -/
def Individual.getChromosomeLength (self : Individual) : Nat := self.chromosome.length

/-! ## Rounding to `double` -/

/-- `2 ^ e` for an integer exponent. -/
def twoPow (e : Int) : ℚ :=
  if 0 ≤ e then ((2 ^ e.toNat : Nat) : ℚ) else 1 / ((2 ^ (-e).toNat : Nat) : ℚ)

/-- The number of binary digits of `n`, computed with `fuel` halvings at most. -/
def bitLength : Nat → Nat → Nat
  | 0, _ => 0
  | fuel + 1, n => if n = 0 then 0 else bitLength fuel (n / 2) + 1

/-- The binary exponent of a nonzero rational `x`: the integer `e` with
`2 ^ e ≤ |x| < 2 ^ (e + 1)`, found from the bit lengths of numerator and denominator. -/
def binaryExponent (x : ℚ) : Int :=
  if twoPow ((bitLength x.num.natAbs x.num.natAbs : Int) - (bitLength x.den x.den : Int)) ≤ |x|
  then (bitLength x.num.natAbs x.num.natAbs : Int) - (bitLength x.den x.den : Int)
  else (bitLength x.num.natAbs x.num.natAbs : Int) - (bitLength x.den x.den : Int) - 1

/-- Rounding to the nearest integer, ties to the even one. -/
def roundHalfEven (q : ℚ) : Int :=
  if q - (⌊q⌋ : ℚ) < 1 / 2 then ⌊q⌋
  else if 1 / 2 < q - (⌊q⌋ : ℚ) then ⌊q⌋ + 1
  else if ⌊q⌋ % 2 = 0 then ⌊q⌋ else ⌊q⌋ + 1

/-- The `double` nearest to `x` (IEEE 754 binary64, round to nearest, ties to even): `x` is
rounded to 53 significant binary digits. Overflow and subnormal numbers are outside the
model. -/
def roundDouble (x : ℚ) : ℚ :=
  if x = 0 then 0
  else (roundHalfEven (x / twoPow (binaryExponent x - 52)) : ℚ)
    * twoPow (binaryExponent x - 52)

/-! ## Decoding -/

/-- The shift `x << k` on `uint64_t`. C++ leaves it undefined when `k ≥ 64`. -/
def shl64 (x k : Nat) : Except Error Nat :=
  if k < 64 then .ok ((x * 2 ^ k) % 2 ^ 64) else .error .undefinedBehaviour

/-- The loop of `decodeToValue`: for each index `i` whose bit is set,
`binaryValue |= (1ULL << (size - 1 - i))`. -/
def decodeLoop (size : Nat) : List Bool → Nat → Nat → Except Error Nat
  | [], _, binaryValue => .ok binaryValue
  | bit :: rest, i, binaryValue =>
    if bit then
      match shl64 1 (size - 1 - i) with
      | .ok s => decodeLoop size rest (i + 1) (binaryValue ||| s)
      | .error e => .error e
    else decodeLoop size rest (i + 1) binaryValue

/-- Individual::decodeToValue. -/
def Individual.decodeToValue (self : Individual) (minValue maxValue : ℚ) : Except Error ℚ :=
  if self.chromosome.isEmpty then .ok minValue
  else
    match decodeLoop self.chromosome.length self.chromosome 0 0 with
    | .error e => .error e
    | .ok binaryValue =>
      match shl64 1 self.chromosome.length with
      | .error e => .error e
      | .ok one =>
        let maxBinaryValue : Nat := (one + 2 ^ 64 - 1) % 2 ^ 64
        .ok (minValue + ((binaryValue : ℚ) / (maxBinaryValue : ℚ)) * (maxValue - minValue))

/-- The unsigned integer whose binary digits are the bits of the chromosome, the first bit
being the most significant (the wording of the specification). -/
def bitsToNat (c : Chromosome) : Nat :=
  c.foldl (fun n b => 2 * n + (if b then 1 else 0)) 0

/-! ## Crossover -/

/-- Read `v[i]` from a vector; undefined past the end. -/
def readBit (v : Chromosome) (i : Nat) : Except Error Bool :=
  match v[i]? with
  | some b => .ok b
  | none => .error .undefinedBehaviour

/-- Assign `v[i] = b` in a vector; undefined past the end. -/
def writeBit (v : Chromosome) (i : Nat) (b : Bool) : Except Error Chromosome :=
  if i < v.length then .ok (v.set i b) else .error .undefinedBehaviour

/-- The loop of `singlePointCrossover` and of `twoPointCrossover`, run for `n` iterations
starting at index `i`: `offspring1[i] = other.chromosome[i]; offspring2[i] = chromosome[i];`. -/
def swapLoop (chromosome other : Chromosome) :
    Nat → Nat → Chromosome → Chromosome → Except Error (Chromosome × Chromosome)
  | 0, _, offspring1, offspring2 => .ok (offspring1, offspring2)
  | n + 1, i, offspring1, offspring2 => do
    let x ← readBit other i
    let o1 ← writeBit offspring1 i x
    let y ← readBit chromosome i
    let o2 ← writeBit offspring2 i y
    swapLoop chromosome other n (i + 1) o1 o2

/-- Individual::singlePointCrossover. The loop runs over `crossoverPoint ≤ i < size`. -/
def Individual.singlePointCrossover (self other : Individual) (crossoverPoint : Int) :
    Except Error (Individual × Individual) :=
  if crossoverPoint < 0 ∨ crossoverPoint ≥ (self.chromosome.length : Int) then
    .error (.invalidArgument "Crossover point is out of bounds")
  else do
    let offspring ← swapLoop self.chromosome other.chromosome
      (self.chromosome.length - crossoverPoint.toNat) crossoverPoint.toNat
      self.chromosome other.chromosome
    .ok (Individual.ofChromosome offspring.1, Individual.ofChromosome offspring.2)

/-- Individual::twoPointCrossover. The loop runs over `point1 ≤ i ≤ point2`. -/
def Individual.twoPointCrossover (self other : Individual) (point1 point2 : Int) :
    Except Error (Individual × Individual) :=
  if point1 < 0 ∨ point2 ≥ (self.chromosome.length : Int) ∨ point1 ≥ point2 then
    .error (.invalidArgument "Invalid crossover points")
  else do
    let offspring ← swapLoop self.chromosome other.chromosome
      (point2 - point1 + 1).toNat point1.toNat self.chromosome other.chromosome
    .ok (Individual.ofChromosome offspring.1, Individual.ofChromosome offspring.2)

/-- The loop of `uniformCrossover`, run for `n` iterations starting at index `i`. -/
def uniformLoop (chromosome other mask : Chromosome) :
    Nat → Nat → Chromosome → Chromosome → Except Error (Chromosome × Chromosome)
  | 0, _, offspring1, offspring2 => .ok (offspring1, offspring2)
  | n + 1, i, offspring1, offspring2 => do
    let m ← readBit mask i
    let x ← readBit chromosome i
    let y ← readBit other i
    if m then
      let o1 ← writeBit offspring1 i x
      let o2 ← writeBit offspring2 i y
      uniformLoop chromosome other mask n (i + 1) o1 o2
    else
      let o1 ← writeBit offspring1 i y
      let o2 ← writeBit offspring2 i x
      uniformLoop chromosome other mask n (i + 1) o1 o2

/-- Individual::uniformCrossover. Both offspring start as `size` zero bits. -/
def Individual.uniformCrossover (self other : Individual) (mask : Chromosome) :
    Except Error (Individual × Individual) :=
  if mask.length ≠ self.chromosome.length ∨ mask.length ≠ other.chromosome.length then
    .error (.invalidArgument "Mask size does not match chromosome size")
  else do
    let offspring ← uniformLoop self.chromosome other.chromosome mask
      self.chromosome.length 0
      (List.replicate self.chromosome.length false)
      (List.replicate self.chromosome.length false)
    .ok (Individual.ofChromosome offspring.1, Individual.ofChromosome offspring.2)

/-- The offspring exactly partition the parents' bits (the wording of the specification):
both children have the parents' length and at every position the pair of child bits is the
pair of parent bits, either in the same order or swapped. -/
def ExactPartition (parent1 parent2 child1 child2 : Chromosome) : Prop :=
  child1.length = parent1.length ∧ child2.length = parent1.length
    ∧ ∀ i : Nat, i < parent1.length →
        (child1[i]? = parent1[i]? ∧ child2[i]? = parent2[i]?)
          ∨ (child1[i]? = parent2[i]? ∧ child2[i]? = parent1[i]?)

/-! ## Mutation and randomisation -/

/-- The loop of `mutate`: one draw per bit, in index order; the bit is flipped when the draw
is below `mutationRate`. -/
def mutateLoop (mutationRate : ℚ) : Chromosome → Rng → Chromosome × Rng
  | [], rng => ([], rng)
  | bit :: rest, rng =>
    let d := uniformReal01 rng
    let tail := mutateLoop mutationRate rest d.2
    ((if d.1 < mutationRate then !bit else bit) :: tail.1, tail.2)

/-- Individual::mutate. -/
def Individual.mutate (self : Individual) (mutationRate : ℚ) (rng : Rng) : Individual × Rng :=
  let r := mutateLoop mutationRate self.chromosome rng
  (({ self with chromosome := r.1 }).invalidateFitness, r.2)

/-- The loop of `randomize`: `chromosome[i] = (dist(rng) == 1)` for `i < length`. -/
def randomizeLoop : Nat → Rng → Chromosome × Rng
  | 0, rng => ([], rng)
  | n + 1, rng =>
    let d := uniformInt 0 1 rng
    let tail := randomizeLoop n d.2
    ((d.1 == 1) :: tail.1, tail.2)

/-- Individual::randomize. A negative `length` converts to a size beyond `max_size()`, on
which `resize` throws `std::length_error`. -/
def Individual.randomize (self : Individual) (length : Int) (rng : Rng) :
    Except Error (Individual × Rng) :=
  if length < 0 then .error .lengthError
  else
    let r := randomizeLoop length.toNat rng
    .ok (({ self with chromosome := r.1 }).invalidateFitness, r.2)

/-- Individual::toString. -/
def Individual.toString (self : Individual) : String :=
  String.mk (self.chromosome.map fun bit => if bit then '1' else '0')

/-- Read a chromosome from its string of `0` and `1` characters. -/
def chromosomeOfString (s : String) : Chromosome := s.toList.map fun ch => ch == '1'

/-! ## Engine data model (`GeneticTypes.h`, `FitnessFunction.h`, `GeneticAlgorithm.h`) -/

/-- Population: `std::vector<Individual>`. -/
abbrev Population := List Individual

/-- SelectionType: the selection strategies. -/
inductive SelectionType where
  | ROULETTE_WHEEL
  | TOURNAMENT
  | ELITISM
  deriving DecidableEq, Repr

/-- CrossoverType: the crossover strategies. -/
inductive CrossoverType where
  | SINGLE_POINT
  | TWO_POINT
  | UNIFORM
  deriving DecidableEq, Repr

/-- GAConfig: the configuration of the algorithm, with the defaults of the source. -/
structure GAConfig where
  populationSize : Int := 50
  chromosomeLength : Int := 20
  maxGenerations : Int := 100
  crossoverRate : ℚ := 4 / 5
  mutationRate : ℚ := 1 / 100
  elitismRate : ℚ := 1 / 10
  isMaximization : Bool := true
  selectionType : SelectionType := SelectionType.TOURNAMENT
  crossoverType : CrossoverType := CrossoverType.SINGLE_POINT
  tournamentSize : Int := 3
  minValue : ℚ := -10
  maxValue : ℚ := 10

/-- GenerationStats: the snapshot of one generation. `bestValue` is `none` while the field
has not been assigned (the source declares the record without initialising it). -/
structure GenerationStats where
  generation : Int
  bestFitness : FitnessValue
  averageFitness : FitnessValue
  worstFitness : FitnessValue
  bestValue : Option ℚ
  convergence : ℚ
  bestFitnessPercentage : ℚ
  averageFitnessPercentage : ℚ

/-- FitnessFunction: the evaluator behind its contract. `evaluate` is the virtual method of
the concrete function, `optimalValue` is `getOptimalValue()` with `none` for NaN. -/
structure FitnessFunction where
  evaluate : ℚ → ℚ
  isMaximization : Bool
  optimalValue : Option ℚ

/-- GeneticAlgorithm: the state owned by one engine. -/
structure GeneticAlgorithm where
  config : GAConfig
  population : Population
  fitnessFunction : FitnessFunction
  rng : Rng
  statistics : List GenerationStats
  currentGeneration : Int

/-- An implementation of `std::sort` on a population with a comparator. -/
structure StdSort where
  sort : (Individual → Individual → Bool) → Population → Population

/-- A comparator that is a strict weak ordering, as `std::sort` requires: irreflexive,
transitive, and with a transitive incomparability. -/
def StrictWeakOrder (comp : Individual → Individual → Bool) : Prop :=
  (∀ a, comp a a = false)
    ∧ (∀ a b d, comp a b = true → comp b d = true → comp a d = true)
    ∧ (∀ a b d, comp a b = false → comp b a = false → comp b d = false → comp d b = false →
        comp a d = false ∧ comp d a = false)

/-- The contract of `std::sort`: the result is a permutation of the input and, for a strict
weak ordering, no element is ordered before one that precedes it. The order of equivalent
elements is not fixed. -/
def StdSort.Valid (S : StdSort) : Prop :=
  ∀ (comp : Individual → Individual → Bool) (l : Population),
    List.Perm (S.sort comp l) l
      ∧ (StrictWeakOrder comp → List.Pairwise (fun a b => comp b a = false) (S.sort comp l))

/-- Insertion of one element into a sorted population, before the first element that the
comparator orders after it. -/
def insertSorted (comp : Individual → Individual → Bool) (x : Individual) :
    Population → Population
  | [] => [x]
  | y :: rest => if comp x y then x :: y :: rest else y :: insertSorted comp x rest

/-- One implementation of `std::sort`: insertion sort. -/
def insertionStdSort : StdSort :=
  { sort := fun comp l => l.foldr (insertSorted comp) [] }

/-- The largest finite `double`, `std::numeric_limits<double>::max()`. -/
def DBL_MAX : ℚ := (2 ^ 53 - 1) * 2 ^ 971

/-- The conversion `static_cast<int>(x)` of a `double`: truncation toward zero. -/
def truncToInt (x : ℚ) : Int := if 0 ≤ x then ⌊x⌋ else ⌈x⌉

/-- `std::uniform_real_distribution<double>(lo, hi)` applied to the source: the unit draw `u`
is mapped to `lo + u * (hi - lo)`. -/
def uniformReal (lo hi : ℚ) (rng : Rng) : ℚ × Rng :=
  (lo + rng 0 * (hi - lo), fun n => rng (n + 1))

/-- Read `population[i]` for an `int` index; undefined outside the vector. -/
def indexPopulation (population : Population) (i : Int) : Except Error Individual :=
  if 0 ≤ i then
    match population[i.toNat]? with
    | some individual => .ok individual
    | none => .error .undefinedBehaviour
  else .error .undefinedBehaviour

/-! ## Fitness function (`FitnessFunction.cpp`) -/

/-- FitnessFunction::evaluateIndividual: decode, then evaluate. -/
def FitnessFunction.evaluateIndividual (self : FitnessFunction) (individual : Individual)
    (minValue maxValue : ℚ) : Except Error FitnessValue :=
  match individual.decodeToValue minValue maxValue with
  | .error e => .error e
  | .ok x => .ok (self.evaluate x)

/-- The percentage of the fallback branch of `calculateFitnessPercentage`: the empirical
range of the population. -/
def FitnessFunction.empiricalPercentage (self : FitnessFunction)
    (fitnessValue bestKnownValue worstKnownValue : ℚ) : ℚ :=
  let range := |bestKnownValue - worstKnownValue|
  if range < 1 / 10 ^ 10 then 50
  else if self.isMaximization then
    max 0 (min 100 (((fitnessValue - worstKnownValue) / range) * 100))
  else
    max 0 (min 100 (((worstKnownValue - fitnessValue) / range) * 100))

/-- FitnessFunction::calculateFitnessPercentage. -/
def FitnessFunction.calculateFitnessPercentage (self : FitnessFunction)
    (fitnessValue bestKnownValue worstKnownValue : ℚ) : ℚ :=
  match self.optimalValue with
  | some optimalValue =>
    if self.isMaximization then
      if |optimalValue - fitnessValue| < 1 / 10 ^ 10 then 100
      else if optimalValue - worstKnownValue > 1 / 10 ^ 10 then
        max 0 (min 100
          (((fitnessValue - worstKnownValue) / (optimalValue - worstKnownValue)) * 100))
      else self.empiricalPercentage fitnessValue bestKnownValue worstKnownValue
    else
      if |fitnessValue - optimalValue| < 1 / 10 ^ 10 then 100
      else if worstKnownValue - optimalValue > 1 / 10 ^ 10 then
        max 0 (min 100
          (((worstKnownValue - fitnessValue) / (worstKnownValue - optimalValue)) * 100))
      else self.empiricalPercentage fitnessValue bestKnownValue worstKnownValue
  | none => self.empiricalPercentage fitnessValue bestKnownValue worstKnownValue

/-! ## Population evaluation and statistics (`GeneticAlgorithm.cpp`) -/

/-- First pass of `evaluatePopulation`: every individual whose cache is invalid is decoded,
evaluated and given its raw fitness. -/
def evaluateLoop (fitnessFunction : FitnessFunction) (minValue maxValue : ℚ) :
    Population → Except Error Population
  | [] => .ok []
  | individual :: rest =>
    if !individual.isFitnessValid then
      match fitnessFunction.evaluateIndividual individual minValue maxValue with
      | .error e => .error e
      | .ok fitness =>
        match evaluateLoop fitnessFunction minValue maxValue rest with
        | .error e => .error e
        | .ok rest1 => .ok (individual.setFitness fitness :: rest1)
    else
      match evaluateLoop fitnessFunction minValue maxValue rest with
      | .error e => .error e
      | .ok rest1 => .ok (individual :: rest1)

/-- Second pass of `evaluatePopulation`, first loop: the best and the worst raw fitness of
the population, in the direction of the configuration. -/
def bestWorstLoop (isMaximization : Bool) : Population → ℚ × ℚ → Except Error (ℚ × ℚ)
  | [], acc => .ok acc
  | individual :: rest, acc =>
    match individual.getFitness with
    | .error e => .error e
    | .ok fitness =>
      if isMaximization then
        bestWorstLoop isMaximization rest (max acc.1 fitness, min acc.2 fitness)
      else
        bestWorstLoop isMaximization rest (min acc.1 fitness, max acc.2 fitness)

/-- Second pass of `evaluatePopulation`, second loop: the percentage of every individual. -/
def percentageLoop (fitnessFunction : FitnessFunction) (bestFitness worstFitness : ℚ) :
    Population → Except Error Population
  | [] => .ok []
  | individual :: rest =>
    match individual.getFitness with
    | .error e => .error e
    | .ok fitnessValue =>
      match percentageLoop fitnessFunction bestFitness worstFitness rest with
      | .error e => .error e
      | .ok rest1 =>
        .ok (individual.setFitnessPercentage
          (fitnessFunction.calculateFitnessPercentage fitnessValue bestFitness worstFitness)
            :: rest1)

/-- GeneticAlgorithm::evaluatePopulation. -/
def GeneticAlgorithm.evaluatePopulation (ga : GeneticAlgorithm) :
    Except Error GeneticAlgorithm :=
  match evaluateLoop ga.fitnessFunction ga.config.minValue ga.config.maxValue ga.population with
  | .error e => .error e
  | .ok evaluated =>
    match evaluated with
    | [] => .ok { ga with population := [] }
    | first :: rest =>
      match first.getFitness with
      | .error e => .error e
      | .ok f0 =>
        match bestWorstLoop ga.config.isMaximization (first :: rest) (f0, f0) with
        | .error e => .error e
        | .ok bw =>
          match percentageLoop ga.fitnessFunction bw.1 bw.2 (first :: rest) with
          | .error e => .error e
          | .ok withPercentage => .ok { ga with population := withPercentage }

/-- The innermost loop of `calculatePopulationDiversity`: the Hamming distance over the
indices of `chrom1`; reading `chrom2` past its end is undefined. -/
def hammingLoop : Chromosome → Chromosome → Int → Except Error Int
  | [], _, hammingDistance => .ok hammingDistance
  | _ :: _, [], _ => .error .undefinedBehaviour
  | b1 :: rest1, b2 :: rest2, hammingDistance =>
    hammingLoop rest1 rest2 (if b1 != b2 then hammingDistance + 1 else hammingDistance)

/-- The loop over `j > i` of `calculatePopulationDiversity` for a fixed `chrom1`; the
accumulator is `(totalDistance, comparisons)`. -/
def diversityInner (chrom1 : Chromosome) : Population → ℚ × Int → Except Error (ℚ × Int)
  | [], acc => .ok acc
  | other :: rest, acc =>
    match hammingLoop chrom1 other.getChromosome 0 with
    | .error e => .error e
    | .ok hammingDistance =>
      diversityInner chrom1 rest
        (acc.1 + (hammingDistance : ℚ) / (chrom1.length : ℚ), acc.2 + 1)

/-- The loop over `i` of `calculatePopulationDiversity`. -/
def diversityOuter : Population → ℚ × Int → Except Error (ℚ × Int)
  | [], acc => .ok acc
  | individual :: rest, acc =>
    match diversityInner individual.getChromosome rest acc with
    | .error e => .error e
    | .ok acc1 => diversityOuter rest acc1

/-- GeneticAlgorithm::calculatePopulationDiversity. -/
def GeneticAlgorithm.calculatePopulationDiversity (ga : GeneticAlgorithm) : Except Error ℚ :=
  if ga.population.length < 2 then .ok 0
  else
    match diversityOuter ga.population (0, 0) with
    | .error e => .error e
    | .ok acc => .ok (if acc.2 > 0 then acc.1 / (acc.2 : ℚ) else 0)

/-- The accumulator of the first loop of `calculateGenerationStats`. -/
structure StatsAcc where
  totalFitness : ℚ
  bestFitness : ℚ
  worstFitness : ℚ
  bestValue : Option ℚ

/-- The first loop of `calculateGenerationStats`: total, best and worst raw fitness, and the
decoded value of each new best. -/
def statsLoop (config : GAConfig) : Population → StatsAcc → Except Error StatsAcc
  | [], acc => .ok acc
  | individual :: rest, acc =>
    match individual.getFitness with
    | .error e => .error e
    | .ok fitness =>
      let total := acc.totalFitness + fitness
      if config.isMaximization then
        if fitness > acc.bestFitness then
          match individual.decodeToValue config.minValue config.maxValue with
          | .error e => .error e
          | .ok x =>
            statsLoop config rest
              { totalFitness := total, bestFitness := fitness,
                worstFitness := if fitness < acc.worstFitness then fitness else acc.worstFitness,
                bestValue := some x }
        else
          statsLoop config rest
            { acc with totalFitness := total,
                       worstFitness :=
                         if fitness < acc.worstFitness then fitness else acc.worstFitness }
      else
        if fitness < acc.bestFitness then
          match individual.decodeToValue config.minValue config.maxValue with
          | .error e => .error e
          | .ok x =>
            statsLoop config rest
              { totalFitness := total, bestFitness := fitness,
                worstFitness := if fitness > acc.worstFitness then fitness else acc.worstFitness,
                bestValue := some x }
        else
          statsLoop config rest
            { acc with totalFitness := total,
                       worstFitness :=
                         if fitness > acc.worstFitness then fitness else acc.worstFitness }

/-- The second loop of `calculateGenerationStats`: the total and the largest percentage;
the accumulator is `(totalPercentage, bestFitnessPercentage)`. -/
def percentageStatsLoop : Population → ℚ × ℚ → ℚ × ℚ
  | [], acc => acc
  | individual :: rest, acc =>
    percentageStatsLoop rest
      (acc.1 + individual.getFitnessPercentage,
        if individual.getFitnessPercentage > acc.2 then individual.getFitnessPercentage
        else acc.2)

/-- GeneticAlgorithm::calculateGenerationStats. -/
def GeneticAlgorithm.calculateGenerationStats (ga : GeneticAlgorithm) :
    Except Error GenerationStats :=
  match ga.population with
  | [] => .error (.runtimeError "Cannot calculate statistics for empty population")
  | first :: rest =>
    match first.getFitness with
    | .error e => .error e
    | .ok f0 =>
      match statsLoop ga.config (first :: rest)
          { totalFitness := 0, bestFitness := f0, worstFitness := f0, bestValue := none } with
      | .error e => .error e
      | .ok acc =>
        match ga.calculatePopulationDiversity with
        | .error e => .error e
        | .ok diversity =>
          let pct := percentageStatsLoop (first :: rest) (0, 0)
          .ok { generation := ga.currentGeneration,
                bestFitness := acc.bestFitness,
                averageFitness := acc.totalFitness / ((first :: rest).length : ℚ),
                worstFitness := acc.worstFitness,
                bestValue := acc.bestValue,
                convergence := diversity,
                bestFitnessPercentage := pct.2,
                averageFitnessPercentage := pct.1 / ((first :: rest).length : ℚ) }

/-- GeneticAlgorithm::hasConverged with its threshold. -/
def GeneticAlgorithm.hasConverged (ga : GeneticAlgorithm) (threshold : ℚ) : Except Error Bool :=
  match ga.calculatePopulationDiversity with
  | .error e => .error e
  | .ok diversity => .ok (decide (diversity < threshold))

/-! ## Sorting and selection (`GeneticAlgorithm.cpp`) -/

/-- The comparator of `sortPopulationByFitness` for maximization:
`a.getFitness() > b.getFitness()`. -/
def fitnessGreater (a b : Individual) : Bool := decide (a.fitness > b.fitness)

/-- The comparator of `sortPopulationByFitness` for minimization:
`a.getFitness() < b.getFitness()`. -/
def fitnessLess (a b : Individual) : Bool := decide (a.fitness < b.fitness)

/-- GeneticAlgorithm::sortPopulationByFitness. The comparator reads the fitness through
`getFitness`, which throws on an individual that is not evaluated; with fewer than two
individuals nothing is compared. -/
def GeneticAlgorithm.sortPopulationByFitness (S : StdSort) (ga : GeneticAlgorithm) :
    Except Error GeneticAlgorithm :=
  if 2 ≤ ga.population.length ∧ ga.population.any (fun individual => !individual.isFitnessValid)
  then .error (.runtimeError "Fitness has not been calculated yet")
  else if ga.config.isMaximization then
    .ok { ga with population := S.sort fitnessGreater ga.population }
  else
    .ok { ga with population := S.sort fitnessLess ga.population }

/-- The loop of `eliteSelection`, run for `n` iterations from index `i`:
`elites.push_back(population[i])`. -/
def eliteLoop (population : Population) : Nat → Int → List Individual →
    Except Error (List Individual)
  | 0, _, elites => .ok elites
  | n + 1, i, elites =>
    match indexPopulation population i with
    | .error e => .error e
    | .ok individual => eliteLoop population n (i + 1) (elites ++ [individual])

/-- The number of elites that `eliteSelection` really takes: the requested count when it is
in `[1, populationSize]`, otherwise the default
`std::max(1, static_cast<int>(config.populationSize * 0.1))`, in which `0.1` is the `double`
nearest to one tenth and the product is rounded before it is truncated. -/
def effectiveEliteCount (config : GAConfig) (eliteCount : Int) : Int :=
  if eliteCount ≤ 0 ∨ eliteCount > config.populationSize then
    max 1 (truncToInt (roundDouble ((config.populationSize : ℚ) * roundDouble (1 / 10))))
  else eliteCount

/-- GeneticAlgorithm::eliteSelection: sorts the population and returns its first
individuals; the loop runs while `i < eliteCount && i < populationSize`. -/
def GeneticAlgorithm.eliteSelection (S : StdSort) (ga : GeneticAlgorithm) (eliteCount : Int) :
    Except Error (List Individual × GeneticAlgorithm) :=
  match ga.sortPopulationByFitness S with
  | .error e => .error e
  | .ok sorted =>
    match eliteLoop sorted.population
        (min (effectiveEliteCount ga.config eliteCount) ga.config.populationSize).toNat 0 [] with
    | .error e => .error e
    | .ok elites => .ok (elites, sorted)

/-- The loop of `tournamentSelection`, run for `n` iterations: one index draw per
competitor, which replaces the best only when strictly better. -/
def tournamentLoop (isMaximization : Bool) (population : Population) (populationSize : Int) :
    Nat → Individual → Rng → Except Error (Individual × Rng)
  | 0, best, rng => .ok (best, rng)
  | n + 1, best, rng =>
    let d := uniformInt 0 (populationSize - 1) rng
    match indexPopulation population d.1 with
    | .error e => .error e
    | .ok competitor =>
      match competitor.getFitness with
      | .error e => .error e
      | .ok competitorFitness =>
        match best.getFitness with
        | .error e => .error e
        | .ok bestFitness =>
          if isMaximization then
            tournamentLoop isMaximization population populationSize n
              (if competitorFitness > bestFitness then competitor else best) d.2
          else
            tournamentLoop isMaximization population populationSize n
              (if competitorFitness < bestFitness then competitor else best) d.2

/-- The tournament size that `tournamentSelection` really uses. -/
def effectiveTournamentSize (config : GAConfig) (tournamentSize : Int) : Int :=
  if tournamentSize ≤ 0 ∨ tournamentSize > config.populationSize then
    min 3 config.populationSize
  else tournamentSize

/-- GeneticAlgorithm::tournamentSelection. The distribution over
`[0, populationSize - 1]` is undefined when that interval is empty. -/
def GeneticAlgorithm.tournamentSelection (ga : GeneticAlgorithm) (tournamentSize : Int) :
    Except Error (Individual × GeneticAlgorithm) :=
  if ¬ (0 ≤ ga.config.populationSize - 1) then .error .undefinedBehaviour
  else
    let d := uniformInt 0 (ga.config.populationSize - 1) ga.rng
    match indexPopulation ga.population d.1 with
    | .error e => .error e
    | .ok first =>
      match tournamentLoop ga.config.isMaximization ga.population ga.config.populationSize
          (effectiveTournamentSize ga.config tournamentSize - 1).toNat first d.2 with
      | .error e => .error e
      | .ok r => .ok (r.1, { ga with rng := r.2 })

/-- First loop of `rouletteWheelSelection`: the smallest raw fitness, starting from
`DBL_MAX`. -/
def minFitnessLoop : Population → ℚ → Except Error ℚ
  | [], minFitness => .ok minFitness
  | individual :: rest, minFitness =>
    match individual.getFitness with
    | .error e => .error e
    | .ok fitness => minFitnessLoop rest (if fitness < minFitness then fitness else minFitness)

/-- The offset of `rouletteWheelSelection`:
`(minFitness < 0) ? -minFitness + 1.0 : 0.0`. -/
def rouletteOffset (population : Population) : Except Error ℚ :=
  match minFitnessLoop population DBL_MAX with
  | .error e => .error e
  | .ok minFitness => .ok (if minFitness < 0 then -minFitness + 1 else 0)

/-- Second loop of `rouletteWheelSelection`: `totalFitness += getFitness() + offset`. -/
def sumAdjustedLoop (offset : ℚ) : Population → ℚ → Except Error ℚ
  | [], totalFitness => .ok totalFitness
  | individual :: rest, totalFitness =>
    match individual.getFitness with
    | .error e => .error e
    | .ok fitness => sumAdjustedLoop offset rest (totalFitness + (fitness + offset))

/-- The loop computing `maxAdjustedFitness`, starting from 0. -/
def maxAdjustedLoop (offset : ℚ) : Population → ℚ → Except Error ℚ
  | [], maxAdjustedFitness => .ok maxAdjustedFitness
  | individual :: rest, maxAdjustedFitness =>
    match individual.getFitness with
    | .error e => .error e
    | .ok fitness =>
      maxAdjustedLoop offset rest
        (if fitness + offset > maxAdjustedFitness then fitness + offset
          else maxAdjustedFitness)

/-- The loop recomputing the total with the inverted fitness (minimization). -/
def sumInvertedLoop (offset maxAdjustedFitness : ℚ) : Population → ℚ → Except Error ℚ
  | [], totalFitness => .ok totalFitness
  | individual :: rest, totalFitness =>
    match individual.getFitness with
    | .error e => .error e
    | .ok fitness =>
      sumInvertedLoop offset maxAdjustedFitness rest
        (totalFitness + (maxAdjustedFitness - (fitness + offset)))

/-- The total weight `totalFitness` that bounds the selection point of
`rouletteWheelSelection`. -/
def rouletteTotal (isMaximization : Bool) (population : Population) (offset : ℚ) :
    Except Error ℚ :=
  match sumAdjustedLoop offset population 0 with
  | .error e => .error e
  | .ok totalFitness =>
    if !isMaximization then
      match maxAdjustedLoop offset population 0 with
      | .error e => .error e
      | .ok maxAdjustedFitness => sumInvertedLoop offset maxAdjustedFitness population 0
    else .ok totalFitness

/-- The weight of one individual in the walk of `rouletteWheelSelection`; for minimization
the maximum adjusted fitness is recomputed over the whole population for each candidate. -/
def rouletteWeight (isMaximization : Bool) (population : Population) (offset : ℚ)
    (individual : Individual) : Except Error ℚ :=
  match individual.getFitness with
  | .error e => .error e
  | .ok fitness =>
    if isMaximization then .ok (fitness + offset)
    else
      match maxAdjustedLoop offset population 0 with
      | .error e => .error e
      | .ok maxAdjustedFitness => .ok (maxAdjustedFitness - (fitness + offset))

/-- The walk of `rouletteWheelSelection` over the remaining individuals: the first whose
cumulative weight reaches the selection point, or `none` at the end of the population. -/
def rouletteWalk (isMaximization : Bool) (population : Population) (offset selectionPoint : ℚ) :
    Population → ℚ → Except Error (Option Individual)
  | [], _ => .ok none
  | individual :: rest, cumulativeFitness =>
    match rouletteWeight isMaximization population offset individual with
    | .error e => .error e
    | .ok fitness =>
      if cumulativeFitness + fitness ≥ selectionPoint then .ok (some individual)
      else rouletteWalk isMaximization population offset selectionPoint rest
        (cumulativeFitness + fitness)

/-- GeneticAlgorithm::rouletteWheelSelection. The distribution over `[0, totalFitness]` is
undefined when `totalFitness < 0`, and `population.back()` when the population is empty. -/
def GeneticAlgorithm.rouletteWheelSelection (ga : GeneticAlgorithm) :
    Except Error (Individual × GeneticAlgorithm) :=
  match rouletteOffset ga.population with
  | .error e => .error e
  | .ok offset =>
    match rouletteTotal ga.config.isMaximization ga.population offset with
    | .error e => .error e
    | .ok totalFitness =>
      if ¬ (0 ≤ totalFitness) then .error .undefinedBehaviour
      else
        let d := uniformReal 0 totalFitness ga.rng
        match rouletteWalk ga.config.isMaximization ga.population offset d.1 ga.population 0 with
        | .error e => .error e
        | .ok (some individual) => .ok (individual, { ga with rng := d.2 })
        | .ok none =>
          match ga.population.getLast? with
          | some individual => .ok (individual, { ga with rng := d.2 })
          | none => .error .undefinedBehaviour

/-! ## The computations in `double` arithmetic

The same computations as `Individual.decodeToValue`, the weights of
`rouletteWheelSelection` and `calculateGenerationStats`, with every conversion and every
arithmetic operation rounded to the nearest `double`. Comparisons are exact. -/

/-- Individual::decodeToValue in `double` arithmetic:
`minValue + (static_cast<double>(binaryValue) / maxBinaryValue) * (maxValue - minValue)`.
Both integers are converted to `double`; the quotient, the width of the range, the product
and the sum are rounded in this order. -/
def Individual.decodeToValueDouble (self : Individual) (minValue maxValue : ℚ) :
    Except Error ℚ :=
  if self.chromosome.isEmpty then .ok minValue
  else
    match decodeLoop self.chromosome.length self.chromosome 0 0 with
    | .error e => .error e
    | .ok binaryValue =>
      match shl64 1 self.chromosome.length with
      | .error e => .error e
      | .ok one =>
        let maxBinaryValue : Nat := (one + 2 ^ 64 - 1) % 2 ^ 64
        .ok (roundDouble (minValue
          + roundDouble
              (roundDouble (roundDouble (binaryValue : ℚ) / roundDouble (maxBinaryValue : ℚ))
                * roundDouble (maxValue - minValue))))

/-- The offset of `rouletteWheelSelection` in `double` arithmetic:
`(minFitness < 0) ? -minFitness + 1.0 : 0.0`; the negation is exact, the sum is rounded. -/
def rouletteOffsetDouble (population : Population) : Except Error ℚ :=
  match minFitnessLoop population DBL_MAX with
  | .error e => .error e
  | .ok minFitness => .ok (if minFitness < 0 then roundDouble (-minFitness + 1) else 0)

/-- The loop computing `maxAdjustedFitness` in `double` arithmetic, starting from 0. -/
def maxAdjustedLoopDouble (offset : ℚ) : Population → ℚ → Except Error ℚ
  | [], maxAdjustedFitness => .ok maxAdjustedFitness
  | individual :: rest, maxAdjustedFitness =>
    match individual.getFitness with
    | .error e => .error e
    | .ok fitness =>
      maxAdjustedLoopDouble offset rest
        (if roundDouble (fitness + offset) > maxAdjustedFitness then
          roundDouble (fitness + offset)
        else maxAdjustedFitness)

/-- The weight of one individual in the walk of `rouletteWheelSelection` in `double`
arithmetic: `getFitness() + offset` for maximization,
`maxAdjustedFitness - adjustedFitness` for minimization. -/
def rouletteWeightDouble (isMaximization : Bool) (population : Population) (offset : ℚ)
    (individual : Individual) : Except Error ℚ :=
  match individual.getFitness with
  | .error e => .error e
  | .ok fitness =>
    if isMaximization then .ok (roundDouble (fitness + offset))
    else
      match maxAdjustedLoopDouble offset population 0 with
      | .error e => .error e
      | .ok maxAdjustedFitness =>
        .ok (roundDouble (maxAdjustedFitness - roundDouble (fitness + offset)))

/-- The loop over `j > i` of `calculatePopulationDiversity` in `double` arithmetic:
`totalDistance += static_cast<double>(hammingDistance) / chrom1.size()`. -/
def diversityInnerDouble (chrom1 : Chromosome) :
    Population → ℚ × Int → Except Error (ℚ × Int)
  | [], acc => .ok acc
  | other :: rest, acc =>
    match hammingLoop chrom1 other.getChromosome 0 with
    | .error e => .error e
    | .ok hammingDistance =>
      diversityInnerDouble chrom1 rest
        (roundDouble (acc.1 + roundDouble ((hammingDistance : ℚ) / (chrom1.length : ℚ))),
          acc.2 + 1)

/-- The loop over `i` of `calculatePopulationDiversity` in `double` arithmetic. -/
def diversityOuterDouble : Population → ℚ × Int → Except Error (ℚ × Int)
  | [], acc => .ok acc
  | individual :: rest, acc =>
    match diversityInnerDouble individual.getChromosome rest acc with
    | .error e => .error e
    | .ok acc1 => diversityOuterDouble rest acc1

/-- GeneticAlgorithm::calculatePopulationDiversity in `double` arithmetic. -/
def GeneticAlgorithm.calculatePopulationDiversityDouble (ga : GeneticAlgorithm) :
    Except Error ℚ :=
  if ga.population.length < 2 then .ok 0
  else
    match diversityOuterDouble ga.population (0, 0) with
    | .error e => .error e
    | .ok acc => .ok (if acc.2 > 0 then roundDouble (acc.1 / (acc.2 : ℚ)) else 0)

/-- The first loop of `calculateGenerationStats` in `double` arithmetic:
`totalFitness += fitness` is rounded, the comparisons are exact. -/
def statsLoopDouble (config : GAConfig) : Population → StatsAcc → Except Error StatsAcc
  | [], acc => .ok acc
  | individual :: rest, acc =>
    match individual.getFitness with
    | .error e => .error e
    | .ok fitness =>
      let total := roundDouble (acc.totalFitness + fitness)
      if config.isMaximization then
        if fitness > acc.bestFitness then
          match individual.decodeToValueDouble config.minValue config.maxValue with
          | .error e => .error e
          | .ok x =>
            statsLoopDouble config rest
              { totalFitness := total, bestFitness := fitness,
                worstFitness := if fitness < acc.worstFitness then fitness else acc.worstFitness,
                bestValue := some x }
        else
          statsLoopDouble config rest
            { acc with totalFitness := total,
                       worstFitness :=
                         if fitness < acc.worstFitness then fitness else acc.worstFitness }
      else
        if fitness < acc.bestFitness then
          match individual.decodeToValueDouble config.minValue config.maxValue with
          | .error e => .error e
          | .ok x =>
            statsLoopDouble config rest
              { totalFitness := total, bestFitness := fitness,
                worstFitness := if fitness > acc.worstFitness then fitness else acc.worstFitness,
                bestValue := some x }
        else
          statsLoopDouble config rest
            { acc with totalFitness := total,
                       worstFitness :=
                         if fitness > acc.worstFitness then fitness else acc.worstFitness }

/-- The second loop of `calculateGenerationStats` in `double` arithmetic:
`totalPercentage += percentage` is rounded. -/
def percentageStatsLoopDouble : Population → ℚ × ℚ → ℚ × ℚ
  | [], acc => acc
  | individual :: rest, acc =>
    percentageStatsLoopDouble rest
      (roundDouble (acc.1 + individual.getFitnessPercentage),
        if individual.getFitnessPercentage > acc.2 then individual.getFitnessPercentage
        else acc.2)

/-- GeneticAlgorithm::calculateGenerationStats in `double` arithmetic; the two averages are
the rounded quotients of the rounded totals by `population.size()`. -/
def GeneticAlgorithm.calculateGenerationStatsDouble (ga : GeneticAlgorithm) :
    Except Error GenerationStats :=
  match ga.population with
  | [] => .error (.runtimeError "Cannot calculate statistics for empty population")
  | first :: rest =>
    match first.getFitness with
    | .error e => .error e
    | .ok f0 =>
      match statsLoopDouble ga.config (first :: rest)
          { totalFitness := 0, bestFitness := f0, worstFitness := f0, bestValue := none } with
      | .error e => .error e
      | .ok acc =>
        match ga.calculatePopulationDiversityDouble with
        | .error e => .error e
        | .ok diversity =>
          let pct := percentageStatsLoopDouble (first :: rest) (0, 0)
          .ok { generation := ga.currentGeneration,
                bestFitness := acc.bestFitness,
                averageFitness := roundDouble (acc.totalFitness / ((first :: rest).length : ℚ)),
                worstFitness := acc.worstFitness,
                bestValue := acc.bestValue,
                convergence := diversity,
                bestFitnessPercentage := pct.2,
                averageFitnessPercentage := roundDouble (pct.1 / ((first :: rest).length : ℚ)) }

/-! ## Crossover, mutation and the generational step (`GeneticAlgorithm.cpp`) -/

/-- GeneticAlgorithm::performCrossover. The point distribution over
`[1, chromosomeLength - 1]` is constructed first and is undefined when that interval is
empty; the mask of the uniform crossover is drawn bit by bit. -/
def GeneticAlgorithm.performCrossover (ga : GeneticAlgorithm) (parent1 parent2 : Individual) :
    Except Error ((Individual × Individual) × GeneticAlgorithm) :=
  if ¬ (1 ≤ ga.config.chromosomeLength - 1) then .error .undefinedBehaviour
  else
    match ga.config.crossoverType with
    | .SINGLE_POINT =>
      let d := uniformInt 1 (ga.config.chromosomeLength - 1) ga.rng
      match parent1.singlePointCrossover parent2 d.1 with
      | .error e => .error e
      | .ok offspring => .ok (offspring, { ga with rng := d.2 })
    | .TWO_POINT =>
      let d1 := uniformInt 1 (ga.config.chromosomeLength - 1) ga.rng
      let d2 := uniformInt 1 (ga.config.chromosomeLength - 1) d1.2
      let point1 := if d1.1 > d2.1 then d2.1 else d1.1
      let point2 := if d1.1 > d2.1 then d1.1 else d2.1
      match parent1.twoPointCrossover parent2 point1 point2 with
      | .error e => .error e
      | .ok offspring => .ok (offspring, { ga with rng := d2.2 })
    | .UNIFORM =>
      let m := randomizeLoop ga.config.chromosomeLength.toNat ga.rng
      match parent1.uniformCrossover parent2 m.1 with
      | .error e => .error e
      | .ok offspring => .ok (offspring, { ga with rng := m.2 })

/-- GeneticAlgorithm::performMutation. -/
def GeneticAlgorithm.performMutation (ga : GeneticAlgorithm) (individual : Individual) :
    Individual × GeneticAlgorithm :=
  let r := individual.mutate ga.config.mutationRate ga.rng
  (r.1, { ga with rng := r.2 })

/-- The `switch` on the selection type in `evolveGeneration`: the two parents of one
pairing. For `ELITISM` the index distribution is over
`[0, min(eliteCount * 2, populationSize - 1)]`, both ends included. -/
def GeneticAlgorithm.selectParents (ga : GeneticAlgorithm) (eliteCount : Int) :
    Except Error ((Individual × Individual) × GeneticAlgorithm) :=
  match ga.config.selectionType with
  | .TOURNAMENT =>
    match ga.tournamentSelection ga.config.tournamentSize with
    | .error e => .error e
    | .ok r1 =>
      match r1.2.tournamentSelection ga.config.tournamentSize with
      | .error e => .error e
      | .ok r2 => .ok ((r1.1, r2.1), r2.2)
  | .ROULETTE_WHEEL =>
    match ga.rouletteWheelSelection with
    | .error e => .error e
    | .ok r1 =>
      match r1.2.rouletteWheelSelection with
      | .error e => .error e
      | .ok r2 => .ok ((r1.1, r2.1), r2.2)
  | .ELITISM =>
    if ¬ (0 ≤ min (eliteCount * 2) (ga.config.populationSize - 1)) then
      .error .undefinedBehaviour
    else
      let d1 := uniformInt 0 (min (eliteCount * 2) (ga.config.populationSize - 1)) ga.rng
      match indexPopulation ga.population d1.1 with
      | .error e => .error e
      | .ok parent1 =>
        let d2 := uniformInt 0 (min (eliteCount * 2) (ga.config.populationSize - 1)) d1.2
        match indexPopulation ga.population d2.1 with
        | .error e => .error e
        | .ok parent2 => .ok ((parent1, parent2), { ga with rng := d2.2 })

/-- One pairing of the fill loop of `evolveGeneration`: selection, crossover with
probability `crossoverRate` (otherwise the parents are copied), then mutation of both
children. -/
def GeneticAlgorithm.breedPair (ga : GeneticAlgorithm) (eliteCount : Int) :
    Except Error ((Individual × Individual) × GeneticAlgorithm) :=
  match ga.selectParents eliteCount with
  | .error e => .error e
  | .ok sel =>
    let d := uniformReal01 sel.2.rng
    let ga1 : GeneticAlgorithm := { sel.2 with rng := d.2 }
    if d.1 < ga1.config.crossoverRate then
      match ga1.performCrossover sel.1.1 sel.1.2 with
      | .error e => .error e
      | .ok x =>
        let m1 := x.2.performMutation x.1.1
        let m2 := m1.2.performMutation x.1.2
        .ok ((m1.1, m2.1), m2.2)
    else
      let m1 := ga1.performMutation sel.1.1
      let m2 := m1.2.performMutation sel.1.2
      .ok ((m1.1, m2.1), m2.2)

/-- The two guarded `push_back` of the fill loop: each child is appended only while the new
population is below `populationSize`. -/
def pushOffspring (populationSize : Nat) (newPopulation : Population)
    (child1 child2 : Individual) : Population :=
  let afterFirst :=
    if newPopulation.length < populationSize then newPopulation ++ [child1] else newPopulation
  if afterFirst.length < populationSize then afterFirst ++ [child2] else afterFirst

/-- The fill loop of `evolveGeneration`:
`while (newPopulation.size() < populationSize)`. -/
def fillLoop (eliteCount : Int) (populationSize : Nat) (ga : GeneticAlgorithm)
    (newPopulation : Population) : Except Error (Population × GeneticAlgorithm) :=
  if newPopulation.length < populationSize then
    match ga.breedPair eliteCount with
    | .error e => .error e
    | .ok r =>
      fillLoop eliteCount populationSize r.2
        (pushOffspring populationSize newPopulation r.1.1 r.1.2)
  else .ok (newPopulation, ga)
termination_by populationSize - newPopulation.length
decreasing_by
  simp only [pushOffspring]
  split <;> split <;> simp only [List.length_append, List.length_singleton] <;> omega

/-- GeneticAlgorithm::evolveGeneration. `reserve(populationSize)` throws
`std::length_error` for a negative size. The elite count is
`static_cast<int>(config.populationSize * config.elitismRate)`: the product is rounded to the
nearest `double`, then truncated. -/
def GeneticAlgorithm.evolveGeneration (S : StdSort) (ga : GeneticAlgorithm) :
    Except Error (GenerationStats × GeneticAlgorithm) :=
  if ga.config.populationSize < 0 then .error .lengthError
  else
    match ga.sortPopulationByFitness S with
    | .error e => .error e
    | .ok sorted =>
      let eliteCount :=
        truncToInt (roundDouble ((sorted.config.populationSize : ℚ) * sorted.config.elitismRate))
      match sorted.eliteSelection S eliteCount with
      | .error e => .error e
      | .ok sel =>
        match fillLoop eliteCount sel.2.config.populationSize.toNat sel.2 sel.1 with
        | .error e => .error e
        | .ok filled =>
          match GeneticAlgorithm.evaluatePopulation
              { filled.2 with population := filled.1 } with
          | .error e => .error e
          | .ok evaluated =>
            match evaluated.calculateGenerationStats with
            | .error e => .error e
            | .ok stats => .ok (stats, evaluated)

/-- The loop of `initializePopulation`, run for `n` iterations: a fresh individual of
`chromosomeLength` zero bits is randomised and appended. The construction throws
`std::length_error` for a negative length. -/
def initializeLoop (chromosomeLength : Int) : Nat → Rng → Population →
    Except Error (Population × Rng)
  | 0, rng, population => .ok (population, rng)
  | n + 1, rng, population =>
    if chromosomeLength < 0 then .error .lengthError
    else
      match (Individual.ofLength chromosomeLength.toNat).randomize chromosomeLength rng with
      | .error e => .error e
      | .ok r => initializeLoop chromosomeLength n r.2 (population ++ [r.1])

/-- GeneticAlgorithm::initializePopulation. `reserve(populationSize)` throws
`std::length_error` for a negative size. -/
def GeneticAlgorithm.initializePopulation (ga : GeneticAlgorithm) :
    Except Error GeneticAlgorithm :=
  if ga.config.populationSize < 0 then .error .lengthError
  else
    match initializeLoop ga.config.chromosomeLength ga.config.populationSize.toNat ga.rng [] with
    | .error e => .error e
    | .ok r => .ok { ga with population := r.1, rng := r.2 }

/-- The evolution loop of `run`:
`for (currentGeneration = 1; currentGeneration <= maxGenerations; ++currentGeneration)`,
entered with `currentGeneration` already set; `fuel` bounds the number of iterations and
the loop stops with `none` only when the fuel is exhausted. -/
def runLoop (S : StdSort) : Nat → GeneticAlgorithm → Except Error (Option GeneticAlgorithm)
  | 0, _ => .ok none
  | fuel + 1, ga =>
    if ga.currentGeneration ≤ ga.config.maxGenerations then
      match ga.evolveGeneration S with
      | .error e => .error e
      | .ok r =>
        let ga1 : GeneticAlgorithm := { r.2 with statistics := r.2.statistics ++ [r.1] }
        match ga1.hasConverged (1 / 100) with
        | .error e => .error e
        | .ok converged =>
          if converged then .ok (some ga1)
          else runLoop S fuel { ga1 with currentGeneration := ga1.currentGeneration + 1 }
    else .ok (some ga)

/-- GeneticAlgorithm::run (without callback). The loop is given `maxGenerations + 1` units of
fuel, one more than the number of iterations it can make; `statistics.back()` is
undefined on an empty history. -/
def GeneticAlgorithm.run (S : StdSort) (ga : GeneticAlgorithm) :
    Except Error (GenerationStats × GeneticAlgorithm) :=
  match ga.initializePopulation with
  | .error e => .error e
  | .ok ga1 =>
    match ga1.evaluatePopulation with
    | .error e => .error e
    | .ok ga2 =>
      match ga2.calculateGenerationStats with
      | .error e => .error e
      | .ok stats0 =>
        match runLoop S (ga2.config.maxGenerations.toNat + 1)
            { ga2 with statistics := [stats0], currentGeneration := 1 } with
        | .error e => .error e
        | .ok none => .error .undefinedBehaviour
        | .ok (some ga3) =>
          match ga3.statistics.getLast? with
          | some stats => .ok (stats, ga3)
          | none => .error .undefinedBehaviour

/-! ## Predicates used to state the properties -/

/-- A fully evaluated population: every individual has a valid cached fitness. -/
def FullyEvaluated (population : Population) : Prop :=
  ∀ individual ∈ population, individual.isFitnessValid = true

/-- Every raw fitness of the population is a finite `double`. -/
def FiniteFitness (population : Population) : Prop :=
  ∀ individual ∈ population, -DBL_MAX ≤ individual.fitness ∧ individual.fitness ≤ DBL_MAX

/-- The raw fitness `a` is strictly better than `b` in the configured direction. -/
def betterFitness (isMaximization : Bool) (a b : ℚ) : Prop :=
  if isMaximization then a > b else a < b

/-- The `j`-th index drawn (counting from 0) by a distribution over
`[0, populationSize - 1]` from the random source. -/
def drawnIndex (populationSize : Int) (rng : Rng) (j : Nat) : Int :=
  (uniformInt 0 (populationSize - 1) (fun n => rng (n + j))).1

/-- Being strictly better is decidable. -/
instance betterFitness.decidable (isMaximization : Bool) (a b : ℚ) :
    Decidable (betterFitness isMaximization a b) := by
  unfold betterFitness
  infer_instance

/-- The engine state `after` differs from `before` at most in the random source. -/
def GeneticAlgorithm.SameButRng (before after : GeneticAlgorithm) : Prop :=
  after.config = before.config ∧ after.population = before.population
    ∧ after.fitnessFunction = before.fitnessFunction
    ∧ after.statistics = before.statistics
    ∧ after.currentGeneration = before.currentGeneration

/-- The engine state `after` differs from `before` at most in the population and the
random source. -/
def GeneticAlgorithm.SameButPopulationRng (before after : GeneticAlgorithm) : Prop :=
  after.config = before.config
    ∧ after.fitnessFunction = before.fitnessFunction
    ∧ after.statistics = before.statistics
    ∧ after.currentGeneration = before.currentGeneration

/-- The population is ordered best first for the configured direction: no individual is
strictly better than one that precedes it. -/
def BestFirst (isMaximization : Bool) (population : Population) : Prop :=
  List.Pairwise (fun a b => ¬ betterFitness isMaximization b.fitness a.fitness) population

/-! ## Sample data

The scenario of the specification: four individuals of four bits on the range `[0, 15]`,
evaluated by `f(x) = x * x`. -/

/-- The sample evaluator `f(x) = x * x`, to be maximized, without a known optimum. -/
def sampleFitnessFunction : FitnessFunction :=
  { evaluate := fun x => x * x, isMaximization := true, optimalValue := none }

/-- The sample configuration. -/
def sampleConfig : GAConfig :=
  { populationSize := 4, chromosomeLength := 4, maxGenerations := 3,
    crossoverRate := 4 / 5, mutationRate := 1 / 100, elitismRate := 1 / 4,
    isMaximization := true, selectionType := SelectionType.TOURNAMENT,
    crossoverType := CrossoverType.SINGLE_POINT, tournamentSize := 3,
    minValue := 0, maxValue := 15 }

/-- The sample population, fully evaluated and ordered best first: `0100`, `0011`, `0010`,
`0001` with raw fitness 16, 9, 4, 1. -/
def samplePopulation : Population :=
  [⟨[false, true, false, false], 16, 100, true⟩, ⟨[false, false, true, true], 9, 50, true⟩,
    ⟨[false, false, true, false], 4, 20, true⟩, ⟨[false, false, false, true], 1, 0, true⟩]

/-- The sample engine state; every draw of its random source is `3/4`. -/
def sampleEngine : GeneticAlgorithm :=
  { config := sampleConfig, population := samplePopulation,
    fitnessFunction := sampleFitnessFunction, rng := fun _ => 3 / 4,
    statistics := [], currentGeneration := 0 }

/-- The `bestFitness` values of a history never get worse from one snapshot to the next, in
the configured direction. -/
def MonotoneBest (isMaximization : Bool) (history : List GenerationStats) : Prop :=
  List.Chain' (fun s t => ¬ betterFitness isMaximization s.bestFitness t.bestFitness) history

/-- Every value of the random source is a draw from `[0, 1)`. -/
def UnitDraws (rng : Rng) : Prop := ∀ j, 0 ≤ rng j ∧ rng j < 1

/-- A well-formed engine state for one generational step: a fully evaluated population of
`populationSize ≥ 1` individuals whose chromosomes all have `chromosomeLength` bits, with
`2 ≤ chromosomeLength ≤ 63`, a crossover type whose drawn arguments are always accepted, a
nonnegative `elitismRate`, and unit draws. -/
def GeneticAlgorithm.WellFormed (ga : GeneticAlgorithm) : Prop :=
  1 ≤ ga.config.populationSize
    ∧ (ga.population.length : Int) = ga.config.populationSize
    ∧ FullyEvaluated ga.population
    ∧ (∀ individual ∈ ga.population,
        (individual.chromosome.length : Int) = ga.config.chromosomeLength)
    ∧ 2 ≤ ga.config.chromosomeLength ∧ ga.config.chromosomeLength ≤ 63
    ∧ ga.config.crossoverType ≠ CrossoverType.TWO_POINT
    ∧ 0 ≤ ga.config.elitismRate
    ∧ UnitDraws ga.rng

/-! ## Construction and best/worst individual (`GeneticAlgorithm.cpp`) -/

/-- Constructor `GeneticAlgorithm(config, fitnessFunc)`. The evaluator is `none` for a null
pointer and `seed` is the generator as seeded from `std::random_device`. The members are
initialised (empty population and history, counter 0), then the configuration and the
evaluator are validated, in this order. -/
def GeneticAlgorithm.ofConfig (config : GAConfig) (fitnessFunc : Option FitnessFunction)
    (seed : Rng) : Except Error GeneticAlgorithm :=
  if config.populationSize ≤ 0 ∨ config.chromosomeLength ≤ 0 ∨ config.maxGenerations ≤ 0 then
    .error (.invalidArgument "Invalid GA configuration parameters")
  else
    match fitnessFunc with
    | none => .error (.invalidArgument "Fitness function cannot be null")
    | some fitnessFunction =>
      .ok { config := config, population := [], fitnessFunction := fitnessFunction,
            rng := seed, statistics := [], currentGeneration := 0 }

/-- The loop of `getBestIndividual`: an individual replaces the best so far only when its
raw fitness is strictly better. -/
def bestLoop (isMaximization : Bool) : Population → Individual → Except Error Individual
  | [], best => .ok best
  | individual :: rest, best =>
    match individual.getFitness with
    | .error e => .error e
    | .ok fitness =>
      match best.getFitness with
      | .error e => .error e
      | .ok bestFitness =>
        if isMaximization then
          bestLoop isMaximization rest (if fitness > bestFitness then individual else best)
        else
          bestLoop isMaximization rest (if fitness < bestFitness then individual else best)

/-- GeneticAlgorithm::getBestIndividual. -/
def GeneticAlgorithm.getBestIndividual (ga : GeneticAlgorithm) : Except Error Individual :=
  match ga.population with
  | [] => .error (.runtimeError "Population is empty")
  | first :: rest => bestLoop ga.config.isMaximization (first :: rest) first

/-- The loop of `getWorstIndividual`: an individual replaces the worst so far only when its
raw fitness is strictly worse. -/
def worstLoop (isMaximization : Bool) : Population → Individual → Except Error Individual
  | [], worst => .ok worst
  | individual :: rest, worst =>
    match individual.getFitness with
    | .error e => .error e
    | .ok fitness =>
      match worst.getFitness with
      | .error e => .error e
      | .ok worstFitness =>
        if isMaximization then
          worstLoop isMaximization rest (if fitness < worstFitness then individual else worst)
        else
          worstLoop isMaximization rest (if fitness > worstFitness then individual else worst)

/-- GeneticAlgorithm::getWorstIndividual. -/
def GeneticAlgorithm.getWorstIndividual (ga : GeneticAlgorithm) : Except Error Individual :=
  match ga.population with
  | [] => .error (.runtimeError "Population is empty")
  | first :: rest => worstLoop ga.config.isMaximization (first :: rest) first

/-! ## Diversity in the words of the specification -/

/-- The Hamming distance of two chromosomes: the number of positions at which their bits
differ (the wording of the specification). -/
def hammingDistance (a b : Chromosome) : Nat :=
  (List.zipWith (fun x y => x != y) a b).count true

/-- The chromosome of the individual at position `i` of a population (empty past the
end). -/
def chromosomeAt (population : Population) (i : Nat) : Chromosome :=
  match population[i]? with
  | some individual => individual.chromosome
  | none => []

/-- The sum over all pairs `i < j` of the Hamming distance of the chromosomes at positions
`i` and `j` divided by `L` (the wording of the specification). -/
def pairwiseDistanceSum (L : Nat) (population : Population) : ℚ :=
  ∑ i ∈ Finset.range population.length, ∑ j ∈ Finset.range population.length,
    if i < j then
      (hammingDistance (chromosomeAt population i) (chromosomeAt population j) : ℚ) / (L : ℚ)
    else 0

/-- The sum of the normalized distances of all pairs, by recursion on the population: the
pairs made of the first individual and a later one, then the pairs of the rest. -/
def pairSumList (L : Nat) : Population → ℚ
  | [] => 0
  | individual :: rest =>
    (rest.map fun other =>
      (hammingDistance individual.chromosome other.chromosome : ℚ) / (L : ℚ)).sum
      + pairSumList L rest

/-! ## The run with a progress callback (`GeneticAlgorithm.cpp`) -/

/-- ProgressCallback: `std::function<void(int, const GenerationStats&)>`. An invocation
returns or throws; the callback does not touch the engine. -/
abbrev ProgressCallback := Int → GenerationStats → Except Error Unit

/-- The snapshots of a history paired with their positions, counted from 0. -/
def indexedHistory (history : List GenerationStats) : List (Int × GenerationStats) :=
  history.enum.map fun p => ((p.1 : Int), p.2)

/-- One guarded invocation, `if (progressCallback) progressCallback(generation, stats)`:
`calls` lists the invocations made so far with their arguments, and is extended by this one
when the callback is non-empty (`some`). -/
def invokeCallback (callback : Option ProgressCallback) (generation : Int)
    (stats : GenerationStats) (calls : List (Int × GenerationStats)) :
    Except Error (List (Int × GenerationStats)) :=
  match callback with
  | none => .ok calls
  | some f =>
    match f generation stats with
    | .error e => .error e
    | .ok _ => .ok (calls ++ [(generation, stats)])

/-- The evolution loop of `run(callback)`: as the loop of `run`, with the callback invoked
after the snapshot is stored and before the convergence test. -/
def runCallbackLoop (S : StdSort) (callback : Option ProgressCallback) :
    Nat → GeneticAlgorithm → List (Int × GenerationStats) →
      Except Error (Option (GeneticAlgorithm × List (Int × GenerationStats)))
  | 0, _, _ => .ok none
  | fuel + 1, ga, calls =>
    if ga.currentGeneration ≤ ga.config.maxGenerations then
      match ga.evolveGeneration S with
      | .error e => .error e
      | .ok r =>
        let ga1 : GeneticAlgorithm := { r.2 with statistics := r.2.statistics ++ [r.1] }
        match invokeCallback callback ga1.currentGeneration r.1 calls with
        | .error e => .error e
        | .ok calls1 =>
          match ga1.hasConverged (1 / 100) with
          | .error e => .error e
          | .ok converged =>
            if converged then .ok (some (ga1, calls1))
            else
              runCallbackLoop S callback fuel
                { ga1 with currentGeneration := ga1.currentGeneration + 1 } calls1
    else .ok (some (ga, calls))

/-- GeneticAlgorithm::run(ProgressCallback). The result carries the list of the invocations
of the callback, in order. The loop is given `maxGenerations + 1` units of fuel, as in
`run`. -/
def GeneticAlgorithm.runWithCallback (S : StdSort) (callback : Option ProgressCallback)
    (ga : GeneticAlgorithm) :
    Except Error (GenerationStats × GeneticAlgorithm × List (Int × GenerationStats)) :=
  match ga.initializePopulation with
  | .error e => .error e
  | .ok ga1 =>
    match ga1.evaluatePopulation with
    | .error e => .error e
    | .ok ga2 =>
      match ga2.calculateGenerationStats with
      | .error e => .error e
      | .ok initialStats =>
        match invokeCallback callback 0 initialStats [] with
        | .error e => .error e
        | .ok calls0 =>
          match runCallbackLoop S callback (ga2.config.maxGenerations.toNat + 1)
              { ga2 with statistics := [initialStats], currentGeneration := 1 } calls0 with
          | .error e => .error e
          | .ok none => .error .undefinedBehaviour
          | .ok (some r) =>
            match r.1.statistics.getLast? with
            | some stats => .ok (stats, r.1, r.2)
            | none => .error .undefinedBehaviour

/-! ## More sample data -/

/-- A fresh engine, as the constructor leaves it, with the sample configuration and the
sample evaluator, and a random source that always yields `3/4`. -/
def freshEngine : GeneticAlgorithm :=
  { config := sampleConfig, population := [], fitnessFunction := sampleFitnessFunction,
    rng := fun _ => 3 / 4, statistics := [], currentGeneration := 0 }

/-- A configuration of two individuals of two bits, one generation, no crossover and a
mutation that flips every bit. -/
def flipConfig : GAConfig :=
  { populationSize := 2, chromosomeLength := 2, maxGenerations := 1,
    crossoverRate := 0, mutationRate := 1, elitismRate := 1 / 2,
    isMaximization := true, selectionType := SelectionType.TOURNAMENT,
    crossoverType := CrossoverType.SINGLE_POINT, tournamentSize := 1,
    minValue := 0, maxValue := 3 }

/-- A fresh engine with `flipConfig`, the evaluator `f(x) = x` and a random source that
always yields `3/4`. -/
def flipEngine : GeneticAlgorithm :=
  { config := flipConfig, population := [],
    fitnessFunction := { evaluate := fun x => x, isMaximization := true, optimalValue := none },
    rng := fun _ => 3 / 4, statistics := [], currentGeneration := 0 }

/-! ## Reset and setters (`GeneticAlgorithm.cpp`) -/

/-- GeneticAlgorithm::reset. -/
def GeneticAlgorithm.reset (ga : GeneticAlgorithm) : GeneticAlgorithm :=
  { ga with population := [], statistics := [], currentGeneration := 0 }

/-- GeneticAlgorithm::setFitnessFunction. The evaluator is `none` for a null pointer; the
fitness of every individual of the current population is invalidated. -/
def GeneticAlgorithm.setFitnessFunction (ga : GeneticAlgorithm)
    (newFitnessFunction : Option FitnessFunction) : Except Error GeneticAlgorithm :=
  match newFitnessFunction with
  | none => .error (.invalidArgument "Fitness function cannot be null")
  | some fitnessFunction =>
    .ok { ga with fitnessFunction := fitnessFunction,
                  population := ga.population.map Individual.invalidateFitness }

/-- GeneticAlgorithm::updateConfig. The test is
`population.size() != static_cast<size_t>(config.populationSize)`; a negative size converts
to a value above every vector size, so the test compares the two integers. -/
def GeneticAlgorithm.updateConfig (ga : GeneticAlgorithm) (newConfig : GAConfig) :
    GeneticAlgorithm :=
  let updated : GeneticAlgorithm := { ga with config := newConfig }
  if (updated.population.length : Int) ≠ updated.config.populationSize then updated.reset
  else updated

/-- The members of the engine after a call of `run` that threw inside
`initializePopulation`: `population.clear()` has been executed and no individual was
appended (`reserve` throws for a negative `populationSize`, the construction of the first
individual for a negative `chromosomeLength`, before any draw); the exception leaves `run`
before `statistics.clear()`, so the history and the counter are those before the call. -/
def GeneticAlgorithm.afterThrownInitialization (ga : GeneticAlgorithm) : GeneticAlgorithm :=
  { ga with population := [] }

/-! ## Reachable states -/

/-- The individuals reachable through the public operations of `Individual`: the three
constructors, the setters, `mutate`, `randomize` and the offspring of the three crossovers
(copying and the `const` observers leave an individual as it is). -/
inductive Individual.Reachable : Individual → Prop
  | default : Individual.Reachable Individual.default
  | ofLength (chromosomeLength : Nat) :
      Individual.Reachable (Individual.ofLength chromosomeLength)
  | ofChromosome (chromosome : Chromosome) :
      Individual.Reachable (Individual.ofChromosome chromosome)
  | setFitness (a : Individual) (fitnessValue : FitnessValue) :
      Individual.Reachable a → Individual.Reachable (a.setFitness fitnessValue)
  | invalidateFitness (a : Individual) :
      Individual.Reachable a → Individual.Reachable a.invalidateFitness
  | setFitnessPercentage (a : Individual) (percentage : ℚ) :
      Individual.Reachable a → Individual.Reachable (a.setFitnessPercentage percentage)
  | setChromosome (a : Individual) (newChromosome : Chromosome) :
      Individual.Reachable a → Individual.Reachable (a.setChromosome newChromosome)
  | mutate (a : Individual) (mutationRate : ℚ) (rng : Rng) :
      Individual.Reachable a → Individual.Reachable (a.mutate mutationRate rng).1
  | randomize (a : Individual) (length : Int) (rng : Rng) (r : Individual × Rng) :
      Individual.Reachable a → a.randomize length rng = .ok r → Individual.Reachable r.1
  | singlePointFirst (a b : Individual) (crossoverPoint : Int) (r : Individual × Individual) :
      Individual.Reachable a → Individual.Reachable b →
      a.singlePointCrossover b crossoverPoint = .ok r → Individual.Reachable r.1
  | singlePointSecond (a b : Individual) (crossoverPoint : Int) (r : Individual × Individual) :
      Individual.Reachable a → Individual.Reachable b →
      a.singlePointCrossover b crossoverPoint = .ok r → Individual.Reachable r.2
  | twoPointFirst (a b : Individual) (point1 point2 : Int) (r : Individual × Individual) :
      Individual.Reachable a → Individual.Reachable b →
      a.twoPointCrossover b point1 point2 = .ok r → Individual.Reachable r.1
  | twoPointSecond (a b : Individual) (point1 point2 : Int) (r : Individual × Individual) :
      Individual.Reachable a → Individual.Reachable b →
      a.twoPointCrossover b point1 point2 = .ok r → Individual.Reachable r.2
  | uniformFirst (a b : Individual) (mask : Chromosome) (r : Individual × Individual) :
      Individual.Reachable a → Individual.Reachable b →
      a.uniformCrossover b mask = .ok r → Individual.Reachable r.1
  | uniformSecond (a b : Individual) (mask : Chromosome) (r : Individual × Individual) :
      Individual.Reachable a → Individual.Reachable b →
      a.uniformCrossover b mask = .ok r → Individual.Reachable r.2

/-- The engine states reachable through construction, `run` (without or with a callback),
`reset`, `updateConfig` and `setFitnessFunction`, each call having returned. The state that
a call leaves when it throws is not in this set; `afterThrownInitialization` is such a
state. -/
inductive GeneticAlgorithm.Reachable (S : StdSort) : GeneticAlgorithm → Prop
  | construct (config : GAConfig) (fitnessFunc : Option FitnessFunction) (seed : Rng)
      (ga : GeneticAlgorithm) :
      GeneticAlgorithm.ofConfig config fitnessFunc seed = .ok ga →
      GeneticAlgorithm.Reachable S ga
  | run (ga final : GeneticAlgorithm) (stats : GenerationStats) :
      GeneticAlgorithm.Reachable S ga → ga.run S = .ok (stats, final) →
      GeneticAlgorithm.Reachable S final
  | runWithCallback (ga final : GeneticAlgorithm) (callback : Option ProgressCallback)
      (stats : GenerationStats) (calls : List (Int × GenerationStats)) :
      GeneticAlgorithm.Reachable S ga →
      ga.runWithCallback S callback = .ok (stats, final, calls) →
      GeneticAlgorithm.Reachable S final
  | reset (ga : GeneticAlgorithm) :
      GeneticAlgorithm.Reachable S ga → GeneticAlgorithm.Reachable S ga.reset
  | updateConfig (ga : GeneticAlgorithm) (newConfig : GAConfig) :
      GeneticAlgorithm.Reachable S ga → GeneticAlgorithm.Reachable S (ga.updateConfig newConfig)
  | setFitnessFunction (ga updated : GeneticAlgorithm)
      (newFitnessFunction : Option FitnessFunction) :
      GeneticAlgorithm.Reachable S ga →
      ga.setFitnessFunction newFitnessFunction = .ok updated →
      GeneticAlgorithm.Reachable S updated

/-! ## The gene pool of a population -/

/-- The chromosome has `L` bits and each of them is the bit that some individual of the
population has at the same position. -/
def InGenePool (population : Population) (L : Nat) (chromosome : Chromosome) : Prop :=
  chromosome.length = L
    ∧ ∀ i : Nat, i < L → ∃ a ∈ population, chromosome[i]? = a.chromosome[i]?

/-! ## Sample data for the elite count -/

/-- The sample engine with `elitismRate = 0`. -/
def zeroRateEngine : GeneticAlgorithm :=
  { sampleEngine with config := { sampleConfig with elitismRate := 0 } }

/-- The sample population with a fifth individual, `0000` of raw fitness 0. -/
def fivePopulation : Population :=
  samplePopulation ++ [⟨[false, false, false, false], 0, 0, true⟩]

/-- An engine state of five individuals whose `elitismRate` is the `double` `0.6`. -/
def fiveEngine : GeneticAlgorithm :=
  { sampleEngine with
    config := { sampleConfig with populationSize := 5, elitismRate := roundDouble (3 / 5) },
    population := fivePopulation }

/-- Twenty evaluated individuals ordered best first, of raw fitness 20, 19, ..., 1. -/
def twentyPopulation : Population :=
  [⟨[false, false, false, false], 20, 0, true⟩, ⟨[false, false, false, false], 19, 0, true⟩,
    ⟨[false, false, false, false], 18, 0, true⟩, ⟨[false, false, false, false], 17, 0, true⟩,
    ⟨[false, false, false, false], 16, 0, true⟩, ⟨[false, false, false, false], 15, 0, true⟩,
    ⟨[false, false, false, false], 14, 0, true⟩, ⟨[false, false, false, false], 13, 0, true⟩,
    ⟨[false, false, false, false], 12, 0, true⟩, ⟨[false, false, false, false], 11, 0, true⟩,
    ⟨[false, false, false, false], 10, 0, true⟩, ⟨[false, false, false, false], 9, 0, true⟩,
    ⟨[false, false, false, false], 8, 0, true⟩, ⟨[false, false, false, false], 7, 0, true⟩,
    ⟨[false, false, false, false], 6, 0, true⟩, ⟨[false, false, false, false], 5, 0, true⟩,
    ⟨[false, false, false, false], 4, 0, true⟩, ⟨[false, false, false, false], 3, 0, true⟩,
    ⟨[false, false, false, false], 2, 0, true⟩, ⟨[false, false, false, false], 1, 0, true⟩]

/-- An engine state of twenty individuals with the elitist pool as selection, whose
`elitismRate` is the `double` `0.15`. -/
def twentyEngine : GeneticAlgorithm :=
  { sampleEngine with
    config := { sampleConfig with populationSize := 20, elitismRate := roundDouble (15 / 100),
                                  selectionType := SelectionType.ELITISM },
    population := twentyPopulation }

/-! ## Sample data for the evaluation and the two-point crossover -/

/-- The sample engine with an evaluator that minimizes while the configuration maximizes. -/
def mixedEngine : GeneticAlgorithm :=
  { sampleEngine with
    fitnessFunction := { sampleFitnessFunction with isMaximization := false } }

/-- The sample engine with the two-point crossover. -/
def twoPointEngine : GeneticAlgorithm :=
  { sampleEngine with
    config := { sampleConfig with crossoverType := CrossoverType.TWO_POINT } }

/-- The sample engine with a mutation rate of 0. -/
def noMutationEngine : GeneticAlgorithm :=
  { sampleEngine with config := { sampleConfig with mutationRate := 0 } }

/-! ## Sample data for `double` arithmetic -/

/-- The chromosome of 63 bits that encodes `2 ^ 63 - 2`: 62 ones, then a zero. -/
def almostFullChromosome : Chromosome := List.replicate 62 true ++ [false]

/-- The chromosome of 63 bits that encodes `2 ^ 63 - 1`. -/
def fullChromosome : Chromosome := List.replicate 63 true

/-- Three evaluated individuals of raw fitness `-1000`, `1e-14` and `2e-14` (the nearest
`double` of each). -/
def tinyPopulation : Population :=
  [⟨[false, false], -1000, 0, true⟩,
    ⟨[false, true], roundDouble (1 / 100000000000000), 0, true⟩,
    ⟨[true, false], roundDouble (2 / 100000000000000), 0, true⟩]

/-- Three evaluated individuals of raw fitness `1000`, `1e-14` and `2e-14` (the nearest
`double` of each). -/
def tinyMinPopulation : Population :=
  [⟨[false, false], 1000, 0, true⟩,
    ⟨[false, true], roundDouble (1 / 100000000000000), 0, true⟩,
    ⟨[true, false], roundDouble (2 / 100000000000000), 0, true⟩]

/-- An engine state of three evaluated individuals, each of raw fitness `0.1` (the nearest
`double`). -/
def tenthEngine : GeneticAlgorithm :=
  { sampleEngine with
    config := { sampleConfig with populationSize := 3 },
    population :=
      [⟨[false, false, false, true], roundDouble (1 / 10), 50, true⟩,
        ⟨[false, false, false, true], roundDouble (1 / 10), 50, true⟩,
        ⟨[false, false, false, true], roundDouble (1 / 10), 50, true⟩] }

/-! ## Sample data for the direction of the percentages and for a failed run -/

/-- The sample engine with a configuration that minimizes while the evaluator maximizes. -/
def minimizingEngine : GeneticAlgorithm :=
  { sampleEngine with config := { sampleConfig with isMaximization := false } }

/-- The sample configuration with a negative chromosome length. -/
def negativeLengthConfig : GAConfig := { sampleConfig with chromosomeLength := -1 }

/-- The fresh sample engine after its first run: four times `1111`, two snapshots, counter
at 1. -/
def ranEngine : GeneticAlgorithm :=
  { freshEngine with
    population := [⟨[true, true, true, true], 225, 50, true⟩,
      ⟨[true, true, true, true], 225, 50, true⟩,
      ⟨[true, true, true, true], 225, 50, true⟩,
      ⟨[true, true, true, true], 225, 50, true⟩],
    statistics := [⟨0, 225, 225, 225, none, 0, 50, 50⟩,
      ⟨1, 225, 225, 225, none, 0, 50, 50⟩],
    currentGeneration := 1 }

/-! ## Theorems

### Rounding to `double` -/

theorem twoPow_eq (e : Int) : twoPow e = (2 : ℚ) ^ e := by
  unfold twoPow
  split
  · rename_i h
    obtain ⟨k, rfl⟩ := Int.eq_ofNat_of_zero_le h
    simp
  · rename_i h
    obtain ⟨k, hk⟩ := Int.eq_ofNat_of_zero_le (by omega : 0 ≤ -e)
    have he : e = -(k : Int) := by omega
    subst he
    simp

theorem twoPow_pos (e : Int) : 0 < twoPow e := by
  rw [twoPow_eq]
  positivity

theorem twoPow_le_twoPow {a b : Int} (h : a ≤ b) : twoPow a ≤ twoPow b := by
  rw [twoPow_eq, twoPow_eq]
  exact zpow_le_zpow_right₀ (by norm_num) h

theorem twoPow_lt_twoPow_iff {a b : Int} : twoPow a < twoPow b ↔ a < b := by
  rw [twoPow_eq, twoPow_eq]
  exact zpow_lt_zpow_iff_right₀ (by norm_num)

theorem twoPow_add (a b : Int) : twoPow (a + b) = twoPow a * twoPow b := by
  rw [twoPow_eq, twoPow_eq, twoPow_eq, zpow_add₀ (by norm_num)]

theorem twoPow_natCast (k : Nat) : twoPow (k : Int) = ((2 ^ k : Nat) : ℚ) := by
  rw [twoPow_eq]
  simp

theorem bitLength_spec : ∀ (fuel n : Nat), n ≤ fuel → n ≠ 0 →
    2 ^ (bitLength fuel n - 1) ≤ n ∧ n < 2 ^ bitLength fuel n ∧ 1 ≤ bitLength fuel n := by
  intro fuel
  induction fuel with
  | zero => intro n h hn; omega
  | succ fuel ih =>
    intro n h hn
    simp only [bitLength, if_neg hn]
    by_cases h2 : n / 2 = 0
    · have h1 : n = 1 := by omega
      subst h1
      have hb : bitLength fuel (1 / 2) = 0 := by
        cases fuel <;> simp [bitLength]
      rw [hb]
      simp
    · obtain ⟨a, b, c⟩ := ih (n / 2) (by omega) h2
      refine ⟨?_, ?_, by omega⟩
      · have : bitLength fuel (n / 2) + 1 - 1 = (bitLength fuel (n / 2) - 1) + 1 := by omega
        rw [this, pow_succ]
        omega
      · rw [pow_succ]
        omega

theorem abs_eq_natAbs_div (x : ℚ) : |x| = (x.num.natAbs : ℚ) / (x.den : ℚ) := by
  have h : ((x.num.natAbs : Int) : ℚ) = |(x.num : ℚ)| := by
    rw [Int.natCast_natAbs, Int.cast_abs]
  have h0 : (x.num.natAbs : ℚ) = |(x.num : ℚ)| := by
    rw [← h, Int.cast_natCast]
  rw [h0]
  conv_lhs => rw [← Rat.num_div_den x]
  rw [abs_div, Nat.abs_cast]

theorem binaryExponent_spec (x : ℚ) (hx : x ≠ 0) :
    twoPow (binaryExponent x) ≤ |x| ∧ |x| < twoPow (binaryExponent x + 1) := by
  have hp : x.num.natAbs ≠ 0 := by
    simpa using (Rat.num_ne_zero.mpr hx)
  have hq : x.den ≠ 0 := x.den_nz
  obtain ⟨pa, pb, pc⟩ := bitLength_spec x.num.natAbs x.num.natAbs le_rfl hp
  obtain ⟨qa, qb, qc⟩ := bitLength_spec x.den x.den le_rfl hq
  unfold binaryExponent
  generalize bitLength x.num.natAbs x.num.natAbs = a at *
  generalize bitLength x.den x.den = b at *
  have habs := abs_eq_natAbs_div x
  have hqpos : (0 : ℚ) < (x.den : ℚ) := by exact_mod_cast Nat.pos_of_ne_zero hq
  have pa' : ((2 ^ (a - 1) : Nat) : ℚ) ≤ (x.num.natAbs : ℚ) := by exact_mod_cast pa
  have pb' : (x.num.natAbs : ℚ) < ((2 ^ a : Nat) : ℚ) := by exact_mod_cast pb
  have qa' : ((2 ^ (b - 1) : Nat) : ℚ) ≤ (x.den : ℚ) := by exact_mod_cast qa
  have qb' : (x.den : ℚ) < ((2 ^ b : Nat) : ℚ) := by exact_mod_cast qb
  rw [← twoPow_natCast] at pa' pb' qa' qb'
  -- |x| < 2 ^ (a - b + 1)
  have hupper : |x| < twoPow ((a : Int) - (b : Int) + 1) := by
    rw [habs, div_lt_iff₀ hqpos]
    have e1 : twoPow ((a : Int) - (b : Int) + 1) * twoPow (((b - 1 : Nat)) : Int)
        = twoPow (a : Int) := by
      rw [← twoPow_add]
      congr 1
      omega
    calc (x.num.natAbs : ℚ) < twoPow (a : Int) := pb'
      _ = twoPow ((a : Int) - (b : Int) + 1) * twoPow (((b - 1 : Nat)) : Int) := e1.symm
      _ ≤ twoPow ((a : Int) - (b : Int) + 1) * (x.den : ℚ) :=
        mul_le_mul_of_nonneg_left qa' (twoPow_pos _).le
  -- 2 ^ (a - b - 1) ≤ |x|
  have hlower : twoPow ((a : Int) - (b : Int) - 1) ≤ |x| := by
    rw [habs, le_div_iff₀ hqpos]
    have e1 : twoPow ((a : Int) - (b : Int) - 1) * twoPow ((b : Nat) : Int)
        = twoPow (((a - 1 : Nat)) : Int) := by
      rw [← twoPow_add]
      congr 1
      omega
    calc twoPow ((a : Int) - (b : Int) - 1) * (x.den : ℚ)
        ≤ twoPow ((a : Int) - (b : Int) - 1) * twoPow ((b : Nat) : Int) :=
          mul_le_mul_of_nonneg_left qb'.le (twoPow_pos _).le
      _ = twoPow (((a - 1 : Nat)) : Int) := e1
      _ ≤ (x.num.natAbs : ℚ) := pa'
  split
  · rename_i h
    exact ⟨h, hupper⟩
  · rename_i h
    refine ⟨hlower, ?_⟩
    have : (a : Int) - (b : Int) - 1 + 1 = (a : Int) - (b : Int) := by ring
    rw [this]
    exact lt_of_not_le h

theorem roundHalfEven_bounds (q : ℚ) : ⌊q⌋ ≤ roundHalfEven q ∧ roundHalfEven q ≤ ⌊q⌋ + 1 := by
  unfold roundHalfEven
  split_ifs <;> constructor <;> omega

theorem roundHalfEven_intCast (k : Int) : roundHalfEven (k : ℚ) = k := by
  unfold roundHalfEven
  rw [Int.floor_intCast, sub_self, if_pos (by norm_num)]

theorem roundHalfEven_sub_le (q : ℚ) :
    (roundHalfEven q : ℚ) ≤ q + 1 / 2 ∧ q - 1 / 2 ≤ (roundHalfEven q : ℚ) := by
  have h1 := Int.floor_le q
  have h2 := Int.lt_floor_add_one q
  unfold roundHalfEven
  split_ifs with a b c
  · constructor <;> linarith
  · push_cast; constructor <;> linarith
  · constructor <;> linarith
  · push_cast; constructor <;> linarith

theorem roundHalfEven_mono {p q : ℚ} (h : p ≤ q) : roundHalfEven p ≤ roundHalfEven q := by
  have hfl : ⌊p⌋ ≤ ⌊q⌋ := Int.floor_le_floor h
  rcases lt_or_eq_of_le hfl with hlt | heq
  · have := (roundHalfEven_bounds p).2
    have := (roundHalfEven_bounds q).1
    omega
  · have hb := (roundHalfEven_bounds p).2
    have hb2 := (roundHalfEven_bounds q).1
    have hb3 := (roundHalfEven_bounds p).1
    have hd : p - (⌊p⌋ : ℚ) ≤ q - (⌊q⌋ : ℚ) := by rw [heq]; linarith
    unfold roundHalfEven
    rw [heq] at hd ⊢
    split_ifs <;> first | omega | (exfalso; linarith)

theorem roundDouble_nonneg {x : ℚ} (h : 0 ≤ x) : 0 ≤ roundDouble x := by
  unfold roundDouble
  split
  · exact le_refl _
  · have hu := twoPow_pos (binaryExponent x - 52)
    have hq : 0 ≤ x / twoPow (binaryExponent x - 52) := div_nonneg h hu.le
    have h0 : (0 : Int) ≤ roundHalfEven (x / twoPow (binaryExponent x - 52)) := by
      have := roundHalfEven_mono hq
      rwa [show ((0 : ℚ)) = ((0 : Int) : ℚ) by simp, roundHalfEven_intCast] at this
    have h1 : (0 : ℚ) ≤ (roundHalfEven (x / twoPow (binaryExponent x - 52)) : ℚ) := by
      exact_mod_cast h0
    exact mul_nonneg h1 hu.le

/-- The significand of a positive `x` lies in `[2 ^ 52, 2 ^ 53)`. -/
theorem significand_range {x : ℚ} (h : 0 < x) :
    twoPow 52 ≤ x / twoPow (binaryExponent x - 52)
      ∧ x / twoPow (binaryExponent x - 52) < twoPow 53 := by
  obtain ⟨hl, hu⟩ := binaryExponent_spec x h.ne.symm
  rw [abs_of_pos h] at hl hu
  have hpos := twoPow_pos (binaryExponent x - 52)
  constructor
  · rw [le_div_iff₀ hpos, ← twoPow_add]
    have : (52 : Int) + (binaryExponent x - 52) = binaryExponent x := by ring
    rw [this]; exact hl
  · rw [div_lt_iff₀ hpos, ← twoPow_add]
    have : (53 : Int) + (binaryExponent x - 52) = binaryExponent x + 1 := by ring
    rw [this]; exact hu

theorem twoPow_52 : twoPow 52 = 4503599627370496 := by
  rw [twoPow_eq]; norm_num

theorem twoPow_53 : twoPow 53 = 9007199254740992 := by
  rw [twoPow_eq]; norm_num

/-- The relative error of rounding is at most `2 ^ -53`. -/
theorem roundDouble_error {x : ℚ} (h : 0 ≤ x) :
    roundDouble x ≤ x * (1 + 1 / 9007199254740992)
      ∧ x * (1 - 1 / 9007199254740992) ≤ roundDouble x := by
  rcases eq_or_lt_of_le h with h0 | hpos
  · subst h0; simp [roundDouble]
  · obtain ⟨hl, -⟩ := significand_range hpos
    rw [twoPow_52] at hl
    have hu := twoPow_pos (binaryExponent x - 52)
    obtain ⟨r1, r2⟩ := roundHalfEven_sub_le (x / twoPow (binaryExponent x - 52))
    have hx : x = x / twoPow (binaryExponent x - 52) * twoPow (binaryExponent x - 52) := by
      field_simp
    unfold roundDouble
    rw [if_neg hpos.ne.symm]
    generalize x / twoPow (binaryExponent x - 52) = q at *
    generalize twoPow (binaryExponent x - 52) = u at *
    generalize (roundHalfEven q : ℚ) = m at *
    subst hx
    constructor
    · have : m ≤ q * (1 + 1 / 9007199254740992) := by linarith
      calc m * u ≤ q * (1 + 1 / 9007199254740992) * u := mul_le_mul_of_nonneg_right this hu.le
        _ = q * u * (1 + 1 / 9007199254740992) := by ring
    · have : q * (1 - 1 / 9007199254740992) ≤ m := by linarith
      calc q * u * (1 - 1 / 9007199254740992) = q * (1 - 1 / 9007199254740992) * u := by ring
        _ ≤ m * u := mul_le_mul_of_nonneg_right this hu.le

theorem roundDouble_mono {x y : ℚ} (hx : 0 ≤ x) (h : x ≤ y) : roundDouble x ≤ roundDouble y := by
  rcases eq_or_lt_of_le hx with h0 | hpos
  · subst h0
    have : roundDouble 0 = 0 := by simp [roundDouble]
    rw [this]; exact roundDouble_nonneg (le_trans hx h)
  · have hypos : 0 < y := lt_of_lt_of_le hpos h
    obtain ⟨xl, xu⟩ := binaryExponent_spec x hpos.ne.symm
    obtain ⟨yl, yu⟩ := binaryExponent_spec y hypos.ne.symm
    rw [abs_of_pos hpos] at xl xu
    rw [abs_of_pos hypos] at yl yu
    have hexp : binaryExponent x ≤ binaryExponent y := by
      have : twoPow (binaryExponent x) < twoPow (binaryExponent y + 1) :=
        lt_of_le_of_lt xl (lt_of_le_of_lt h yu)
      have := twoPow_lt_twoPow_iff.mp this
      omega
    obtain ⟨sxl, sxu⟩ := significand_range hpos
    obtain ⟨syl, syu⟩ := significand_range hypos
    unfold roundDouble
    rw [if_neg hpos.ne.symm, if_neg hypos.ne.symm]
    rcases lt_or_eq_of_le hexp with hlt | heq
    · -- fl x ≤ 2 ^ (ex + 1) ≤ 2 ^ ey ≤ fl y
      have hmx : roundHalfEven (x / twoPow (binaryExponent x - 52)) ≤ 9007199254740992 := by
        have := roundHalfEven_mono sxu.le
        rw [twoPow_53] at this
        rwa [show ((9007199254740992 : ℚ)) = ((9007199254740992 : Int) : ℚ) by norm_num,
          roundHalfEven_intCast] at this
      have hmy : 4503599627370496 ≤ roundHalfEven (y / twoPow (binaryExponent y - 52)) := by
        have := roundHalfEven_mono syl
        rw [twoPow_52] at this
        rwa [show ((4503599627370496 : ℚ)) = ((4503599627370496 : Int) : ℚ) by norm_num,
          roundHalfEven_intCast] at this
      have hmx' : (roundHalfEven (x / twoPow (binaryExponent x - 52)) : ℚ) ≤ twoPow 53 := by
        rw [twoPow_53]; exact_mod_cast hmx
      have hmy' : twoPow 52 ≤ (roundHalfEven (y / twoPow (binaryExponent y - 52)) : ℚ) := by
        rw [twoPow_52]; exact_mod_cast hmy
      calc (roundHalfEven (x / twoPow (binaryExponent x - 52)) : ℚ)
            * twoPow (binaryExponent x - 52)
          ≤ twoPow 53 * twoPow (binaryExponent x - 52) :=
            mul_le_mul_of_nonneg_right hmx' (twoPow_pos _).le
        _ = twoPow (binaryExponent x + 1) := by
            rw [← twoPow_add]; congr 1; ring
        _ ≤ twoPow (binaryExponent y) := twoPow_le_twoPow (by omega)
        _ = twoPow 52 * twoPow (binaryExponent y - 52) := by
            rw [← twoPow_add]; congr 1; ring
        _ ≤ (roundHalfEven (y / twoPow (binaryExponent y - 52)) : ℚ)
            * twoPow (binaryExponent y - 52) :=
            mul_le_mul_of_nonneg_right hmy' (twoPow_pos _).le
    · rw [heq]
      have hu := twoPow_pos (binaryExponent y - 52)
      have hq : x / twoPow (binaryExponent y - 52) ≤ y / twoPow (binaryExponent y - 52) :=
        div_le_div_of_nonneg_right h hu.le
      have hm := roundHalfEven_mono hq
      have hm' : (roundHalfEven (x / twoPow (binaryExponent y - 52)) : ℚ)
          ≤ (roundHalfEven (y / twoPow (binaryExponent y - 52)) : ℚ) := by exact_mod_cast hm
      exact mul_le_mul_of_nonneg_right hm' hu.le

/-- Natural numbers below `2 ^ 53` are doubles. -/
theorem roundDouble_natCast (n : Nat) (h : n < 9007199254740992) :
    roundDouble (n : ℚ) = (n : ℚ) := by
  rcases Nat.eq_zero_or_pos n with h0 | hpos
  · subst h0; simp [roundDouble]
  · have hq : (0 : ℚ) < (n : ℚ) := by exact_mod_cast hpos
    obtain ⟨xl, -⟩ := binaryExponent_spec (n : ℚ) hq.ne.symm
    rw [abs_of_pos hq] at xl
    have hlt : twoPow (binaryExponent (n : ℚ)) < twoPow 53 := by
      rw [twoPow_53]
      have : (n : ℚ) < 9007199254740992 := by exact_mod_cast h
      linarith
    have he := twoPow_lt_twoPow_iff.mp hlt
    obtain ⟨k, hk⟩ := Int.eq_ofNat_of_zero_le (by omega : 0 ≤ 52 - binaryExponent (n : ℚ))
    have hu : twoPow (binaryExponent (n : ℚ) - 52) = 1 / ((2 ^ k : Nat) : ℚ) := by
      have : binaryExponent (n : ℚ) - 52 = -(k : Int) := by omega
      rw [this, twoPow_eq, zpow_neg, zpow_natCast]
      simp
    unfold roundDouble
    rw [if_neg hq.ne.symm, hu]
    have hdiv : (n : ℚ) / (1 / ((2 ^ k : Nat) : ℚ)) = (((n * 2 ^ k : Nat) : Int) : ℚ) := by
      push_cast
      field_simp
    rw [hdiv, roundHalfEven_intCast]
    push_cast
    field_simp

theorem roundDouble_le_natCast {x : ℚ} (n : Nat) (h0 : 0 ≤ x) (hx : x ≤ (n : ℚ))
    (hn : n < 9007199254740992) : roundDouble x ≤ (n : ℚ) := by
  have h := roundDouble_mono h0 hx
  rwa [roundDouble_natCast n hn] at h

theorem natCast_le_roundDouble {x : ℚ} (n : Nat) (hx : (n : ℚ) ≤ x)
    (hn : n < 9007199254740992) : (n : ℚ) ≤ roundDouble x := by
  have h := roundDouble_mono (Nat.cast_nonneg n) hx
  rwa [roundDouble_natCast n hn] at h

theorem truncToInt_of_nonneg (x : ℚ) (h : 0 ≤ x) : truncToInt x = ⌊x⌋ := by
  simp [truncToInt, h]

theorem truncToInt_roundDouble_nonneg {x : ℚ} (h : 0 ≤ x) : 0 ≤ truncToInt (roundDouble x) := by
  rw [truncToInt_of_nonneg _ (roundDouble_nonneg h)]
  exact Int.floor_nonneg.mpr (roundDouble_nonneg h)

/-- Truncating the rounded value gives at most the next integer above the exact floor. -/
theorem truncToInt_roundDouble_bounds {x : ℚ} (h0 : 0 ≤ x) (h1 : x + 1 < 9007199254740992) :
    ⌊x⌋ ≤ truncToInt (roundDouble x) ∧ truncToInt (roundDouble x) ≤ ⌊x⌋ + 1 := by
  rw [truncToInt_of_nonneg _ (roundDouble_nonneg h0)]
  obtain ⟨k, hk⟩ := Int.eq_ofNat_of_zero_le (Int.floor_nonneg.mpr h0)
  have hfl := Int.floor_le x
  have hlt := Int.lt_floor_add_one x
  rw [hk] at hfl hlt ⊢
  have hkx : ((k : Nat) : ℚ) ≤ x := by exact_mod_cast hfl
  have hxk : x ≤ ((k + 1 : Nat) : ℚ) := by push_cast; push_cast at hlt; exact hlt.le
  have hkb : k + 1 < 9007199254740992 := by
    have : ((k + 1 : Nat) : ℚ) < 9007199254740992 := by push_cast; linarith
    exact_mod_cast this
  have hlow := natCast_le_roundDouble k hkx (by omega)
  have hup := roundDouble_le_natCast (k + 1) h0 hxk hkb
  constructor
  · exact Int.le_floor.mpr (by exact_mod_cast hlow)
  · have h2 : ⌊roundDouble x⌋ ≤ ⌊((k + 1 : Nat) : ℚ)⌋ := Int.floor_le_floor hup
    rw [show (((k + 1 : Nat) : ℚ)) = (((k : Int) + 1 : Int) : ℚ) by push_cast; rfl,
      Int.floor_intCast] at h2
    exact h2

theorem truncToInt_roundDouble_le {x : ℚ} (n : Nat) (h0 : 0 ≤ x) (hx : x ≤ (n : ℚ))
    (hn : n < 9007199254740992) : truncToInt (roundDouble x) ≤ (n : Int) := by
  rw [truncToInt_of_nonneg _ (roundDouble_nonneg h0)]
  have hup := roundDouble_le_natCast n h0 hx hn
  have h2 : ⌊roundDouble x⌋ ≤ ⌊((n : Nat) : ℚ)⌋ := Int.floor_le_floor hup
  rwa [show (((n : Nat) : ℚ)) = (((n : Int) : Int) : ℚ) by push_cast; rfl,
    Int.floor_intCast] at h2

theorem roundDouble_tenth : roundDouble (1 / 10) = 3602879701896397 / 36028797018963968 := by
  with_unfolding_all rfl

/-! ### Decoding -/



theorem foldl_bits_eq (rest : List Bool) (p : Nat) :
    rest.foldl (fun n b => 2 * n + (if b then 1 else 0)) p
      = 2 ^ rest.length * p + bitsToNat rest := by
  induction rest generalizing p with
  | nil => simp [bitsToNat]
  | cons b rest ih =>
    simp only [bitsToNat, List.foldl_cons, List.length_cons]
    rw [ih (2 * p + _), ih (2 * 0 + _)]
    simp only [bitsToNat]
    ring

theorem bitsToNat_cons (b : Bool) (rest : List Bool) :
    bitsToNat (b :: rest) = 2 ^ rest.length * (if b then 1 else 0) + bitsToNat rest := by
  have h := foldl_bits_eq rest (2 * 0 + (if b then 1 else 0))
  simpa [bitsToNat] using h

theorem bitsToNat_lt (bits : List Bool) : bitsToNat bits < 2 ^ bits.length := by
  induction bits with
  | nil => simp [bitsToNat]
  | cons b rest ih =>
    rw [bitsToNat_cons, List.length_cons, pow_succ]
    split <;> omega

theorem bitsToNat_replicate_false (n : Nat) : bitsToNat (List.replicate n false) = 0 := by
  induction n with
  | zero => simp [bitsToNat]
  | succ n ih => rw [List.replicate_succ, bitsToNat_cons, ih]; simp

theorem bitsToNat_replicate_true (n : Nat) :
    bitsToNat (List.replicate n true) + 1 = 2 ^ n := by
  induction n with
  | zero => simp [bitsToNat]
  | succ n ih =>
    rw [List.replicate_succ, bitsToNat_cons, List.length_replicate, pow_succ]
    simp only [if_true]
    omega

theorem decodeLoop_eq (size : Nat) (hs : size ≤ 64) (rest : List Bool) (i p : Nat)
    (h : rest.length + i = size) :
    decodeLoop size rest i (2 ^ rest.length * p)
      = .ok (2 ^ rest.length * p + bitsToNat rest) := by
  induction rest generalizing i p with
  | nil => simp [decodeLoop, bitsToNat]
  | cons b rest ih =>
    simp only [List.length_cons] at h
    have hk : size - 1 - i = rest.length := by omega
    have hlt : rest.length < 64 := by omega
    have hpow : (2 : Nat) ^ rest.length < 2 ^ 64 := Nat.pow_lt_pow_right (by norm_num) hlt
    cases b with
    | false =>
      simp only [decodeLoop, Bool.false_eq_true, if_false, List.length_cons]
      have e : 2 ^ (rest.length + 1) * p = 2 ^ rest.length * (2 * p) := by ring
      rw [e, ih (i + 1) (2 * p) (by omega), bitsToNat_cons]
      simp
    | true =>
      simp only [decodeLoop, if_true, List.length_cons, shl64, hk, hlt, one_mul,
        Nat.mod_eq_of_lt hpow]
      have e : 2 ^ (rest.length + 1) * p ||| 2 ^ rest.length
          = 2 ^ rest.length * (2 * p + 1) := by
        rw [← Nat.mul_add_lt_is_or (Nat.pow_lt_pow_right (by norm_num) (Nat.lt_succ_self _)) p,
          pow_succ]
        ring
      rw [e, ih (i + 1) (2 * p + 1) (by omega), bitsToNat_cons]
      simp only [if_true]
      congr 1
      ring

theorem decodeToValue_eq (bits : Chromosome) (f pct : ℚ) (valid : Bool) (minValue maxValue : ℚ)
    (h1 : 1 ≤ bits.length) (h2 : bits.length ≤ 63) :
    Individual.decodeToValue ⟨bits, f, pct, valid⟩ minValue maxValue
      = .ok (minValue + ((bitsToNat bits : ℚ) / ((2 : ℚ) ^ bits.length - 1))
          * (maxValue - minValue)) := by
  have hne : bits.isEmpty = false := by
    cases bits with
    | nil => simp at h1
    | cons b t => rfl
  have hloop := decodeLoop_eq bits.length (by omega) bits 0 0 (by omega)
  simp only [Nat.mul_zero, Nat.zero_add] at hloop
  have hlt : bits.length < 64 := by omega
  have hpow : (2 : Nat) ^ bits.length < 2 ^ 64 := Nat.pow_lt_pow_right (by norm_num) hlt
  have hpos : 1 ≤ (2 : Nat) ^ bits.length := Nat.one_le_two_pow
  have hmax : (2 ^ bits.length + 2 ^ 64 - 1) % 2 ^ 64 = 2 ^ bits.length - 1 := by
    have : 2 ^ bits.length + 2 ^ 64 - 1 = (2 ^ bits.length - 1) + 2 ^ 64 := by omega
    rw [this, Nat.add_mod_right, Nat.mod_eq_of_lt (by omega)]
  simp only [Individual.decodeToValue, hne, Bool.false_eq_true, if_false, hloop, shl64, hlt,
    if_true, one_mul, Nat.mod_eq_of_lt hpow, hmax]
  rw [Nat.cast_sub hpos]
  simp

theorem decodeToValue_mem_range (n L : Nat) (minValue maxValue : ℚ) (hL : 1 ≤ L)
    (hn : n < 2 ^ L) (hmm : minValue < maxValue) :
    minValue ≤ minValue + ((n : ℚ) / ((2 : ℚ) ^ L - 1)) * (maxValue - minValue) ∧
      minValue + ((n : ℚ) / ((2 : ℚ) ^ L - 1)) * (maxValue - minValue) ≤ maxValue := by
  have hpow : (2 : ℚ) ≤ (2 : ℚ) ^ L := by
    calc (2 : ℚ) = 2 ^ 1 := by norm_num
      _ ≤ 2 ^ L := pow_le_pow_right₀ (by norm_num) hL
  have hden : (0 : ℚ) < (2 : ℚ) ^ L - 1 := by linarith
  have hnq : (n : ℚ) ≤ (2 : ℚ) ^ L - 1 := by
    have h : n + 1 ≤ 2 ^ L := hn
    have h' : ((n + 1 : Nat) : ℚ) ≤ ((2 ^ L : Nat) : ℚ) := by exact_mod_cast h
    push_cast at h'
    linarith
  have hfrac0 : 0 ≤ (n : ℚ) / ((2 : ℚ) ^ L - 1) := div_nonneg (Nat.cast_nonneg n) hden.le
  have hfrac1 : (n : ℚ) / ((2 : ℚ) ^ L - 1) ≤ 1 := (div_le_one hden).mpr hnq
  have hw : 0 < maxValue - minValue := by linarith
  constructor
  · nlinarith
  · nlinarith

/-- C1: for a chromosome of length `L` with `1 ≤ L ≤ 63` and `minValue < maxValue`,
`decodeToValue` returns `minValue + (n / (2^L - 1)) * (maxValue - minValue)` in exact
arithmetic, `n` being the integer whose binary digits are the bits, first bit most
significant; on the range `[0, 15]` the chromosome `0000` decodes to 0, `1111` to 15 and
`1000` to 8. -/
theorem decodeToValue_formula (self : Individual) (minValue maxValue : ℚ)
    (hL1 : 1 ≤ self.chromosome.length) (hL2 : self.chromosome.length ≤ 63)
    (_hmm : minValue < maxValue) :
    self.decodeToValue minValue maxValue
        = .ok (minValue + ((bitsToNat self.chromosome : ℚ)
            / ((2 : ℚ) ^ self.chromosome.length - 1)) * (maxValue - minValue))
      ∧ (Individual.ofChromosome (chromosomeOfString "0000")).decodeToValue 0 15 = .ok 0
      ∧ (Individual.ofChromosome (chromosomeOfString "1111")).decodeToValue 0 15 = .ok 15
      ∧ (Individual.ofChromosome (chromosomeOfString "1000")).decodeToValue 0 15 = .ok 8 := by
  refine ⟨?_, ?_, ?_, ?_⟩
  · cases self with
    | mk bits f pct valid => exact decodeToValue_eq bits f pct valid minValue maxValue hL1 hL2
  · have e : chromosomeOfString "0000" = [false, false, false, false] := by decide
    rw [e, Individual.ofChromosome, decodeToValue_eq _ _ _ _ _ _ (by decide) (by decide)]
    norm_num [bitsToNat]
  · have e : chromosomeOfString "1111" = [true, true, true, true] := by decide
    rw [e, Individual.ofChromosome, decodeToValue_eq _ _ _ _ _ _ (by decide) (by decide)]
    norm_num [bitsToNat]
  · have e : chromosomeOfString "1000" = [true, false, false, false] := by decide
    rw [e, Individual.ofChromosome, decodeToValue_eq _ _ _ _ _ _ (by decide) (by decide)]
    norm_num [bitsToNat]

/-- Witness of C1: the formula applied to the chromosome `1010` on the range `[0, 15]`. -/
theorem decodeToValue_formula_witness :
    (1 ≤ (Individual.ofChromosome [true, false, true, false]).chromosome.length
      ∧ (Individual.ofChromosome [true, false, true, false]).chromosome.length ≤ 63
      ∧ (0 : ℚ) < 15)
    ∧ (Individual.ofChromosome [true, false, true, false]).decodeToValue 0 15
        = .ok (0 + ((bitsToNat [true, false, true, false] : ℚ) / ((2 : ℚ) ^ 4 - 1)) * (15 - 0)) :=
  ⟨⟨by decide, by decide, by norm_num⟩,
    (decodeToValue_formula (Individual.ofChromosome [true, false, true, false]) 0 15
      (by decide) (by decide) (by norm_num)).1⟩

/-- C2 as stated fails at `L = 64`: the shift `1ULL << 64` that computes `intMax` is
undefined, so neither the all-zero nor the all-one chromosome of length 64 decodes to a
value (here on the range `[0, 1]`). -/
theorem decodeToValue_length64_undefined :
    (1 ≤ 64 ∧ (0 : ℚ) < 1)
    ∧ (Individual.ofChromosome (List.replicate 64 false)).decodeToValue 0 1 ≠ .ok 0
    ∧ (Individual.ofChromosome (List.replicate 64 true)).decodeToValue 0 1 ≠ .ok 1
    ∧ (Individual.ofChromosome (List.replicate 64 false)).decodeToValue 0 1
        = .error .undefinedBehaviour := by
  have h0 : (Individual.ofChromosome (List.replicate 64 false)).decodeToValue 0 1
      = .error .undefinedBehaviour := by
    have hloop := decodeLoop_eq 64 (by decide) (List.replicate 64 false) 0 0 (by simp)
    simp only [Nat.mul_zero, Nat.zero_add] at hloop
    have hne : (List.replicate 64 false).isEmpty = false := by decide
    simp only [Individual.decodeToValue, Individual.ofChromosome, hne, Bool.false_eq_true,
      if_false, List.length_replicate, hloop, shl64, lt_irrefl]
  have h1 : (Individual.ofChromosome (List.replicate 64 true)).decodeToValue 0 1
      = .error .undefinedBehaviour := by
    have hloop := decodeLoop_eq 64 (by decide) (List.replicate 64 true) 0 0 (by simp)
    simp only [Nat.mul_zero, Nat.zero_add] at hloop
    have hne : (List.replicate 64 true).isEmpty = false := by decide
    simp only [Individual.decodeToValue, Individual.ofChromosome, hne, Bool.false_eq_true,
      if_false, List.length_replicate, hloop, shl64, lt_irrefl]
  refine ⟨⟨by decide, by norm_num⟩, ?_, ?_, h0⟩
  · rw [h0]; exact fun h => by cases h
  · rw [h1]; exact fun h => by cases h

/-- C2 (amended): for every length `L` with `1 ≤ L ≤ 63` and `minValue < maxValue`, in exact
arithmetic the all-zero chromosome of length `L` decodes to `minValue` and the all-one
chromosome of length `L` decodes to `maxValue`, whatever the cached fitness fields are. -/
theorem decodeToValue_extremes (L : Nat) (f pct : ℚ) (valid : Bool) (minValue maxValue : ℚ)
    (hL1 : 1 ≤ L) (hL2 : L ≤ 63) (_hmm : minValue < maxValue) :
    Individual.decodeToValue ⟨List.replicate L false, f, pct, valid⟩ minValue maxValue
        = .ok minValue
      ∧ Individual.decodeToValue ⟨List.replicate L true, f, pct, valid⟩ minValue maxValue
        = .ok maxValue := by
  constructor
  · rw [decodeToValue_eq _ _ _ _ _ _ (by simpa using hL1) (by simpa using hL2),
      bitsToNat_replicate_false]
    simp
  · rw [decodeToValue_eq _ _ _ _ _ _ (by simpa using hL1) (by simpa using hL2)]
    have hn : (bitsToNat (List.replicate L true) : ℚ) = (2 : ℚ) ^ L - 1 := by
      have h := bitsToNat_replicate_true L
      have h' : ((bitsToNat (List.replicate L true) + 1 : Nat) : ℚ) = ((2 ^ L : Nat) : ℚ) := by
        exact_mod_cast h
      push_cast at h'
      linarith
    have hpow : (2 : ℚ) ≤ (2 : ℚ) ^ L := by
      calc (2 : ℚ) = 2 ^ 1 := by norm_num
        _ ≤ 2 ^ L := pow_le_pow_right₀ (by norm_num) hL1
    have hden : ((2 : ℚ) ^ L - 1) ≠ 0 := by
      have : (0 : ℚ) < (2 : ℚ) ^ L - 1 := by linarith
      exact ne_of_gt this
    rw [List.length_replicate, hn, div_self hden]
    simp

/-- Witness of C2 (amended): length 63, the largest admitted, on the range `[-10, 10]`. -/
theorem decodeToValue_extremes_witness :
    (1 ≤ 63 ∧ 63 ≤ 63 ∧ (-10 : ℚ) < 10)
    ∧ Individual.decodeToValue ⟨List.replicate 63 false, 0, 0, false⟩ (-10) 10 = .ok (-10)
    ∧ Individual.decodeToValue ⟨List.replicate 63 true, 0, 0, false⟩ (-10) 10 = .ok 10 :=
  ⟨⟨by decide, by decide, by norm_num⟩,
    decodeToValue_extremes 63 0 0 false (-10) 10 (by decide) (by decide) (by norm_num)⟩

set_option maxRecDepth 100000 in
theorem fullChromosome_decodeToValueDouble :
    (⟨almostFullChromosome, 0, 0, false⟩ : Individual).decodeToValueDouble 0 1 = .ok 1
      ∧ (⟨fullChromosome, 0, 0, false⟩ : Individual).decodeToValueDouble 0 1 = .ok 1
      ∧ bitsToNat almostFullChromosome = 9223372036854775806
      ∧ bitsToNat fullChromosome = 9223372036854775807 := by
  refine ⟨?_, ?_, ?_, ?_⟩ <;> with_unfolding_all rfl

set_option maxRecDepth 100000 in
theorem roundDouble_fifth : roundDouble (1 / 5) = 3602879701896397 / 18014398509481984 := by
  with_unfolding_all rfl

set_option maxRecDepth 100000 in
theorem oneBit_decodeToValueDouble :
    (⟨[true], 0, 0, false⟩ : Individual).decodeToValueDouble
        (-roundDouble (1 / 10)) (roundDouble (1 / 5))
      = .ok (7205759403792795 / 36028797018963968) := by
  with_unfolding_all rfl

/-- C3 as stated fails in `double` arithmetic. On the range `[0, 1]` the chromosomes of 63
bits that encode `2 ^ 63 - 2` and `2 ^ 63 - 1` both decode to `1.0`, because both integers
and `maxBinaryValue` convert to the `double` `2 ^ 63`: the decoded values are not strictly
ordered. On the range `[-0.1, 0.2]` the chromosome `1` decodes to `0.20000000000000004`,
above `maxValue`, because the width `0.2 - (-0.1)` rounds up. -/
theorem decodeToValueDouble_not_monotone :
    ((almostFullChromosome.length = 63 ∧ fullChromosome.length = 63 ∧ (0 : ℚ) < 1)
      ∧ bitsToNat almostFullChromosome < bitsToNat fullChromosome
      ∧ ∃ va vb,
          (⟨almostFullChromosome, 0, 0, false⟩ : Individual).decodeToValueDouble 0 1 = .ok va
          ∧ (⟨fullChromosome, 0, 0, false⟩ : Individual).decodeToValueDouble 0 1 = .ok vb
          ∧ ¬ va < vb)
    ∧ (-roundDouble (1 / 10) < roundDouble (1 / 5)
      ∧ ∃ v, (⟨[true], 0, 0, false⟩ : Individual).decodeToValueDouble
            (-roundDouble (1 / 10)) (roundDouble (1 / 5)) = .ok v
          ∧ roundDouble (1 / 5) < v) := by
  obtain ⟨h1, h2, h3, h4⟩ := fullChromosome_decodeToValueDouble
  refine ⟨⟨⟨by rfl, by rfl, by norm_num⟩, ?_, 1, 1, h1, h2, lt_irrefl _⟩, ?_, _,
    oneBit_decodeToValueDouble, ?_⟩
  · rw [h3, h4]
    decide
  · rw [roundDouble_tenth, roundDouble_fifth]
    norm_num
  · rw [roundDouble_fifth]
    norm_num

/-- C3 (amended): in exact arithmetic, for two chromosomes of the same length `L`,
`1 ≤ L ≤ 63`, and `minValue < maxValue`, both decode to a value; the values are ordered like
the encoded integers (strictly when the integers differ) and both lie in the closed interval
`[minValue, maxValue]`. -/
theorem decodeToValue_monotone (a b : Individual) (minValue maxValue : ℚ)
    (hlen : a.chromosome.length = b.chromosome.length)
    (hL1 : 1 ≤ a.chromosome.length) (hL2 : a.chromosome.length ≤ 63)
    (hmm : minValue < maxValue) :
    ∃ va vb, a.decodeToValue minValue maxValue = .ok va
      ∧ b.decodeToValue minValue maxValue = .ok vb
      ∧ (bitsToNat a.chromosome ≤ bitsToNat b.chromosome → va ≤ vb)
      ∧ (bitsToNat a.chromosome < bitsToNat b.chromosome → va < vb)
      ∧ (minValue ≤ va ∧ va ≤ maxValue) ∧ (minValue ≤ vb ∧ vb ≤ maxValue) := by
  obtain ⟨ca, fa, pa, ka⟩ := a
  obtain ⟨cb, fb, pb, kb⟩ := b
  simp only at hlen hL1 hL2 ⊢
  have hpow : (2 : ℚ) ≤ (2 : ℚ) ^ ca.length := by
    calc (2 : ℚ) = 2 ^ 1 := by norm_num
      _ ≤ 2 ^ ca.length := pow_le_pow_right₀ (by norm_num) hL1
  have hden : (0 : ℚ) < (2 : ℚ) ^ ca.length - 1 := by linarith
  have hw : 0 < maxValue - minValue := by linarith
  refine ⟨_, _, decodeToValue_eq ca fa pa ka minValue maxValue hL1 hL2,
    decodeToValue_eq cb fb pb kb minValue maxValue (hlen ▸ hL1) (hlen ▸ hL2), ?_, ?_,
    decodeToValue_mem_range _ _ _ _ hL1 (bitsToNat_lt ca) hmm,
    decodeToValue_mem_range _ _ _ _ (hlen ▸ hL1) (bitsToNat_lt cb) hmm⟩
  · intro h
    rw [← hlen]
    have hq : (bitsToNat ca : ℚ) ≤ (bitsToNat cb : ℚ) := by exact_mod_cast h
    have := mul_le_mul_of_nonneg_right ((div_le_div_iff_of_pos_right hden).mpr hq) hw.le
    linarith
  · intro h
    rw [← hlen]
    have hq : (bitsToNat ca : ℚ) < (bitsToNat cb : ℚ) := by exact_mod_cast h
    have := mul_lt_mul_of_pos_right ((div_lt_div_iff_of_pos_right hden).mpr hq) hw
    linarith

/-- Witness of C3 (amended): the chromosomes `0111` and `1000` on the range `[0, 15]`. -/
theorem decodeToValue_monotone_witness :
    ∃ va vb, (Individual.ofChromosome [false, true, true, true]).decodeToValue 0 15 = .ok va
      ∧ (Individual.ofChromosome [true, false, false, false]).decodeToValue 0 15 = .ok vb
      ∧ (bitsToNat [false, true, true, true] ≤ bitsToNat [true, false, false, false] → va ≤ vb)
      ∧ (bitsToNat [false, true, true, true] < bitsToNat [true, false, false, false] → va < vb)
      ∧ ((0 : ℚ) ≤ va ∧ va ≤ 15) ∧ ((0 : ℚ) ≤ vb ∧ vb ≤ 15) :=
  decodeToValue_monotone (Individual.ofChromosome [false, true, true, true])
    (Individual.ofChromosome [true, false, false, false]) 0 15 (by decide) (by decide)
    (by decide) (by norm_num)

/-! ### Crossover -/


theorem readBit_of_lt (v : Chromosome) (i : Nat) (h : i < v.length) :
    readBit v i = .ok (v.get ⟨i, h⟩) := by
  simp [readBit, List.getElem?_eq_getElem h]

theorem writeBit_of_lt (v : Chromosome) (i : Nat) (b : Bool) (h : i < v.length) :
    writeBit v i b = .ok (v.set i b) := by
  simp [writeBit, h]

theorem swapLoop_spec (a b : Chromosome) (hb : b.length = a.length) (n : Nat) :
    ∀ (i : Nat) (o1 o2 : Chromosome), o1.length = a.length → o2.length = a.length →
      i + n ≤ a.length →
      ∃ r1 r2, swapLoop a b n i o1 o2 = .ok (r1, r2)
        ∧ r1.length = a.length ∧ r2.length = a.length
        ∧ ∀ j, r1[j]? = (if i ≤ j ∧ j < i + n then b[j]? else o1[j]?)
            ∧ r2[j]? = (if i ≤ j ∧ j < i + n then a[j]? else o2[j]?) := by
  induction n with
  | zero =>
    intro i o1 o2 h1 h2 _
    refine ⟨o1, o2, rfl, h1, h2, fun j => ?_⟩
    have hn : ¬ (i ≤ j ∧ j < i + 0) := by omega
    rw [if_neg hn, if_neg hn]
    exact ⟨rfl, rfl⟩
  | succ n ih =>
    intro i o1 o2 h1 h2 hi
    have hia : i < a.length := by omega
    have hib : i < b.length := by omega
    obtain ⟨r1, r2, hr, hl1, hl2, hj⟩ :=
      ih (i + 1) (o1.set i (b.get ⟨i, hib⟩)) (o2.set i (a.get ⟨i, hia⟩))
        (by simpa using h1) (by simpa using h2) (by omega)
    refine ⟨r1, r2, ?_, hl1, hl2, fun j => ?_⟩
    · simp only [swapLoop, readBit_of_lt b i hib, readBit_of_lt a i hia,
        writeBit_of_lt o1 i _ (h1 ▸ hia), writeBit_of_lt o2 i _ (h2 ▸ hia)]
      exact hr
    · obtain ⟨e1, e2⟩ := hj j
      rw [e1, e2]
      by_cases hij : i = j
      · subst hij
        have c1 : ¬ (i + 1 ≤ i ∧ i < i + 1 + n) := by omega
        have c2 : i ≤ i ∧ i < i + (n + 1) := by omega
        simp only [c1, c2, if_false, if_true, and_self]
        rw [List.getElem?_set_eq_of_lt _ (h1 ▸ hia), List.getElem?_set_eq_of_lt _ (h2 ▸ hia),
          List.getElem?_eq_getElem hib, List.getElem?_eq_getElem hia]
        exact ⟨rfl, rfl⟩
      · rw [List.getElem?_set_ne hij, List.getElem?_set_ne hij]
        by_cases hc : i + 1 ≤ j ∧ j < i + 1 + n
        · have hc2 : i ≤ j ∧ j < i + (n + 1) := by omega
          simp [hc, hc2]
        · have hc2 : ¬ (i ≤ j ∧ j < i + (n + 1)) := by omega
          simp [hc, hc2]

theorem uniformLoop_spec (a b m : Chromosome) (hb : b.length = a.length)
    (hm : m.length = a.length) (n : Nat) :
    ∀ (i : Nat) (o1 o2 : Chromosome), o1.length = a.length → o2.length = a.length →
      i + n ≤ a.length →
      ∃ r1 r2, uniformLoop a b m n i o1 o2 = .ok (r1, r2)
        ∧ r1.length = a.length ∧ r2.length = a.length
        ∧ ∀ j, r1[j]? = (if i ≤ j ∧ j < i + n then
                (if m[j]? = some true then a[j]? else b[j]?) else o1[j]?)
            ∧ r2[j]? = (if i ≤ j ∧ j < i + n then
                (if m[j]? = some true then b[j]? else a[j]?) else o2[j]?) := by
  induction n with
  | zero =>
    intro i o1 o2 h1 h2 _
    refine ⟨o1, o2, rfl, h1, h2, fun j => ?_⟩
    have hn : ¬ (i ≤ j ∧ j < i + 0) := by omega
    rw [if_neg hn, if_neg hn]
    exact ⟨rfl, rfl⟩
  | succ n ih =>
    intro i o1 o2 h1 h2 hi
    have hia : i < a.length := by omega
    have hib : i < b.length := by omega
    have him : i < m.length := by omega
    cases hmi : m.get ⟨i, him⟩ with
    | true =>
      obtain ⟨r1, r2, hr, hl1, hl2, hj⟩ :=
        ih (i + 1) (o1.set i (a.get ⟨i, hia⟩)) (o2.set i (b.get ⟨i, hib⟩))
          (by simpa using h1) (by simpa using h2) (by omega)
      refine ⟨r1, r2, ?_, hl1, hl2, fun j => ?_⟩
      · simp only [uniformLoop, readBit_of_lt b i hib, readBit_of_lt a i hia,
          readBit_of_lt m i him, hmi,
          writeBit_of_lt o1 i _ (h1 ▸ hia), writeBit_of_lt o2 i _ (h2 ▸ hia)]
        exact hr
      · obtain ⟨e1, e2⟩ := hj j
        rw [e1, e2]
        by_cases hij : i = j
        · subst hij
          have c1 : ¬ (i + 1 ≤ i ∧ i < i + 1 + n) := by omega
          have c2 : i ≤ i ∧ i < i + (n + 1) := by omega
          have hm' : m[i]? = some true := by
            rw [List.getElem?_eq_getElem him]; exact congrArg some hmi
          simp only [c1, c2, if_false, if_true, and_self, hm']
          rw [List.getElem?_set_eq_of_lt _ (h1 ▸ hia), List.getElem?_set_eq_of_lt _ (h2 ▸ hia),
            List.getElem?_eq_getElem hib, List.getElem?_eq_getElem hia]
          exact ⟨rfl, rfl⟩
        · rw [List.getElem?_set_ne hij, List.getElem?_set_ne hij]
          by_cases hc : i + 1 ≤ j ∧ j < i + 1 + n
          · have hc2 : i ≤ j ∧ j < i + (n + 1) := by omega
            simp [hc, hc2]
          · have hc2 : ¬ (i ≤ j ∧ j < i + (n + 1)) := by omega
            simp [hc, hc2]
    | false =>
      obtain ⟨r1, r2, hr, hl1, hl2, hj⟩ :=
        ih (i + 1) (o1.set i (b.get ⟨i, hib⟩)) (o2.set i (a.get ⟨i, hia⟩))
          (by simpa using h1) (by simpa using h2) (by omega)
      refine ⟨r1, r2, ?_, hl1, hl2, fun j => ?_⟩
      · simp only [uniformLoop, readBit_of_lt b i hib, readBit_of_lt a i hia,
          readBit_of_lt m i him, hmi,
          writeBit_of_lt o1 i _ (h1 ▸ hia), writeBit_of_lt o2 i _ (h2 ▸ hia)]
        exact hr
      · obtain ⟨e1, e2⟩ := hj j
        rw [e1, e2]
        by_cases hij : i = j
        · subst hij
          have c1 : ¬ (i + 1 ≤ i ∧ i < i + 1 + n) := by omega
          have c2 : i ≤ i ∧ i < i + (n + 1) := by omega
          have hm' : m[i]? = some false := by
            rw [List.getElem?_eq_getElem him]; exact congrArg some hmi
          simp only [c1, c2, if_false, if_true, and_self, hm']
          rw [List.getElem?_set_eq_of_lt _ (h1 ▸ hia), List.getElem?_set_eq_of_lt _ (h2 ▸ hia),
            List.getElem?_eq_getElem hib, List.getElem?_eq_getElem hia]
          simp
        · rw [List.getElem?_set_ne hij, List.getElem?_set_ne hij]
          by_cases hc : i + 1 ≤ j ∧ j < i + 1 + n
          · have hc2 : i ≤ j ∧ j < i + (n + 1) := by omega
            simp [hc, hc2]
          · have hc2 : ¬ (i ≤ j ∧ j < i + (n + 1)) := by omega
            simp [hc, hc2]

theorem singlePointCrossover_reject (p1 p2 : Individual) (c : Int)
    (h : c < 0 ∨ c ≥ (p1.chromosome.length : Int)) :
    p1.singlePointCrossover p2 c
      = .error (.invalidArgument "Crossover point is out of bounds") := by
  simp only [Individual.singlePointCrossover, h, if_true]

theorem singlePointCrossover_spec (p1 p2 : Individual) (c : Int)
    (hlen : p2.chromosome.length = p1.chromosome.length)
    (h0 : 0 ≤ c) (hc : c < (p1.chromosome.length : Int)) :
    ∃ r1 r2, p1.singlePointCrossover p2 c
        = .ok (Individual.ofChromosome r1, Individual.ofChromosome r2)
      ∧ r1.length = p1.chromosome.length ∧ r2.length = p1.chromosome.length
      ∧ ∀ j : Nat, j < p1.chromosome.length →
          (r1[j]? = if (j : Int) < c then p1.chromosome[j]? else p2.chromosome[j]?)
          ∧ (r2[j]? = if (j : Int) < c then p2.chromosome[j]? else p1.chromosome[j]?) := by
  have hguard : ¬ (c < 0 ∨ c ≥ (p1.chromosome.length : Int)) := by omega
  obtain ⟨r1, r2, hr, hl1, hl2, hj⟩ :=
    swapLoop_spec p1.chromosome p2.chromosome hlen (p1.chromosome.length - c.toNat) c.toNat
      p1.chromosome p2.chromosome rfl hlen (by omega)
  refine ⟨r1, r2, ?_, hl1, hl2, fun j hjL => ?_⟩
  · simp only [Individual.singlePointCrossover, hguard, if_false, hr, bind, Except.bind]
  · obtain ⟨e1, e2⟩ := hj j
    rw [e1, e2]
    by_cases hjc : (j : Int) < c
    · have hn : ¬ (c.toNat ≤ j ∧ j < c.toNat + (p1.chromosome.length - c.toNat)) := by omega
      rw [if_neg hn, if_neg hn, if_pos hjc, if_pos hjc]
      exact ⟨rfl, rfl⟩
    · have hn : c.toNat ≤ j ∧ j < c.toNat + (p1.chromosome.length - c.toNat) := by omega
      rw [if_pos hn, if_pos hn, if_neg hjc, if_neg hjc]
      exact ⟨rfl, rfl⟩

theorem twoPointCrossover_reject (p1 p2 : Individual) (point1 point2 : Int)
    (h : point1 < 0 ∨ point2 ≥ (p1.chromosome.length : Int) ∨ point1 ≥ point2) :
    p1.twoPointCrossover p2 point1 point2
      = .error (.invalidArgument "Invalid crossover points") := by
  simp only [Individual.twoPointCrossover, h, if_true]

theorem twoPointCrossover_spec (p1 p2 : Individual) (point1 point2 : Int)
    (hlen : p2.chromosome.length = p1.chromosome.length)
    (h0 : 0 ≤ point1) (h12 : point1 < point2) (hL : point2 < (p1.chromosome.length : Int)) :
    ∃ r1 r2, p1.twoPointCrossover p2 point1 point2
        = .ok (Individual.ofChromosome r1, Individual.ofChromosome r2)
      ∧ r1.length = p1.chromosome.length ∧ r2.length = p1.chromosome.length
      ∧ ∀ j : Nat, j < p1.chromosome.length →
          (r1[j]? = if point1 ≤ (j : Int) ∧ (j : Int) ≤ point2
              then p2.chromosome[j]? else p1.chromosome[j]?)
          ∧ (r2[j]? = if point1 ≤ (j : Int) ∧ (j : Int) ≤ point2
              then p1.chromosome[j]? else p2.chromosome[j]?) := by
  have hguard : ¬ (point1 < 0 ∨ point2 ≥ (p1.chromosome.length : Int) ∨ point1 ≥ point2) := by
    omega
  obtain ⟨r1, r2, hr, hl1, hl2, hj⟩ :=
    swapLoop_spec p1.chromosome p2.chromosome hlen (point2 - point1 + 1).toNat point1.toNat
      p1.chromosome p2.chromosome rfl hlen (by omega)
  refine ⟨r1, r2, ?_, hl1, hl2, fun j hjL => ?_⟩
  · simp only [Individual.twoPointCrossover, hguard, if_false, hr, bind, Except.bind]
  · obtain ⟨e1, e2⟩ := hj j
    rw [e1, e2]
    by_cases hjc : point1 ≤ (j : Int) ∧ (j : Int) ≤ point2
    · have hn : point1.toNat ≤ j ∧ j < point1.toNat + (point2 - point1 + 1).toNat := by omega
      rw [if_pos hn, if_pos hn, if_pos hjc, if_pos hjc]
      exact ⟨rfl, rfl⟩
    · have hn : ¬ (point1.toNat ≤ j ∧ j < point1.toNat + (point2 - point1 + 1).toNat) := by
        omega
      rw [if_neg hn, if_neg hn, if_neg hjc, if_neg hjc]
      exact ⟨rfl, rfl⟩

theorem uniformCrossover_reject (p1 p2 : Individual) (mask : Chromosome)
    (h : mask.length ≠ p1.chromosome.length ∨ mask.length ≠ p2.chromosome.length) :
    p1.uniformCrossover p2 mask
      = .error (.invalidArgument "Mask size does not match chromosome size") := by
  simp only [Individual.uniformCrossover, h, if_true]

theorem uniformCrossover_spec (p1 p2 : Individual) (mask : Chromosome)
    (hlen : p2.chromosome.length = p1.chromosome.length)
    (hmask : mask.length = p1.chromosome.length) :
    ∃ r1 r2, p1.uniformCrossover p2 mask
        = .ok (Individual.ofChromosome r1, Individual.ofChromosome r2)
      ∧ r1.length = p1.chromosome.length ∧ r2.length = p1.chromosome.length
      ∧ ∀ j : Nat, j < p1.chromosome.length →
          (r1[j]? = if mask[j]? = some true then p1.chromosome[j]? else p2.chromosome[j]?)
          ∧ (r2[j]? = if mask[j]? = some true then p2.chromosome[j]? else p1.chromosome[j]?) := by
  have hguard : ¬ (mask.length ≠ p1.chromosome.length ∨ mask.length ≠ p2.chromosome.length) := by
    omega
  obtain ⟨r1, r2, hr, hl1, hl2, hj⟩ :=
    uniformLoop_spec p1.chromosome p2.chromosome mask hlen hmask p1.chromosome.length 0
      (List.replicate p1.chromosome.length false) (List.replicate p1.chromosome.length false)
      (by simp) (by simp) (by omega)
  refine ⟨r1, r2, ?_, hl1, hl2, fun j hjL => ?_⟩
  · simp only [Individual.uniformCrossover, hguard, if_false, hr, bind, Except.bind]
  · obtain ⟨e1, e2⟩ := hj j
    rw [e1, e2]
    have hn : 0 ≤ j ∧ j < 0 + p1.chromosome.length := by omega
    rw [if_pos hn, if_pos hn]
    exact ⟨rfl, rfl⟩

theorem chromosomeOfString_1100 : chromosomeOfString "1100" = [true, true, false, false] := by
  decide

theorem chromosomeOfString_0011 : chromosomeOfString "0011" = [false, false, true, true] := by
  decide

theorem chromosomeOfString_1111 : chromosomeOfString "1111" = [true, true, true, true] := by
  decide

theorem chromosomeOfString_0000 : chromosomeOfString "0000" = [false, false, false, false] := by
  decide

/-- C4: for parents of equal length `L` and a cut point `0 ≤ c < L`, `singlePointCrossover`
returns two children of length `L`; child 1 has parent 1's bits before `c` and parent 2's
bits from `c` on, child 2 the opposite. Parents `1100` and `0011` cut at 2 give `1111` and
`0000`. -/
theorem singlePointCrossover_children (parent1 parent2 : Individual) (c : Int)
    (hlen : parent1.chromosome.length = parent2.chromosome.length)
    (h0 : 0 ≤ c) (hc : c < (parent1.chromosome.length : Int)) :
    (∃ child1 child2, parent1.singlePointCrossover parent2 c = .ok (child1, child2)
      ∧ child1.chromosome.length = parent1.chromosome.length
      ∧ child2.chromosome.length = parent1.chromosome.length
      ∧ ∀ i : Nat, i < parent1.chromosome.length →
          (child1.chromosome[i]?
              = if (i : Int) < c then parent1.chromosome[i]? else parent2.chromosome[i]?)
          ∧ (child2.chromosome[i]?
              = if (i : Int) < c then parent2.chromosome[i]? else parent1.chromosome[i]?))
    ∧ (Individual.ofChromosome (chromosomeOfString "1100")).singlePointCrossover
          (Individual.ofChromosome (chromosomeOfString "0011")) 2
        = .ok (Individual.ofChromosome (chromosomeOfString "1111"),
            Individual.ofChromosome (chromosomeOfString "0000")) := by
  constructor
  · obtain ⟨r1, r2, hr, hl1, hl2, hj⟩ :=
      singlePointCrossover_spec parent1 parent2 c hlen.symm h0 hc
    exact ⟨_, _, hr, hl1, hl2, hj⟩
  · rw [chromosomeOfString_1100, chromosomeOfString_0011, chromosomeOfString_1111,
      chromosomeOfString_0000]
    rfl

/-- Witness of C4: parents `10110` and `01001` cut at 3. -/
theorem singlePointCrossover_children_witness :
    ∃ child1 child2,
      (Individual.ofChromosome [true, false, true, true, false]).singlePointCrossover
          (Individual.ofChromosome [false, true, false, false, true]) 3 = .ok (child1, child2)
      ∧ child1.chromosome.length = 5 ∧ child2.chromosome.length = 5
      ∧ ∀ i : Nat, i < 5 →
          (child1.chromosome[i]? = if (i : Int) < 3 then [true, false, true, true, false][i]?
              else [false, true, false, false, true][i]?)
          ∧ (child2.chromosome[i]? = if (i : Int) < 3 then [false, true, false, false, true][i]?
              else [true, false, true, true, false][i]?) :=
  (singlePointCrossover_children (Individual.ofChromosome [true, false, true, true, false])
    (Individual.ofChromosome [false, true, false, false, true]) 3
    (by decide) (by decide) (by decide)).1

/-- C5: for parents of equal length `L` and points `0 ≤ p1 < p2 < L`, `twoPointCrossover`
returns two children of length `L` in which exactly the closed interval `[p1, p2]` is
swapped between the parents. -/
theorem twoPointCrossover_children (parent1 parent2 : Individual) (p1 p2 : Int)
    (hlen : parent1.chromosome.length = parent2.chromosome.length)
    (h0 : 0 ≤ p1) (h12 : p1 < p2) (hL : p2 < (parent1.chromosome.length : Int)) :
    ∃ child1 child2, parent1.twoPointCrossover parent2 p1 p2 = .ok (child1, child2)
      ∧ child1.chromosome.length = parent1.chromosome.length
      ∧ child2.chromosome.length = parent1.chromosome.length
      ∧ ∀ i : Nat, i < parent1.chromosome.length →
          (child1.chromosome[i]? = if p1 ≤ (i : Int) ∧ (i : Int) ≤ p2
              then parent2.chromosome[i]? else parent1.chromosome[i]?)
          ∧ (child2.chromosome[i]? = if p1 ≤ (i : Int) ∧ (i : Int) ≤ p2
              then parent1.chromosome[i]? else parent2.chromosome[i]?) := by
  obtain ⟨r1, r2, hr, hl1, hl2, hj⟩ :=
    twoPointCrossover_spec parent1 parent2 p1 p2 hlen.symm h0 h12 hL
  exact ⟨_, _, hr, hl1, hl2, hj⟩

/-- Witness of C5: parents `11000` and `00111` with points 1 and 3. -/
theorem twoPointCrossover_children_witness :
    ∃ child1 child2,
      (Individual.ofChromosome [true, true, false, false, false]).twoPointCrossover
          (Individual.ofChromosome [false, false, true, true, true]) 1 3 = .ok (child1, child2)
      ∧ child1.chromosome.length = 5 ∧ child2.chromosome.length = 5
      ∧ ∀ i : Nat, i < 5 →
          (child1.chromosome[i]? = if (1 : Int) ≤ (i : Int) ∧ (i : Int) ≤ 3
              then [false, false, true, true, true][i]? else [true, true, false, false, false][i]?)
          ∧ (child2.chromosome[i]? = if (1 : Int) ≤ (i : Int) ∧ (i : Int) ≤ 3
              then [true, true, false, false, false][i]? else [false, false, true, true, true][i]?) :=
  twoPointCrossover_children (Individual.ofChromosome [true, true, false, false, false])
    (Individual.ofChromosome [false, false, true, true, true]) 1 3
    (by decide) (by decide) (by decide) (by decide)

/-- C6: for parents of equal length `L` and a mask of length `L`, `uniformCrossover` returns
two children of length `L`; at every position child 1 has parent 1's bit where the mask is
true and parent 2's bit otherwise, and child 2 has the complementary choice. -/
theorem uniformCrossover_children (parent1 parent2 : Individual) (mask : Chromosome)
    (hlen : parent1.chromosome.length = parent2.chromosome.length)
    (hmask : mask.length = parent1.chromosome.length) :
    ∃ child1 child2, parent1.uniformCrossover parent2 mask = .ok (child1, child2)
      ∧ child1.chromosome.length = parent1.chromosome.length
      ∧ child2.chromosome.length = parent1.chromosome.length
      ∧ ∀ i : Nat, i < parent1.chromosome.length →
          (child1.chromosome[i]? = if mask[i]? = some true
              then parent1.chromosome[i]? else parent2.chromosome[i]?)
          ∧ (child2.chromosome[i]? = if mask[i]? = some true
              then parent2.chromosome[i]? else parent1.chromosome[i]?) := by
  obtain ⟨r1, r2, hr, hl1, hl2, hj⟩ :=
    uniformCrossover_spec parent1 parent2 mask hlen.symm hmask
  exact ⟨_, _, hr, hl1, hl2, hj⟩

/-- Witness of C6: parents `1100` and `0011` with mask `1010`. -/
theorem uniformCrossover_children_witness :
    ∃ child1 child2,
      (Individual.ofChromosome [true, true, false, false]).uniformCrossover
          (Individual.ofChromosome [false, false, true, true]) [true, false, true, false]
        = .ok (child1, child2)
      ∧ child1.chromosome.length = 4 ∧ child2.chromosome.length = 4
      ∧ ∀ i : Nat, i < 4 →
          (child1.chromosome[i]? = if [true, false, true, false][i]? = some true
              then [true, true, false, false][i]? else [false, false, true, true][i]?)
          ∧ (child2.chromosome[i]? = if [true, false, true, false][i]? = some true
              then [false, false, true, true][i]? else [true, true, false, false][i]?) :=
  uniformCrossover_children (Individual.ofChromosome [true, true, false, false])
    (Individual.ofChromosome [false, false, true, true]) [true, false, true, false]
    (by decide) (by decide)

theorem exactPartition_of_swap (a b r1 r2 : Chromosome) (P : Nat → Prop)
    [DecidablePred P] (hl1 : r1.length = a.length) (hl2 : r2.length = a.length)
    (hj : ∀ j : Nat, j < a.length →
      (r1[j]? = if P j then a[j]? else b[j]?) ∧ (r2[j]? = if P j then b[j]? else a[j]?)) :
    ExactPartition a b r1 r2 := by
  refine ⟨hl1, hl2, fun i hi => ?_⟩
  obtain ⟨e1, e2⟩ := hj i hi
  by_cases hp : P i
  · left
    rw [e1, e2, if_pos hp, if_pos hp]
    exact ⟨rfl, rfl⟩
  · right
    rw [e1, e2, if_neg hp, if_neg hp]
    exact ⟨rfl, rfl⟩

theorem exactPartition_of_swap_inside (a b r1 r2 : Chromosome) (P : Nat → Prop)
    [DecidablePred P] (hl1 : r1.length = a.length) (hl2 : r2.length = a.length)
    (hj : ∀ j : Nat, j < a.length →
      (r1[j]? = if P j then b[j]? else a[j]?) ∧ (r2[j]? = if P j then a[j]? else b[j]?)) :
    ExactPartition a b r1 r2 := by
  refine ⟨hl1, hl2, fun i hi => ?_⟩
  obtain ⟨e1, e2⟩ := hj i hi
  by_cases hp : P i
  · right
    rw [e1, e2, if_pos hp, if_pos hp]
    exact ⟨rfl, rfl⟩
  · left
    rw [e1, e2, if_neg hp, if_neg hp]
    exact ⟨rfl, rfl⟩

/-- C7: for parents of equal length `L`, each crossover operator either rejects its argument
(exactly the arguments excluded by its guard) or returns two children of length `L` such
that at every position the pair of child bits is the pair of parent bits, in the same order
or swapped: every bit of each child comes from one parent and the other child takes the other
parent's bit, so no bit is invented or dropped. -/
theorem crossover_exactPartition (parent1 parent2 : Individual)
    (hlen : parent1.chromosome.length = parent2.chromosome.length) :
    (∀ c : Int,
      ((c < 0 ∨ c ≥ (parent1.chromosome.length : Int))
          ∧ ∃ msg, parent1.singlePointCrossover parent2 c = .error (.invalidArgument msg))
        ∨ ∃ child1 child2, parent1.singlePointCrossover parent2 c = .ok (child1, child2)
            ∧ ExactPartition parent1.chromosome parent2.chromosome
                child1.chromosome child2.chromosome)
    ∧ (∀ p1 p2 : Int,
      ((p1 < 0 ∨ p2 ≥ (parent1.chromosome.length : Int) ∨ p1 ≥ p2)
          ∧ ∃ msg, parent1.twoPointCrossover parent2 p1 p2 = .error (.invalidArgument msg))
        ∨ ∃ child1 child2, parent1.twoPointCrossover parent2 p1 p2 = .ok (child1, child2)
            ∧ ExactPartition parent1.chromosome parent2.chromosome
                child1.chromosome child2.chromosome)
    ∧ (∀ mask : Chromosome,
      (mask.length ≠ parent1.chromosome.length
          ∧ ∃ msg, parent1.uniformCrossover parent2 mask = .error (.invalidArgument msg))
        ∨ ∃ child1 child2, parent1.uniformCrossover parent2 mask = .ok (child1, child2)
            ∧ ExactPartition parent1.chromosome parent2.chromosome
                child1.chromosome child2.chromosome) := by
  refine ⟨fun c => ?_, fun p1 p2 => ?_, fun mask => ?_⟩
  · by_cases hg : c < 0 ∨ c ≥ (parent1.chromosome.length : Int)
    · exact Or.inl ⟨hg, _, singlePointCrossover_reject parent1 parent2 c hg⟩
    · right
      obtain ⟨r1, r2, hr, hl1, hl2, hj⟩ :=
        singlePointCrossover_spec parent1 parent2 c hlen.symm (by omega) (by omega)
      exact ⟨_, _, hr, exactPartition_of_swap _ _ r1 r2 (fun j => (j : Int) < c) hl1 hl2 hj⟩
  · by_cases hg : p1 < 0 ∨ p2 ≥ (parent1.chromosome.length : Int) ∨ p1 ≥ p2
    · exact Or.inl ⟨hg, _, twoPointCrossover_reject parent1 parent2 p1 p2 hg⟩
    · right
      obtain ⟨r1, r2, hr, hl1, hl2, hj⟩ :=
        twoPointCrossover_spec parent1 parent2 p1 p2 hlen.symm (by omega) (by omega) (by omega)
      exact ⟨_, _, hr, exactPartition_of_swap_inside _ _ r1 r2
        (fun j => p1 ≤ (j : Int) ∧ (j : Int) ≤ p2) hl1 hl2 hj⟩
  · by_cases hg : mask.length ≠ parent1.chromosome.length
    · exact Or.inl ⟨hg, _, uniformCrossover_reject parent1 parent2 mask (Or.inl hg)⟩
    · right
      obtain ⟨r1, r2, hr, hl1, hl2, hj⟩ :=
        uniformCrossover_spec parent1 parent2 mask hlen.symm (by omega)
      exact ⟨_, _, hr, exactPartition_of_swap _ _ r1 r2 (fun j => mask[j]? = some true)
        hl1 hl2 hj⟩

/-- Witness of C7: parents `1100` and `0011`; the cut point 2 is accepted and the children
partition the parents' bits. -/
theorem crossover_exactPartition_witness :
    ∃ child1 child2,
      (Individual.ofChromosome [true, true, false, false]).singlePointCrossover
          (Individual.ofChromosome [false, false, true, true]) 2 = .ok (child1, child2)
      ∧ ExactPartition [true, true, false, false] [false, false, true, true]
          child1.chromosome child2.chromosome :=
  ((crossover_exactPartition (Individual.ofChromosome [true, true, false, false])
    (Individual.ofChromosome [false, false, true, true]) (by decide)).1 2).resolve_left
    (fun h => absurd h.1 (by decide))

/-- C8: for parents of equal length `L`, each crossover operator fails exactly on the
arguments its guard excludes, and then with an invalid-argument error: single-point iff
`c < 0` or `c ≥ L`; two-point iff `p1 < 0` or `p2 ≥ L` or `p1 ≥ p2`; uniform iff the mask
length differs from `L`. Every pair of children that is returned has both chromosomes of
length `L`: nothing is truncated or padded. -/
theorem crossover_fails_iff (parent1 parent2 : Individual)
    (hlen : parent1.chromosome.length = parent2.chromosome.length) :
    (∀ c : Int,
      ((∃ e, parent1.singlePointCrossover parent2 c = .error e)
          ↔ (c < 0 ∨ c ≥ (parent1.chromosome.length : Int)))
      ∧ ((c < 0 ∨ c ≥ (parent1.chromosome.length : Int)) →
          ∃ msg, parent1.singlePointCrossover parent2 c = .error (.invalidArgument msg))
      ∧ (¬ (c < 0 ∨ c ≥ (parent1.chromosome.length : Int)) →
          ∃ child1 child2, parent1.singlePointCrossover parent2 c = .ok (child1, child2)
            ∧ child1.chromosome.length = parent1.chromosome.length
            ∧ child2.chromosome.length = parent1.chromosome.length))
    ∧ (∀ p1 p2 : Int,
      ((∃ e, parent1.twoPointCrossover parent2 p1 p2 = .error e)
          ↔ (p1 < 0 ∨ p2 ≥ (parent1.chromosome.length : Int) ∨ p1 ≥ p2))
      ∧ ((p1 < 0 ∨ p2 ≥ (parent1.chromosome.length : Int) ∨ p1 ≥ p2) →
          ∃ msg, parent1.twoPointCrossover parent2 p1 p2 = .error (.invalidArgument msg))
      ∧ (¬ (p1 < 0 ∨ p2 ≥ (parent1.chromosome.length : Int) ∨ p1 ≥ p2) →
          ∃ child1 child2, parent1.twoPointCrossover parent2 p1 p2 = .ok (child1, child2)
            ∧ child1.chromosome.length = parent1.chromosome.length
            ∧ child2.chromosome.length = parent1.chromosome.length))
    ∧ (∀ mask : Chromosome,
      ((∃ e, parent1.uniformCrossover parent2 mask = .error e)
          ↔ mask.length ≠ parent1.chromosome.length)
      ∧ (mask.length ≠ parent1.chromosome.length →
          ∃ msg, parent1.uniformCrossover parent2 mask = .error (.invalidArgument msg))
      ∧ (¬ mask.length ≠ parent1.chromosome.length →
          ∃ child1 child2, parent1.uniformCrossover parent2 mask = .ok (child1, child2)
            ∧ child1.chromosome.length = parent1.chromosome.length
            ∧ child2.chromosome.length = parent1.chromosome.length)) := by
  refine ⟨fun c => ?_, fun p1 p2 => ?_, fun mask => ?_⟩
  · have hbad : (c < 0 ∨ c ≥ (parent1.chromosome.length : Int)) →
        ∃ msg, parent1.singlePointCrossover parent2 c = .error (.invalidArgument msg) :=
      fun hg => ⟨_, singlePointCrossover_reject parent1 parent2 c hg⟩
    have hgood : ¬ (c < 0 ∨ c ≥ (parent1.chromosome.length : Int)) →
        ∃ child1 child2, parent1.singlePointCrossover parent2 c = .ok (child1, child2)
          ∧ child1.chromosome.length = parent1.chromosome.length
          ∧ child2.chromosome.length = parent1.chromosome.length := by
      intro hg
      obtain ⟨r1, r2, hr, hl1, hl2, _⟩ :=
        singlePointCrossover_spec parent1 parent2 c hlen.symm (by omega) (by omega)
      exact ⟨_, _, hr, hl1, hl2⟩
    refine ⟨⟨fun ⟨e, he⟩ => ?_, fun hg => ?_⟩, hbad, hgood⟩
    · by_contra hg
      obtain ⟨c1, c2, hok, _⟩ := hgood hg
      rw [hok] at he
      cases he
    · obtain ⟨msg, hm⟩ := hbad hg
      exact ⟨_, hm⟩
  · have hbad : (p1 < 0 ∨ p2 ≥ (parent1.chromosome.length : Int) ∨ p1 ≥ p2) →
        ∃ msg, parent1.twoPointCrossover parent2 p1 p2 = .error (.invalidArgument msg) :=
      fun hg => ⟨_, twoPointCrossover_reject parent1 parent2 p1 p2 hg⟩
    have hgood : ¬ (p1 < 0 ∨ p2 ≥ (parent1.chromosome.length : Int) ∨ p1 ≥ p2) →
        ∃ child1 child2, parent1.twoPointCrossover parent2 p1 p2 = .ok (child1, child2)
          ∧ child1.chromosome.length = parent1.chromosome.length
          ∧ child2.chromosome.length = parent1.chromosome.length := by
      intro hg
      obtain ⟨r1, r2, hr, hl1, hl2, _⟩ :=
        twoPointCrossover_spec parent1 parent2 p1 p2 hlen.symm (by omega) (by omega) (by omega)
      exact ⟨_, _, hr, hl1, hl2⟩
    refine ⟨⟨fun ⟨e, he⟩ => ?_, fun hg => ?_⟩, hbad, hgood⟩
    · by_contra hg
      obtain ⟨c1, c2, hok, _⟩ := hgood hg
      rw [hok] at he
      cases he
    · obtain ⟨msg, hm⟩ := hbad hg
      exact ⟨_, hm⟩
  · have hbad : mask.length ≠ parent1.chromosome.length →
        ∃ msg, parent1.uniformCrossover parent2 mask = .error (.invalidArgument msg) :=
      fun hg => ⟨_, uniformCrossover_reject parent1 parent2 mask (Or.inl hg)⟩
    have hgood : ¬ mask.length ≠ parent1.chromosome.length →
        ∃ child1 child2, parent1.uniformCrossover parent2 mask = .ok (child1, child2)
          ∧ child1.chromosome.length = parent1.chromosome.length
          ∧ child2.chromosome.length = parent1.chromosome.length := by
      intro hg
      obtain ⟨r1, r2, hr, hl1, hl2, _⟩ :=
        uniformCrossover_spec parent1 parent2 mask hlen.symm (by omega)
      exact ⟨_, _, hr, hl1, hl2⟩
    refine ⟨⟨fun ⟨e, he⟩ => ?_, fun hg => ?_⟩, hbad, hgood⟩
    · intro hg
      obtain ⟨c1, c2, hok, _⟩ := hgood (not_not.mpr hg)
      rw [hok] at he
      cases he
    · obtain ⟨msg, hm⟩ := hbad hg
      exact ⟨_, hm⟩

/-- Witness of C8: on parents `1100` and `0011` the cut point 4 is rejected and the cut
point 0 is accepted. -/
theorem crossover_fails_iff_witness :
    (∃ msg, (Individual.ofChromosome [true, true, false, false]).singlePointCrossover
        (Individual.ofChromosome [false, false, true, true]) 4
          = .error (.invalidArgument msg))
    ∧ ∃ child1 child2, (Individual.ofChromosome [true, true, false, false]).singlePointCrossover
          (Individual.ofChromosome [false, false, true, true]) 0 = .ok (child1, child2)
        ∧ child1.chromosome.length = 4 ∧ child2.chromosome.length = 4 :=
  ⟨((crossover_fails_iff (Individual.ofChromosome [true, true, false, false])
      (Individual.ofChromosome [false, false, true, true]) (by decide)).1 4).2.1 (by decide),
    ((crossover_fails_iff (Individual.ofChromosome [true, true, false, false])
      (Individual.ofChromosome [false, false, true, true]) (by decide)).1 0).2.2 (by decide)⟩

/-! ### Mutation and the fitness cache -/

theorem mutateLoop_length (rate : ℚ) (bits : Chromosome) :
    ∀ rng : Rng, (mutateLoop rate bits rng).1.length = bits.length := by
  induction bits with
  | nil => intro rng; rfl
  | cons b rest ih =>
    intro rng
    simp only [mutateLoop, List.length_cons, ih]

theorem mutateLoop_getElem? (rate : ℚ) (bits : Chromosome) :
    ∀ (rng : Rng) (i : Nat),
      (mutateLoop rate bits rng).1[i]?
        = (bits[i]?).map (fun b => if rng i < rate then !b else b) := by
  induction bits with
  | nil => intro rng i; simp [mutateLoop]
  | cons b rest ih =>
    intro rng i
    cases i with
    | zero => simp [mutateLoop, uniformReal01, Rng.draw]
    | succ i =>
      simp only [mutateLoop, List.getElem?_cons_succ, ih, uniformReal01, Rng.draw]

theorem mutateLoop_rate_zero (bits : Chromosome) :
    ∀ rng : Rng, (∀ i, 0 ≤ rng i) → (mutateLoop 0 bits rng).1 = bits := by
  induction bits with
  | nil => intro rng _; rfl
  | cons b rest ih =>
    intro rng h
    have h0 : ¬ rng 0 < 0 := not_lt.mpr (h 0)
    simp only [mutateLoop, uniformReal01, Rng.draw, h0, if_false]
    rw [ih _ (fun i => h (i + 1))]

theorem mutateLoop_rate_one (bits : Chromosome) :
    ∀ rng : Rng, (∀ i, rng i < 1) → (mutateLoop 1 bits rng).1 = bits.map (fun b => !b) := by
  induction bits with
  | nil => intro rng _; rfl
  | cons b rest ih =>
    intro rng h
    simp only [mutateLoop, uniformReal01, Rng.draw, h 0, if_true, List.map_cons]
    rw [ih _ (fun i => h (i + 1))]

/-- C9: for every chromosome, rate and stream of per-bit draws in `[0,1)`, `mutate` keeps
the chromosome length and bit `i` of the result is the flipped bit exactly when draw `i` is
below `mutationRate`, and the unchanged bit otherwise; with rate 0 the chromosome is
unchanged and with rate 1 every bit is flipped. -/
theorem mutate_flips (self : Individual) (mutationRate : ℚ) (rng : Rng)
    (hd : ∀ i, 0 ≤ rng i ∧ rng i < 1) :
    (self.mutate mutationRate rng).1.chromosome.length = self.chromosome.length
    ∧ (∀ i : Nat, i < self.chromosome.length →
        ∃ old new, self.chromosome[i]? = some old
          ∧ (self.mutate mutationRate rng).1.chromosome[i]? = some new
          ∧ (new = (!old) ↔ rng i < mutationRate)
          ∧ (new = old ↔ ¬ rng i < mutationRate))
    ∧ (self.mutate 0 rng).1.chromosome = self.chromosome
    ∧ (self.mutate 1 rng).1.chromosome = self.chromosome.map (fun b => !b) := by
  refine ⟨?_, fun i hi => ?_, ?_, ?_⟩
  · simp only [Individual.mutate, Individual.invalidateFitness, mutateLoop_length]
  · refine ⟨self.chromosome.get ⟨i, hi⟩,
      if rng i < mutationRate then !(self.chromosome.get ⟨i, hi⟩)
        else self.chromosome.get ⟨i, hi⟩, List.getElem?_eq_getElem hi, ?_, ?_, ?_⟩
    · simp only [Individual.mutate, Individual.invalidateFitness, mutateLoop_getElem?,
        List.getElem?_eq_getElem hi, Option.map_some', List.get_eq_getElem]
    · by_cases h : rng i < mutationRate
      · simp [h]
      · simp [h]
    · by_cases h : rng i < mutationRate
      · simp [h]
      · simp [h]
  · simp only [Individual.mutate, Individual.invalidateFitness]
    exact mutateLoop_rate_zero _ rng (fun i => (hd i).1)
  · simp only [Individual.mutate, Individual.invalidateFitness]
    exact mutateLoop_rate_one _ rng (fun i => (hd i).2)

/-- Witness of C9: the chromosome `1100` with every draw equal to `1/2`. -/
theorem mutate_flips_witness :
    (∀ i : Nat, (0 : ℚ) ≤ (fun _ => (1 / 2 : ℚ)) i ∧ (fun _ => (1 / 2 : ℚ)) i < 1)
    ∧ ((Individual.ofChromosome [true, true, false, false]).mutate 0
          (fun _ => 1 / 2)).1.chromosome = [true, true, false, false]
    ∧ ((Individual.ofChromosome [true, true, false, false]).mutate 1
          (fun _ => 1 / 2)).1.chromosome = [false, false, true, true] :=
  ⟨fun _ => by norm_num,
    (mutate_flips (Individual.ofChromosome [true, true, false, false]) 0 (fun _ => 1 / 2)
      (fun _ => by norm_num)).2.2.1,
    (mutate_flips (Individual.ofChromosome [true, true, false, false]) 1 (fun _ => 1 / 2)
      (fun _ => by norm_num)).2.2.2⟩

theorem singlePointCrossover_ok_inv (p1 p2 : Individual) (c : Int) (c1 c2 : Individual)
    (h : p1.singlePointCrossover p2 c = .ok (c1, c2)) :
    ∃ r1 r2, c1 = Individual.ofChromosome r1 ∧ c2 = Individual.ofChromosome r2 := by
  unfold Individual.singlePointCrossover at h
  split at h
  · cases h
  · cases hs : swapLoop p1.chromosome p2.chromosome
        (p1.chromosome.length - c.toNat) c.toNat p1.chromosome p2.chromosome with
    | error e => rw [hs] at h; cases h
    | ok r =>
      rw [hs] at h
      simp only [bind, Except.bind, Except.ok.injEq, Prod.mk.injEq] at h
      exact ⟨r.1, r.2, h.1.symm, h.2.symm⟩

theorem twoPointCrossover_ok_inv (p1 p2 : Individual) (a b : Int) (c1 c2 : Individual)
    (h : p1.twoPointCrossover p2 a b = .ok (c1, c2)) :
    ∃ r1 r2, c1 = Individual.ofChromosome r1 ∧ c2 = Individual.ofChromosome r2 := by
  unfold Individual.twoPointCrossover at h
  split at h
  · cases h
  · cases hs : swapLoop p1.chromosome p2.chromosome
        (b - a + 1).toNat a.toNat p1.chromosome p2.chromosome with
    | error e => rw [hs] at h; cases h
    | ok r =>
      rw [hs] at h
      simp only [bind, Except.bind, Except.ok.injEq, Prod.mk.injEq] at h
      exact ⟨r.1, r.2, h.1.symm, h.2.symm⟩

theorem uniformCrossover_ok_inv (p1 p2 : Individual) (mask : Chromosome) (c1 c2 : Individual)
    (h : p1.uniformCrossover p2 mask = .ok (c1, c2)) :
    ∃ r1 r2, c1 = Individual.ofChromosome r1 ∧ c2 = Individual.ofChromosome r2 := by
  unfold Individual.uniformCrossover at h
  split at h
  · cases h
  · cases hs : uniformLoop p1.chromosome p2.chromosome mask p1.chromosome.length 0
        (List.replicate p1.chromosome.length false)
        (List.replicate p1.chromosome.length false) with
    | error e => rw [hs] at h; cases h
    | ok r =>
      rw [hs] at h
      simp only [bind, Except.bind, Except.ok.injEq, Prod.mk.injEq] at h
      exact ⟨r.1, r.2, h.1.symm, h.2.symm⟩

/-- C10: every operation that can change a chromosome leaves the cache invalid with
percentage 0: `setChromosome`, `mutate` (any rate, any draws), `randomize` (which returns for
every length `≥ 0`), and both offspring of every crossover that returns, whatever the cached
values of the receiver or of the parents were. -/
theorem cache_invalidated :
    (∀ (self : Individual) (newChromosome : Chromosome),
        (self.setChromosome newChromosome).isFitnessValid = false
        ∧ (self.setChromosome newChromosome).getFitnessPercentage = 0)
    ∧ (∀ (self : Individual) (mutationRate : ℚ) (rng : Rng),
        (self.mutate mutationRate rng).1.isFitnessValid = false
        ∧ (self.mutate mutationRate rng).1.getFitnessPercentage = 0)
    ∧ (∀ (self : Individual) (length : Int) (rng : Rng), 0 ≤ length →
        ∃ r, self.randomize length rng = .ok r
          ∧ r.1.isFitnessValid = false ∧ r.1.getFitnessPercentage = 0)
    ∧ (∀ (self : Individual) (length : Int) (rng : Rng) (r : Individual × Rng),
        self.randomize length rng = .ok r →
          r.1.isFitnessValid = false ∧ r.1.getFitnessPercentage = 0)
    ∧ (∀ (parent1 parent2 : Individual) (c : Int) (child1 child2 : Individual),
        parent1.singlePointCrossover parent2 c = .ok (child1, child2) →
          (child1.isFitnessValid = false ∧ child1.getFitnessPercentage = 0)
          ∧ (child2.isFitnessValid = false ∧ child2.getFitnessPercentage = 0))
    ∧ (∀ (parent1 parent2 : Individual) (p1 p2 : Int) (child1 child2 : Individual),
        parent1.twoPointCrossover parent2 p1 p2 = .ok (child1, child2) →
          (child1.isFitnessValid = false ∧ child1.getFitnessPercentage = 0)
          ∧ (child2.isFitnessValid = false ∧ child2.getFitnessPercentage = 0))
    ∧ (∀ (parent1 parent2 : Individual) (mask : Chromosome) (child1 child2 : Individual),
        parent1.uniformCrossover parent2 mask = .ok (child1, child2) →
          (child1.isFitnessValid = false ∧ child1.getFitnessPercentage = 0)
          ∧ (child2.isFitnessValid = false ∧ child2.getFitnessPercentage = 0)) := by
  refine ⟨fun self c => ⟨rfl, rfl⟩, fun self rate rng => ⟨rfl, rfl⟩, ?_, ?_, ?_, ?_, ?_⟩
  · intro self length rng h
    have hn : ¬ length < 0 := not_lt.mpr h
    have hr : self.randomize length rng
        = .ok (Individual.invalidateFitness ⟨(randomizeLoop length.toNat rng).1, self.fitness,
            self.fitnessPercentage, self.fitnessCalculated⟩,
          (randomizeLoop length.toNat rng).2) := by
      simp only [Individual.randomize, hn, if_false]
    exact ⟨_, hr, rfl, rfl⟩
  · intro self length rng r h
    unfold Individual.randomize at h
    split at h
    · cases h
    · cases h
      exact ⟨rfl, rfl⟩
  · intro parent1 parent2 c child1 child2 h
    obtain ⟨r1, r2, e1, e2⟩ := singlePointCrossover_ok_inv parent1 parent2 c child1 child2 h
    subst e1 e2
    exact ⟨⟨rfl, rfl⟩, ⟨rfl, rfl⟩⟩
  · intro parent1 parent2 p1 p2 child1 child2 h
    obtain ⟨r1, r2, e1, e2⟩ := twoPointCrossover_ok_inv parent1 parent2 p1 p2 child1 child2 h
    subst e1 e2
    exact ⟨⟨rfl, rfl⟩, ⟨rfl, rfl⟩⟩
  · intro parent1 parent2 mask child1 child2 h
    obtain ⟨r1, r2, e1, e2⟩ := uniformCrossover_ok_inv parent1 parent2 mask child1 child2 h
    subst e1 e2
    exact ⟨⟨rfl, rfl⟩, ⟨rfl, rfl⟩⟩

/-- Witness of C10: parents `1100` and `0011` with valid cached fitness 7 and 9 and
percentages 40 and 60, crossed at point 2; both offspring come back invalid with
percentage 0. -/
theorem cache_invalidated_witness :
    Individual.singlePointCrossover ⟨[true, true, false, false], 7, 40, true⟩
        ⟨[false, false, true, true], 9, 60, true⟩ 2
      = .ok (⟨[true, true, true, true], 0, 0, false⟩, ⟨[false, false, false, false], 0, 0, false⟩)
    ∧ ((Individual.isFitnessValid ⟨[true, true, true, true], 0, 0, false⟩ = false
        ∧ Individual.getFitnessPercentage ⟨[true, true, true, true], 0, 0, false⟩ = 0)
      ∧ (Individual.isFitnessValid ⟨[false, false, false, false], 0, 0, false⟩ = false
        ∧ Individual.getFitnessPercentage ⟨[false, false, false, false], 0, 0, false⟩ = 0)) :=
  ⟨rfl, cache_invalidated.2.2.2.2.1 ⟨[true, true, false, false], 7, 40, true⟩
    ⟨[false, false, true, true], 9, 60, true⟩ 2 _ _ rfl⟩

/-! ### Fitness access -/

/-- C11: `getFitness` fails exactly when the fitness is not valid. It fails on every freshly
constructed individual and after every invalidating operation (`invalidateFitness`,
`setChromosome`, `mutate`, `randomize`); after `setFitness v` it returns `v`, also when the
percentage is set afterwards. -/
theorem getFitness_fails_iff :
    (∀ self : Individual,
        (∃ e, self.getFitness = .error e) ↔ self.isFitnessValid = false)
    ∧ (∀ self : Individual, self.isFitnessValid = true → self.getFitness = .ok self.fitness)
    ∧ ((∃ e, Individual.default.getFitness = .error e)
        ∧ (∀ n : Nat, ∃ e, (Individual.ofLength n).getFitness = .error e)
        ∧ (∀ bits : Chromosome, ∃ e, (Individual.ofChromosome bits).getFitness = .error e))
    ∧ (∀ self : Individual, ∃ e, self.invalidateFitness.getFitness = .error e)
    ∧ (∀ (self : Individual) (bits : Chromosome),
        ∃ e, (self.setChromosome bits).getFitness = .error e)
    ∧ (∀ (self : Individual) (rate : ℚ) (rng : Rng),
        ∃ e, (self.mutate rate rng).1.getFitness = .error e)
    ∧ (∀ (self : Individual) (length : Int) (rng : Rng) (r : Individual × Rng),
        self.randomize length rng = .ok r → ∃ e, r.1.getFitness = .error e)
    ∧ (∀ (self : Individual) (v : FitnessValue), (self.setFitness v).getFitness = .ok v)
    ∧ (∀ (self : Individual) (v : FitnessValue) (p : ℚ),
        ((self.setFitness v).setFitnessPercentage p).getFitness = .ok v) := by
  refine ⟨fun self => ?_, fun self h => ?_, ⟨⟨_, rfl⟩, fun n => ⟨_, rfl⟩, fun bits => ⟨_, rfl⟩⟩,
    fun self => ⟨_, rfl⟩, fun self bits => ⟨_, rfl⟩, fun self rate rng => ⟨_, rfl⟩, ?_,
    fun self v => rfl, fun self v p => rfl⟩
  · cases hv : self.fitnessCalculated with
    | true =>
      simp [Individual.getFitness, Individual.isFitnessValid, hv]
    | false =>
      simp [Individual.getFitness, Individual.isFitnessValid, hv]
  · simp only [Individual.isFitnessValid] at h
    simp [Individual.getFitness, h]
  · intro self length rng r h
    unfold Individual.randomize at h
    split at h
    · cases h
    · cases h
      exact ⟨_, rfl⟩

/-- Witness of C11: an individual holding the valid fitness 7 returns it, and after
`randomize` with length 3 the read fails. -/
theorem getFitness_fails_iff_witness :
    Individual.getFitness ⟨[true, false], 7, 40, true⟩ = .ok 7
    ∧ ∃ r e, Individual.randomize ⟨[true, false], 7, 40, true⟩ 3 (fun _ => 1 / 2) = .ok r
        ∧ r.1.getFitness = .error e := by
  refine ⟨getFitness_fails_iff.2.1 ⟨[true, false], 7, 40, true⟩ rfl, ?_⟩
  have hr : Individual.randomize ⟨[true, false], 7, 40, true⟩ 3 (fun _ => 1 / 2)
      = .ok (Individual.invalidateFitness
          ⟨(randomizeLoop 3 (fun _ => 1 / 2)).1, 7, 40, true⟩,
        (randomizeLoop 3 (fun _ => 1 / 2)).2) := by
    simp [Individual.randomize]
  obtain ⟨e, he⟩ := getFitness_fails_iff.2.2.2.2.2.2.1 _ 3 (fun _ => 1 / 2) _ hr
  exact ⟨_, e, hr, he⟩

/-! ### Roulette-wheel selection -/

theorem getFitness_of_valid (self : Individual) (h : self.isFitnessValid = true) :
    self.getFitness = .ok self.fitness := by
  simp only [Individual.isFitnessValid] at h
  simp [Individual.getFitness, h]

theorem fullyEvaluated_cons (individual : Individual) (rest : Population) :
    FullyEvaluated (individual :: rest)
      ↔ individual.isFitnessValid = true ∧ FullyEvaluated rest := by
  simp [FullyEvaluated]

theorem minFitnessLoop_spec (population : Population) (hev : FullyEvaluated population) :
    ∀ m0 : ℚ, ∃ r, minFitnessLoop population m0 = .ok r ∧ r ≤ m0
      ∧ (∀ individual ∈ population, r ≤ individual.fitness)
      ∧ (r = m0 ∨ ∃ individual ∈ population, r = individual.fitness) := by
  induction population with
  | nil => intro m0; exact ⟨m0, rfl, le_refl _, by simp, Or.inl rfl⟩
  | cons a rest ih =>
    intro m0
    obtain ⟨ha, hrest⟩ := (fullyEvaluated_cons a rest).mp hev
    obtain ⟨r, hr, hle, hall, hatt⟩ :=
      ih hrest (if a.fitness < m0 then a.fitness else m0)
    refine ⟨r, ?_, ?_, ?_, ?_⟩
    · simp only [minFitnessLoop, getFitness_of_valid a ha, hr]
    · split at hle <;> linarith
    · intro b hb
      rcases List.mem_cons.mp hb with rfl | hb
      · split at hle <;> linarith
      · exact hall b hb
    · rcases hatt with h | ⟨b, hb, h⟩
      · by_cases hlt : a.fitness < m0
        · rw [if_pos hlt] at h
          exact Or.inr ⟨a, List.mem_cons_self _ _, h⟩
        · rw [if_neg hlt] at h
          exact Or.inl h
      · exact Or.inr ⟨b, List.mem_cons_of_mem _ hb, h⟩

theorem maxAdjustedLoop_spec (offset : ℚ) (population : Population)
    (hev : FullyEvaluated population) :
    ∀ a0 : ℚ, ∃ r, maxAdjustedLoop offset population a0 = .ok r ∧ a0 ≤ r
      ∧ (∀ individual ∈ population, individual.fitness + offset ≤ r)
      ∧ (r = a0 ∨ ∃ individual ∈ population, r = individual.fitness + offset) := by
  induction population with
  | nil => intro a0; exact ⟨a0, rfl, le_refl _, by simp, Or.inl rfl⟩
  | cons a rest ih =>
    intro a0
    obtain ⟨ha, hrest⟩ := (fullyEvaluated_cons a rest).mp hev
    obtain ⟨r, hr, hle, hall, hatt⟩ :=
      ih hrest (if a.fitness + offset > a0 then a.fitness + offset else a0)
    refine ⟨r, ?_, ?_, ?_, ?_⟩
    · simp only [maxAdjustedLoop, getFitness_of_valid a ha, hr]
    · split at hle <;> linarith
    · intro b hb
      rcases List.mem_cons.mp hb with rfl | hb
      · split at hle <;> linarith
      · exact hall b hb
    · rcases hatt with h | ⟨b, hb, h⟩
      · by_cases hlt : a.fitness + offset > a0
        · rw [if_pos hlt] at h
          exact Or.inr ⟨a, List.mem_cons_self _ _, h⟩
        · rw [if_neg hlt] at h
          exact Or.inl h
      · exact Or.inr ⟨b, List.mem_cons_of_mem _ hb, h⟩

theorem sumAdjustedLoop_spec (offset : ℚ) (population : Population)
    (hev : FullyEvaluated population) :
    ∀ t0 : ℚ, sumAdjustedLoop offset population t0
      = .ok (t0 + (population.map (fun individual => individual.fitness + offset)).sum) := by
  induction population with
  | nil => intro t0; simp [sumAdjustedLoop]
  | cons a rest ih =>
    intro t0
    obtain ⟨ha, hrest⟩ := (fullyEvaluated_cons a rest).mp hev
    simp only [sumAdjustedLoop, getFitness_of_valid a ha, ih hrest, List.map_cons, List.sum_cons]
    congr 1
    ring

theorem sumInvertedLoop_spec (offset maxAdjustedFitness : ℚ) (population : Population)
    (hev : FullyEvaluated population) :
    ∀ t0 : ℚ, sumInvertedLoop offset maxAdjustedFitness population t0
      = .ok (t0 + (population.map
          (fun individual => maxAdjustedFitness - (individual.fitness + offset))).sum) := by
  induction population with
  | nil => intro t0; simp [sumInvertedLoop]
  | cons a rest ih =>
    intro t0
    obtain ⟨ha, hrest⟩ := (fullyEvaluated_cons a rest).mp hev
    simp only [sumInvertedLoop, getFitness_of_valid a ha, ih hrest, List.map_cons,
      List.sum_cons]
    congr 1
    ring

/-- The weight function of the roulette walk, once the offset and the maximum adjusted
fitness are known. -/
theorem rouletteWeight_eq (isMaximization : Bool) (population : Population) (offset maxAdj : ℚ)
    (hmax : maxAdjustedLoop offset population 0 = .ok maxAdj)
    (individual : Individual) (hv : individual.isFitnessValid = true) :
    rouletteWeight isMaximization population offset individual
      = .ok (if isMaximization then individual.fitness + offset
          else maxAdj - (individual.fitness + offset)) := by
  cases isMaximization with
  | true => simp [rouletteWeight, getFitness_of_valid individual hv]
  | false => simp [rouletteWeight, getFitness_of_valid individual hv, hmax]

theorem rouletteOffset_spec (population : Population) (hev : FullyEvaluated population) :
    ∃ m offset, minFitnessLoop population DBL_MAX = .ok m
      ∧ rouletteOffset population = .ok offset
      ∧ offset = (if m < 0 then -m + 1 else 0)
      ∧ 0 ≤ offset
      ∧ (∀ individual ∈ population, m ≤ individual.fitness)
      ∧ (∀ individual ∈ population, 0 ≤ individual.fitness + offset) := by
  obtain ⟨m, hm, -, hall, -⟩ := minFitnessLoop_spec population hev DBL_MAX
  refine ⟨m, if m < 0 then -m + 1 else 0, hm, ?_, rfl, ?_, hall, ?_⟩
  · simp only [rouletteOffset, hm]
  · split <;> linarith
  · intro a ha
    have := hall a ha
    split <;> linarith

theorem list_sum_map_nonneg (w : Individual → ℚ) (l : Population)
    (h : ∀ individual ∈ l, 0 ≤ w individual) : 0 ≤ (l.map w).sum := by
  induction l with
  | nil => simp
  | cons a rest ih =>
    simp only [List.map_cons, List.sum_cons]
    have h1 := h a (List.mem_cons_self _ _)
    have h2 := ih (fun b hb => h b (List.mem_cons_of_mem _ hb))
    linarith

/-- The weights of the roulette wheel: they exist for every individual of a fully evaluated
population, are nonnegative, and their sum is the total that bounds the selection point. -/
theorem roulette_weights (isMaximization : Bool) (population : Population)
    (hev : FullyEvaluated population) :
    ∃ (offset total : ℚ) (w : Individual → ℚ),
      rouletteOffset population = .ok offset
      ∧ rouletteTotal isMaximization population offset = .ok total
      ∧ (∀ individual ∈ population,
          rouletteWeight isMaximization population offset individual = .ok (w individual)
          ∧ 0 ≤ w individual)
      ∧ total = (population.map w).sum
      ∧ (∀ a b : Individual, a.fitness < b.fitness →
          if isMaximization then w a < w b else w a > w b) := by
  obtain ⟨m, offset, -, hoff, -, -, -, hadj⟩ := rouletteOffset_spec population hev
  obtain ⟨maxAdj, hmax, -, hmaxall, -⟩ := maxAdjustedLoop_spec offset population hev 0
  refine ⟨offset, _, fun individual => if isMaximization then individual.fitness + offset
      else maxAdj - (individual.fitness + offset), hoff, ?_, ?_, rfl, ?_⟩
  · cases isMaximization with
    | true =>
      simp [rouletteTotal, sumAdjustedLoop_spec offset population hev]
    | false =>
      simp [rouletteTotal, sumAdjustedLoop_spec offset population hev, hmax,
        sumInvertedLoop_spec offset maxAdj population hev]
  · intro a ha
    refine ⟨rouletteWeight_eq isMaximization population offset maxAdj hmax a (hev a ha), ?_⟩
    cases isMaximization with
    | true => simpa using hadj a ha
    | false =>
      have := hmaxall a ha
      simp only [Bool.false_eq_true, if_false]
      linarith
  · intro a b hab
    cases isMaximization with
    | true => simp only [if_true]; linarith
    | false => simp only [Bool.false_eq_true, if_false]; linarith

/-- C17 as stated fails when the smallest raw fitness is positive: for the raw fitness
values 2 and 5 the code uses the offset 0, while `max(0, -minFitness) + 1` is 1. -/
theorem rouletteOffset_positive_min :
    (∀ individual ∈ ([⟨[true], 2, 0, true⟩, ⟨[false], 5, 0, true⟩] : Population),
        (2 : ℚ) ≤ individual.fitness)
    ∧ rouletteOffset [⟨[true], 2, 0, true⟩, ⟨[false], 5, 0, true⟩] = .ok 0
    ∧ rouletteOffset [⟨[true], 2, 0, true⟩, ⟨[false], 5, 0, true⟩]
        ≠ .ok (max 0 (-(2 : ℚ)) + 1) := by
  have h : rouletteOffset [⟨[true], 2, 0, true⟩, ⟨[false], 5, 0, true⟩] = .ok 0 := by
    simp only [rouletteOffset, minFitnessLoop, Individual.getFitness, DBL_MAX]
    norm_num
  refine ⟨?_, h, ?_⟩
  · intro individual hmem
    simp only [List.mem_cons, List.mem_singleton, List.not_mem_nil, or_false] at hmem
    rcases hmem with rfl | rfl <;> norm_num
  · rw [h]
    intro hc
    have h2 : (0 : ℚ) = max 0 (-(2 : ℚ)) + 1 := by
      injection hc
    norm_num at h2

/-- C17 (amended): for a non-empty fully evaluated population with finite raw fitness values,
the offset of `rouletteWheelSelection` is computed from the smallest raw fitness
`minFitness` of the population; it equals `max(0, -minFitness) + 1` when `minFitness < 0`
and is 0 when `minFitness > 0`. The adjusted fitness of an individual is its raw fitness
plus that offset. -/
theorem rouletteOffset_value (population : Population) (hne : population ≠ [])
    (hev : FullyEvaluated population) (hfin : FiniteFitness population) :
    ∃ minFitness offset,
      (∃ individual ∈ population, individual.fitness = minFitness)
      ∧ (∀ individual ∈ population, minFitness ≤ individual.fitness)
      ∧ rouletteOffset population = .ok offset
      ∧ (minFitness < 0 → offset = max 0 (-minFitness) + 1)
      ∧ (0 < minFitness → offset = 0)
      ∧ (∀ individual ∈ population,
          rouletteWeight true population offset individual
            = .ok (individual.fitness + offset)) := by
  obtain ⟨m, hm, hle, hall, hatt⟩ := minFitnessLoop_spec population hev DBL_MAX
  have hattained : ∃ individual ∈ population, individual.fitness = m := by
    rcases hatt with h | ⟨b, hb, h⟩
    · obtain ⟨a, rest, rfl⟩ := List.exists_cons_of_ne_nil hne
      have ha : a ∈ a :: rest := List.mem_cons_self _ _
      refine ⟨a, ha, ?_⟩
      have h1 := hall a ha
      have h2 := (hfin a ha).2
      linarith
    · exact ⟨b, hb, h.symm⟩
  refine ⟨m, if m < 0 then -m + 1 else 0, hattained, hall, ?_, ?_, ?_, ?_⟩
  · simp only [rouletteOffset, hm]
  · intro hneg
    rw [if_pos hneg, max_eq_right (by linarith)]
  · intro hpos
    rw [if_neg (by linarith)]
  · intro a ha
    simp [rouletteWeight, getFitness_of_valid a (hev a ha)]

/-- Witness of C17 (amended): the raw fitness values -3 and 5 give the offset 4. -/
theorem rouletteOffset_value_witness :
    ∃ minFitness offset,
      (∃ individual ∈ ([⟨[true], -3, 0, true⟩, ⟨[false], 5, 0, true⟩] : Population),
          individual.fitness = minFitness)
      ∧ (∀ individual ∈ ([⟨[true], -3, 0, true⟩, ⟨[false], 5, 0, true⟩] : Population),
          minFitness ≤ individual.fitness)
      ∧ rouletteOffset [⟨[true], -3, 0, true⟩, ⟨[false], 5, 0, true⟩] = .ok offset
      ∧ (minFitness < 0 → offset = max 0 (-minFitness) + 1)
      ∧ (0 < minFitness → offset = 0)
      ∧ (∀ individual ∈ ([⟨[true], -3, 0, true⟩, ⟨[false], 5, 0, true⟩] : Population),
          rouletteWeight true [⟨[true], -3, 0, true⟩, ⟨[false], 5, 0, true⟩] offset individual
            = .ok (individual.fitness + offset)) :=
  rouletteOffset_value [⟨[true], -3, 0, true⟩, ⟨[false], 5, 0, true⟩] (by simp)
    (by
      intro individual hmem
      simp only [List.mem_cons, List.mem_singleton, List.not_mem_nil, or_false] at hmem
      rcases hmem with rfl | rfl <;> rfl)
    (by
      intro individual hmem
      simp only [List.mem_cons, List.mem_singleton, List.not_mem_nil, or_false] at hmem
      rcases hmem with rfl | rfl <;> (simp only [DBL_MAX]; norm_num))

set_option maxRecDepth 100000 in
theorem roundDouble_tiny :
    roundDouble (1 / 100000000000000)
      = 6338253001141147 / 633825300114114700748351602688 := by
  with_unfolding_all rfl

set_option maxRecDepth 100000 in
theorem roundDouble_tiny_twice :
    roundDouble (2 / 100000000000000)
      = 6338253001141147 / 316912650057057350374175801344 := by
  with_unfolding_all rfl

theorem tinyPopulation_minFitness :
    minFitnessLoop tinyPopulation DBL_MAX = .ok (-1000)
      ∧ minFitnessLoop tinyMinPopulation DBL_MAX
        = .ok (6338253001141147 / 633825300114114700748351602688) := by
  constructor
  · simp only [tinyPopulation, minFitnessLoop, Individual.getFitness, DBL_MAX,
      roundDouble_tiny, roundDouble_tiny_twice]
    norm_num
  · simp only [tinyMinPopulation, minFitnessLoop, Individual.getFitness, DBL_MAX,
      roundDouble_tiny, roundDouble_tiny_twice]
    norm_num

set_option maxRecDepth 100000 in
theorem tinyPopulation_offset :
    rouletteOffsetDouble tinyPopulation = .ok 1001
      ∧ rouletteOffsetDouble tinyMinPopulation = .ok 0 := by
  constructor
  · simp only [rouletteOffsetDouble, tinyPopulation_minFitness.1]
    rw [if_pos (by norm_num)]
    congr 1
    with_unfolding_all rfl
  · simp only [rouletteOffsetDouble, tinyPopulation_minFitness.2]
    rw [if_neg (by norm_num)]

set_option maxRecDepth 100000 in
theorem tinyPopulation_weights :
    rouletteWeightDouble true tinyPopulation 1001
          ⟨[false, true], roundDouble (1 / 100000000000000), 0, true⟩ = .ok 1001
      ∧ rouletteWeightDouble true tinyPopulation 1001
          ⟨[true, false], roundDouble (2 / 100000000000000), 0, true⟩ = .ok 1001
      ∧ rouletteWeightDouble false tinyMinPopulation 0
          ⟨[false, true], roundDouble (1 / 100000000000000), 0, true⟩ = .ok 1000
      ∧ rouletteWeightDouble false tinyMinPopulation 0
          ⟨[true, false], roundDouble (2 / 100000000000000), 0, true⟩ = .ok 1000 := by
  refine ⟨?_, ?_, ?_, ?_⟩ <;> with_unfolding_all rfl

/-- C18 as stated fails in `double` arithmetic: the addition of the offset absorbs small
differences of raw fitness. For maximization, with raw fitness `-1000`, `1e-14` and `2e-14`
the offset is `1001` and the last two weights are both `1001`; for minimization, with raw
fitness `1000`, `1e-14` and `2e-14` the offset is 0, the maximum adjusted fitness is `1000`
and the last two weights are both `1000`. In both cases the raw fitness differs and the
weights do not. -/
theorem rouletteWeightDouble_not_strict :
    ((tinyPopulation ≠ [] ∧ FullyEvaluated tinyPopulation)
      ∧ ∃ a ∈ tinyPopulation, ∃ b ∈ tinyPopulation, ∃ offset wa wb,
          a.fitness < b.fitness
          ∧ rouletteOffsetDouble tinyPopulation = .ok offset
          ∧ rouletteWeightDouble true tinyPopulation offset a = .ok wa
          ∧ rouletteWeightDouble true tinyPopulation offset b = .ok wb
          ∧ ¬ wa < wb)
    ∧ ((tinyMinPopulation ≠ [] ∧ FullyEvaluated tinyMinPopulation)
      ∧ ∃ a ∈ tinyMinPopulation, ∃ b ∈ tinyMinPopulation, ∃ offset wa wb,
          a.fitness < b.fitness
          ∧ rouletteOffsetDouble tinyMinPopulation = .ok offset
          ∧ rouletteWeightDouble false tinyMinPopulation offset a = .ok wa
          ∧ rouletteWeightDouble false tinyMinPopulation offset b = .ok wb
          ∧ ¬ wa > wb) := by
  obtain ⟨h1, h4⟩ := tinyPopulation_offset
  obtain ⟨h2, h3, h5, h6⟩ := tinyPopulation_weights
  have hlt : roundDouble (1 / 100000000000000) < roundDouble (2 / 100000000000000) := by
    rw [roundDouble_tiny, roundDouble_tiny_twice]
    norm_num
  have hev1 : FullyEvaluated tinyPopulation := by
    intro individual hmem
    simp only [tinyPopulation, List.mem_cons, List.mem_singleton, List.not_mem_nil,
      or_false] at hmem
    rcases hmem with rfl | rfl | rfl <;> rfl
  have hev2 : FullyEvaluated tinyMinPopulation := by
    intro individual hmem
    simp only [tinyMinPopulation, List.mem_cons, List.mem_singleton, List.not_mem_nil,
      or_false] at hmem
    rcases hmem with rfl | rfl | rfl <;> rfl
  refine ⟨⟨⟨List.cons_ne_nil _ _, hev1⟩,
      ⟨[false, true], roundDouble (1 / 100000000000000), 0, true⟩, ?_,
      ⟨[true, false], roundDouble (2 / 100000000000000), 0, true⟩, ?_,
      1001, 1001, 1001, hlt, h1, h2, h3, lt_irrefl _⟩,
    ⟨⟨List.cons_ne_nil _ _, hev2⟩,
      ⟨[false, true], roundDouble (1 / 100000000000000), 0, true⟩, ?_,
      ⟨[true, false], roundDouble (2 / 100000000000000), 0, true⟩, ?_,
      0, 1000, 1000, hlt, h4, h5, h6, lt_irrefl _⟩⟩
  · simp [tinyPopulation]
  · simp [tinyPopulation]
  · simp [tinyMinPopulation]
  · simp [tinyMinPopulation]

/-- C18 (amended): in exact arithmetic, for a non-empty fully evaluated population, every
individual has a selection weight in `rouletteWheelSelection`, every weight is nonnegative,
and the weights are strictly ordered by raw fitness in the configured direction: increasing
for maximization, decreasing for minimization. -/
theorem roulette_weights_ordered (isMaximization : Bool) (population : Population)
    (_hne : population ≠ []) (hev : FullyEvaluated population) :
    ∃ (offset : ℚ) (w : Individual → ℚ),
      rouletteOffset population = .ok offset
      ∧ (∀ individual ∈ population,
          rouletteWeight isMaximization population offset individual = .ok (w individual)
          ∧ 0 ≤ w individual)
      ∧ (∀ a ∈ population, ∀ b ∈ population, a.fitness < b.fitness →
          (isMaximization = true → w a < w b) ∧ (isMaximization = false → w a > w b)) := by
  obtain ⟨offset, total, w, hoff, -, hw, -, hord⟩ :=
    roulette_weights isMaximization population hev
  refine ⟨offset, w, hoff, hw, fun a _ b _ hab => ?_⟩
  have := hord a b hab
  cases isMaximization with
  | true => simpa using this
  | false => simpa using this

/-- Witness of C18 (amended): a minimization population with raw fitness values -3 and 5. -/
theorem roulette_weights_ordered_witness :
    ∃ (offset : ℚ) (w : Individual → ℚ),
      rouletteOffset [⟨[true], -3, 0, true⟩, ⟨[false], 5, 0, true⟩] = .ok offset
      ∧ (∀ individual ∈ ([⟨[true], -3, 0, true⟩, ⟨[false], 5, 0, true⟩] : Population),
          rouletteWeight false [⟨[true], -3, 0, true⟩, ⟨[false], 5, 0, true⟩] offset individual
            = .ok (w individual)
          ∧ 0 ≤ w individual)
      ∧ (∀ a ∈ ([⟨[true], -3, 0, true⟩, ⟨[false], 5, 0, true⟩] : Population),
          ∀ b ∈ ([⟨[true], -3, 0, true⟩, ⟨[false], 5, 0, true⟩] : Population),
          a.fitness < b.fitness →
            (false = true → w a < w b) ∧ (false = false → w a > w b)) :=
  roulette_weights_ordered false [⟨[true], -3, 0, true⟩, ⟨[false], 5, 0, true⟩] (by simp)
    (by
      intro individual hmem
      simp only [List.mem_cons, List.mem_singleton, List.not_mem_nil, or_false] at hmem
      rcases hmem with rfl | rfl <;> rfl)

theorem rouletteWalk_spec (isMaximization : Bool) (population : Population)
    (offset selectionPoint : ℚ) (w : Individual → ℚ) (remaining : Population)
    (hw : ∀ individual ∈ remaining,
      rouletteWeight isMaximization population offset individual = .ok (w individual)) :
    ∀ cumulative : ℚ,
      (∃ i selected, remaining[i]? = some selected
        ∧ rouletteWalk isMaximization population offset selectionPoint remaining cumulative
            = .ok (some selected)
        ∧ selectionPoint ≤ cumulative + ((remaining.take (i + 1)).map w).sum
        ∧ ∀ j, j < i → cumulative + ((remaining.take (j + 1)).map w).sum < selectionPoint)
      ∨ (rouletteWalk isMaximization population offset selectionPoint remaining cumulative
            = .ok none
        ∧ ∀ j, j < remaining.length →
            cumulative + ((remaining.take (j + 1)).map w).sum < selectionPoint) := by
  induction remaining with
  | nil =>
    intro cumulative
    right
    exact ⟨rfl, fun j hj => absurd hj (by simp)⟩
  | cons a rest ih =>
    intro cumulative
    have ha := hw a (List.mem_cons_self _ _)
    have hrest : ∀ individual ∈ rest,
        rouletteWeight isMaximization population offset individual = .ok (w individual) :=
      fun b hb => hw b (List.mem_cons_of_mem _ hb)
    by_cases hreach : cumulative + w a ≥ selectionPoint
    · left
      refine ⟨0, a, by simp, ?_, ?_, fun j hj => absurd hj (by omega)⟩
      · simp only [rouletteWalk, ha, hreach, if_true]
      · simpa using hreach
    · have hstep : rouletteWalk isMaximization population offset selectionPoint (a :: rest)
          cumulative
          = rouletteWalk isMaximization population offset selectionPoint rest
              (cumulative + w a) := by
        simp only [rouletteWalk, ha, hreach, if_false]
      rcases ih hrest (cumulative + w a) with ⟨i, selected, hi, hwalk, hge, hlt⟩ | ⟨hwalk, hlt⟩
      · left
        refine ⟨i + 1, selected, by simpa using hi, by rw [hstep, hwalk], ?_, ?_⟩
        · simp only [List.take_succ_cons, List.map_cons, List.sum_cons]
          linarith
        · intro j hj
          cases j with
          | zero =>
            simp only [zero_add, List.take_succ_cons, List.take_zero, List.map_cons,
              List.map_nil, List.sum_cons, List.sum_nil, add_zero]
            linarith [not_le.mp hreach]
          | succ j =>
            have := hlt j (by omega)
            simp only [List.take_succ_cons, List.map_cons, List.sum_cons]
            linarith
      · right
        refine ⟨by rw [hstep, hwalk], ?_⟩
        intro j hj
        cases j with
        | zero =>
          simp only [zero_add, List.take_succ_cons, List.take_zero, List.map_cons,
            List.map_nil, List.sum_cons, List.sum_nil, add_zero]
          linarith [not_le.mp hreach]
        | succ j =>
          have := hlt j (by simpa using hj)
          simp only [List.take_succ_cons, List.map_cons, List.sum_cons]
          linarith

theorem betterFitness_irrefl (isMax : Bool) (a : ℚ) : ¬ betterFitness isMax a a := by
  cases isMax <;> simp [betterFitness]

theorem betterFitness_trans (isMax : Bool) (a b d : ℚ) (h1 : betterFitness isMax a b)
    (h2 : betterFitness isMax b d) : betterFitness isMax a d := by
  cases isMax <;> simp only [betterFitness, Bool.false_eq_true, if_false, if_true] at * <;>
    linarith

theorem not_betterFitness_trans (isMax : Bool) (a b d : ℚ) (h1 : ¬ betterFitness isMax a b)
    (h2 : ¬ betterFitness isMax b d) : ¬ betterFitness isMax a d := by
  cases isMax <;>
    simp only [betterFitness, Bool.false_eq_true, if_false, if_true, not_lt, gt_iff_lt] at * <;>
    linarith

theorem betterFitness_of_not_better (isMax : Bool) (a b d : ℚ) (h1 : betterFitness isMax a b)
    (h2 : ¬ betterFitness isMax d b) : betterFitness isMax a d := by
  cases isMax <;>
    simp only [betterFitness, Bool.false_eq_true, if_false, if_true, not_lt, gt_iff_lt] at * <;>
    linarith

theorem betterFitness_of_not_better_left (isMax : Bool) (a b d : ℚ)
    (h1 : ¬ betterFitness isMax b a) (h2 : betterFitness isMax b d) :
    betterFitness isMax a d := by
  cases isMax <;>
    simp only [betterFitness, Bool.false_eq_true, if_false, if_true, not_lt, gt_iff_lt] at * <;>
    linarith

theorem betterFitness_asymm (isMax : Bool) (a b : ℚ) (h : betterFitness isMax a b) :
    ¬ betterFitness isMax b a := by
  cases isMax <;>
    simp only [betterFitness, Bool.false_eq_true, if_false, if_true, not_lt, gt_iff_lt] at * <;>
    linarith

theorem indexPopulation_of_getElem? (population : Population) (i : Int) (x : Individual)
    (h0 : 0 ≤ i) (h : population[i.toNat]? = some x) : indexPopulation population i = .ok x := by
  simp only [indexPopulation, h0, if_true, h]

theorem indexPopulation_ok_inv (population : Population) (i : Int) (x : Individual)
    (h : indexPopulation population i = .ok x) :
    0 ≤ i ∧ population[i.toNat]? = some x ∧ x ∈ population := by
  unfold indexPopulation at h
  split at h
  · rename_i h0
    split at h
    · rename_i y hy
      cases h
      exact ⟨h0, hy, List.getElem?_mem hy⟩
    · cases h
  · cases h

theorem drawnIndex_zero (n : Int) (rng : Rng) :
    drawnIndex n rng 0 = (uniformInt 0 (n - 1) rng).1 := rfl

theorem drawnIndex_succ (n : Int) (rng : Rng) (j : Nat) :
    drawnIndex n (fun m => rng (m + 1)) j = drawnIndex n rng (j + 1) := by
  simp only [drawnIndex, uniformInt]
  have : 0 + (j + 1) = 0 + j + 1 := by omega
  rw [this]

theorem uniformInt_snd (lo hi : Int) (rng : Rng) :
    (uniformInt lo hi rng).2 = fun m => rng (m + 1) := rfl

theorem tournamentLoop_succ (isMax : Bool) (population : Population) (n : Int) (cnt : Nat)
    (best : Individual) (rng : Rng) (competitor : Individual)
    (hidx : indexPopulation population (drawnIndex n rng 0) = .ok competitor)
    (hc : competitor.isFitnessValid = true) (hb : best.isFitnessValid = true) :
    tournamentLoop isMax population n (cnt + 1) best rng
      = tournamentLoop isMax population n cnt
          (if betterFitness isMax competitor.fitness best.fitness then competitor else best)
          (fun m => rng (m + 1)) := by
  rw [drawnIndex_zero] at hidx
  cases isMax with
  | true =>
    simp only [tournamentLoop, hidx, getFitness_of_valid competitor hc,
      getFitness_of_valid best hb, if_true, betterFitness, uniformInt_snd]
  | false =>
    simp only [tournamentLoop, hidx, getFitness_of_valid competitor hc,
      getFitness_of_valid best hb, Bool.false_eq_true, if_false, betterFitness,
      uniformInt_snd]


theorem tournamentLoop_spec (isMax : Bool) (population : Population) (n : Int)
    (hev : FullyEvaluated population) :
    ∀ (cnt : Nat) (best : Individual) (rng : Rng), best.isFitnessValid = true →
      (∀ j, j < cnt → 0 ≤ drawnIndex n rng j
        ∧ (drawnIndex n rng j).toNat < population.length) →
      ∃ champion, tournamentLoop isMax population n cnt best rng
          = .ok (champion, fun m => rng (m + cnt))
        ∧ champion.isFitnessValid = true
        ∧ ¬ betterFitness isMax best.fitness champion.fitness
        ∧ (∀ j, j < cnt → ∀ x, population[(drawnIndex n rng j).toNat]? = some x →
            ¬ betterFitness isMax x.fitness champion.fitness)
        ∧ (champion = best
            ∨ ∃ j, j < cnt ∧ population[(drawnIndex n rng j).toNat]? = some champion
                ∧ betterFitness isMax champion.fitness best.fitness
                ∧ ∀ j', j' < j → ∀ x, population[(drawnIndex n rng j').toNat]? = some x →
                    betterFitness isMax champion.fitness x.fitness) := by
  intro cnt
  induction cnt with
  | zero =>
    intro best rng hb _
    exact ⟨best, rfl, hb, betterFitness_irrefl _ _, fun j hj => absurd hj (by omega),
      Or.inl rfl⟩
  | succ cnt ih =>
    intro best rng hb hdraw
    obtain ⟨h0, hlt⟩ := hdraw 0 (by omega)
    obtain ⟨competitor, hcomp⟩ : ∃ x, population[(drawnIndex n rng 0).toNat]? = some x :=
      ⟨_, List.getElem?_eq_getElem hlt⟩
    have hcv : competitor.isFitnessValid = true := hev _ (List.getElem?_mem hcomp)
    have hidx := indexPopulation_of_getElem? population _ competitor h0 hcomp
    have hstep := tournamentLoop_succ isMax population n cnt best rng competitor hidx hcv hb
    have hbest1 : (if betterFitness isMax competitor.fitness best.fitness then competitor
        else best).isFitnessValid = true := by
      split
      · exact hcv
      · exact hb
    obtain ⟨champion, hres, hchv, hnb, hall, hfirst⟩ :=
      ih (if betterFitness isMax competitor.fitness best.fitness then competitor else best)
        (fun m => rng (m + 1)) hbest1
        (fun j hj => by
          rw [drawnIndex_succ]
          exact hdraw (j + 1) (by omega))
    have hrng : (fun m => (fun m => rng (m + 1)) (m + cnt)) = fun m => rng (m + (cnt + 1)) := by
      funext m
      show rng (m + cnt + 1) = rng (m + (cnt + 1))
      rfl
    rw [hrng] at hres
    by_cases hbetter : betterFitness isMax competitor.fitness best.fitness
    · rw [if_pos hbetter] at hnb hfirst
      refine ⟨champion, hstep.trans hres, hchv, ?_, ?_, ?_⟩
      · exact not_betterFitness_trans isMax _ _ _ (betterFitness_asymm isMax _ _ hbetter) hnb
      · intro j hj x hx
        cases j with
        | zero =>
          rw [hcomp] at hx
          cases hx
          exact hnb
        | succ j =>
          rw [← drawnIndex_succ] at hx
          exact hall j (by omega) x hx
      · right
        rcases hfirst with heq | ⟨j, hj, hjc, hjb, hjf⟩
        · refine ⟨0, by omega, by rw [heq]; exact hcomp, by rw [heq]; exact hbetter,
            fun j' hj' => absurd hj' (by omega)⟩
        · refine ⟨j + 1, by omega, by rw [← drawnIndex_succ]; exact hjc,
            betterFitness_trans isMax _ _ _ hjb hbetter, ?_⟩
          intro j' hj' x hx
          cases j' with
          | zero =>
            rw [hcomp] at hx
            cases hx
            exact hjb
          | succ j' =>
            rw [← drawnIndex_succ] at hx
            exact hjf j' (by omega) x hx
    · rw [if_neg hbetter] at hnb hfirst
      refine ⟨champion, hstep.trans hres, hchv, hnb, ?_, ?_⟩
      · intro j hj x hx
        cases j with
        | zero =>
          rw [hcomp] at hx
          cases hx
          exact not_betterFitness_trans isMax _ _ _ hbetter hnb
        | succ j =>
          rw [← drawnIndex_succ] at hx
          exact hall j (by omega) x hx
      · rcases hfirst with heq | ⟨j, hj, hjc, hjb, hjf⟩
        · exact Or.inl heq
        · right
          refine ⟨j + 1, by omega, by rw [← drawnIndex_succ]; exact hjc, hjb, ?_⟩
          intro j' hj' x hx
          cases j' with
          | zero =>
            rw [hcomp] at hx
            cases hx
            exact betterFitness_of_not_better isMax _ _ _ hjb hbetter
          | succ j' =>
            rw [← drawnIndex_succ] at hx
            exact hjf j' (by omega) x hx

theorem tournamentLoop_rng (isMax : Bool) (population : Population) (n : Int) :
    ∀ (cnt : Nat) (best : Individual) (rng : Rng) (r : Individual × Rng),
      tournamentLoop isMax population n cnt best rng = .ok r →
        r.2 = fun m => rng (m + cnt) := by
  intro cnt
  induction cnt with
  | zero =>
    intro best rng r h
    simp only [tournamentLoop] at h
    cases h
    rfl
  | succ cnt ih =>
    intro best rng r h
    have hrng : (fun m => (fun m => rng (m + 1)) (m + cnt)) = fun m => rng (m + (cnt + 1)) := by
      funext m
      show rng (m + cnt + 1) = rng (m + (cnt + 1))
      rfl
    simp only [tournamentLoop, uniformInt_snd] at h
    split at h
    · cases h
    · split at h
      · cases h
      · split at h
        · cases h
        · split at h
          · rw [ih _ _ _ h, hrng]
          · rw [ih _ _ _ h, hrng]

theorem effectiveTournamentSize_pos (config : GAConfig) (tournamentSize : Int)
    (hpos : 1 ≤ config.populationSize) : 1 ≤ effectiveTournamentSize config tournamentSize := by
  unfold effectiveTournamentSize
  split
  · exact le_min (by norm_num) hpos
  · omega

/-- C16: on a population of size `populationSize ≥ 1` with index draws in
`[0, populationSize - 1]`, `tournamentSelection` uses `k` draws, `k` being `tournamentSize`
when it is in `[1, populationSize]` and `min(3, populationSize)` otherwise, and leaves
the population unchanged. When the population is fully evaluated it returns the individual
at the first drawn index whose raw fitness is the best (maximum, or minimum for
minimization) among the `k` drawn individuals. With `k = 1` it returns the individual at the
first drawn index without reading any fitness. -/
theorem tournamentSelection_first_best (ga : GeneticAlgorithm) (tournamentSize : Int)
    (hsize : (ga.population.length : Int) = ga.config.populationSize)
    (hpos : 1 ≤ ga.config.populationSize)
    (hdraw : ∀ j, 0 ≤ drawnIndex ga.config.populationSize ga.rng j
      ∧ drawnIndex ga.config.populationSize ga.rng j ≤ ga.config.populationSize - 1) :
    ∃ k : Nat,
      ((1 ≤ tournamentSize ∧ tournamentSize ≤ ga.config.populationSize →
          (k : Int) = tournamentSize)
        ∧ (¬ (1 ≤ tournamentSize ∧ tournamentSize ≤ ga.config.populationSize) →
          (k : Int) = min 3 ga.config.populationSize))
      ∧ (∀ r, ga.tournamentSelection tournamentSize = .ok r →
          r.2.population = ga.population ∧ r.2.config = ga.config
            ∧ r.2.rng = fun m => ga.rng (m + k))
      ∧ (FullyEvaluated ga.population →
          ∃ j selected, j < k
            ∧ ga.population[(drawnIndex ga.config.populationSize ga.rng j).toNat]?
                = some selected
            ∧ ga.tournamentSelection tournamentSize
                = .ok (selected, { ga with rng := fun m => ga.rng (m + k) })
            ∧ (∀ j', j' < k → ∀ x,
                ga.population[(drawnIndex ga.config.populationSize ga.rng j').toNat]? = some x →
                  ¬ betterFitness ga.config.isMaximization x.fitness selected.fitness)
            ∧ (∀ j', j' < j → ∀ x,
                ga.population[(drawnIndex ga.config.populationSize ga.rng j').toNat]? = some x →
                  betterFitness ga.config.isMaximization selected.fitness x.fitness))
      ∧ (k = 1 →
          ∃ first, ga.population[(drawnIndex ga.config.populationSize ga.rng 0).toNat]?
              = some first
            ∧ ga.tournamentSelection tournamentSize
                = .ok (first, { ga with rng := fun m => ga.rng (m + 1) })) := by
  have heff := effectiveTournamentSize_pos ga.config tournamentSize hpos
  have hrange : ∀ j, 0 ≤ drawnIndex ga.config.populationSize ga.rng j
      ∧ (drawnIndex ga.config.populationSize ga.rng j).toNat < ga.population.length := by
    intro j
    obtain ⟨h0, h1⟩ := hdraw j
    exact ⟨h0, by omega⟩
  obtain ⟨first, hfirst⟩ :
      ∃ x, ga.population[(drawnIndex ga.config.populationSize ga.rng 0).toNat]? = some x :=
    ⟨_, List.getElem?_eq_getElem (hrange 0).2⟩
  have hidx := indexPopulation_of_getElem? ga.population _ first (hrange 0).1 hfirst
  rw [drawnIndex_zero] at hidx
  have hguard : ¬ ¬ (0 ≤ ga.config.populationSize - 1) := by omega
  have hunfold : ga.tournamentSelection tournamentSize
      = match tournamentLoop ga.config.isMaximization ga.population ga.config.populationSize
            (effectiveTournamentSize ga.config tournamentSize - 1).toNat first
            (fun m => ga.rng (m + 1)) with
        | .error e => .error e
        | .ok r => .ok (r.1, { ga with rng := r.2 }) := by
    simp only [GeneticAlgorithm.tournamentSelection, hguard, if_false, hidx, uniformInt_snd]
  have hk : ((effectiveTournamentSize ga.config tournamentSize - 1).toNat + 1 : Nat)
      = (effectiveTournamentSize ga.config tournamentSize).toNat := by omega
  have hframe : ∀ r, ga.tournamentSelection tournamentSize = .ok r →
      r.2.population = ga.population ∧ r.2.config = ga.config
        ∧ r.2.rng
          = fun m => ga.rng (m + (effectiveTournamentSize ga.config tournamentSize).toNat) := by
    intro r hr
    rw [hunfold] at hr
    split at hr
    · cases hr
    · rename_i x hx
      cases hr
      refine ⟨rfl, rfl, ?_⟩
      show x.2 = _
      rw [tournamentLoop_rng _ _ _ _ _ _ _ hx]
      funext m
      show ga.rng (m + (effectiveTournamentSize ga.config tournamentSize - 1).toNat + 1) = _
      congr 1
      omega
  refine ⟨(effectiveTournamentSize ga.config tournamentSize).toNat, ⟨?_, ?_⟩, hframe, ?_, ?_⟩
  · intro h
    have : effectiveTournamentSize ga.config tournamentSize = tournamentSize := by
      unfold effectiveTournamentSize
      rw [if_neg (by omega)]
    omega
  · intro h
    have : effectiveTournamentSize ga.config tournamentSize
        = min 3 ga.config.populationSize := by
      unfold effectiveTournamentSize
      rw [if_pos (by omega)]
    omega
  · intro hev
    have hfv : first.isFitnessValid = true := hev _ (List.getElem?_mem hfirst)
    obtain ⟨champion, hres, -, hnb, hall, hchamp⟩ :=
      tournamentLoop_spec ga.config.isMaximization ga.population ga.config.populationSize hev
        (effectiveTournamentSize ga.config tournamentSize - 1).toNat first
        (fun m => ga.rng (m + 1)) hfv
        (fun j _ => by
          rw [drawnIndex_succ]
          exact hrange (j + 1))
    have hfun : (fun m => ga.rng (m + (effectiveTournamentSize ga.config tournamentSize - 1).toNat + 1))
        = fun m => ga.rng (m + (effectiveTournamentSize ga.config tournamentSize).toNat) := by
      funext m
      congr 1
      omega
    rw [hfun] at hres
    have hsel : ga.tournamentSelection tournamentSize = .ok (champion,
        { ga with rng := fun m => ga.rng (m + (effectiveTournamentSize ga.config tournamentSize).toNat) }) := by
      rw [hunfold, hres]
    have hallk : ∀ j', j' < (effectiveTournamentSize ga.config tournamentSize).toNat → ∀ x,
        ga.population[(drawnIndex ga.config.populationSize ga.rng j').toNat]? = some x →
          ¬ betterFitness ga.config.isMaximization x.fitness champion.fitness := by
      intro j' hj' x hx
      cases j' with
      | zero =>
        rw [hfirst] at hx
        cases hx
        exact hnb
      | succ j' =>
        rw [← drawnIndex_succ] at hx
        exact hall j' (by omega) x hx
    rcases hchamp with heq | ⟨j, hj, hjc, hjb, hjf⟩
    · refine ⟨0, champion, by omega, by rw [heq]; exact hfirst, hsel, hallk,
        fun j' hj' => absurd hj' (by omega)⟩
    · refine ⟨j + 1, champion, by omega, by rw [← drawnIndex_succ]; exact hjc, hsel, hallk, ?_⟩
      intro j' hj' x hx
      cases j' with
      | zero =>
        rw [hfirst] at hx
        cases hx
        exact hjb
      | succ j' =>
        rw [← drawnIndex_succ] at hx
        exact hjf j' (by omega) x hx
  · intro hk1
    refine ⟨first, hfirst, ?_⟩
    have hcnt : (effectiveTournamentSize ga.config tournamentSize - 1).toNat = 0 := by omega
    rw [hunfold, hcnt]
    rfl

/-! ### Sorting and elite selection -/

theorem insertSorted_perm (comp : Individual → Individual → Bool) (x : Individual) :
    ∀ l : Population, List.Perm (insertSorted comp x l) (x :: l) := by
  intro l
  induction l with
  | nil => exact List.Perm.refl _
  | cons y rest ih =>
    simp only [insertSorted]
    split
    · exact List.Perm.refl _
    · exact (List.Perm.cons y ih).trans (List.Perm.swap x y rest)

theorem insertSorted_pairwise (comp : Individual → Individual → Bool)
    (hswo : StrictWeakOrder comp) (x : Individual) :
    ∀ l : Population, List.Pairwise (fun a b => comp b a = false) l →
      List.Pairwise (fun a b => comp b a = false) (insertSorted comp x l) := by
  obtain ⟨hirr, htrans, hincomp⟩ := hswo
  have hasymm : ∀ a b, comp a b = true → comp b a = false := by
    intro a b hab
    by_contra hba
    have hba' : comp b a = true := by simpa using hba
    have := htrans a b a hab hba'
    rw [hirr a] at this
    cases this
  intro l
  induction l with
  | nil => intro _; simp [insertSorted]
  | cons y rest ih =>
    intro hl
    obtain ⟨hy, hrest⟩ := List.pairwise_cons.mp hl
    simp only [insertSorted]
    by_cases hxy : comp x y = true
    · rw [if_pos hxy]
      refine List.pairwise_cons.mpr ⟨?_, hl⟩
      intro z hz
      rcases List.mem_cons.mp hz with rfl | hz
      · exact hasymm _ _ hxy
      · by_contra hzx
        have hzx' : comp z x = true := by simpa using hzx
        have hzy := htrans z x y hzx' hxy
        rw [hy z hz] at hzy
        cases hzy
    · rw [if_neg hxy]
      have hxy' : comp x y = false := by simpa using hxy
      refine List.pairwise_cons.mpr ⟨?_, ih hrest⟩
      intro z hz
      have hz' := (insertSorted_perm comp x rest).mem_iff.mp hz
      rcases List.mem_cons.mp hz' with rfl | hz'
      · exact hxy'
      · exact hy z hz'

/-- Insertion sort meets the contract of `std::sort`. -/
theorem insertionStdSort_valid : insertionStdSort.Valid := by
  intro comp l
  constructor
  · induction l with
    | nil => exact List.Perm.refl _
    | cons x rest ih =>
      exact (insertSorted_perm comp x _).trans (List.Perm.cons x ih)
  · intro hswo
    induction l with
    | nil => exact List.Pairwise.nil
    | cons x rest ih => exact insertSorted_pairwise comp hswo x _ ih

theorem fitnessGreater_strictWeakOrder : StrictWeakOrder fitnessGreater := by
  refine ⟨fun a => by simp [fitnessGreater], ?_, ?_⟩
  · intro a b d h1 h2
    simp only [fitnessGreater, decide_eq_true_eq] at *
    linarith
  · intro a b d h1 h2 h3 h4
    simp only [fitnessGreater, decide_eq_false_iff_not, not_lt, gt_iff_lt] at *
    constructor <;> linarith

theorem fitnessLess_strictWeakOrder : StrictWeakOrder fitnessLess := by
  refine ⟨fun a => by simp [fitnessLess], ?_, ?_⟩
  · intro a b d h1 h2
    simp only [fitnessLess, decide_eq_true_eq] at *
    linarith
  · intro a b d h1 h2 h3 h4
    simp only [fitnessLess, decide_eq_false_iff_not, not_lt] at *
    constructor <;> linarith

theorem fullyEvaluated_perm (l1 l2 : Population) (h : List.Perm l1 l2)
    (hev : FullyEvaluated l2) : FullyEvaluated l1 :=
  fun a ha => hev a (h.mem_iff.mp ha)

theorem any_invalid_false_of_fullyEvaluated (population : Population)
    (hev : FullyEvaluated population) :
    population.any (fun individual => !individual.isFitnessValid) = false := by
  rw [List.any_eq_false]
  intro a ha
  simp [hev a ha]

/-- The result of `sortPopulationByFitness` when it returns: only the population changes, it
is a permutation of the old one, and it is ordered best first. -/
theorem sortPopulationByFitness_ok_inv (S : StdSort) (hS : S.Valid) (ga sorted : GeneticAlgorithm)
    (h : ga.sortPopulationByFitness S = .ok sorted) :
    ga.SameButPopulationRng sorted ∧ sorted.rng = ga.rng
      ∧ List.Perm sorted.population ga.population
      ∧ BestFirst ga.config.isMaximization sorted.population := by
  unfold GeneticAlgorithm.sortPopulationByFitness at h
  split at h
  · cases h
  · split at h
    · rename_i hmax
      cases h
      refine ⟨⟨rfl, rfl, rfl, rfl⟩, rfl, (hS fitnessGreater ga.population).1, ?_⟩
      have hp := (hS fitnessGreater ga.population).2 fitnessGreater_strictWeakOrder
      refine hp.imp ?_
      intro a b hab
      simp only [fitnessGreater, decide_eq_false_iff_not] at hab
      simpa [betterFitness, hmax] using hab
    · rename_i hmax
      cases h
      refine ⟨⟨rfl, rfl, rfl, rfl⟩, rfl, (hS fitnessLess ga.population).1, ?_⟩
      have hp := (hS fitnessLess ga.population).2 fitnessLess_strictWeakOrder
      refine hp.imp ?_
      intro a b hab
      simp only [fitnessLess, decide_eq_false_iff_not] at hab
      simpa [betterFitness, hmax] using hab

theorem sortPopulationByFitness_ok (S : StdSort) (ga : GeneticAlgorithm)
    (hev : FullyEvaluated ga.population) :
    ∃ sorted, ga.sortPopulationByFitness S = .ok sorted := by
  unfold GeneticAlgorithm.sortPopulationByFitness
  rw [any_invalid_false_of_fullyEvaluated _ hev]
  simp only [Bool.false_eq_true, and_false, if_false]
  split
  · exact ⟨_, rfl⟩
  · exact ⟨_, rfl⟩

theorem eliteLoop_ok_inv (population : Population) :
    ∀ (n i : Nat) (elites r : List Individual),
      eliteLoop population n (i : Int) elites = .ok r →
        r = elites ++ (population.drop i).take n ∧ r.length = elites.length + n := by
  intro n
  induction n with
  | zero =>
    intro i elites r h
    simp only [eliteLoop] at h
    cases h
    simp
  | succ n ih =>
    intro i elites r h
    simp only [eliteLoop] at h
    split at h
    · cases h
    · rename_i x hx
      obtain ⟨-, hget, -⟩ := indexPopulation_ok_inv population i x hx
      simp only [Int.toNat_ofNat] at hget
      have hcast : ((i : Int) + 1) = ((i + 1 : Nat) : Int) := by push_cast; rfl
      rw [hcast] at h
      obtain ⟨hr, hlen⟩ := ih (i + 1) (elites ++ [x]) r h
      obtain ⟨hi, hxe⟩ := List.getElem?_eq_some.mp hget
      refine ⟨?_, by simp only [List.length_append, List.length_singleton] at hlen; omega⟩
      rw [hr, List.append_assoc, List.drop_eq_getElem_cons hi, hxe]
      rfl

theorem eliteLoop_ok (population : Population) :
    ∀ (n i : Nat) (elites : List Individual), i + n ≤ population.length →
      ∃ r, eliteLoop population n (i : Int) elites = .ok r := by
  intro n
  induction n with
  | zero => intro i elites _; exact ⟨_, rfl⟩
  | succ n ih =>
    intro i elites hlen
    have hi : i < population.length := by omega
    have hidx : indexPopulation population (i : Int) = .ok (population.get ⟨i, hi⟩) :=
      indexPopulation_of_getElem? population i _ (by omega)
        (by simp only [Int.toNat_ofNat]; exact List.getElem?_eq_getElem hi)
    have hcast : ((i : Int) + 1) = ((i + 1 : Nat) : Int) := by push_cast; rfl
    obtain ⟨r, hr⟩ := ih (i + 1) (elites ++ [population.get ⟨i, hi⟩]) (by omega)
    exact ⟨r, by simp only [eliteLoop, hidx, hcast, hr]⟩

theorem effectiveEliteCount_bounds (config : GAConfig) (eliteCount : Int)
    (hpos : 1 ≤ config.populationSize) :
    1 ≤ effectiveEliteCount config eliteCount
      ∧ effectiveEliteCount config eliteCount ≤ config.populationSize := by
  unfold effectiveEliteCount
  split
  · refine ⟨le_max_left _ _, max_le hpos ?_⟩
    have hn : (0 : ℚ) ≤ (config.populationSize : ℚ) := by
      exact_mod_cast (by omega : 0 ≤ config.populationSize)
    rw [roundDouble_tenth]
    have hq : (0 : ℚ)
        ≤ (config.populationSize : ℚ) * (3602879701896397 / 36028797018963968) := by
      positivity
    rw [truncToInt_of_nonneg _ (roundDouble_nonneg hq)]
    have herr := (roundDouble_error hq).1
    have hfl := Int.floor_le
      (roundDouble ((config.populationSize : ℚ) * (3602879701896397 / 36028797018963968)))
    have h2 : ((⌊roundDouble ((config.populationSize : ℚ)
        * (3602879701896397 / 36028797018963968))⌋ : Int) : ℚ)
        ≤ (config.populationSize : ℚ) := by linarith
    exact_mod_cast h2
  · omega

/-- The result of `eliteSelection` when it returns: the state is the sorted one and the
elites are its first individuals, as many as the effective elite count bounded by
`populationSize`. -/
theorem eliteSelection_ok_inv (S : StdSort) (ga : GeneticAlgorithm) (eliteCount : Int)
    (r : List Individual × GeneticAlgorithm) (h : ga.eliteSelection S eliteCount = .ok r) :
    ga.sortPopulationByFitness S = .ok r.2
      ∧ r.1 = r.2.population.take
          (min (effectiveEliteCount ga.config eliteCount) ga.config.populationSize).toNat
      ∧ r.1.length
          = (min (effectiveEliteCount ga.config eliteCount) ga.config.populationSize).toNat := by
  unfold GeneticAlgorithm.eliteSelection at h
  split at h
  · cases h
  · rename_i sorted hsorted
    split at h
    · cases h
    · rename_i elites helites
      cases h
      have := eliteLoop_ok_inv sorted.population _ 0 [] elites (by simpa using helites)
      simp only [List.nil_append, List.drop_zero, List.length_nil, zero_add] at this
      exact ⟨hsorted, this.1, this.2⟩

theorem samplePopulation_fullyEvaluated : FullyEvaluated samplePopulation := by
  intro individual hmem
  simp only [samplePopulation, List.mem_cons, List.mem_singleton, List.not_mem_nil,
    or_false] at hmem
  rcases hmem with rfl | rfl | rfl | rfl <;> rfl

/-- The number of elites returned by `eliteSelection` on a fully evaluated population of
size `populationSize ≥ 1`. -/
theorem eliteSelection_length (S : StdSort) (hS : S.Valid) (ga : GeneticAlgorithm)
    (eliteCount : Int)
    (hsize : (ga.population.length : Int) = ga.config.populationSize)
    (hpos : 1 ≤ ga.config.populationSize) (hev : FullyEvaluated ga.population) :
    ∃ r, ga.eliteSelection S eliteCount = .ok r
      ∧ (r.1.length : Int) = effectiveEliteCount ga.config eliteCount
      ∧ r.1 = r.2.population.take r.1.length
      ∧ ga.sortPopulationByFitness S = .ok r.2 := by
  obtain ⟨sorted, hsorted⟩ := sortPopulationByFitness_ok S ga hev
  obtain ⟨-, -, hperm, -⟩ := sortPopulationByFitness_ok_inv S hS ga sorted hsorted
  obtain ⟨h1, h2⟩ := effectiveEliteCount_bounds ga.config eliteCount hpos
  have hlen : sorted.population.length = ga.population.length := hperm.length_eq
  obtain ⟨elites, helites⟩ := eliteLoop_ok sorted.population
    (min (effectiveEliteCount ga.config eliteCount) ga.config.populationSize).toNat 0 []
    (by omega)
  have hres : ga.eliteSelection S eliteCount = .ok (elites, sorted) := by
    simp only [GeneticAlgorithm.eliteSelection, hsorted]
    have : eliteLoop sorted.population
        (min (effectiveEliteCount ga.config eliteCount) ga.config.populationSize).toNat 0 []
        = .ok elites := by simpa using helites
    rw [this]
  obtain ⟨hs, htake, hl⟩ := eliteSelection_ok_inv S ga eliteCount _ hres
  refine ⟨_, hres, ?_, ?_, hsorted⟩
  · simp only [hl]
    omega
  · simp only [hl]
    exact htake

/-! ### The number of elites of one generation -/

/-- The elite count of `evolveGeneration`, the rounded product truncated, against the floor of
the exact product: it is the floor or one more, and it lies in `[0, populationSize]` when
`elitismRate` is in `[0, 1]`. -/
theorem eliteCount_bounds (config : GAConfig) (hpos : 1 ≤ config.populationSize)
    (hint : config.populationSize ≤ 2147483647)
    (hr0 : 0 ≤ config.elitismRate) (hr1 : config.elitismRate ≤ 1) :
    ⌊(config.populationSize : ℚ) * config.elitismRate⌋
        ≤ truncToInt (roundDouble ((config.populationSize : ℚ) * config.elitismRate))
      ∧ truncToInt (roundDouble ((config.populationSize : ℚ) * config.elitismRate))
        ≤ ⌊(config.populationSize : ℚ) * config.elitismRate⌋ + 1
      ∧ 0 ≤ truncToInt (roundDouble ((config.populationSize : ℚ) * config.elitismRate))
      ∧ truncToInt (roundDouble ((config.populationSize : ℚ) * config.elitismRate))
        ≤ config.populationSize := by
  obtain ⟨k, hk⟩ := Int.eq_ofNat_of_zero_le (by omega : 0 ≤ config.populationSize)
  have hkb : k ≤ 2147483647 := by omega
  have hkq : ((k : Nat) : ℚ) ≤ 2147483647 := by exact_mod_cast hkb
  rw [hk]
  have hn : (0 : ℚ) ≤ (((k : Nat) : Int) : ℚ) := by positivity
  have hx0 : (0 : ℚ) ≤ (((k : Nat) : Int) : ℚ) * config.elitismRate := mul_nonneg hn hr0
  have hx1 : (((k : Nat) : Int) : ℚ) * config.elitismRate ≤ ((k : Nat) : ℚ) := by
    calc (((k : Nat) : Int) : ℚ) * config.elitismRate
        ≤ (((k : Nat) : Int) : ℚ) * 1 := mul_le_mul_of_nonneg_left hr1 hn
      _ = ((k : Nat) : ℚ) := by push_cast; ring
  obtain ⟨b1, b2⟩ := truncToInt_roundDouble_bounds hx0 (by linarith)
  exact ⟨b1, b2, truncToInt_roundDouble_nonneg hx0,
    truncToInt_roundDouble_le k hx0 hx1 (by omega)⟩

/-- The elites that `eliteSelection` returns for the elite count of `evolveGeneration`, on a
fully evaluated population of size `populationSize`: the first individuals of the sorted
population, as many as the elite count when it is at least 1, and as many as the default
when it is 0. -/
theorem eliteSelection_count (S : StdSort) (hS : S.Valid) (ga : GeneticAlgorithm)
    (hsize : (ga.population.length : Int) = ga.config.populationSize)
    (hpos : 1 ≤ ga.config.populationSize) (hint : ga.config.populationSize ≤ 2147483647)
    (hev : FullyEvaluated ga.population)
    (hr0 : 0 ≤ ga.config.elitismRate) (hr1 : ga.config.elitismRate ≤ 1) :
    ∃ r, ga.eliteSelection S
          (truncToInt (roundDouble ((ga.config.populationSize : ℚ) * ga.config.elitismRate)))
          = .ok r
      ∧ r.1 = r.2.population.take r.1.length
      ∧ ga.sortPopulationByFitness S = .ok r.2
      ∧ (1 ≤ truncToInt (roundDouble ((ga.config.populationSize : ℚ) * ga.config.elitismRate)) →
          (r.1.length : Int)
            = truncToInt (roundDouble ((ga.config.populationSize : ℚ) * ga.config.elitismRate)))
      ∧ (truncToInt (roundDouble ((ga.config.populationSize : ℚ) * ga.config.elitismRate)) = 0 →
          (r.1.length : Int) = max 1 (truncToInt
            (roundDouble ((ga.config.populationSize : ℚ) * roundDouble (1 / 10))))) := by
  obtain ⟨-, -, -, hle⟩ := eliteCount_bounds ga.config hpos hint hr0 hr1
  obtain ⟨r, hr, hlen, htake, hsort⟩ := eliteSelection_length S hS ga
    (truncToInt (roundDouble ((ga.config.populationSize : ℚ) * ga.config.elitismRate)))
    hsize hpos hev
  refine ⟨r, hr, htake, hsort, ?_, ?_⟩
  · intro h1
    rw [hlen, effectiveEliteCount, if_neg (by omega)]
  · intro h0
    rw [hlen, effectiveEliteCount, if_pos (by omega)]

/-! ### Parents from the elitist pool -/

theorem uniformInt_range (lo hi : Int) (rng : Rng) (hle : lo ≤ hi) (h0 : 0 ≤ rng 0)
    (h1 : rng 0 < 1) :
    lo ≤ (uniformInt lo hi rng).1 ∧ (uniformInt lo hi rng).1 ≤ hi := by
  simp only [uniformInt]
  have hk : (0 : ℚ) < ((hi - lo + 1 : Int) : ℚ) := by
    exact_mod_cast (by omega : (0 : Int) < hi - lo + 1)
  have hnonneg : (0 : ℚ) ≤ rng 0 * ((hi - lo + 1 : Int) : ℚ) := mul_nonneg h0 hk.le
  have hlt : rng 0 * ((hi - lo + 1 : Int) : ℚ) < ((hi - lo + 1 : Int) : ℚ) := by
    calc rng 0 * ((hi - lo + 1 : Int) : ℚ) < 1 * ((hi - lo + 1 : Int) : ℚ) :=
          mul_lt_mul_of_pos_right h1 hk
      _ = ((hi - lo + 1 : Int) : ℚ) := one_mul _
  have hf0 : 0 ≤ ⌊rng 0 * ((hi - lo + 1 : Int) : ℚ)⌋ := Int.floor_nonneg.mpr hnonneg
  have hf1 : ⌊rng 0 * ((hi - lo + 1 : Int) : ℚ)⌋ < hi - lo + 1 := Int.floor_lt.mpr hlt
  constructor <;> omega

set_option maxRecDepth 100000 in
theorem roundDouble_fifteen_hundredths :
    roundDouble (15 / 100) = 5404319552844595 / 36028797018963968 := by
  with_unfolding_all rfl

set_option maxRecDepth 100000 in
theorem twentyEngine_eliteCount :
    truncToInt (roundDouble ((twentyEngine.config.populationSize : ℚ)
      * twentyEngine.config.elitismRate)) = 3 := by
  with_unfolding_all rfl

set_option maxRecDepth 100000 in
theorem twentyEngine_selectParents :
    GeneticAlgorithm.selectParents twentyEngine 3
      = .ok ((⟨[false, false, false, false], 15, 0, true⟩,
            ⟨[false, false, false, false], 15, 0, true⟩),
          { twentyEngine with rng := fun _ => 3 / 4 }) := by
  with_unfolding_all rfl

/-- C20 as stated fails in two ways. On the sample engine with `selectionType = ELITISM` the
elite count is `floor(4 * 1/4) = 1`, the pool bound `min(2 * 1, 4 - 1)` is 2, and with the
draw `3/4` both parents are the individual at index 2 of the sorted population, which is not
strictly below 2. With `populationSize = 20` and `elitismRate = 0.15` (the `double` nearest
to 15 hundredths, slightly below it) `floor(20 * 0.15)` is 2 and the stated bound
`min(2 * 2, 19)` is 4, but the product rounds to the `double` 3.0, the elite count is 3, and
with the draw `3/4` both parents are the individual at index 5. -/
theorem selectParents_elitism_index_equal_bound :
    (truncToInt (roundDouble ((sampleConfig.populationSize : ℚ) * sampleConfig.elitismRate)) = 1
      ∧ ⌊(sampleConfig.populationSize : ℚ) * sampleConfig.elitismRate⌋ = 1
      ∧ min ((1 : Int) * 2) (sampleConfig.populationSize - 1) = 2
      ∧ BestFirst true samplePopulation
      ∧ ∃ r, GeneticAlgorithm.selectParents
            { sampleEngine with
                config := { sampleConfig with selectionType := SelectionType.ELITISM } } 1
            = .ok r
          ∧ samplePopulation[2]? = some r.1.1
          ∧ samplePopulation[2]? = some r.1.2
          ∧ ∀ i, i < 2 → samplePopulation[i]? ≠ some r.1.1)
    ∧ (truncToInt (roundDouble ((twentyEngine.config.populationSize : ℚ)
          * twentyEngine.config.elitismRate)) = 3
      ∧ ⌊(twentyEngine.config.populationSize : ℚ) * twentyEngine.config.elitismRate⌋ = 2
      ∧ min ((2 : Int) * 2) (twentyEngine.config.populationSize - 1) = 4
      ∧ BestFirst true twentyEngine.population
      ∧ ∃ r, GeneticAlgorithm.selectParents twentyEngine 3 = .ok r
          ∧ twentyEngine.population[5]? = some r.1.1
          ∧ twentyEngine.population[5]? = some r.1.2
          ∧ ∀ i, i ≤ 4 → twentyEngine.population[i]? ≠ some r.1.1) := by
  refine ⟨⟨?_, ?_, by decide, ?_, ?_⟩, ⟨twentyEngine_eliteCount, ?_, by decide, ?_, ?_⟩⟩
  · with_unfolding_all rfl
  · simp only [sampleConfig]
    norm_num
  · simp only [BestFirst, samplePopulation, betterFitness, if_true]
    norm_num [List.pairwise_cons]
  · have hd : (uniformInt 0 2 (fun _ => (3 / 4 : ℚ))).1 = 2 := by
      simp only [uniformInt]
      norm_num
    have hsel : GeneticAlgorithm.selectParents
        { sampleEngine with
            config := { sampleConfig with selectionType := SelectionType.ELITISM } } 1
        = .ok ((⟨[false, false, true, false], 4, 20, true⟩,
              ⟨[false, false, true, false], 4, 20, true⟩),
            { sampleEngine with
                config := { sampleConfig with selectionType := SelectionType.ELITISM },
                rng := fun _ => 3 / 4 }) := by
      simp only [GeneticAlgorithm.selectParents, sampleEngine, sampleConfig]
      norm_num
      rw [uniformInt_snd, hd]
      simp only [indexPopulation, samplePopulation]
      norm_num
      exact ⟨rfl, rfl⟩
    refine ⟨_, hsel, rfl, rfl, ?_⟩
    intro i hi
    interval_cases i <;> simp [samplePopulation]
  · show ⌊((20 : Int) : ℚ) * roundDouble (15 / 100)⌋ = 2
    rw [roundDouble_fifteen_hundredths, Int.floor_eq_iff]
    norm_num
  · simp only [BestFirst, twentyEngine, twentyPopulation, betterFitness, if_true]
    norm_num [List.pairwise_cons]
  · refine ⟨_, twentyEngine_selectParents, rfl, rfl, ?_⟩
    intro i hi
    interval_cases i <;> simp [twentyEngine, twentyPopulation]

/-- C20 (amended): with `selectionType = ELITISM`, on a population of size
`populationSize ≥ 1` (in `evolveGeneration`: the population sorted best first) and for every
pair of draws, both parents of a pairing are taken at an index that is at most
`min(2 * eliteCount, populationSize - 1)`, the bound itself included, where `eliteCount` is
`static_cast<int>(populationSize * elitismRate)`, the product rounded to the nearest
`double` and truncated; two draws are consumed. -/
theorem selectParents_elitism_pool (ga : GeneticAlgorithm)
    (hsel : ga.config.selectionType = SelectionType.ELITISM)
    (hsize : (ga.population.length : Int) = ga.config.populationSize)
    (hpos : 1 ≤ ga.config.populationSize) (hr0 : 0 ≤ ga.config.elitismRate)
    (hdraw : (0 ≤ ga.rng 0 ∧ ga.rng 0 < 1) ∧ (0 ≤ ga.rng 1 ∧ ga.rng 1 < 1)) :
    ∃ (i1 i2 : Nat) (parent1 parent2 : Individual),
      ga.selectParents
          (truncToInt (roundDouble ((ga.config.populationSize : ℚ) * ga.config.elitismRate)))
        = .ok ((parent1, parent2), { ga with rng := fun m => ga.rng (m + 2) })
      ∧ ga.population[i1]? = some parent1 ∧ ga.population[i2]? = some parent2
      ∧ (i1 : Int) ≤ min
          (truncToInt (roundDouble ((ga.config.populationSize : ℚ) * ga.config.elitismRate)) * 2)
          (ga.config.populationSize - 1)
      ∧ (i2 : Int) ≤ min
          (truncToInt (roundDouble ((ga.config.populationSize : ℚ) * ga.config.elitismRate)) * 2)
          (ga.config.populationSize - 1) := by
  have hn : (0 : ℚ) ≤ (ga.config.populationSize : ℚ) := by
    exact_mod_cast (by omega : 0 ≤ ga.config.populationSize)
  have he : 0 ≤ truncToInt
      (roundDouble ((ga.config.populationSize : ℚ) * ga.config.elitismRate)) :=
    truncToInt_roundDouble_nonneg (mul_nonneg hn hr0)
  generalize truncToInt
    (roundDouble ((ga.config.populationSize : ℚ) * ga.config.elitismRate)) = e at he ⊢
  have hbound : 0 ≤ min (e * 2) (ga.config.populationSize - 1) := le_min (by omega) (by omega)
  have hbn : min (e * 2) (ga.config.populationSize - 1) ≤ ga.config.populationSize - 1 :=
    min_le_right _ _
  obtain ⟨hd1a, hd1b⟩ := uniformInt_range 0 _ ga.rng hbound hdraw.1.1 hdraw.1.2
  obtain ⟨hd2a, hd2b⟩ := uniformInt_range 0 _ (fun m => ga.rng (m + 1)) hbound
    hdraw.2.1 hdraw.2.2
  have hi1 : ((uniformInt 0 (min (e * 2) (ga.config.populationSize - 1)) ga.rng).1).toNat
      < ga.population.length := by omega
  have hi2 : ((uniformInt 0 (min (e * 2) (ga.config.populationSize - 1))
      (fun m => ga.rng (m + 1))).1).toNat < ga.population.length := by omega
  have hp1 := indexPopulation_of_getElem? ga.population _ _ hd1a (List.getElem?_eq_getElem hi1)
  have hp2 := indexPopulation_of_getElem? ga.population _ _ hd2a (List.getElem?_eq_getElem hi2)
  refine ⟨_, _, _, _, ?_, List.getElem?_eq_getElem hi1, List.getElem?_eq_getElem hi2,
    by omega, by omega⟩
  simp only [GeneticAlgorithm.selectParents, hsel, hbound, not_true, if_false, hp1,
    uniformInt_snd, hp2]

/-- Witness of C20 (amended): the sample engine with `selectionType = ELITISM`. -/
theorem selectParents_elitism_pool_witness :
    ∃ (i1 i2 : Nat) (parent1 parent2 : Individual),
      GeneticAlgorithm.selectParents
          { sampleEngine with
              config := { sampleConfig with selectionType := SelectionType.ELITISM } }
          (truncToInt (roundDouble ((sampleConfig.populationSize : ℚ)
            * sampleConfig.elitismRate)))
        = .ok ((parent1, parent2),
            { sampleEngine with
                config := { sampleConfig with selectionType := SelectionType.ELITISM },
                rng := fun m => sampleEngine.rng (m + 2) })
      ∧ samplePopulation[i1]? = some parent1 ∧ samplePopulation[i2]? = some parent2
      ∧ (i1 : Int) ≤ min
          (truncToInt (roundDouble ((sampleConfig.populationSize : ℚ)
            * sampleConfig.elitismRate)) * 2)
          (sampleConfig.populationSize - 1)
      ∧ (i2 : Int) ≤ min
          (truncToInt (roundDouble ((sampleConfig.populationSize : ℚ)
            * sampleConfig.elitismRate)) * 2)
          (sampleConfig.populationSize - 1) :=
  selectParents_elitism_pool
    { sampleEngine with config := { sampleConfig with selectionType := SelectionType.ELITISM } }
    rfl (by rfl) (by decide) (by simp only [sampleConfig]; norm_num)
    (by simp only [sampleEngine]; norm_num)

/-! ### Frame conditions of the generational step -/

theorem SameButRng.refl (ga : GeneticAlgorithm) : ga.SameButRng ga :=
  ⟨rfl, rfl, rfl, rfl, rfl⟩

theorem SameButRng.trans (a b d : GeneticAlgorithm) (h1 : a.SameButRng b)
    (h2 : b.SameButRng d) : a.SameButRng d :=
  ⟨h2.1.trans h1.1, h2.2.1.trans h1.2.1, h2.2.2.1.trans h1.2.2.1,
    h2.2.2.2.1.trans h1.2.2.2.1, h2.2.2.2.2.trans h1.2.2.2.2⟩

theorem SameButRng.withRng (ga : GeneticAlgorithm) (rng : Rng) :
    ga.SameButRng { ga with rng := rng } :=
  ⟨rfl, rfl, rfl, rfl, rfl⟩

theorem tournamentLoop_mem (isMax : Bool) (population : Population) (n : Int) :
    ∀ (cnt : Nat) (best : Individual) (rng : Rng) (r : Individual × Rng),
      tournamentLoop isMax population n cnt best rng = .ok r →
        r.1 = best ∨ r.1 ∈ population := by
  intro cnt
  induction cnt with
  | zero =>
    intro best rng r h
    simp only [tournamentLoop] at h
    cases h
    exact Or.inl rfl
  | succ cnt ih =>
    intro best rng r h
    simp only [tournamentLoop] at h
    split at h
    · cases h
    · rename_i competitor hcomp
      have hmem := (indexPopulation_ok_inv _ _ _ hcomp).2.2
      split at h
      · cases h
      · split at h
        · cases h
        · split at h
          · rcases ih _ _ _ h with h1 | h1
            · rw [h1]
              split
              · exact Or.inr hmem
              · exact Or.inl rfl
            · exact Or.inr h1
          · rcases ih _ _ _ h with h1 | h1
            · rw [h1]
              split
              · exact Or.inr hmem
              · exact Or.inl rfl
            · exact Or.inr h1

theorem tournamentSelection_frame (ga : GeneticAlgorithm) (tournamentSize : Int)
    (r : Individual × GeneticAlgorithm) (h : ga.tournamentSelection tournamentSize = .ok r) :
    ga.SameButRng r.2 ∧ r.1 ∈ ga.population := by
  unfold GeneticAlgorithm.tournamentSelection at h
  dsimp only at h
  split at h
  · cases h
  · split at h
    · cases h
    · rename_i first hfirst
      have hmem := (indexPopulation_ok_inv _ _ _ hfirst).2.2
      split at h
      · cases h
      · rename_i x hx
        cases h
        refine ⟨SameButRng.withRng _ _, ?_⟩
        rcases tournamentLoop_mem _ _ _ _ _ _ _ hx with h1 | h1
        · show x.1 ∈ ga.population
          rw [h1]
          exact hmem
        · exact h1

theorem rouletteWheelSelection_frame (ga : GeneticAlgorithm)
    (r : Individual × GeneticAlgorithm) (h : ga.rouletteWheelSelection = .ok r) :
    ga.SameButRng r.2 := by
  unfold GeneticAlgorithm.rouletteWheelSelection at h
  dsimp only at h
  repeat' split at h
  all_goals first | (cases h; exact SameButRng.withRng _ _) | cases h

theorem selectParents_frame (ga : GeneticAlgorithm) (eliteCount : Int)
    (r : (Individual × Individual) × GeneticAlgorithm)
    (h : ga.selectParents eliteCount = .ok r) : ga.SameButRng r.2 := by
  unfold GeneticAlgorithm.selectParents at h
  split at h
  · split at h
    · cases h
    · rename_i r1 h1
      split at h
      · cases h
      · rename_i r2 h2
        cases h
        exact SameButRng.trans _ _ _ (tournamentSelection_frame _ _ _ h1).1
          (tournamentSelection_frame _ _ _ h2).1
  · split at h
    · cases h
    · rename_i r1 h1
      split at h
      · cases h
      · rename_i r2 h2
        cases h
        exact SameButRng.trans _ _ _ (rouletteWheelSelection_frame _ _ h1)
          (rouletteWheelSelection_frame _ _ h2)
  · dsimp only at h
    repeat' split at h
    all_goals first | (cases h; exact SameButRng.withRng _ _) | cases h

theorem performCrossover_frame (ga : GeneticAlgorithm) (parent1 parent2 : Individual)
    (r : (Individual × Individual) × GeneticAlgorithm)
    (h : ga.performCrossover parent1 parent2 = .ok r) : ga.SameButRng r.2 := by
  unfold GeneticAlgorithm.performCrossover at h
  dsimp only at h
  repeat' split at h
  all_goals first | (cases h; exact SameButRng.withRng _ _) | cases h

theorem performMutation_frame (ga : GeneticAlgorithm) (individual : Individual) :
    ga.SameButRng (ga.performMutation individual).2 :=
  SameButRng.withRng _ _

theorem breedPair_frame (ga : GeneticAlgorithm) (eliteCount : Int)
    (r : (Individual × Individual) × GeneticAlgorithm)
    (h : ga.breedPair eliteCount = .ok r) : ga.SameButRng r.2 := by
  unfold GeneticAlgorithm.breedPair at h
  split at h
  · cases h
  · rename_i sel hsel
    have h1 := selectParents_frame ga eliteCount sel hsel
    have h2 : ga.SameButRng { sel.2 with rng := (uniformReal01 sel.2.rng).2 } :=
      SameButRng.trans _ _ _ h1 (SameButRng.withRng _ _)
    dsimp only at h
    split at h
    · split at h
      · cases h
      · rename_i x hx
        cases h
        have h3 := performCrossover_frame _ _ _ _ hx
        exact SameButRng.trans _ _ _ h2 (SameButRng.trans _ _ _ h3
          (SameButRng.trans _ _ _ (performMutation_frame _ _) (performMutation_frame _ _)))
    · cases h
      exact SameButRng.trans _ _ _ h2
        (SameButRng.trans _ _ _ (performMutation_frame _ _) (performMutation_frame _ _))

/-! ### The fill loop -/

theorem pushOffspring_spec (n : Nat) (newPopulation : Population) (child1 child2 : Individual)
    (h : newPopulation.length < n) :
    (newPopulation.length + 1 = n →
        pushOffspring n newPopulation child1 child2 = newPopulation ++ [child1])
      ∧ (newPopulation.length + 2 ≤ n →
        pushOffspring n newPopulation child1 child2 = newPopulation ++ [child1, child2]) := by
  constructor
  · intro h1
    simp only [pushOffspring, h, if_true, List.length_append, List.length_singleton]
    rw [if_neg (by omega)]
  · intro h2
    simp only [pushOffspring, h, if_true, List.length_append, List.length_singleton]
    rw [if_pos (by omega), List.append_assoc]
    rfl

theorem pushOffspring_append (n : Nat) (newPopulation : Population)
    (child1 child2 : Individual) (h : newPopulation.length < n) :
    ∃ added, pushOffspring n newPopulation child1 child2 = newPopulation ++ added
      ∧ 1 ≤ added.length ∧ newPopulation.length + added.length ≤ n
      ∧ ∀ x ∈ added, x = child1 ∨ x = child2 := by
  obtain ⟨h1, h2⟩ := pushOffspring_spec n newPopulation child1 child2 h
  by_cases hcase : newPopulation.length + 1 = n
  · exact ⟨[child1], h1 hcase, by simp, by simp; omega, by simp⟩
  · exact ⟨[child1, child2], h2 (by omega), by simp, by simp; omega, by simp⟩

theorem fillLoop_done (eliteCount : Int) (n : Nat) (ga : GeneticAlgorithm)
    (newPopulation : Population) (h : ¬ newPopulation.length < n) :
    fillLoop eliteCount n ga newPopulation = .ok (newPopulation, ga) := by
  rw [fillLoop, if_neg h]

theorem fillLoop_step (eliteCount : Int) (n : Nat) (ga : GeneticAlgorithm)
    (newPopulation : Population) (h : newPopulation.length < n) :
    fillLoop eliteCount n ga newPopulation
      = match ga.breedPair eliteCount with
        | .error e => .error e
        | .ok r => fillLoop eliteCount n r.2 (pushOffspring n newPopulation r.1.1 r.1.2) := by
  rw [fillLoop, if_pos h]

/-- The fill loop, when it returns: the new population has exactly `n` individuals, it
extends the population it started from, and the engine state changed at most in the random
source. -/
theorem fillLoop_ok_inv (eliteCount : Int) (n : Nat) :
    ∀ (k : Nat) (ga : GeneticAlgorithm) (newPopulation : Population)
      (r : Population × GeneticAlgorithm),
      n - newPopulation.length ≤ k → newPopulation.length ≤ n →
      fillLoop eliteCount n ga newPopulation = .ok r →
        r.1.length = n ∧ (∃ added, r.1 = newPopulation ++ added) ∧ ga.SameButRng r.2 := by
  intro k
  induction k with
  | zero =>
    intro ga newPopulation r hk hle h
    rw [fillLoop_done _ _ _ _ (by omega)] at h
    cases h
    exact ⟨show newPopulation.length = n by omega, ⟨[], by simp⟩, SameButRng.refl _⟩
  | succ k ih =>
    intro ga newPopulation r hk hle h
    by_cases hlt : newPopulation.length < n
    · rw [fillLoop_step _ _ _ _ hlt] at h
      split at h
      · cases h
      · rename_i x hx
        obtain ⟨added, hadd, h1, h2, -⟩ :=
          pushOffspring_append n newPopulation x.1.1 x.1.2 hlt
        rw [hadd] at h
        obtain ⟨hlen, ⟨more, hmore⟩, hframe⟩ := ih x.2 (newPopulation ++ added) r
          (by simp only [List.length_append]; omega)
          (by simp only [List.length_append]; omega) h
        exact ⟨hlen, ⟨added ++ more, by rw [hmore, List.append_assoc]⟩,
          SameButRng.trans _ _ _ (breedPair_frame _ _ _ hx) hframe⟩
    · rw [fillLoop_done _ _ _ _ hlt] at h
      cases h
      exact ⟨show newPopulation.length = n by omega, ⟨[], by simp⟩, SameButRng.refl _⟩

/-! ### Evaluation of the population -/

theorem getFitness_ok_inv (self : Individual) (f : FitnessValue)
    (h : self.getFitness = .ok f) : f = self.fitness ∧ self.isFitnessValid = true := by
  unfold Individual.getFitness at h
  split at h
  · cases h
  · rename_i hv
    cases h
    simp only [Individual.isFitnessValid]
    simpa using hv

/-- What the first pass of `evaluatePopulation` does to each individual: the chromosome is
kept, the fitness becomes valid, a fitness that was valid is kept, and one that was invalid
is the evaluation of the decoded chromosome. -/
theorem evaluateLoop_ok_inv (ff : FitnessFunction) (minValue maxValue : ℚ) :
    ∀ (population evaluated : Population),
      evaluateLoop ff minValue maxValue population = .ok evaluated →
      List.Forall₂ (fun a b => b.chromosome = a.chromosome ∧ b.isFitnessValid = true
        ∧ (a.isFitnessValid = true → b = a)
        ∧ (a.isFitnessValid = false →
            ∃ x, a.decodeToValue minValue maxValue = .ok x ∧ b.fitness = ff.evaluate x))
        population evaluated := by
  intro population
  induction population with
  | nil =>
    intro evaluated h
    simp only [evaluateLoop] at h
    cases h
    exact List.Forall₂.nil
  | cons a rest ih =>
    intro evaluated h
    simp only [evaluateLoop] at h
    split at h
    · rename_i hinv
      have hinv' : a.isFitnessValid = false := by simpa using hinv
      split at h
      · cases h
      · rename_i fitness hfit
        split at h
        · cases h
        · rename_i rest1 hrest
          cases h
          refine List.Forall₂.cons ⟨rfl, rfl, ?_, ?_⟩ (ih rest1 hrest)
          · intro hv
            rw [hinv'] at hv
            cases hv
          · intro _
            unfold FitnessFunction.evaluateIndividual at hfit
            split at hfit
            · cases hfit
            · rename_i x hx
              cases hfit
              exact ⟨x, hx, rfl⟩
    · rename_i hv
      have hv' : a.isFitnessValid = true := by simpa using hv
      split at h
      · cases h
      · rename_i rest1 hrest
        cases h
        refine List.Forall₂.cons ⟨rfl, hv', fun _ => rfl, ?_⟩ (ih rest1 hrest)
        intro hc
        rw [hv'] at hc
        cases hc

theorem percentageLoop_ok_inv (ff : FitnessFunction) (best worst : ℚ) :
    ∀ (population result : Population),
      percentageLoop ff best worst population = .ok result →
      List.Forall₂ (fun a b => b = a.setFitnessPercentage
          (ff.calculateFitnessPercentage a.fitness best worst)
        ∧ a.isFitnessValid = true) population result := by
  intro population
  induction population with
  | nil =>
    intro result h
    simp only [percentageLoop] at h
    cases h
    exact List.Forall₂.nil
  | cons a rest ih =>
    intro result h
    simp only [percentageLoop] at h
    split at h
    · cases h
    · rename_i f hf
      obtain ⟨hfe, hv⟩ := getFitness_ok_inv a f hf
      split at h
      · cases h
      · rename_i rest1 hrest
        cases h
        exact List.Forall₂.cons ⟨by rw [hfe], hv⟩ (ih rest1 hrest)

theorem forall₂_trans_imp {R1 R2 R3 : Individual → Individual → Prop}
    (himp : ∀ a b d, R1 a b → R2 b d → R3 a d) :
    ∀ (l1 l2 l3 : Population), List.Forall₂ R1 l1 l2 → List.Forall₂ R2 l2 l3 →
      List.Forall₂ R3 l1 l3 := by
  intro l1 l2 l3 h1
  induction h1 generalizing l3 with
  | nil =>
    intro h2
    cases h2
    exact List.Forall₂.nil
  | cons hab _ ih =>
    intro h2
    cases h2 with
    | cons hbd hrest => exact List.Forall₂.cons (himp _ _ _ hab hbd) (ih _ hrest)

/-- The result of `evaluatePopulation` when it returns: only the population changes;
position by position the chromosome is kept, the fitness is valid afterwards, and an
individual that was already valid keeps its raw fitness. -/
theorem evaluatePopulation_ok_inv (ga evaluated : GeneticAlgorithm)
    (h : ga.evaluatePopulation = .ok evaluated) :
    ga.SameButPopulationRng evaluated ∧ evaluated.rng = ga.rng
      ∧ List.Forall₂ (fun a b => b.chromosome = a.chromosome ∧ b.isFitnessValid = true
          ∧ (a.isFitnessValid = true → b.fitness = a.fitness))
          ga.population evaluated.population := by
  unfold GeneticAlgorithm.evaluatePopulation at h
  split at h
  · cases h
  · rename_i ev hev
    have h1 := evaluateLoop_ok_inv _ _ _ _ _ hev
    split at h
    · cases h
      refine ⟨⟨rfl, rfl, rfl, rfl⟩, rfl, ?_⟩
      have hnil : ga.population = [] := List.forall₂_nil_right_iff.mp h1
      show List.Forall₂ _ ga.population []
      rw [hnil]
      exact List.Forall₂.nil
    · rename_i first rest
      split at h
      · cases h
      · split at h
        · cases h
        · rename_i bw hbw
          split at h
          · cases h
          · rename_i withPct hpct
            cases h
            refine ⟨⟨rfl, rfl, rfl, rfl⟩, rfl, ?_⟩
            have h2 := percentageLoop_ok_inv _ _ _ _ _ hpct
            refine forall₂_trans_imp ?_ _ _ _ h1 h2
            intro a b d hab hbd
            obtain ⟨hc, hv, hkeep, -⟩ := hab
            obtain ⟨hd, -⟩ := hbd
            subst hd
            refine ⟨hc, hv, fun hva => ?_⟩
            rw [hkeep hva]
            rfl

/-! ### Statistics of a generation -/

theorem statsLoop_cons_inv (config : GAConfig) (a : Individual) (rest : Population)
    (acc acc' : StatsAcc) (h : statsLoop config (a :: rest) acc = .ok acc') :
    ∃ acc1, statsLoop config rest acc1 = .ok acc'
      ∧ a.isFitnessValid = true
      ∧ (acc1.bestFitness = acc.bestFitness ∨ acc1.bestFitness = a.fitness)
      ∧ ¬ betterFitness config.isMaximization acc.bestFitness acc1.bestFitness
      ∧ ¬ betterFitness config.isMaximization a.fitness acc1.bestFitness := by
  simp only [statsLoop] at h
  split at h
  · cases h
  · rename_i f hf
    obtain ⟨hfe, hv⟩ := getFitness_ok_inv a f hf
    subst hfe
    cases hmax : config.isMaximization with
    | true =>
      simp only [hmax, if_true] at h
      split at h
      · rename_i hgt
        split at h
        · cases h
        · exact ⟨_, h, hv, Or.inr rfl, by simp only [betterFitness, if_true]; linarith,
            by simp only [betterFitness, if_true]; linarith⟩
      · rename_i hgt
        exact ⟨_, h, hv, Or.inl rfl, by simp only [betterFitness, if_true]; linarith,
          by simp only [betterFitness, if_true]; exact hgt⟩
    | false =>
      simp only [hmax, Bool.false_eq_true, if_false] at h
      split at h
      · rename_i hgt
        split at h
        · cases h
        · exact ⟨_, h, hv, Or.inr rfl,
            by simp only [betterFitness, Bool.false_eq_true, if_false]; linarith,
            by simp only [betterFitness, Bool.false_eq_true, if_false]; linarith⟩
      · rename_i hgt
        exact ⟨_, h, hv, Or.inl rfl,
          by simp only [betterFitness, Bool.false_eq_true, if_false]; linarith,
          by simp only [betterFitness, Bool.false_eq_true, if_false]; exact hgt⟩

theorem statsLoop_ok_inv (config : GAConfig) :
    ∀ (population : Population) (acc acc' : StatsAcc),
      statsLoop config population acc = .ok acc' →
        FullyEvaluated population
        ∧ (acc'.bestFitness = acc.bestFitness
            ∨ ∃ a ∈ population, a.fitness = acc'.bestFitness)
        ∧ ¬ betterFitness config.isMaximization acc.bestFitness acc'.bestFitness
        ∧ ∀ b ∈ population,
            ¬ betterFitness config.isMaximization b.fitness acc'.bestFitness := by
  intro population
  induction population with
  | nil =>
    intro acc acc' h
    simp only [statsLoop] at h
    cases h
    exact ⟨fun _ hx => absurd hx (List.not_mem_nil _), Or.inl rfl, betterFitness_irrefl _ _,
      fun _ hx => absurd hx (List.not_mem_nil _)⟩
  | cons a rest ih =>
    intro acc acc' h
    obtain ⟨acc1, h1, hv, hstep, hnb, hna⟩ := statsLoop_cons_inv config a rest acc acc' h
    obtain ⟨hev, hatt, hnb1, hall⟩ := ih acc1 acc' h1
    refine ⟨(fullyEvaluated_cons a rest).mpr ⟨hv, hev⟩, ?_,
      not_betterFitness_trans _ _ _ _ hnb hnb1, ?_⟩
    · rcases hatt with heq | ⟨b, hb, hbe⟩
      · rcases hstep with hs | hs
        · exact Or.inl (heq.trans hs)
        · exact Or.inr ⟨a, List.mem_cons_self _ _, (heq.trans hs).symm⟩
      · exact Or.inr ⟨b, List.mem_cons_of_mem _ hb, hbe⟩
    · intro b hb
      rcases List.mem_cons.mp hb with rfl | hb
      · exact not_betterFitness_trans _ _ _ _ hna hnb1
      · exact hall b hb

/-- The result of `calculateGenerationStats` when it returns: the population is non-empty
and fully evaluated, `bestFitness` is the raw fitness of one of its individuals and no
individual is strictly better; the generation index is the current generation. -/
theorem calculateGenerationStats_ok_inv (ga : GeneticAlgorithm) (stats : GenerationStats)
    (h : ga.calculateGenerationStats = .ok stats) :
    ga.population ≠ [] ∧ FullyEvaluated ga.population
      ∧ (∃ a ∈ ga.population, a.fitness = stats.bestFitness)
      ∧ (∀ b ∈ ga.population,
          ¬ betterFitness ga.config.isMaximization b.fitness stats.bestFitness)
      ∧ stats.generation = ga.currentGeneration := by
  unfold GeneticAlgorithm.calculateGenerationStats at h
  split at h
  · cases h
  · rename_i first rest hpop
    split at h
    · cases h
    · rename_i f0 hf0
      obtain ⟨hf0e, -⟩ := getFitness_ok_inv first f0 hf0
      split at h
      · cases h
      · rename_i acc hacc
        obtain ⟨hev, hatt, -, hall⟩ := statsLoop_ok_inv ga.config _ _ _ hacc
        split at h
        · cases h
        · cases h
          rw [hpop]
          refine ⟨List.cons_ne_nil _ _, hev, ?_, hall, rfl⟩
          rcases hatt with heq | hex
          · exact ⟨first, List.mem_cons_self _ _, by rw [heq, hf0e]⟩
          · exact hex

/-! ### One generation -/

/-- The stages of `evolveGeneration` when it returns. -/
theorem evolveGeneration_ok_inv (S : StdSort) (ga evolved : GeneticAlgorithm)
    (stats : GenerationStats) (h : ga.evolveGeneration S = .ok (stats, evolved)) :
    ∃ (sorted : GeneticAlgorithm) (sel : List Individual × GeneticAlgorithm)
      (filled : Population × GeneticAlgorithm),
      0 ≤ ga.config.populationSize
      ∧ ga.sortPopulationByFitness S = .ok sorted
      ∧ sorted.eliteSelection S
          (truncToInt (roundDouble ((sorted.config.populationSize : ℚ) * sorted.config.elitismRate)))
          = .ok sel
      ∧ fillLoop
          (truncToInt (roundDouble ((sorted.config.populationSize : ℚ)
            * sorted.config.elitismRate)))
          sel.2.config.populationSize.toNat sel.2 sel.1 = .ok filled
      ∧ GeneticAlgorithm.evaluatePopulation { filled.2 with population := filled.1 }
          = .ok evolved
      ∧ evolved.calculateGenerationStats = .ok stats := by
  unfold GeneticAlgorithm.evolveGeneration at h
  split at h
  · cases h
  · rename_i hn
    split at h
    · cases h
    · rename_i sorted hsorted
      dsimp only at h
      split at h
      · cases h
      · rename_i sel hsel
        split at h
        · cases h
        · rename_i filled hfilled
          split at h
          · cases h
          · rename_i ev hev
            split at h
            · cases h
            · rename_i st hst
              cases h
              exact ⟨sorted, sel, filled, by omega, hsorted, hsel, hfilled, hev, hst⟩

theorem forall₂_getElem? {R : Individual → Individual → Prop} :
    ∀ (l1 l2 : Population), List.Forall₂ R l1 l2 → ∀ (i : Nat) (a : Individual),
      l1[i]? = some a → ∃ b, l2[i]? = some b ∧ R a b := by
  intro l1 l2 h
  induction h with
  | nil => intro i a hi; simp at hi
  | cons hab _ ih =>
    intro i a hi
    cases i with
    | zero =>
      simp only [List.getElem?_cons_zero, Option.some.injEq] at hi
      subst hi
      exact ⟨_, by simp, hab⟩
    | succ i =>
      simp only [List.getElem?_cons_succ] at hi
      obtain ⟨b, hb, hr⟩ := ih i a hi
      exact ⟨b, by simpa using hb, hr⟩

theorem forall₂_fullyEvaluated (l1 l2 : Population)
    (h : List.Forall₂ (fun a b => b.chromosome = a.chromosome ∧ b.isFitnessValid = true
      ∧ (a.isFitnessValid = true → b.fitness = a.fitness)) l1 l2) : FullyEvaluated l2 := by
  induction h with
  | nil => exact fun _ hx => absurd hx (List.not_mem_nil _)
  | cons hab _ ih => exact (fullyEvaluated_cons _ _).mpr ⟨hab.2.1, ih⟩

/-- What `evolveGeneration` guarantees when it returns. The configuration, the evaluator, the
history and the generation counter are unchanged; the new population has exactly
`populationSize` individuals, all with a valid fitness; and its first `k` positions hold,
with chromosome and (valid) raw fitness unchanged, the first `k` individuals of a best-first
ranking of the old population, `k` being the effective elite count bounded by
`populationSize`. -/
theorem evolveGeneration_post (S : StdSort) (hS : S.Valid) (ga evolved : GeneticAlgorithm)
    (stats : GenerationStats) (h : ga.evolveGeneration S = .ok (stats, evolved)) :
    ga.SameButPopulationRng evolved
      ∧ evolved.population.length = ga.config.populationSize.toNat
      ∧ FullyEvaluated evolved.population
      ∧ evolved.calculateGenerationStats = .ok stats
      ∧ ∃ ranked : Population, List.Perm ranked ga.population
          ∧ BestFirst ga.config.isMaximization ranked
          ∧ ∀ i : Nat, (i : Int) < min (effectiveEliteCount ga.config
              (truncToInt (roundDouble ((ga.config.populationSize : ℚ) * ga.config.elitismRate))))
              ga.config.populationSize →
            ∃ old new, ranked[i]? = some old ∧ evolved.population[i]? = some new
              ∧ new.chromosome = old.chromosome
              ∧ (old.isFitnessValid = true → new.fitness = old.fitness) := by
  obtain ⟨sorted, sel, filled, hn, hsorted, hsel, hfilled, hev, hst⟩ :=
    evolveGeneration_ok_inv S ga evolved stats h
  obtain ⟨hf1, -, hperm1, -⟩ := sortPopulationByFitness_ok_inv S hS ga sorted hsorted
  obtain ⟨hsort2, htake, hlen⟩ := eliteSelection_ok_inv S sorted _ sel hsel
  obtain ⟨hf2, -, hperm2, hbest⟩ := sortPopulationByFitness_ok_inv S hS sorted sel.2 hsort2
  have hc1 : sorted.config = ga.config := hf1.1
  have hc2 : sel.2.config = ga.config := hf2.1.trans hc1
  rw [hc1] at hsel hfilled htake hlen hbest
  rw [hc2] at hfilled
  have hlenle : sel.1.length ≤ ga.config.populationSize.toNat := by
    rw [hlen]
    have := min_le_right (effectiveEliteCount ga.config
        (truncToInt (roundDouble ((ga.config.populationSize : ℚ)
          * ga.config.elitismRate)))) ga.config.populationSize
    omega
  obtain ⟨hflen, ⟨added, hadded⟩, hf3⟩ := fillLoop_ok_inv _ _
    (ga.config.populationSize.toNat - sel.1.length) sel.2 sel.1 filled (le_refl _) hlenle
    hfilled
  obtain ⟨hf4, -, hrel⟩ := evaluatePopulation_ok_inv _ evolved hev
  have hrel' : List.Forall₂ (fun a b => b.chromosome = a.chromosome
      ∧ b.isFitnessValid = true ∧ (a.isFitnessValid = true → b.fitness = a.fitness))
      filled.1 evolved.population := hrel
  refine ⟨?_, ?_, forall₂_fullyEvaluated _ _ hrel', hst, sel.2.population,
    hperm2.trans hperm1, hbest, ?_⟩
  · obtain ⟨a1, a2, a3, a4⟩ := hf1
    obtain ⟨b1, b2, b3, b4⟩ := hf2
    obtain ⟨d1, -, d2, d3, d4⟩ := hf3
    obtain ⟨e1, e2, e3, e4⟩ := hf4
    exact ⟨e1.trans (d1.trans (b1.trans a1)), e2.trans (d2.trans (b2.trans a2)),
      e3.trans (d3.trans (b3.trans a3)), e4.trans (d4.trans (b4.trans a4))⟩
  · rw [← hrel'.length_eq, hflen]
  · intro i hi
    have hi' : i < sel.1.length := by
      rw [hlen]
      omega
    have hfi : filled.1[i]? = sel.1[i]? := by
      rw [hadded, List.getElem?_append_left hi']
    have hsi : sel.1[i]? = sel.2.population[i]? := by
      have hm : i < (min (effectiveEliteCount ga.config
          (truncToInt (roundDouble ((ga.config.populationSize : ℚ) * ga.config.elitismRate))))
          ga.config.populationSize).toNat := by omega
      conv_lhs => rw [htake]
      exact List.getElem?_take_of_lt hm
    obtain ⟨old, hold⟩ : ∃ old, sel.1[i]? = some old := ⟨_, List.getElem?_eq_getElem hi'⟩
    obtain ⟨new, hnew, hc, -, hkeep⟩ := forall₂_getElem? _ _ hrel' i old (hfi.trans hold)
    exact ⟨old, new, hsi ▸ hold, hnew, hc, hkeep⟩

theorem effectiveEliteCount_min (config : GAConfig) (eliteCount : Int)
    (hpos : 1 ≤ config.populationSize) :
    min (effectiveEliteCount config eliteCount) config.populationSize
      = effectiveEliteCount config eliteCount :=
  min_eq_left (effectiveEliteCount_bounds config eliteCount hpos).2

theorem bestFirst_head (isMax : Bool) (ranked : Population) (first : Individual)
    (hb : BestFirst isMax ranked) (h0 : ranked[0]? = some first) :
    ∀ x ∈ ranked, ¬ betterFitness isMax x.fitness first.fitness := by
  cases ranked with
  | nil => simp at h0
  | cons y rest =>
    simp only [List.getElem?_cons_zero, Option.some.injEq] at h0
    subst h0
    intro x hx
    rcases List.mem_cons.mp hx with rfl | hx
    · exact betterFitness_irrefl _ _
    · exact (List.pairwise_cons.mp hb).1 x hx

/-- The elites of one generation: the first `k` positions of the new population hold the
first `k` individuals of a best-first ranking of the old population, unchanged in chromosome
and raw fitness, `k ≥ 1` being the effective elite count. -/
theorem evolveGeneration_elites (S : StdSort) (hS : S.Valid) (ga evolved : GeneticAlgorithm)
    (stats : GenerationStats)
    (hpos : 1 ≤ ga.config.populationSize) (hev : FullyEvaluated ga.population)
    (h : ga.evolveGeneration S = .ok (stats, evolved)) :
    ∃ (ranked : Population) (k : Nat), List.Perm ranked ga.population
      ∧ BestFirst ga.config.isMaximization ranked
      ∧ (k : Int) = effectiveEliteCount ga.config
          (truncToInt (roundDouble ((ga.config.populationSize : ℚ) * ga.config.elitismRate)))
      ∧ 1 ≤ k ∧ (k : Int) ≤ ga.config.populationSize
      ∧ ∀ i : Nat, i < k →
          ∃ old new, ranked[i]? = some old ∧ evolved.population[i]? = some new
            ∧ new.chromosome = old.chromosome ∧ new.fitness = old.fitness
            ∧ new.isFitnessValid = true := by
  obtain ⟨-, -, hfe, -, ranked, hperm, hbest, helite⟩ :=
    evolveGeneration_post S hS ga evolved stats h
  obtain ⟨hb1, hb2⟩ := effectiveEliteCount_bounds ga.config
    (truncToInt (roundDouble ((ga.config.populationSize : ℚ) * ga.config.elitismRate))) hpos
  rw [effectiveEliteCount_min _ _ hpos] at helite
  refine ⟨ranked, (effectiveEliteCount ga.config
    (truncToInt (roundDouble ((ga.config.populationSize : ℚ) * ga.config.elitismRate)))).toNat, hperm, hbest,
    by omega, by omega, by omega, ?_⟩
  intro i hi
  obtain ⟨old, new, hold, hnew, hc, hkeep⟩ := helite i (by omega)
  have hov : old.isFitnessValid = true :=
    hev old (hperm.mem_iff.mp (List.getElem?_mem hold))
  exact ⟨old, new, hold, hnew, hc, hkeep hov, hfe new (List.getElem?_mem hnew)⟩

/-- The best individual survives one generation: for every individual of the old population
the new population holds one that is not worse. -/
theorem evolveGeneration_best_kept (S : StdSort) (hS : S.Valid)
    (ga evolved : GeneticAlgorithm) (stats : GenerationStats)
    (hpos : 1 ≤ ga.config.populationSize) (hev : FullyEvaluated ga.population)
    (h : ga.evolveGeneration S = .ok (stats, evolved)) :
    ∀ a ∈ ga.population, ∃ b ∈ evolved.population,
      ¬ betterFitness ga.config.isMaximization a.fitness b.fitness := by
  obtain ⟨ranked, k, hperm, hbest, -, hk1, -, helite⟩ :=
    evolveGeneration_elites S hS ga evolved stats hpos hev h
  obtain ⟨old, new, hold, hnew, -, hfit, -⟩ := helite 0 (by omega)
  intro a ha
  refine ⟨new, List.getElem?_mem hnew, ?_⟩
  rw [hfit]
  exact bestFirst_head _ ranked old hbest hold a (hperm.mem_iff.mpr ha)

/-- The reported best fitness does not get worse over one generation. -/
theorem evolveGeneration_stats_best (S : StdSort) (hS : S.Valid)
    (ga evolved : GeneticAlgorithm) (stats : GenerationStats)
    (hpos : 1 ≤ ga.config.populationSize) (hev : FullyEvaluated ga.population)
    (h : ga.evolveGeneration S = .ok (stats, evolved)) :
    ∀ a ∈ ga.population,
      ¬ betterFitness ga.config.isMaximization a.fitness stats.bestFitness := by
  intro a ha
  obtain ⟨b, hb, hab⟩ := evolveGeneration_best_kept S hS ga evolved stats hpos hev h a ha
  obtain ⟨hframe, -, -, hst, -⟩ := evolveGeneration_post S hS ga evolved stats h
  obtain ⟨-, -, -, hall, -⟩ := calculateGenerationStats_ok_inv evolved stats hst
  have hcfg : evolved.config = ga.config := hframe.1
  rw [hcfg] at hall
  exact not_betterFitness_trans _ _ _ _ hab (hall b hb)

/-! ### The run loop -/

theorem initializeLoop_ok_inv (chromosomeLength : Int) :
    ∀ (n : Nat) (rng : Rng) (population : Population) (r : Population × Rng),
      initializeLoop chromosomeLength n rng population = .ok r →
        r.1.length = population.length + n := by
  intro n
  induction n with
  | zero =>
    intro rng population r h
    simp only [initializeLoop] at h
    cases h
    rfl
  | succ n ih =>
    intro rng population r h
    simp only [initializeLoop] at h
    split at h
    · cases h
    · split at h
      · cases h
      · have := ih _ _ _ h
        simp only [List.length_append, List.length_singleton] at this
        omega

theorem initializePopulation_ok_inv (ga initialized : GeneticAlgorithm)
    (h : ga.initializePopulation = .ok initialized) :
    ga.SameButPopulationRng initialized
      ∧ 0 ≤ ga.config.populationSize
      ∧ initialized.population.length = ga.config.populationSize.toNat := by
  unfold GeneticAlgorithm.initializePopulation at h
  split at h
  · cases h
  · rename_i hn
    split at h
    · cases h
    · rename_i r hr
      cases h
      have := initializeLoop_ok_inv _ _ _ _ _ hr
      exact ⟨⟨rfl, rfl, rfl, rfl⟩, by omega, by simpa using this⟩

theorem monotoneBest_append (isMax : Bool) (history : List GenerationStats)
    (last next : GenerationStats) (hm : MonotoneBest isMax history)
    (hlast : history.getLast? = some last)
    (hstep : ¬ betterFitness isMax last.bestFitness next.bestFitness) :
    MonotoneBest isMax (history ++ [next]) := by
  unfold MonotoneBest at *
  rw [List.chain'_append]
  refine ⟨hm, List.chain'_singleton _, ?_⟩
  intro x hx y hy
  rw [hlast] at hx
  simp only [Option.mem_def, Option.some.injEq] at hx
  simp only [List.head?_cons, Option.mem_def, Option.some.injEq] at hy
  subst hx hy
  exact hstep

/-- The invariant of the evolution loop of `run`, from any state in which the population has
`populationSize ≥ 1` evaluated individuals and the last snapshot of a monotone history
reports a fitness held by an individual of the population. -/
theorem runLoop_monotone (S : StdSort) (hS : S.Valid) :
    ∀ (fuel : Nat) (ga final : GeneticAlgorithm),
      runLoop S fuel ga = .ok (some final) →
      1 ≤ ga.config.populationSize →
      (ga.population.length : Int) = ga.config.populationSize →
      FullyEvaluated ga.population →
      MonotoneBest ga.config.isMaximization ga.statistics →
      (∃ last, ga.statistics.getLast? = some last
        ∧ ∃ a ∈ ga.population, a.fitness = last.bestFitness) →
      final.config = ga.config
        ∧ MonotoneBest ga.config.isMaximization final.statistics
        ∧ final.statistics ≠ [] := by
  intro fuel
  induction fuel with
  | zero =>
    intro ga final h
    simp only [runLoop] at h
    cases h
  | succ fuel ih =>
    intro ga final h hpos hsize hev hmono hlast
    simp only [runLoop] at h
    split at h
    · split at h
      · cases h
      · rename_i r hr
        have hr' : ga.evolveGeneration S = .ok (r.1, r.2) := hr
        obtain ⟨hframe, hlen, hfe, hst, -⟩ := evolveGeneration_post S hS ga r.2 r.1 hr'
        obtain ⟨last, hl, a, ha, hal⟩ := hlast
        have hbest := evolveGeneration_stats_best S hS ga r.2 r.1 hpos hev hr' a ha
        rw [hal] at hbest
        obtain ⟨-, -, hatt, -, -⟩ := calculateGenerationStats_ok_inv r.2 r.1 hst
        have hcfg : r.2.config = ga.config := hframe.1
        have hstats : r.2.statistics = ga.statistics := hframe.2.2.1
        have hmono1 : MonotoneBest ga.config.isMaximization (r.2.statistics ++ [r.1]) := by
          rw [hstats]
          exact monotoneBest_append _ _ last r.1 hmono hl hbest
        split at h
        · cases h
        · rename_i converged hconv
          split at h
          · simp only [Except.ok.injEq, Option.some.injEq] at h
            subst h
            exact ⟨hcfg, hmono1, by simp⟩
          · have hres := ih _ final h (by rw [← hcfg] at hpos; exact hpos)
              (by
                show (r.2.population.length : Int) = r.2.config.populationSize
                rw [hlen, hcfg]
                omega)
              hfe
              (by
                show MonotoneBest r.2.config.isMaximization (r.2.statistics ++ [r.1])
                rw [hcfg]
                exact hmono1)
              ⟨r.1, by simp, hatt⟩
            have hm2 : MonotoneBest r.2.config.isMaximization final.statistics := hres.2.1
            rw [hcfg] at hm2
            exact ⟨hres.1.trans hcfg, hm2, hres.2.2⟩
    · simp only [Except.ok.injEq, Option.some.injEq] at h
      subst h
      obtain ⟨last, hl, -⟩ := hlast
      refine ⟨rfl, hmono, ?_⟩
      intro hnil
      rw [hnil] at hl
      simp at hl

/-- The fuel given to the evolution loop suffices: with more fuel than remaining
generations the loop never stops for lack of fuel. -/
theorem runLoop_fuel_enough (S : StdSort) (hS : S.Valid) :
    ∀ (fuel : Nat) (ga : GeneticAlgorithm),
      (ga.config.maxGenerations - ga.currentGeneration + 1).toNat < fuel →
      runLoop S fuel ga ≠ .ok none := by
  intro fuel
  induction fuel with
  | zero => intro ga h; omega
  | succ fuel ih =>
    intro ga hfuel h
    simp only [runLoop] at h
    split at h
    · rename_i hle
      split at h
      · cases h
      · rename_i r hr
        have hr' : ga.evolveGeneration S = .ok (r.1, r.2) := hr
        obtain ⟨hframe, -, -, -, -⟩ := evolveGeneration_post S hS ga r.2 r.1 hr'
        have hcfg : r.2.config = ga.config := hframe.1
        have hgen : r.2.currentGeneration = ga.currentGeneration := hframe.2.2.2
        split at h
        · cases h
        · split at h
          · cases h
          · refine ih _ ?_ h
            show (r.2.config.maxGenerations - (r.2.currentGeneration + 1) + 1).toNat < fuel
            rw [hcfg, hgen]
            omega
    · cases h

/-- The history of a completed run is monotone in `bestFitness`. -/
theorem run_monotone (S : StdSort) (hS : S.Valid) (ga final : GeneticAlgorithm)
    (stats : GenerationStats) (h : ga.run S = .ok (stats, final)) :
    final.config = ga.config ∧ MonotoneBest ga.config.isMaximization final.statistics
      ∧ final.statistics.getLast? = some stats := by
  unfold GeneticAlgorithm.run at h
  split at h
  · cases h
  · rename_i ga1 h1
    obtain ⟨hf1, hn, hlen1⟩ := initializePopulation_ok_inv ga ga1 h1
    split at h
    · cases h
    · rename_i ga2 h2
      obtain ⟨hf2, -, hrel⟩ := evaluatePopulation_ok_inv ga1 ga2 h2
      split at h
      · cases h
      · rename_i stats0 h0
        obtain ⟨hne, hfe, hatt, -, -⟩ := calculateGenerationStats_ok_inv ga2 stats0 h0
        have hcfg : ga2.config = ga.config := hf2.1.trans hf1.1
        have hlen2 : ga2.population.length = ga.config.populationSize.toNat := by
          rw [← hrel.length_eq, hlen1]
        have hpos : 1 ≤ ga.config.populationSize := by
          have : 0 < ga2.population.length := List.length_pos.mpr hne
          omega
        split at h
        · cases h
        · cases h
        · rename_i ga3 h3
          have hinv := runLoop_monotone S hS _ _ ga3 h3
            (by show 1 ≤ ga2.config.populationSize; rw [hcfg]; exact hpos)
            (by
              show (ga2.population.length : Int) = ga2.config.populationSize
              rw [hlen2, hcfg]
              omega)
            hfe
            (by
              show MonotoneBest ga2.config.isMaximization [stats0]
              exact List.chain'_singleton _)
            ⟨stats0, rfl, hatt⟩
          split at h
          · rename_i last hlast
            cases h
            have hm2 : MonotoneBest ga2.config.isMaximization final.statistics := hinv.2.1
            rw [hcfg] at hm2
            exact ⟨hinv.1.trans hcfg, hm2, hlast⟩
          · cases h

/-! ### Completion of one generation on a well-formed state -/

theorem unitDraws_shift (rng : Rng) (k : Nat) (h : UnitDraws rng) :
    UnitDraws (fun m => rng (m + k)) :=
  fun j => h (j + k)

theorem mutateLoop_rng (rate : ℚ) (bits : Chromosome) :
    ∀ rng : Rng, (mutateLoop rate bits rng).2 = fun m => rng (m + bits.length) := by
  induction bits with
  | nil => intro rng; rfl
  | cons b rest ih =>
    intro rng
    simp only [mutateLoop, uniformReal01, Rng.draw, ih, List.length_cons]
    funext m
    show rng (m + rest.length + 1) = rng (m + (rest.length + 1))
    rfl

theorem randomizeLoop_rng (n : Nat) :
    ∀ rng : Rng, (randomizeLoop n rng).2 = fun m => rng (m + n) := by
  induction n with
  | zero => intro rng; rfl
  | succ n ih =>
    intro rng
    simp only [randomizeLoop, uniformInt, ih]
    funext m
    show rng (m + n + 1) = rng (m + (n + 1))
    rfl

theorem randomizeLoop_length (n : Nat) :
    ∀ rng : Rng, (randomizeLoop n rng).1.length = n := by
  induction n with
  | zero => intro rng; rfl
  | succ n ih =>
    intro rng
    simp only [randomizeLoop, List.length_cons, ih]

theorem drawnIndex_range (n : Int) (rng : Rng) (hpos : 1 ≤ n) (hu : UnitDraws rng) (j : Nat) :
    0 ≤ drawnIndex n rng j ∧ drawnIndex n rng j ≤ n - 1 := by
  unfold drawnIndex
  exact uniformInt_range 0 (n - 1) _ (by omega) (hu (0 + j)).1 (hu (0 + j)).2

theorem tournamentSelection_ok (ga : GeneticAlgorithm) (tournamentSize : Int)
    (hsize : (ga.population.length : Int) = ga.config.populationSize)
    (hpos : 1 ≤ ga.config.populationSize) (hev : FullyEvaluated ga.population)
    (hu : UnitDraws ga.rng) :
    ∃ r, ga.tournamentSelection tournamentSize = .ok r ∧ r.1 ∈ ga.population
      ∧ ga.SameButRng r.2 ∧ UnitDraws r.2.rng := by
  have hrange : ∀ j, 0 ≤ drawnIndex ga.config.populationSize ga.rng j
      ∧ (drawnIndex ga.config.populationSize ga.rng j).toNat < ga.population.length := by
    intro j
    obtain ⟨h0, h1⟩ := drawnIndex_range _ _ hpos hu j
    exact ⟨h0, by omega⟩
  obtain ⟨first, hfirst⟩ :
      ∃ x, ga.population[(drawnIndex ga.config.populationSize ga.rng 0).toNat]? = some x :=
    ⟨_, List.getElem?_eq_getElem (hrange 0).2⟩
  have hidx := indexPopulation_of_getElem? ga.population _ first (hrange 0).1 hfirst
  rw [drawnIndex_zero] at hidx
  have hguard : ¬ ¬ (0 ≤ ga.config.populationSize - 1) := by omega
  obtain ⟨champion, hres, -, -, -, -⟩ :=
    tournamentLoop_spec ga.config.isMaximization ga.population ga.config.populationSize hev
      (effectiveTournamentSize ga.config tournamentSize - 1).toNat first
      (fun m => ga.rng (m + 1)) (hev _ (List.getElem?_mem hfirst))
      (fun j _ => by
        rw [drawnIndex_succ]
        exact hrange (j + 1))
  obtain ⟨rngOut, hrng⟩ : ∃ f : Rng, f = fun m =>
      ga.rng (m + (effectiveTournamentSize ga.config tournamentSize - 1).toNat + 1) := ⟨_, rfl⟩
  rw [← hrng] at hres
  have hsel : ga.tournamentSelection tournamentSize
      = .ok (champion, { ga with rng := rngOut }) := by
    simp only [GeneticAlgorithm.tournamentSelection, hguard, if_false, hidx, uniformInt_snd, hres]
  refine ⟨_, hsel, (tournamentSelection_frame _ _ _ hsel).2, SameButRng.withRng _ _, ?_⟩
  show UnitDraws rngOut
  rw [hrng]
  intro j
  exact hu _

theorem rouletteWheelSelection_ok (ga : GeneticAlgorithm) (hne : ga.population ≠ [])
    (hev : FullyEvaluated ga.population) (hu : UnitDraws ga.rng) :
    ∃ r, ga.rouletteWheelSelection = .ok r ∧ r.1 ∈ ga.population
      ∧ ga.SameButRng r.2 ∧ UnitDraws r.2.rng := by
  obtain ⟨offset, total, w, hoff, htot, hw, hsum, -⟩ :=
    roulette_weights ga.config.isMaximization ga.population hev
  have hnonneg : 0 ≤ total := by
    rw [hsum]
    exact list_sum_map_nonneg w ga.population (fun a ha => (hw a ha).2)
  have hwalk := rouletteWalk_spec ga.config.isMaximization ga.population offset
    (uniformReal 0 total ga.rng).1 w ga.population (fun a ha => (hw a ha).1) 0
  obtain ⟨lastInd, hlast⟩ : ∃ x, ga.population.getLast? = some x := by
    cases hp : ga.population.getLast? with
    | none => exact absurd (List.getLast?_eq_none_iff.mp hp) hne
    | some x => exact ⟨x, rfl⟩
  rcases hwalk with ⟨i, selected, hi, hres, -, -⟩ | ⟨hres, -⟩
  · have hsel : ga.rouletteWheelSelection
        = .ok (selected, { ga with rng := fun n => ga.rng (n + 1) }) := by
      simp only [GeneticAlgorithm.rouletteWheelSelection, hoff, htot, hnonneg, not_true,
        if_false, hres]
      rfl
    exact ⟨_, hsel, List.getElem?_mem hi, SameButRng.withRng _ _, unitDraws_shift _ 1 hu⟩
  · have hsel : ga.rouletteWheelSelection
        = .ok (lastInd, { ga with rng := fun n => ga.rng (n + 1) }) := by
      simp only [GeneticAlgorithm.rouletteWheelSelection, hoff, htot, hnonneg, not_true,
        if_false, hres, hlast]
      rfl
    exact ⟨_, hsel, List.mem_of_mem_getLast? hlast, SameButRng.withRng _ _,
      unitDraws_shift _ 1 hu⟩

theorem selectParents_ok (ga : GeneticAlgorithm) (eliteCount : Int) (he : 0 ≤ eliteCount)
    (hsize : (ga.population.length : Int) = ga.config.populationSize)
    (hpos : 1 ≤ ga.config.populationSize) (hev : FullyEvaluated ga.population)
    (hu : UnitDraws ga.rng) :
    ∃ r, ga.selectParents eliteCount = .ok r ∧ r.1.1 ∈ ga.population
      ∧ r.1.2 ∈ ga.population ∧ ga.SameButRng r.2 ∧ UnitDraws r.2.rng := by
  have hne : ga.population ≠ [] := by
    intro hnil
    rw [hnil] at hsize
    simp only [List.length_nil, Nat.cast_zero] at hsize
    omega
  cases hsel : ga.config.selectionType with
  | TOURNAMENT =>
    obtain ⟨r1, h1, hm1, hf1, hu1⟩ :=
      tournamentSelection_ok ga ga.config.tournamentSize hsize hpos hev hu
    have hp : r1.2.population = ga.population := hf1.2.1
    have hc : r1.2.config = ga.config := hf1.1
    obtain ⟨r2, h2, hm2, hf2, hu2⟩ :=
      tournamentSelection_ok r1.2 ga.config.tournamentSize (by rw [hp, hc]; exact hsize)
        (by rw [hc]; exact hpos) (by rw [hp]; exact hev) hu1
    refine ⟨((r1.1, r2.1), r2.2), ?_, hm1, by rw [← hp]; exact hm2,
      SameButRng.trans _ _ _ hf1 hf2, hu2⟩
    simp only [GeneticAlgorithm.selectParents, hsel, h1, h2]
  | ROULETTE_WHEEL =>
    obtain ⟨r1, h1, hm1, hf1, hu1⟩ := rouletteWheelSelection_ok ga hne hev hu
    have hp : r1.2.population = ga.population := hf1.2.1
    obtain ⟨r2, h2, hm2, hf2, hu2⟩ :=
      rouletteWheelSelection_ok r1.2 (by rw [hp]; exact hne) (by rw [hp]; exact hev) hu1
    refine ⟨((r1.1, r2.1), r2.2), ?_, hm1, by rw [← hp]; exact hm2,
      SameButRng.trans _ _ _ hf1 hf2, hu2⟩
    simp only [GeneticAlgorithm.selectParents, hsel, h1, h2]
  | ELITISM =>
    have hbound : 0 ≤ min (eliteCount * 2) (ga.config.populationSize - 1) :=
      le_min (by omega) (by omega)
    have hbn : min (eliteCount * 2) (ga.config.populationSize - 1)
        ≤ ga.config.populationSize - 1 := min_le_right _ _
    obtain ⟨hd1a, hd1b⟩ := uniformInt_range 0 _ ga.rng hbound (hu 0).1 (hu 0).2
    obtain ⟨hd2a, hd2b⟩ := uniformInt_range 0 _ (fun m => ga.rng (m + 1)) hbound
      (hu 1).1 (hu 1).2
    have hi1 : ((uniformInt 0 (min (eliteCount * 2) (ga.config.populationSize - 1))
        ga.rng).1).toNat < ga.population.length := by omega
    have hi2 : ((uniformInt 0 (min (eliteCount * 2) (ga.config.populationSize - 1))
        (fun m => ga.rng (m + 1))).1).toNat < ga.population.length := by omega
    have hg1 := List.getElem?_eq_getElem hi1
    have hg2 := List.getElem?_eq_getElem hi2
    have hp1 := indexPopulation_of_getElem? ga.population _ _ hd1a hg1
    have hp2 := indexPopulation_of_getElem? ga.population _ _ hd2a hg2
    have hres : ga.selectParents eliteCount
        = .ok ((ga.population.get ⟨_, hi1⟩, ga.population.get ⟨_, hi2⟩),
            { ga with rng := fun m => ga.rng (m + 1 + 1) }) := by
      simp only [GeneticAlgorithm.selectParents, hsel, hbound, not_true, if_false, hp1,
        uniformInt_snd, hp2]
      rfl
    exact ⟨_, hres, List.getElem?_mem hg1, List.getElem?_mem hg2,
      SameButRng.withRng ga (fun m => ga.rng (m + 1 + 1)),
      unitDraws_shift (fun m => ga.rng (m + 1)) 1 (unitDraws_shift _ 1 hu)⟩

theorem performCrossover_ok (ga : GeneticAlgorithm) (parent1 parent2 : Individual)
    (h1 : (parent1.chromosome.length : Int) = ga.config.chromosomeLength)
    (h2 : (parent2.chromosome.length : Int) = ga.config.chromosomeLength)
    (hL : 2 ≤ ga.config.chromosomeLength)
    (hct : ga.config.crossoverType ≠ CrossoverType.TWO_POINT) (hu : UnitDraws ga.rng) :
    ∃ r, ga.performCrossover parent1 parent2 = .ok r
      ∧ (r.1.1.chromosome.length : Int) = ga.config.chromosomeLength
      ∧ (r.1.2.chromosome.length : Int) = ga.config.chromosomeLength
      ∧ ga.SameButRng r.2 ∧ UnitDraws r.2.rng := by
  have hguard : ¬ ¬ (1 ≤ ga.config.chromosomeLength - 1) := by omega
  have hlen : parent2.chromosome.length = parent1.chromosome.length := by omega
  cases hty : ga.config.crossoverType with
  | SINGLE_POINT =>
    obtain ⟨hda, hdb⟩ := uniformInt_range 1 (ga.config.chromosomeLength - 1) ga.rng
      (by omega) (hu 0).1 (hu 0).2
    obtain ⟨r1, r2, hr, hl1, hl2, -⟩ := singlePointCrossover_spec parent1 parent2
      (uniformInt 1 (ga.config.chromosomeLength - 1) ga.rng).1 hlen (by omega) (by omega)
    have hres : ga.performCrossover parent1 parent2
        = .ok ((Individual.ofChromosome r1, Individual.ofChromosome r2),
            { ga with rng := fun m => ga.rng (m + 1) }) := by
      simp only [GeneticAlgorithm.performCrossover, hguard, if_false, hty, hr, uniformInt_snd]
    refine ⟨_, hres, ?_, ?_, SameButRng.withRng ga (fun m => ga.rng (m + 1)),
      unitDraws_shift _ 1 hu⟩
    · show ((Individual.ofChromosome r1).chromosome.length : Int) = _
      simp only [Individual.ofChromosome, hl1, h1]
    · show ((Individual.ofChromosome r2).chromosome.length : Int) = _
      simp only [Individual.ofChromosome, hl2, h1]
  | TWO_POINT => exact absurd hty hct
  | UNIFORM =>
    have hmask : (randomizeLoop ga.config.chromosomeLength.toNat ga.rng).1.length
        = parent1.chromosome.length := by
      rw [randomizeLoop_length]
      omega
    obtain ⟨r1, r2, hr, hl1, hl2, -⟩ := uniformCrossover_spec parent1 parent2
      (randomizeLoop ga.config.chromosomeLength.toNat ga.rng).1 hlen hmask
    have hres : ga.performCrossover parent1 parent2
        = .ok ((Individual.ofChromosome r1, Individual.ofChromosome r2),
            { ga with rng := (randomizeLoop ga.config.chromosomeLength.toNat ga.rng).2 }) := by
      simp only [GeneticAlgorithm.performCrossover, hguard, if_false, hty, hr]
    refine ⟨_, hres, ?_, ?_, SameButRng.withRng ga
      (randomizeLoop ga.config.chromosomeLength.toNat ga.rng).2, ?_⟩
    · show ((Individual.ofChromosome r1).chromosome.length : Int) = _
      simp only [Individual.ofChromosome, hl1, h1]
    · show ((Individual.ofChromosome r2).chromosome.length : Int) = _
      simp only [Individual.ofChromosome, hl2, h1]
    · show UnitDraws (randomizeLoop ga.config.chromosomeLength.toNat ga.rng).2
      rw [randomizeLoop_rng]
      exact unitDraws_shift _ _ hu

theorem performMutation_spec (ga : GeneticAlgorithm) (individual : Individual)
    (hu : UnitDraws ga.rng) :
    (ga.performMutation individual).1.chromosome.length = individual.chromosome.length
      ∧ ga.SameButRng (ga.performMutation individual).2
      ∧ UnitDraws (ga.performMutation individual).2.rng := by
  refine ⟨?_, performMutation_frame _ _, ?_⟩
  · simp only [GeneticAlgorithm.performMutation, Individual.mutate,
      Individual.invalidateFitness, mutateLoop_length]
  · show UnitDraws (mutateLoop ga.config.mutationRate individual.chromosome ga.rng).2
    rw [mutateLoop_rng]
    exact unitDraws_shift _ _ hu

/-- One pairing completes on a well-formed state, and both children have
`chromosomeLength` bits. -/
theorem breedPair_ok (ga : GeneticAlgorithm) (eliteCount : Int) (he : 0 ≤ eliteCount)
    (hwf : ga.WellFormed) :
    ∃ r, ga.breedPair eliteCount = .ok r
      ∧ (r.1.1.chromosome.length : Int) = ga.config.chromosomeLength
      ∧ (r.1.2.chromosome.length : Int) = ga.config.chromosomeLength
      ∧ ga.SameButRng r.2 ∧ UnitDraws r.2.rng := by
  obtain ⟨hpos, hsize, hev, hchr, hL2, -, hct, -, hu⟩ := hwf
  obtain ⟨sel, hsel, hm1, hm2, hf1, hu1⟩ :=
    selectParents_ok ga eliteCount he hsize hpos hev hu
  have hc1 : sel.2.config = ga.config := hf1.1
  have hu2 : UnitDraws (uniformReal01 sel.2.rng).2 := unitDraws_shift _ 1 hu1
  have hfa : ga.SameButRng { sel.2 with rng := (uniformReal01 sel.2.rng).2 } :=
    SameButRng.trans _ _ _ hf1 (SameButRng.withRng _ _)
  by_cases hcross : (uniformReal01 sel.2.rng).1 < sel.2.config.crossoverRate
  · obtain ⟨x, hx, hx1, hx2, hfx, hux⟩ := performCrossover_ok
      { sel.2 with rng := (uniformReal01 sel.2.rng).2 } sel.1.1 sel.1.2
      (by show _ = sel.2.config.chromosomeLength; rw [hc1]; exact hchr _ hm1)
      (by show _ = sel.2.config.chromosomeLength; rw [hc1]; exact hchr _ hm2)
      (by show 2 ≤ sel.2.config.chromosomeLength; rw [hc1]; exact hL2)
      (by show sel.2.config.crossoverType ≠ _; rw [hc1]; exact hct) hu2
    have hx1' : (x.1.1.chromosome.length : Int) = ga.config.chromosomeLength := by
      rw [hx1]; exact congrArg _ hc1
    have hx2' : (x.1.2.chromosome.length : Int) = ga.config.chromosomeLength := by
      rw [hx2]; exact congrArg _ hc1
    obtain ⟨ml1, mf1, mu1⟩ := performMutation_spec x.2 x.1.1 hux
    obtain ⟨ml2, mf2, mu2⟩ := performMutation_spec (x.2.performMutation x.1.1).2 x.1.2 mu1
    have hres : ga.breedPair eliteCount
        = .ok (((x.2.performMutation x.1.1).1,
            ((x.2.performMutation x.1.1).2.performMutation x.1.2).1),
          ((x.2.performMutation x.1.1).2.performMutation x.1.2).2) := by
      simp only [GeneticAlgorithm.breedPair, hsel, hcross, if_true, hx]
    refine ⟨_, hres, ?_, ?_, ?_, mu2⟩
    · show (((x.2.performMutation x.1.1).1).chromosome.length : Int) = _
      rw [ml1]; exact hx1'
    · show ((((x.2.performMutation x.1.1).2.performMutation x.1.2).1).chromosome.length : Int)
        = _
      rw [ml2]; exact hx2'
    · exact SameButRng.trans _ _ _ hfa (SameButRng.trans _ _ _ hfx
        (SameButRng.trans _ _ _ mf1 mf2))
  · obtain ⟨ml1, mf1, mu1⟩ := performMutation_spec
      { sel.2 with rng := (uniformReal01 sel.2.rng).2 } sel.1.1 hu2
    obtain ⟨ml2, mf2, mu2⟩ := performMutation_spec
      (GeneticAlgorithm.performMutation
        { sel.2 with rng := (uniformReal01 sel.2.rng).2 } sel.1.1).2 sel.1.2 mu1
    have hres : ga.breedPair eliteCount
        = .ok (((GeneticAlgorithm.performMutation
              { sel.2 with rng := (uniformReal01 sel.2.rng).2 } sel.1.1).1,
            ((GeneticAlgorithm.performMutation
              { sel.2 with rng := (uniformReal01 sel.2.rng).2 } sel.1.1).2.performMutation
                sel.1.2).1),
          ((GeneticAlgorithm.performMutation
              { sel.2 with rng := (uniformReal01 sel.2.rng).2 } sel.1.1).2.performMutation
                sel.1.2).2) := by
      simp only [GeneticAlgorithm.breedPair, hsel, hcross, if_false]
    refine ⟨_, hres, ?_, ?_,
      SameButRng.trans _ _ _ hfa (SameButRng.trans _ _ _ mf1 mf2), mu2⟩
    · show (((GeneticAlgorithm.performMutation
        { sel.2 with rng := (uniformReal01 sel.2.rng).2 } sel.1.1).1).chromosome.length : Int)
          = _
      rw [ml1]; exact hchr _ hm1
    · show ((((GeneticAlgorithm.performMutation
        { sel.2 with rng := (uniformReal01 sel.2.rng).2 } sel.1.1).2.performMutation
          sel.1.2).1).chromosome.length : Int) = _
      rw [ml2]; exact hchr _ hm2

theorem wellFormed_of_sameButRng (ga ga' : GeneticAlgorithm) (hwf : ga.WellFormed)
    (hf : ga.SameButRng ga') (hu : UnitDraws ga'.rng) : ga'.WellFormed := by
  obtain ⟨h1, h2, h3, h4, h5, h6, h7, h8, -⟩ := hwf
  obtain ⟨hc, hp, -, -, -⟩ := hf
  unfold GeneticAlgorithm.WellFormed
  rw [hc, hp]
  exact ⟨h1, h2, h3, h4, h5, h6, h7, h8, hu⟩

/-- The fill loop completes on a well-formed state, and every individual of the new
population has `chromosomeLength` bits when those it started from have. -/
theorem fillLoop_ok (eliteCount : Int) (he : 0 ≤ eliteCount) (n : Nat) :
    ∀ (k : Nat) (ga : GeneticAlgorithm) (newPopulation : Population),
      n - newPopulation.length ≤ k → ga.WellFormed →
      (∀ x ∈ newPopulation, (x.chromosome.length : Int) = ga.config.chromosomeLength) →
      ∃ r, fillLoop eliteCount n ga newPopulation = .ok r
        ∧ (∀ x ∈ r.1, (x.chromosome.length : Int) = ga.config.chromosomeLength)
        ∧ UnitDraws r.2.rng := by
  intro k
  induction k with
  | zero =>
    intro ga newPopulation hk hwf hlen
    exact ⟨_, fillLoop_done _ _ _ _ (by omega), hlen, hwf.2.2.2.2.2.2.2.2⟩
  | succ k ih =>
    intro ga newPopulation hk hwf hlen
    by_cases hlt : newPopulation.length < n
    · obtain ⟨x, hx, hx1, hx2, hfx, hux⟩ := breedPair_ok ga eliteCount he hwf
      obtain ⟨added, hadd, h1, -, hmem⟩ :=
        pushOffspring_append n newPopulation x.1.1 x.1.2 hlt
      have hc : x.2.config = ga.config := hfx.1
      obtain ⟨r, hr, hrl, hru⟩ := ih x.2 (pushOffspring n newPopulation x.1.1 x.1.2)
        (by rw [hadd]; simp only [List.length_append]; omega)
        (wellFormed_of_sameButRng _ _ hwf hfx hux)
        (by
          intro y hy
          rw [hadd] at hy
          rw [hc]
          rcases List.mem_append.mp hy with hy | hy
          · exact hlen y hy
          · rcases hmem y hy with rfl | rfl
            · exact hx1
            · exact hx2)
      refine ⟨r, ?_, ?_, hru⟩
      · rw [fillLoop_step _ _ _ _ hlt, hx]
        exact hr
      · intro y hy
        rw [← hc]
        exact hrl y hy
    · exact ⟨_, fillLoop_done _ _ _ _ hlt, hlen, hwf.2.2.2.2.2.2.2.2⟩

theorem decodeToValue_ok (self : Individual) (minValue maxValue : ℚ)
    (h1 : 1 ≤ self.chromosome.length) (h2 : self.chromosome.length ≤ 63) :
    ∃ x, self.decodeToValue minValue maxValue = .ok x := by
  obtain ⟨bits, f, pct, valid⟩ := self
  exact ⟨_, decodeToValue_eq bits f pct valid minValue maxValue h1 h2⟩

theorem evaluateLoop_ok (ff : FitnessFunction) (minValue maxValue : ℚ) :
    ∀ population : Population,
      (∀ x ∈ population, 1 ≤ x.chromosome.length ∧ x.chromosome.length ≤ 63) →
      ∃ evaluated, evaluateLoop ff minValue maxValue population = .ok evaluated := by
  intro population
  induction population with
  | nil => intro _; exact ⟨_, rfl⟩
  | cons a rest ih =>
    intro hlen
    obtain ⟨rest1, hrest⟩ := ih (fun x hx => hlen x (List.mem_cons_of_mem _ hx))
    obtain ⟨x, hx⟩ := decodeToValue_ok a minValue maxValue
      (hlen a (List.mem_cons_self _ _)).1 (hlen a (List.mem_cons_self _ _)).2
    by_cases hv : a.isFitnessValid = true
    · refine ⟨a :: rest1, ?_⟩
      simp only [evaluateLoop, hv, Bool.not_true, Bool.false_eq_true, if_false, hrest]
    · have hv' : a.isFitnessValid = false := by simpa using hv
      refine ⟨a.setFitness (ff.evaluate x) :: rest1, ?_⟩
      simp only [evaluateLoop, hv', Bool.not_false, if_true,
        FitnessFunction.evaluateIndividual, hx, hrest]

theorem bestWorstLoop_ok (isMax : Bool) :
    ∀ (population : Population), FullyEvaluated population → ∀ acc : ℚ × ℚ,
      ∃ r, bestWorstLoop isMax population acc = .ok r := by
  intro population
  induction population with
  | nil => intro _ acc; exact ⟨_, rfl⟩
  | cons a rest ih =>
    intro hev acc
    obtain ⟨ha, hrest⟩ := (fullyEvaluated_cons a rest).mp hev
    cases isMax with
    | true =>
      obtain ⟨r, hr⟩ := ih hrest (max acc.1 a.fitness, min acc.2 a.fitness)
      exact ⟨r, by simp only [bestWorstLoop, getFitness_of_valid a ha, if_true, hr]⟩
    | false =>
      obtain ⟨r, hr⟩ := ih hrest (min acc.1 a.fitness, max acc.2 a.fitness)
      exact ⟨r, by simp only [bestWorstLoop, getFitness_of_valid a ha, Bool.false_eq_true,
        if_false, hr]⟩

theorem percentageLoop_ok (ff : FitnessFunction) (best worst : ℚ) :
    ∀ (population : Population), FullyEvaluated population →
      ∃ r, percentageLoop ff best worst population = .ok r := by
  intro population
  induction population with
  | nil => intro _; exact ⟨_, rfl⟩
  | cons a rest ih =>
    intro hev
    obtain ⟨ha, hrest⟩ := (fullyEvaluated_cons a rest).mp hev
    obtain ⟨r, hr⟩ := ih hrest
    exact ⟨_, by simp only [percentageLoop, getFitness_of_valid a ha, hr]; rfl⟩

theorem evaluateLoop_fullyEvaluated (ff : FitnessFunction) (minValue maxValue : ℚ)
    (population evaluated : Population)
    (h : evaluateLoop ff minValue maxValue population = .ok evaluated) :
    FullyEvaluated evaluated := by
  have hrel := evaluateLoop_ok_inv ff minValue maxValue population evaluated h
  clear h
  induction hrel with
  | nil => exact fun _ hx => absurd hx (List.not_mem_nil _)
  | cons hab _ ih => exact (fullyEvaluated_cons _ _).mpr ⟨hab.2.1, ih⟩

/-- The population can be evaluated when every chromosome has between 1 and 63 bits. -/
theorem evaluatePopulation_ok (ga : GeneticAlgorithm)
    (hlen : ∀ x ∈ ga.population, 1 ≤ x.chromosome.length ∧ x.chromosome.length ≤ 63) :
    ∃ evaluated, ga.evaluatePopulation = .ok evaluated := by
  obtain ⟨ev, hev⟩ := evaluateLoop_ok ga.fitnessFunction ga.config.minValue
    ga.config.maxValue ga.population hlen
  have hfe := evaluateLoop_fullyEvaluated _ _ _ _ _ hev
  cases ev with
  | nil => exact ⟨_, by simp only [GeneticAlgorithm.evaluatePopulation, hev]; rfl⟩
  | cons first rest =>
    have hf := getFitness_of_valid first (hfe first (List.mem_cons_self _ _))
    obtain ⟨bw, hbw⟩ := bestWorstLoop_ok ga.config.isMaximization (first :: rest) hfe
      (first.fitness, first.fitness)
    obtain ⟨wp, hwp⟩ := percentageLoop_ok ga.fitnessFunction bw.1 bw.2 (first :: rest) hfe
    exact ⟨_, by simp only [GeneticAlgorithm.evaluatePopulation, hev, hf, hbw, hwp]; rfl⟩

theorem hammingLoop_ok :
    ∀ (chrom1 chrom2 : Chromosome) (acc : Int), chrom1.length ≤ chrom2.length →
      ∃ r, hammingLoop chrom1 chrom2 acc = .ok r := by
  intro chrom1
  induction chrom1 with
  | nil => intro chrom2 acc _; exact ⟨_, rfl⟩
  | cons b1 rest1 ih =>
    intro chrom2 acc hle
    cases chrom2 with
    | nil => simp at hle
    | cons b2 rest2 =>
      simp only [List.length_cons, Nat.add_le_add_iff_right] at hle
      obtain ⟨r, hr⟩ := ih rest2 (if b1 != b2 then acc + 1 else acc) hle
      exact ⟨r, by simp only [hammingLoop, hr]⟩

theorem diversityInner_ok (chrom1 : Chromosome) :
    ∀ (rest : Population), (∀ x ∈ rest, chrom1.length ≤ x.chromosome.length) →
      ∀ acc : ℚ × Int, ∃ r, diversityInner chrom1 rest acc = .ok r := by
  intro rest
  induction rest with
  | nil => intro _ acc; exact ⟨_, rfl⟩
  | cons a rest ih =>
    intro hlen acc
    obtain ⟨d, hd⟩ := hammingLoop_ok chrom1 a.getChromosome 0
      (hlen a (List.mem_cons_self _ _))
    obtain ⟨r, hr⟩ := ih (fun x hx => hlen x (List.mem_cons_of_mem _ hx))
      (acc.1 + (d : ℚ) / (chrom1.length : ℚ), acc.2 + 1)
    exact ⟨r, by simp only [diversityInner, hd, hr]⟩

theorem diversityOuter_ok (L : Nat) :
    ∀ (population : Population), (∀ x ∈ population, x.chromosome.length = L) →
      ∀ acc : ℚ × Int, ∃ r, diversityOuter population acc = .ok r := by
  intro population
  induction population with
  | nil => intro _ acc; exact ⟨_, rfl⟩
  | cons a rest ih =>
    intro hlen acc
    have ha : a.getChromosome.length = L := hlen a (List.mem_cons_self _ _)
    obtain ⟨acc1, h1⟩ := diversityInner_ok a.getChromosome rest
      (fun x hx => by rw [ha, hlen x (List.mem_cons_of_mem _ hx)]) acc
    obtain ⟨r, hr⟩ := ih (fun x hx => hlen x (List.mem_cons_of_mem _ hx)) acc1
    exact ⟨r, by simp only [diversityOuter, h1, hr]⟩

theorem calculatePopulationDiversity_ok (ga : GeneticAlgorithm) (L : Nat)
    (hlen : ∀ x ∈ ga.population, x.chromosome.length = L) :
    ∃ d, ga.calculatePopulationDiversity = .ok d := by
  unfold GeneticAlgorithm.calculatePopulationDiversity
  split
  · exact ⟨_, rfl⟩
  · obtain ⟨r, hr⟩ := diversityOuter_ok L ga.population hlen (0, 0)
    exact ⟨_, by rw [hr]⟩

theorem statsLoop_ok (config : GAConfig) :
    ∀ (population : Population), FullyEvaluated population →
      (∀ x ∈ population, 1 ≤ x.chromosome.length ∧ x.chromosome.length ≤ 63) →
      ∀ acc : StatsAcc, ∃ r, statsLoop config population acc = .ok r := by
  intro population
  induction population with
  | nil => intro _ _ acc; exact ⟨_, rfl⟩
  | cons a rest ih =>
    intro hev hlen acc
    obtain ⟨ha, hrest⟩ := (fullyEvaluated_cons a rest).mp hev
    obtain ⟨x, hx⟩ := decodeToValue_ok a config.minValue config.maxValue
      (hlen a (List.mem_cons_self _ _)).1 (hlen a (List.mem_cons_self _ _)).2
    have hih := ih hrest (fun y hy => hlen y (List.mem_cons_of_mem _ hy))
    simp only [statsLoop, getFitness_of_valid a ha, hx]
    split
    · split
      · exact hih _
      · exact hih _
    · split
      · exact hih _
      · exact hih _

/-- The statistics can be computed for a non-empty fully evaluated population whose
chromosomes all have the same length, between 1 and 63 bits. -/
theorem calculateGenerationStats_ok (ga : GeneticAlgorithm) (L : Nat)
    (hne : ga.population ≠ []) (hev : FullyEvaluated ga.population)
    (hlen : ∀ x ∈ ga.population, x.chromosome.length = L) (hL1 : 1 ≤ L) (hL2 : L ≤ 63) :
    ∃ stats, ga.calculateGenerationStats = .ok stats := by
  obtain ⟨d, hd⟩ := calculatePopulationDiversity_ok ga L hlen
  unfold GeneticAlgorithm.calculateGenerationStats
  cases hp : ga.population with
  | nil => exact absurd hp hne
  | cons first rest =>
    rw [hp] at hev hlen
    have hf := getFitness_of_valid first (hev first (List.mem_cons_self _ _))
    obtain ⟨acc, hacc⟩ := statsLoop_ok ga.config (first :: rest) hev
      (fun x hx => by rw [hlen x hx]; exact ⟨hL1, hL2⟩)
      { totalFitness := 0, bestFitness := first.fitness, worstFitness := first.fitness,
        bestValue := none }
    exact ⟨_, by simp only [hf, hacc, hd]; rfl⟩

theorem forall₂_chromosome_length (l1 l2 : Population) (L : Int)
    (h : List.Forall₂ (fun a b => b.chromosome = a.chromosome ∧ b.isFitnessValid = true
      ∧ (a.isFitnessValid = true → b.fitness = a.fitness)) l1 l2)
    (hlen : ∀ x ∈ l1, (x.chromosome.length : Int) = L) :
    ∀ y ∈ l2, (y.chromosome.length : Int) = L := by
  induction h with
  | nil => exact fun _ hy => absurd hy (List.not_mem_nil _)
  | cons hab _ ih =>
    intro y hy
    rcases List.mem_cons.mp hy with rfl | hy
    · rw [hab.1]
      exact hlen _ (List.mem_cons_self _ _)
    · exact ih (fun x hx => hlen x (List.mem_cons_of_mem _ hx)) y hy

/-- One generation completes on a well-formed state, and the state it leaves is well formed
again. -/
theorem evolveGeneration_ok (S : StdSort) (hS : S.Valid) (ga : GeneticAlgorithm)
    (hwf : ga.WellFormed) :
    ∃ stats evolved, ga.evolveGeneration S = .ok (stats, evolved) ∧ evolved.WellFormed := by
  obtain ⟨hpos, hsize, hev, hchr, hL2, hL63, hct, hrate, hu⟩ := hwf
  obtain ⟨sorted, hsorted⟩ := sortPopulationByFitness_ok S ga hev
  obtain ⟨hf1, hrng1, hperm1, -⟩ := sortPopulationByFitness_ok_inv S hS ga sorted hsorted
  have hc1 : sorted.config = ga.config := hf1.1
  have hev1 : FullyEvaluated sorted.population := fullyEvaluated_perm _ _ hperm1 hev
  have hsize1 : (sorted.population.length : Int) = sorted.config.populationSize := by
    rw [hperm1.length_eq, hc1]
    exact hsize
  obtain ⟨sel, hsel, -, htake, hsort2⟩ := eliteSelection_length S hS sorted
    (truncToInt (roundDouble ((sorted.config.populationSize : ℚ) * sorted.config.elitismRate))) hsize1
    (by rw [hc1]; exact hpos) hev1
  obtain ⟨hf2, hrng2, hperm2, -⟩ := sortPopulationByFitness_ok_inv S hS sorted sel.2 hsort2
  have hc2 : sel.2.config = ga.config := hf2.1.trans hc1
  have hperm : List.Perm sel.2.population ga.population := hperm2.trans hperm1
  have hwf2 : sel.2.WellFormed := by
    unfold GeneticAlgorithm.WellFormed
    rw [hc2, hperm.length_eq, hrng2, hrng1]
    exact ⟨hpos, hsize, fullyEvaluated_perm _ _ hperm hev,
      fun x hx => hchr x (hperm.mem_iff.mp hx), hL2, hL63, hct, hrate, hu⟩
  have he : 0 ≤ truncToInt
      (roundDouble ((sorted.config.populationSize : ℚ) * sorted.config.elitismRate)) := by
    rw [hc1]
    have hn : (0 : ℚ) ≤ (ga.config.populationSize : ℚ) := by
      exact_mod_cast (by omega : 0 ≤ ga.config.populationSize)
    exact truncToInt_roundDouble_nonneg (mul_nonneg hn hrate)
  obtain ⟨filled, hfilled, hflen, hfu⟩ := fillLoop_ok _ he sel.2.config.populationSize.toNat
    (sel.2.config.populationSize.toNat - sel.1.length) sel.2 sel.1 (le_refl _) hwf2
    (by
      intro x hx
      rw [htake] at hx
      rw [hc2]
      exact hchr x (hperm.mem_iff.mp (List.mem_of_mem_take hx)))
  rw [hc2] at hflen
  obtain ⟨ev, hevp⟩ := evaluatePopulation_ok { filled.2 with population := filled.1 }
    (by
      intro x hx
      have := hflen x hx
      omega)
  obtain ⟨hf4, hrng4, hrel⟩ := evaluatePopulation_ok_inv _ ev hevp
  have hrel' : List.Forall₂ (fun a b => b.chromosome = a.chromosome
      ∧ b.isFitnessValid = true ∧ (a.isFitnessValid = true → b.fitness = a.fitness))
      filled.1 ev.population := hrel
  have hevl := forall₂_chromosome_length _ _ _ hrel' hflen
  have hfe : FullyEvaluated ev.population := forall₂_fullyEvaluated _ _ hrel'
  have hlenle : sel.1.length ≤ sel.2.config.populationSize.toNat := by
    rw [htake, List.length_take, hc2]
    have := hperm.length_eq
    omega
  obtain ⟨hfl, -, hf3⟩ := fillLoop_ok_inv _ _
    (sel.2.config.populationSize.toNat - sel.1.length) sel.2 sel.1 filled (le_refl _) hlenle
    hfilled
  rw [hc2] at hfl
  have hevlen : ev.population.length = ga.config.populationSize.toNat := by
    rw [← hrel'.length_eq, hfl]
  have hne : ev.population ≠ [] := by
    intro hnil
    rw [hnil] at hevlen
    simp only [List.length_nil] at hevlen
    omega
  obtain ⟨stats, hstats⟩ := calculateGenerationStats_ok ev ga.config.chromosomeLength.toNat hne
    hfe (fun x hx => by have := hevl x hx; omega) (by omega) (by omega)
  have hc3 : filled.2.config = ga.config := hf3.1.trans hc2
  have hc4 : ev.config = ga.config := hf4.1.trans hc3
  refine ⟨stats, ev, ?_, ?_⟩
  · have hn : ¬ ga.config.populationSize < 0 := by omega
    simp only [GeneticAlgorithm.evolveGeneration, hn, if_false, hsorted, hsel, hfilled, hevp,
      hstats]
  · unfold GeneticAlgorithm.WellFormed
    rw [hc4, hevlen]
    refine ⟨hpos, by omega, hfe, hevl, hL2, hL63, hct, hrate, ?_⟩
    rw [hrng4]
    exact hfu

theorem initializeLoop_ok (chromosomeLength : Int) (hL : 0 ≤ chromosomeLength) :
    ∀ (n : Nat) (rng : Rng) (population : Population), UnitDraws rng →
      (∀ x ∈ population, (x.chromosome.length : Int) = chromosomeLength) →
      ∃ r, initializeLoop chromosomeLength n rng population = .ok r
        ∧ (∀ x ∈ r.1, (x.chromosome.length : Int) = chromosomeLength)
        ∧ UnitDraws r.2 := by
  intro n
  induction n with
  | zero =>
    intro rng population hu hlen
    exact ⟨_, rfl, hlen, hu⟩
  | succ n ih =>
    intro rng population hu hlen
    have hn : ¬ chromosomeLength < 0 := by omega
    obtain ⟨r, hr, hrl, hru⟩ := ih (randomizeLoop chromosomeLength.toNat rng).2
      (population ++ [({ Individual.ofLength chromosomeLength.toNat with
          chromosome := (randomizeLoop chromosomeLength.toNat rng).1 }).invalidateFitness])
      (by
        rw [randomizeLoop_rng]
        exact unitDraws_shift rng _ hu)
      (by
        intro x hx
        rcases List.mem_append.mp hx with hx | hx
        · exact hlen x hx
        · rw [List.mem_singleton.mp hx]
          show (((randomizeLoop chromosomeLength.toNat rng).1.length : Nat) : Int)
            = chromosomeLength
          rw [randomizeLoop_length]
          omega)
    refine ⟨r, ?_, hrl, hru⟩
    simp only [initializeLoop, Individual.randomize, hn, if_false]
    exact hr

theorem initializePopulation_ok (ga : GeneticAlgorithm) (hpos : 0 ≤ ga.config.populationSize)
    (hL : 0 ≤ ga.config.chromosomeLength) (hu : UnitDraws ga.rng) :
    ∃ initialized, ga.initializePopulation = .ok initialized
      ∧ (∀ x ∈ initialized.population,
          (x.chromosome.length : Int) = ga.config.chromosomeLength)
      ∧ UnitDraws initialized.rng := by
  obtain ⟨r, hr, hrl, hru⟩ := initializeLoop_ok ga.config.chromosomeLength hL
    ga.config.populationSize.toNat ga.rng [] hu
    (fun x hx => absurd hx (List.not_mem_nil _))
  have hn : ¬ ga.config.populationSize < 0 := by omega
  refine ⟨{ ga with population := r.1, rng := r.2 }, ?_, hrl, hru⟩
  simp only [GeneticAlgorithm.initializePopulation, hn, if_false, hr]

/-- The evolution loop returns on every well-formed state, and a non-empty history stays
non-empty. -/
theorem runLoop_ok (S : StdSort) (hS : S.Valid) :
    ∀ (fuel : Nat) (ga : GeneticAlgorithm), ga.WellFormed →
      ∃ r, runLoop S fuel ga = .ok r
        ∧ (ga.statistics ≠ [] → ∀ final, r = some final → final.statistics ≠ []) := by
  intro fuel
  induction fuel with
  | zero =>
    intro ga _
    exact ⟨none, rfl, fun _ final hf => by cases hf⟩
  | succ fuel ih =>
    intro ga hwf
    by_cases hle : ga.currentGeneration ≤ ga.config.maxGenerations
    · obtain ⟨stats, evolved, hevo, hwf2⟩ := evolveGeneration_ok S hS ga hwf
      obtain ⟨d, hd⟩ := calculatePopulationDiversity_ok
        { evolved with statistics := evolved.statistics ++ [stats] }
        evolved.config.chromosomeLength.toNat
        (by
          intro x hx
          have := hwf2.2.2.2.1 x hx
          omega)
      by_cases hconv : d < 1 / 100
      · refine ⟨some { evolved with statistics := evolved.statistics ++ [stats] }, ?_, ?_⟩
        · simp only [runLoop, hle, if_true, hevo, GeneticAlgorithm.hasConverged, hd, hconv,
            decide_True]
        · intro _ final hf
          cases hf
          simp
      · obtain ⟨r, hr, hrs⟩ := ih
          { evolved with statistics := evolved.statistics ++ [stats],
                         currentGeneration := evolved.currentGeneration + 1 } hwf2
        refine ⟨r, ?_, ?_⟩
        · simp only [runLoop, hle, if_true, hevo, GeneticAlgorithm.hasConverged, hd, hconv,
            decide_False, Bool.false_eq_true, if_false]
          exact hr
        · intro _ final hf
          exact hrs (by simp) final hf
    · refine ⟨some ga, ?_, ?_⟩
      · simp only [runLoop, hle, if_false]
      · intro hne final hf
        cases hf
        exact hne

/-- A run completes: with `populationSize ≥ 1`, `2 ≤ chromosomeLength ≤ 63`, single-point or
uniform crossover, a nonnegative `elitismRate` and unit draws, `run` returns the last
snapshot of its history. -/
theorem run_ok (S : StdSort) (hS : S.Valid) (ga : GeneticAlgorithm)
    (hpos : 1 ≤ ga.config.populationSize) (hL2 : 2 ≤ ga.config.chromosomeLength)
    (hL63 : ga.config.chromosomeLength ≤ 63)
    (hct : ga.config.crossoverType ≠ CrossoverType.TWO_POINT)
    (hrate : 0 ≤ ga.config.elitismRate) (hu : UnitDraws ga.rng) :
    ∃ stats final, ga.run S = .ok (stats, final) := by
  obtain ⟨ga1, h1, hlen1, hu1⟩ := initializePopulation_ok ga (by omega) (by omega) hu
  obtain ⟨hf1, -, hsize1⟩ := initializePopulation_ok_inv ga ga1 h1
  obtain ⟨ga2, h2⟩ := evaluatePopulation_ok ga1
    (by
      intro x hx
      have := hlen1 x hx
      omega)
  obtain ⟨hf2, hrng2, hrel⟩ := evaluatePopulation_ok_inv ga1 ga2 h2
  have hrel' : List.Forall₂ (fun a b => b.chromosome = a.chromosome
      ∧ b.isFitnessValid = true ∧ (a.isFitnessValid = true → b.fitness = a.fitness))
      ga1.population ga2.population := hrel
  have hc2 : ga2.config = ga.config := hf2.1.trans hf1.1
  have hlen2 := forall₂_chromosome_length _ _ _ hrel' hlen1
  have hfe2 : FullyEvaluated ga2.population := forall₂_fullyEvaluated _ _ hrel'
  have hsize2 : ga2.population.length = ga.config.populationSize.toNat := by
    rw [← hrel'.length_eq, hsize1]
  have hne2 : ga2.population ≠ [] := by
    intro hnil
    rw [hnil] at hsize2
    simp only [List.length_nil] at hsize2
    omega
  obtain ⟨stats0, hstats0⟩ := calculateGenerationStats_ok ga2 ga.config.chromosomeLength.toNat
    hne2 hfe2 (fun x hx => by have := hlen2 x hx; omega) (by omega) (by omega)
  have hwf : ({ ga2 with statistics := [stats0], currentGeneration := 1 } :
      GeneticAlgorithm).WellFormed := by
    unfold GeneticAlgorithm.WellFormed
    show 1 ≤ ga2.config.populationSize
      ∧ (ga2.population.length : Int) = ga2.config.populationSize
      ∧ FullyEvaluated ga2.population
      ∧ (∀ individual ∈ ga2.population,
          (individual.chromosome.length : Int) = ga2.config.chromosomeLength)
      ∧ 2 ≤ ga2.config.chromosomeLength ∧ ga2.config.chromosomeLength ≤ 63
      ∧ ga2.config.crossoverType ≠ CrossoverType.TWO_POINT
      ∧ 0 ≤ ga2.config.elitismRate
      ∧ UnitDraws ga2.rng
    rw [hc2, hsize2, hrng2]
    exact ⟨hpos, by omega, hfe2, hlen2, hL2, hL63, hct, hrate, hu1⟩
  obtain ⟨r, hr, hrs⟩ := runLoop_ok S hS (ga2.config.maxGenerations.toNat + 1) _ hwf
  cases r with
  | none =>
    exfalso
    refine runLoop_fuel_enough S hS _ _ ?_ hr
    show (ga2.config.maxGenerations - 1 + 1).toNat < ga2.config.maxGenerations.toNat + 1
    rw [sub_add_cancel]
    omega
  | some ga3 =>
    have hne3 : ga3.statistics ≠ [] := hrs (by simp) ga3 rfl
    cases hlast : ga3.statistics.getLast? with
    | none => exact absurd (List.getLast?_eq_none_iff.mp hlast) hne3
    | some stats =>
      refine ⟨stats, ga3, ?_⟩
      simp only [GeneticAlgorithm.run, h1, h2, hstats0, hr, hlast]

theorem sampleEngine_wellFormed : sampleEngine.WellFormed := by
  refine ⟨by decide, by rfl, samplePopulation_fullyEvaluated, ?_, by decide, by decide,
    by decide, ?_, ?_⟩
  · intro x hx
    change x ∈ samplePopulation at hx
    simp only [samplePopulation, List.mem_cons, List.mem_singleton, List.not_mem_nil,
      or_false] at hx
    rcases hx with rfl | rfl | rfl | rfl <;> rfl
  · show (0 : ℚ) ≤ sampleConfig.elitismRate
    simp only [sampleConfig]
    norm_num
  · intro j
    show (0 : ℚ) ≤ 3 / 4 ∧ (3 / 4 : ℚ) < 1
    norm_num

theorem not_betterFitness_iff (isMax : Bool) (a b : ℚ) :
    ¬ betterFitness isMax a b ↔ (isMax = true → a ≤ b) ∧ (isMax = false → b ≤ a) := by
  cases isMax
  · simp [betterFitness]
  · simp [betterFitness]

theorem chain_getElem? {α : Type} (R : α → α → Prop) :
    ∀ (l : List α), List.Chain' R l →
      ∀ (i : Nat) (s t : α), l[i]? = some s → l[i + 1]? = some t → R s t := by
  intro l
  induction l with
  | nil =>
    intro _ i s t hs _
    simp at hs
  | cons a rest ih =>
    intro h i s t hs ht
    cases rest with
    | nil => simp at ht
    | cons b rest =>
      rw [List.chain'_cons] at h
      cases i with
      | zero =>
        simp only [List.getElem?_cons_zero, Option.some.injEq, zero_add,
          List.getElem?_cons_succ] at hs ht
        subst hs ht
        exact h.1
      | succ i =>
        rw [List.getElem?_cons_succ] at hs ht
        exact ih h.2 i s t hs ht

theorem evolveGeneration_nonempty (S : StdSort) (hS : S.Valid) (ga evolved : GeneticAlgorithm)
    (stats : GenerationStats) (h : ga.evolveGeneration S = .ok (stats, evolved)) :
    1 ≤ ga.config.populationSize
      ∧ (evolved.population.length : Int) = ga.config.populationSize := by
  obtain ⟨-, hlen, -, hst, -⟩ := evolveGeneration_post S hS ga evolved stats h
  obtain ⟨hne, -⟩ := calculateGenerationStats_ok_inv evolved stats hst
  have hpos : 0 < evolved.population.length := List.length_pos.mpr hne
  omega

/-- C12: on a fully evaluated population with `populationSize ≥ 1`, whenever
`evolveGeneration` completes, every individual of the old population is matched by an
individual of the new population whose raw fitness is not worse (`≥` for maximization, `≤`
for minimization), and the `bestFitness` of the returned snapshot is not worse than any old
raw fitness; and in the history of every completed `run` each snapshot's `bestFitness` is
not worse than that of the snapshot before it. -/
theorem evolveGeneration_best_not_worse (S : StdSort) (hS : S.Valid) (ga : GeneticAlgorithm)
    (hpos : 1 ≤ ga.config.populationSize) (hev : FullyEvaluated ga.population) :
    (∀ stats evolved, ga.evolveGeneration S = .ok (stats, evolved) →
        (∀ a ∈ ga.population, ∃ b ∈ evolved.population,
          (ga.config.isMaximization = true → a.fitness ≤ b.fitness)
            ∧ (ga.config.isMaximization = false → b.fitness ≤ a.fitness))
        ∧ (∀ a ∈ ga.population,
          (ga.config.isMaximization = true → a.fitness ≤ stats.bestFitness)
            ∧ (ga.config.isMaximization = false → stats.bestFitness ≤ a.fitness)))
      ∧ (∀ last final, ga.run S = .ok (last, final) →
          ∀ (i : Nat) (s t : GenerationStats),
            final.statistics[i]? = some s → final.statistics[i + 1]? = some t →
              (ga.config.isMaximization = true → s.bestFitness ≤ t.bestFitness)
                ∧ (ga.config.isMaximization = false → t.bestFitness ≤ s.bestFitness)) := by
  constructor
  · intro stats evolved h
    constructor
    · intro a ha
      obtain ⟨b, hb, hab⟩ := evolveGeneration_best_kept S hS ga evolved stats hpos hev h a ha
      exact ⟨b, hb, (not_betterFitness_iff _ _ _).mp hab⟩
    · intro a ha
      exact (not_betterFitness_iff _ _ _).mp
        (evolveGeneration_stats_best S hS ga evolved stats hpos hev h a ha)
  · intro last final h i s t hs ht
    obtain ⟨-, hmono, -⟩ := run_monotone S hS ga final last h
    exact (not_betterFitness_iff _ _ _).mp (chain_getElem? _ _ hmono i s t hs ht)

/-- Witness of C12: on the sample engine one generation completes and a run completes, and
the properties hold there. -/
theorem evolveGeneration_best_not_worse_witness :
    (∃ stats evolved, sampleEngine.evolveGeneration insertionStdSort = .ok (stats, evolved)
        ∧ ∀ a ∈ sampleEngine.population, a.fitness ≤ stats.bestFitness)
      ∧ (∃ last final, sampleEngine.run insertionStdSort = .ok (last, final)
        ∧ ∀ (i : Nat) (s t : GenerationStats),
            final.statistics[i]? = some s → final.statistics[i + 1]? = some t →
              s.bestFitness ≤ t.bestFitness) := by
  have hmain := evolveGeneration_best_not_worse insertionStdSort insertionStdSort_valid
    sampleEngine sampleEngine_wellFormed.1 samplePopulation_fullyEvaluated
  obtain ⟨stats, evolved, hevo, -⟩ :=
    evolveGeneration_ok insertionStdSort insertionStdSort_valid sampleEngine
      sampleEngine_wellFormed
  obtain ⟨last, final, hrun⟩ := run_ok insertionStdSort insertionStdSort_valid sampleEngine
    sampleEngine_wellFormed.1 sampleEngine_wellFormed.2.2.2.2.1
    sampleEngine_wellFormed.2.2.2.2.2.1 sampleEngine_wellFormed.2.2.2.2.2.2.1
    sampleEngine_wellFormed.2.2.2.2.2.2.2.1 sampleEngine_wellFormed.2.2.2.2.2.2.2.2
  refine ⟨⟨stats, evolved, hevo, ?_⟩, ⟨last, final, hrun, ?_⟩⟩
  · intro a ha
    exact ((hmain.1 stats evolved hevo).2 a ha).1 rfl
  · intro i s t hs ht
    exact (hmain.2 last final hrun i s t hs ht).1 rfl

/-- C13: on a population whose size equals `populationSize`, fully evaluated or not, whenever
`evolveGeneration` completes the new population has exactly `populationSize` individuals
and the configuration is unchanged; on a well-formed state the step does complete (the fill
loop terminates); and a fill-loop iteration entered with exactly one free slot appends the
first offspring only, dropping the second, and ends the loop. -/
theorem evolveGeneration_size (S : StdSort) (hS : S.Valid) (ga : GeneticAlgorithm)
    (hsize : (ga.population.length : Int) = ga.config.populationSize) :
    (∀ stats evolved, ga.evolveGeneration S = .ok (stats, evolved) →
        (evolved.population.length : Int) = ga.config.populationSize
          ∧ evolved.population.length = ga.population.length
          ∧ evolved.config = ga.config)
      ∧ (ga.WellFormed → ∃ stats evolved, ga.evolveGeneration S = .ok (stats, evolved))
      ∧ (∀ (eliteCount : Int) (n : Nat) (state : GeneticAlgorithm)
          (newPopulation : Population) (r : (Individual × Individual) × GeneticAlgorithm),
          newPopulation.length + 1 = n → state.breedPair eliteCount = .ok r →
            pushOffspring n newPopulation r.1.1 r.1.2 = newPopulation ++ [r.1.1]
              ∧ fillLoop eliteCount n state newPopulation
                  = .ok (newPopulation ++ [r.1.1], r.2)) := by
  refine ⟨?_, ?_, ?_⟩
  · intro stats evolved h
    obtain ⟨hframe, -⟩ := evolveGeneration_post S hS ga evolved stats h
    obtain ⟨-, hlen⟩ := evolveGeneration_nonempty S hS ga evolved stats h
    exact ⟨hlen, by omega, hframe.1⟩
  · intro hwf
    obtain ⟨stats, evolved, h, -⟩ := evolveGeneration_ok S hS ga hwf
    exact ⟨stats, evolved, h⟩
  · intro eliteCount n state newPopulation r hone hr
    have hpush := (pushOffspring_spec n newPopulation r.1.1 r.1.2 (by omega)).1 hone
    refine ⟨hpush, ?_⟩
    rw [fillLoop_step _ _ _ _ (by omega), hr]
    show fillLoop eliteCount n r.2 (pushOffspring n newPopulation r.1.1 r.1.2) = _
    rw [hpush]
    exact fillLoop_done _ _ _ _ (by simp only [List.length_append, List.length_singleton]; omega)

/-- Witness of C13: one generation of the sample engine completes and leaves four
individuals. -/
theorem evolveGeneration_size_witness :
    ∃ stats evolved, sampleEngine.evolveGeneration insertionStdSort = .ok (stats, evolved)
      ∧ evolved.population.length = 4 := by
  have hmain := evolveGeneration_size insertionStdSort insertionStdSort_valid sampleEngine
    (by rfl)
  obtain ⟨stats, evolved, h⟩ := hmain.2.1 sampleEngine_wellFormed
  exact ⟨stats, evolved, h, (hmain.1 stats evolved h).2.1⟩

/-- C15: on a fully evaluated population whose size equals `populationSize`, whenever
`evolveGeneration` completes there are a best-first ranking `ranked` of the old population
(a permutation of it in which no individual is strictly better than one before it) and the
number `k ≥ 1` of elites, the effective elite count (of the elite count computed in `double`
arithmetic), such that every position `i < k` of the
new population holds the individual at position `i` of `ranked` with the same chromosome
and the same raw fitness, still valid. -/
theorem evolveGeneration_elites_unchanged (S : StdSort) (hS : S.Valid)
    (ga evolved : GeneticAlgorithm) (stats : GenerationStats)
    (hsize : (ga.population.length : Int) = ga.config.populationSize)
    (hev : FullyEvaluated ga.population)
    (h : ga.evolveGeneration S = .ok (stats, evolved)) :
    ∃ (ranked : Population) (k : Nat), List.Perm ranked ga.population
      ∧ BestFirst ga.config.isMaximization ranked
      ∧ (k : Int) = effectiveEliteCount ga.config
          (truncToInt (roundDouble ((ga.config.populationSize : ℚ) * ga.config.elitismRate)))
      ∧ 1 ≤ k ∧ k ≤ ga.population.length
      ∧ ∀ i : Nat, i < k →
          ∃ old new, ranked[i]? = some old ∧ evolved.population[i]? = some new
            ∧ new.chromosome = old.chromosome ∧ new.fitness = old.fitness
            ∧ new.isFitnessValid = true := by
  obtain ⟨hpos, -⟩ := evolveGeneration_nonempty S hS ga evolved stats h
  obtain ⟨ranked, k, hperm, hbest, hk, hk1, hkn, helite⟩ :=
    evolveGeneration_elites S hS ga evolved stats hpos hev h
  exact ⟨ranked, k, hperm, hbest, hk, hk1, by omega, helite⟩

/-- Witness of C15: one generation of the sample engine completes, and position 0 of the
new population holds an individual with the chromosome and raw fitness of the best old
one. -/
theorem evolveGeneration_elites_unchanged_witness :
    ∃ stats evolved new, sampleEngine.evolveGeneration insertionStdSort = .ok (stats, evolved)
      ∧ evolved.population[0]? = some new
      ∧ ∃ old ∈ sampleEngine.population, new.chromosome = old.chromosome
          ∧ new.fitness = old.fitness := by
  obtain ⟨stats, evolved, h, -⟩ :=
    evolveGeneration_ok insertionStdSort insertionStdSort_valid sampleEngine
      sampleEngine_wellFormed
  obtain ⟨ranked, k, hperm, -, -, hk1, -, helite⟩ :=
    evolveGeneration_elites_unchanged insertionStdSort insertionStdSort_valid sampleEngine
      evolved stats (by rfl) samplePopulation_fullyEvaluated h
  obtain ⟨old, new, hold, hnew, hc, hf, -⟩ := helite 0 (by omega)
  exact ⟨stats, evolved, new, h, hnew, old, hperm.mem_iff.mp (List.getElem?_mem hold), hc, hf⟩

/-! ### The number of elites that one generation copies -/

/-- The stages of `evolveGeneration` around the elites, when it returns on a fully evaluated
population of size `populationSize`. -/
theorem evolveGeneration_elite_stages (S : StdSort) (hS : S.Valid)
    (ga evolved : GeneticAlgorithm) (stats : GenerationStats)
    (hsize : (ga.population.length : Int) = ga.config.populationSize)
    (hpos : 1 ≤ ga.config.populationSize) (hint : ga.config.populationSize ≤ 2147483647)
    (hev : FullyEvaluated ga.population)
    (hr0 : 0 ≤ ga.config.elitismRate) (hr1 : ga.config.elitismRate ≤ 1)
    (h : ga.evolveGeneration S = .ok (stats, evolved)) :
    ∃ (sorted : GeneticAlgorithm) (sel : List Individual × GeneticAlgorithm)
      (filled : Population × GeneticAlgorithm) (offspring : Population),
      ga.sortPopulationByFitness S = .ok sorted
      ∧ sorted.eliteSelection S
          (truncToInt (roundDouble ((ga.config.populationSize : ℚ) * ga.config.elitismRate)))
          = .ok sel
      ∧ sel.1 = sel.2.population.take sel.1.length
      ∧ List.Perm sel.2.population ga.population
      ∧ BestFirst ga.config.isMaximization sel.2.population
      ∧ fillLoop
          (truncToInt (roundDouble ((ga.config.populationSize : ℚ) * ga.config.elitismRate)))
          ga.config.populationSize.toNat sel.2 sel.1 = .ok filled
      ∧ filled.1 = sel.1 ++ offspring
      ∧ GeneticAlgorithm.evaluatePopulation { filled.2 with population := filled.1 }
          = .ok evolved
      ∧ (1 ≤ truncToInt (roundDouble ((ga.config.populationSize : ℚ) * ga.config.elitismRate)) →
          (sel.1.length : Int)
            = truncToInt (roundDouble ((ga.config.populationSize : ℚ) * ga.config.elitismRate)))
      ∧ (truncToInt (roundDouble ((ga.config.populationSize : ℚ) * ga.config.elitismRate)) = 0 →
          (sel.1.length : Int) = max 1 (truncToInt
            (roundDouble ((ga.config.populationSize : ℚ) * roundDouble (1 / 10)))))
      ∧ ∀ i : Nat, i < sel.1.length →
          ∃ old new, sel.1[i]? = some old ∧ evolved.population[i]? = some new
            ∧ new.chromosome = old.chromosome ∧ new.fitness = old.fitness := by
  obtain ⟨sorted, sel, filled, -, hsorted, hsel, hfilled, hevp, -⟩ :=
    evolveGeneration_ok_inv S ga evolved stats h
  obtain ⟨hf1, -, hperm1, -⟩ := sortPopulationByFitness_ok_inv S hS ga sorted hsorted
  have hc1 : sorted.config = ga.config := hf1.1
  have hev1 : FullyEvaluated sorted.population := fullyEvaluated_perm _ _ hperm1 hev
  have hsize1 : (sorted.population.length : Int) = sorted.config.populationSize := by
    rw [hperm1.length_eq, hc1]
    exact hsize
  obtain ⟨r, hr, htake, hsort2, hcount1, hcount0⟩ := eliteSelection_count S hS sorted hsize1
    (by rw [hc1]; exact hpos) (by rw [hc1]; exact hint) hev1 (by rw [hc1]; exact hr0)
    (by rw [hc1]; exact hr1)
  rw [hsel] at hr
  cases hr
  obtain ⟨hf2, -, hperm2, hbest⟩ := sortPopulationByFitness_ok_inv S hS sorted sel.2 hsort2
  have hc2 : sel.2.config = ga.config := hf2.1.trans hc1
  rw [hc1] at hsel hfilled hbest hcount1 hcount0
  rw [hc2] at hfilled
  have hperm : List.Perm sel.2.population ga.population := hperm2.trans hperm1
  have hlenle : sel.1.length ≤ ga.config.populationSize.toNat := by
    have h1 : sel.1.length ≤ sel.2.population.length := by
      have h0 := congrArg List.length htake
      rw [List.length_take] at h0
      omega
    have h2 : sel.2.population.length = ga.population.length := hperm.length_eq
    omega
  obtain ⟨-, ⟨offspring, hadded⟩, -⟩ := fillLoop_ok_inv _ _
    (ga.config.populationSize.toNat - sel.1.length) sel.2 sel.1 filled (le_refl _) hlenle
    hfilled
  obtain ⟨-, -, hrel⟩ := evaluatePopulation_ok_inv _ evolved hevp
  have hrel' : List.Forall₂ (fun a b => b.chromosome = a.chromosome
      ∧ b.isFitnessValid = true ∧ (a.isFitnessValid = true → b.fitness = a.fitness))
      filled.1 evolved.population := hrel
  refine ⟨sorted, sel, filled, offspring, hsorted, hsel, htake, hperm, hbest, hfilled, hadded,
    hevp, hcount1, hcount0, ?_⟩
  intro i hi
  have hfi : filled.1[i]? = sel.1[i]? := by
    rw [hadded, List.getElem?_append_left hi]
  obtain ⟨old, hold⟩ : ∃ old, sel.1[i]? = some old := ⟨_, List.getElem?_eq_getElem hi⟩
  obtain ⟨new, hnew, hc, -, hkeep⟩ := forall₂_getElem? _ _ hrel' i old (hfi.trans hold)
  have hmem : old ∈ sel.2.population := by
    have := List.getElem?_mem hold
    rw [htake] at this
    exact List.mem_of_mem_take this
  exact ⟨old, new, hold, hnew, hc, hkeep (hev old (hperm.mem_iff.mp hmem))⟩

theorem fivePopulation_fullyEvaluated : FullyEvaluated fivePopulation := by
  intro individual hmem
  simp only [fivePopulation, samplePopulation, List.cons_append, List.nil_append,
    List.mem_cons, List.mem_singleton, List.not_mem_nil, or_false] at hmem
  rcases hmem with rfl | rfl | rfl | rfl | rfl <;> rfl

set_option maxRecDepth 100000 in
theorem roundDouble_three_fifths :
    roundDouble (3 / 5) = 5404319552844595 / 9007199254740992 := by
  with_unfolding_all rfl

theorem fiveEngine_wellFormed : fiveEngine.WellFormed := by
  refine ⟨by decide, by rfl, fivePopulation_fullyEvaluated, ?_, by decide, by decide,
    by decide, ?_, ?_⟩
  · intro x hx
    change x ∈ fivePopulation at hx
    simp only [fivePopulation, samplePopulation, List.cons_append, List.nil_append,
      List.mem_cons, List.mem_singleton, List.not_mem_nil, or_false] at hx
    rcases hx with rfl | rfl | rfl | rfl | rfl <;> rfl
  · show (0 : ℚ) ≤ roundDouble (3 / 5)
    exact roundDouble_nonneg (by norm_num)
  · intro j
    show (0 : ℚ) ≤ 3 / 4 ∧ (3 / 4 : ℚ) < 1
    norm_num

theorem zeroRateEngine_wellFormed : zeroRateEngine.WellFormed := by
  refine ⟨by decide, by rfl, samplePopulation_fullyEvaluated, ?_, by decide, by decide,
    by decide, ?_, ?_⟩
  · intro x hx
    change x ∈ samplePopulation at hx
    simp only [samplePopulation, List.mem_cons, List.mem_singleton, List.not_mem_nil,
      or_false] at hx
    rcases hx with rfl | rfl | rfl | rfl <;> rfl
  · show (0 : ℚ) ≤ 0
    exact le_refl _
  · intro j
    show (0 : ℚ) ≤ 3 / 4 ∧ (3 / 4 : ℚ) < 1
    norm_num

set_option maxRecDepth 100000 in
theorem fiveEngine_eliteCount :
    truncToInt (roundDouble ((fiveEngine.config.populationSize : ℚ)
      * fiveEngine.config.elitismRate)) = 3 := by
  with_unfolding_all rfl

set_option maxRecDepth 100000 in
theorem zeroRateEngine_eliteCount :
    truncToInt (roundDouble ((zeroRateEngine.config.populationSize : ℚ)
      * zeroRateEngine.config.elitismRate)) = 0 := by
  with_unfolding_all rfl

set_option maxRecDepth 100000 in
theorem zeroRateEngine_default :
    max 1 (truncToInt (roundDouble ((zeroRateEngine.config.populationSize : ℚ)
      * roundDouble (1 / 10)))) = 1 := by
  with_unfolding_all rfl

/-- C14 as stated fails in two ways. With `elitismRate = 0` on four individuals
`floor(4 * 0)` is 0, but `eliteSelection` falls back to its default and `evolveGeneration`
copies one elite. With `populationSize = 5` and `elitismRate = 0.6` (the `double` nearest to
three fifths, slightly below it) `floor(5 * 0.6)` is 2, but the product rounds to the
`double` 3.0 and `evolveGeneration` copies three elites. -/
theorem evolveGeneration_elite_count_not_floor :
    (((0 : ℚ) ≤ zeroRateEngine.config.elitismRate ∧ zeroRateEngine.config.elitismRate ≤ 1)
      ∧ ⌊(zeroRateEngine.config.populationSize : ℚ) * zeroRateEngine.config.elitismRate⌋ = 0
      ∧ ∃ stats evolved sorted sel filled offspring,
          zeroRateEngine.evolveGeneration insertionStdSort = .ok (stats, evolved)
          ∧ zeroRateEngine.sortPopulationByFitness insertionStdSort = .ok sorted
          ∧ sorted.eliteSelection insertionStdSort
              (truncToInt (roundDouble ((zeroRateEngine.config.populationSize : ℚ)
                * zeroRateEngine.config.elitismRate))) = .ok sel
          ∧ fillLoop
              (truncToInt (roundDouble ((zeroRateEngine.config.populationSize : ℚ)
                * zeroRateEngine.config.elitismRate)))
              zeroRateEngine.config.populationSize.toNat sel.2 sel.1 = .ok filled
          ∧ filled.1 = sel.1 ++ offspring
          ∧ sel.1.length = 1)
    ∧ (((0 : ℚ) ≤ fiveEngine.config.elitismRate ∧ fiveEngine.config.elitismRate ≤ 1)
      ∧ ⌊(fiveEngine.config.populationSize : ℚ) * fiveEngine.config.elitismRate⌋ = 2
      ∧ ∃ stats evolved sorted sel filled offspring,
          fiveEngine.evolveGeneration insertionStdSort = .ok (stats, evolved)
          ∧ fiveEngine.sortPopulationByFitness insertionStdSort = .ok sorted
          ∧ sorted.eliteSelection insertionStdSort
              (truncToInt (roundDouble ((fiveEngine.config.populationSize : ℚ)
                * fiveEngine.config.elitismRate))) = .ok sel
          ∧ fillLoop
              (truncToInt (roundDouble ((fiveEngine.config.populationSize : ℚ)
                * fiveEngine.config.elitismRate)))
              fiveEngine.config.populationSize.toNat sel.2 sel.1 = .ok filled
          ∧ filled.1 = sel.1 ++ offspring
          ∧ sel.1.length = 3) := by
  have hz0 : (0 : ℚ) ≤ zeroRateEngine.config.elitismRate := le_refl _
  have hz1 : zeroRateEngine.config.elitismRate ≤ 1 := by
    show (0 : ℚ) ≤ 1
    norm_num
  have hf0 : (0 : ℚ) ≤ fiveEngine.config.elitismRate :=
    fiveEngine_wellFormed.2.2.2.2.2.2.2.1
  have hfe : fiveEngine.config.elitismRate = 5404319552844595 / 9007199254740992 :=
    roundDouble_three_fifths
  have hf1 : fiveEngine.config.elitismRate ≤ 1 := by
    rw [hfe]
    norm_num
  refine ⟨⟨⟨hz0, hz1⟩, ?_, ?_⟩, ⟨⟨hf0, hf1⟩, ?_, ?_⟩⟩
  · show ⌊((4 : Int) : ℚ) * 0⌋ = 0
    norm_num
  · obtain ⟨stats, evolved, h, -⟩ :=
      evolveGeneration_ok insertionStdSort insertionStdSort_valid zeroRateEngine
        zeroRateEngine_wellFormed
    obtain ⟨sorted, sel, filled, offspring, h1, h2, -, -, -, h3, h4, -, -, h5, -⟩ :=
      evolveGeneration_elite_stages insertionStdSort insertionStdSort_valid zeroRateEngine
        evolved stats (by rfl) (by decide) (by decide) samplePopulation_fullyEvaluated hz0 hz1 h
    have hlen := h5 zeroRateEngine_eliteCount
    rw [zeroRateEngine_default] at hlen
    exact ⟨stats, evolved, sorted, sel, filled, offspring, h, h1, h2, h3, h4,
      by exact_mod_cast hlen⟩
  · rw [hfe]
    show ⌊((5 : Int) : ℚ) * (5404319552844595 / 9007199254740992)⌋ = 2
    rw [Int.floor_eq_iff]
    norm_num
  · obtain ⟨stats, evolved, h, -⟩ :=
      evolveGeneration_ok insertionStdSort insertionStdSort_valid fiveEngine
        fiveEngine_wellFormed
    obtain ⟨sorted, sel, filled, offspring, h1, h2, -, -, -, h3, h4, -, h5, -, -⟩ :=
      evolveGeneration_elite_stages insertionStdSort insertionStdSort_valid fiveEngine
        evolved stats (by rfl) (by decide) (by decide) fivePopulation_fullyEvaluated hf0 hf1 h
    have hlen := h5 (by rw [fiveEngine_eliteCount]; decide)
    rw [fiveEngine_eliteCount] at hlen
    exact ⟨stats, evolved, sorted, sel, filled, offspring, h, h1, h2, h3, h4,
      by exact_mod_cast hlen⟩

/-- C14 (amended): for a configuration with `elitismRate` in `[0,1]` and a fully evaluated
population of size `populationSize` (an `int`, at least 1), the elite count
`static_cast<int>(populationSize * elitismRate)` of `evolveGeneration`, the product rounded
to the nearest `double` and truncated, is `floor(populationSize * elitismRate)` or one more;
`evolveGeneration` returns on a well-formed state; and whenever it returns, the individuals
it copies as elites are the first ones of the population sorted best first, they are followed
in the next population by the offspring only, each of them keeps its chromosome and its raw
fitness, and their number is the elite count when that is at least 1, and
`max(1, int(populationSize * 0.1))` when it is 0. -/
theorem evolveGeneration_elite_count (S : StdSort) (hS : S.Valid) (ga : GeneticAlgorithm)
    (hsize : (ga.population.length : Int) = ga.config.populationSize)
    (hpos : 1 ≤ ga.config.populationSize) (hint : ga.config.populationSize ≤ 2147483647)
    (hev : FullyEvaluated ga.population)
    (hr0 : 0 ≤ ga.config.elitismRate) (hr1 : ga.config.elitismRate ≤ 1) :
    (⌊(ga.config.populationSize : ℚ) * ga.config.elitismRate⌋
        ≤ truncToInt (roundDouble ((ga.config.populationSize : ℚ) * ga.config.elitismRate))
      ∧ truncToInt (roundDouble ((ga.config.populationSize : ℚ) * ga.config.elitismRate))
        ≤ ⌊(ga.config.populationSize : ℚ) * ga.config.elitismRate⌋ + 1)
    ∧ (ga.WellFormed → ∃ stats evolved, ga.evolveGeneration S = .ok (stats, evolved))
    ∧ ∀ stats evolved, ga.evolveGeneration S = .ok (stats, evolved) →
      ∃ (sorted : GeneticAlgorithm) (sel : List Individual × GeneticAlgorithm)
        (filled : Population × GeneticAlgorithm) (offspring : Population),
        ga.sortPopulationByFitness S = .ok sorted
        ∧ sorted.eliteSelection S
            (truncToInt (roundDouble ((ga.config.populationSize : ℚ) * ga.config.elitismRate)))
            = .ok sel
        ∧ sel.1 = sel.2.population.take sel.1.length
        ∧ List.Perm sel.2.population ga.population
        ∧ BestFirst ga.config.isMaximization sel.2.population
        ∧ fillLoop
            (truncToInt (roundDouble ((ga.config.populationSize : ℚ) * ga.config.elitismRate)))
            ga.config.populationSize.toNat sel.2 sel.1 = .ok filled
        ∧ filled.1 = sel.1 ++ offspring
        ∧ GeneticAlgorithm.evaluatePopulation { filled.2 with population := filled.1 }
            = .ok evolved
        ∧ (1 ≤ truncToInt
              (roundDouble ((ga.config.populationSize : ℚ) * ga.config.elitismRate)) →
            (sel.1.length : Int) = truncToInt
              (roundDouble ((ga.config.populationSize : ℚ) * ga.config.elitismRate)))
        ∧ (truncToInt
              (roundDouble ((ga.config.populationSize : ℚ) * ga.config.elitismRate)) = 0 →
            (sel.1.length : Int) = max 1 (truncToInt
              (roundDouble ((ga.config.populationSize : ℚ) * roundDouble (1 / 10)))))
        ∧ ∀ i : Nat, i < sel.1.length →
            ∃ old new, sel.1[i]? = some old ∧ evolved.population[i]? = some new
              ∧ new.chromosome = old.chromosome ∧ new.fitness = old.fitness := by
  obtain ⟨b1, b2, -, -⟩ := eliteCount_bounds ga.config hpos hint hr0 hr1
  refine ⟨⟨b1, b2⟩, ?_, ?_⟩
  · intro hwf
    obtain ⟨stats, evolved, h, -⟩ := evolveGeneration_ok S hS ga hwf
    exact ⟨stats, evolved, h⟩
  · intro stats evolved h
    exact evolveGeneration_elite_stages S hS ga evolved stats hsize hpos hint hev hr0 hr1 h

/-- Witness of C14 (amended): one generation of the sample engine, with `elitismRate = 1/4`
on four individuals. -/
theorem evolveGeneration_elite_count_witness :
    (⌊(sampleEngine.config.populationSize : ℚ) * sampleEngine.config.elitismRate⌋
        ≤ truncToInt (roundDouble ((sampleEngine.config.populationSize : ℚ)
            * sampleEngine.config.elitismRate))
      ∧ truncToInt (roundDouble ((sampleEngine.config.populationSize : ℚ)
            * sampleEngine.config.elitismRate))
        ≤ ⌊(sampleEngine.config.populationSize : ℚ) * sampleEngine.config.elitismRate⌋ + 1)
    ∧ ∃ stats evolved, sampleEngine.evolveGeneration insertionStdSort = .ok (stats, evolved) :=
  have h := evolveGeneration_elite_count insertionStdSort insertionStdSort_valid sampleEngine
    (by rfl) (by decide) (by decide) samplePopulation_fullyEvaluated
    (by simp only [sampleEngine, sampleConfig]; norm_num)
    (by simp only [sampleEngine, sampleConfig]; norm_num)
  ⟨h.1, h.2.1 sampleEngine_wellFormed⟩

/-- Witness of C16: on the sample engine a tournament of size 3 uses three draws and returns
an individual. -/
theorem tournamentSelection_first_best_witness :
    ∃ (k : Nat) (selected : Individual), (k : Int) = 3
      ∧ sampleEngine.tournamentSelection 3
          = .ok (selected, { sampleEngine with rng := fun m => sampleEngine.rng (m + k) }) := by
  obtain ⟨k, hk, -, hfull, -⟩ := tournamentSelection_first_best sampleEngine 3 (by rfl)
    sampleEngine_wellFormed.1
    (drawnIndex_range sampleEngine.config.populationSize sampleEngine.rng
      sampleEngine_wellFormed.1 sampleEngine_wellFormed.2.2.2.2.2.2.2.2)
  obtain ⟨j, selected, -, -, hsel, -⟩ := hfull samplePopulation_fullyEvaluated
  exact ⟨k, selected, hk.1 ⟨by decide, by decide⟩, hsel⟩

theorem calculateFitnessPercentage_none (ff : FitnessFunction) (f best worst : ℚ)
    (hopt : ff.optimalValue = none) :
    ff.calculateFitnessPercentage f best worst = ff.empiricalPercentage f best worst := by
  simp only [FitnessFunction.calculateFitnessPercentage, hopt]

theorem empiricalPercentage_eq (ff : FitnessFunction) (f best worst : ℚ) :
    (|best - worst| < 1 / 10 ^ 10 → ff.empiricalPercentage f best worst = 50)
      ∧ (¬ |best - worst| < 1 / 10 ^ 10 → ff.isMaximization = true →
          ff.empiricalPercentage f best worst
            = max 0 (min 100 (100 * (f - worst) / |best - worst|)))
      ∧ (¬ |best - worst| < 1 / 10 ^ 10 → ff.isMaximization = false →
          ff.empiricalPercentage f best worst
            = max 0 (min 100 (100 * (worst - f) / |best - worst|))) := by
  refine ⟨?_, ?_, ?_⟩
  · intro h
    simp only [FitnessFunction.empiricalPercentage]
    rw [if_pos h]
  · intro h hmax
    simp only [FitnessFunction.empiricalPercentage]
    rw [if_neg h, if_pos hmax]
    congr 2
    ring
  · intro h hmin
    simp only [FitnessFunction.empiricalPercentage]
    rw [if_neg h, hmin]
    simp only [Bool.false_eq_true, if_false]
    congr 2
    ring

/-- C29 as stated fails when the population's worst value is not below the optimum: for a
maximization evaluator with optimum 10 and the values `f = 13`, `best = 14`, `worst = 12`,
`f` is not within `1e-10` of the optimum and the clamped linear position
`100 * (f - worst) / (opt - worst)` is 0, but the code falls back to the range between best
and worst and returns 50. -/
theorem calculateFitnessPercentage_worst_above_optimum :
    ¬ |(13 : ℚ) - 10| < 1 / 10 ^ 10
    ∧ max (0 : ℚ) (min 100 (100 * (13 - 12) / (10 - 12))) = 0
    ∧ FitnessFunction.calculateFitnessPercentage
        { evaluate := fun x => x, isMaximization := true, optimalValue := some 10 } 13 14 12
        = 50 := by
  refine ⟨by norm_num [abs_of_nonneg], by norm_num, ?_⟩
  simp only [FitnessFunction.calculateFitnessPercentage, FitnessFunction.empiricalPercentage]
  norm_num [abs_of_nonneg, abs_of_neg]

/-- C29 (amended): for an evaluator with a known optimum `opt`, the percentage is 100 when
`|f - opt| < 1e-10`; otherwise, when the range from the worst value to the optimum exceeds
`1e-10` (`opt - worst` for maximization, `worst - opt` for minimization), it is the linear
position of `f` in that range clamped to `[0,100]`; and when that range is at most `1e-10`
it is the percentage computed as for an evaluator without a known optimum. -/
theorem calculateFitnessPercentage_known_optimum (ff : FitnessFunction) (opt f best worst : ℚ)
    (hopt : ff.optimalValue = some opt) :
    (|f - opt| < 1 / 10 ^ 10 → ff.calculateFitnessPercentage f best worst = 100)
      ∧ (¬ |f - opt| < 1 / 10 ^ 10 → ff.isMaximization = true →
          (opt - worst > 1 / 10 ^ 10 →
            ff.calculateFitnessPercentage f best worst
              = max 0 (min 100 (100 * (f - worst) / (opt - worst))))
          ∧ (¬ opt - worst > 1 / 10 ^ 10 →
            ff.calculateFitnessPercentage f best worst
              = FitnessFunction.calculateFitnessPercentage
                  { ff with optimalValue := none } f best worst))
      ∧ (¬ |f - opt| < 1 / 10 ^ 10 → ff.isMaximization = false →
          (worst - opt > 1 / 10 ^ 10 →
            ff.calculateFitnessPercentage f best worst
              = max 0 (min 100 (100 * (worst - f) / (worst - opt))))
          ∧ (¬ worst - opt > 1 / 10 ^ 10 →
            ff.calculateFitnessPercentage f best worst
              = FitnessFunction.calculateFitnessPercentage
                  { ff with optimalValue := none } f best worst)) := by
  have hnone : ∀ x y z : ℚ, FitnessFunction.calculateFitnessPercentage
      { ff with optimalValue := none } x y z = ff.empiricalPercentage x y z := by
    intro x y z
    rw [calculateFitnessPercentage_none _ _ _ _ rfl]
    rfl
  refine ⟨?_, ?_, ?_⟩
  · intro h
    have h' : |opt - f| < 1 / 10 ^ 10 := by rwa [abs_sub_comm]
    cases hm : ff.isMaximization
    · simp only [FitnessFunction.calculateFitnessPercentage, hopt, hm, Bool.false_eq_true,
        if_false]
      rw [if_pos h]
    · simp only [FitnessFunction.calculateFitnessPercentage, hopt, hm, if_true]
      rw [if_pos h']
  · intro h hmax
    have h' : ¬ |opt - f| < 1 / 10 ^ 10 := by rwa [abs_sub_comm]
    constructor
    · intro hr
      simp only [FitnessFunction.calculateFitnessPercentage, hopt, hmax, if_true]
      rw [if_neg h', if_pos hr]
      congr 2
      ring
    · intro hr
      rw [hnone]
      simp only [FitnessFunction.calculateFitnessPercentage, hopt, hmax, if_true]
      rw [if_neg h', if_neg hr]
  · intro h hmin
    constructor
    · intro hr
      simp only [FitnessFunction.calculateFitnessPercentage, hopt, hmin, Bool.false_eq_true,
        if_false]
      rw [if_neg h, if_pos hr]
      congr 2
      ring
    · intro hr
      rw [hnone]
      simp only [FitnessFunction.calculateFitnessPercentage, hopt, hmin, Bool.false_eq_true,
        if_false]
      rw [if_neg h, if_neg hr]

/-- Witness of C29 (amended): a maximization evaluator with optimum 10, worst value 0 and
`f = 5` gives 50 percent. -/
theorem calculateFitnessPercentage_known_optimum_witness :
    FitnessFunction.calculateFitnessPercentage
        { evaluate := fun x => x, isMaximization := true, optimalValue := some 10 } 5 8 0
      = max 0 (min 100 (100 * (5 - 0) / (10 - 0))) :=
  ((calculateFitnessPercentage_known_optimum
      { evaluate := fun x => x, isMaximization := true, optimalValue := some 10 } 10 5 8 0
      rfl).2.1 (by norm_num [abs_of_neg]) rfl).1 (by norm_num)

/-- C30: for an evaluator without a known optimum, the percentage is 50 when
`|best - worst| < 1e-10`, and otherwise `100 * (f - worst) / |best - worst|` for a
maximization evaluator and `100 * (worst - f) / |best - worst|` for a minimization
evaluator, clamped to `[0,100]`. -/
theorem calculateFitnessPercentage_unknown_optimum (ff : FitnessFunction) (f best worst : ℚ)
    (hopt : ff.optimalValue = none) :
    (|best - worst| < 1 / 10 ^ 10 → ff.calculateFitnessPercentage f best worst = 50)
      ∧ (¬ |best - worst| < 1 / 10 ^ 10 → ff.isMaximization = true →
          ff.calculateFitnessPercentage f best worst
            = max 0 (min 100 (100 * (f - worst) / |best - worst|)))
      ∧ (¬ |best - worst| < 1 / 10 ^ 10 → ff.isMaximization = false →
          ff.calculateFitnessPercentage f best worst
            = max 0 (min 100 (100 * (worst - f) / |best - worst|))) := by
  rw [calculateFitnessPercentage_none ff f best worst hopt]
  exact empiricalPercentage_eq ff f best worst

/-- Witness of C30: the sample evaluator, which has no known optimum, gives 25 percent to
`f = 4` between the worst value 1 and the best value 13. -/
theorem calculateFitnessPercentage_unknown_optimum_witness :
    sampleFitnessFunction.calculateFitnessPercentage 4 13 1 = 25 := by
  rw [(calculateFitnessPercentage_unknown_optimum sampleFitnessFunction 4 13 1 rfl).2.1
    (by norm_num [abs_of_nonneg]) rfl]
  norm_num [abs_of_nonneg]

/-! ### Construction -/

/-- C27: constructing an engine fails, with `std::invalid_argument`, exactly when
`populationSize ≤ 0` or `chromosomeLength ≤ 0` or `maxGenerations ≤ 0` or the evaluator is
missing; when it succeeds the stored configuration is the given one, the evaluator is the
given one, the population and the history are empty and the generation counter is 0. -/
theorem ofConfig_fails_iff (config : GAConfig) (fitnessFunc : Option FitnessFunction)
    (seed : Rng) :
    ((∃ e, GeneticAlgorithm.ofConfig config fitnessFunc seed = .error e)
        ↔ (config.populationSize ≤ 0 ∨ config.chromosomeLength ≤ 0
            ∨ config.maxGenerations ≤ 0 ∨ fitnessFunc = none))
      ∧ (∀ e, GeneticAlgorithm.ofConfig config fitnessFunc seed = .error e →
          ∃ msg, e = .invalidArgument msg)
      ∧ (∀ ga, GeneticAlgorithm.ofConfig config fitnessFunc seed = .ok ga →
          ga.config = config ∧ some ga.fitnessFunction = fitnessFunc ∧ ga.population = []
            ∧ ga.statistics = [] ∧ ga.currentGeneration = 0) := by
  unfold GeneticAlgorithm.ofConfig
  by_cases hc : config.populationSize ≤ 0 ∨ config.chromosomeLength ≤ 0
      ∨ config.maxGenerations ≤ 0
  · rw [if_pos hc]
    refine ⟨⟨fun _ => ?_, fun _ => ⟨_, rfl⟩⟩, ?_, ?_⟩
    · rcases hc with h | h | h
      · exact Or.inl h
      · exact Or.inr (Or.inl h)
      · exact Or.inr (Or.inr (Or.inl h))
    · intro e he
      cases he
      exact ⟨_, rfl⟩
    · intro ga hga
      cases hga
  · rw [if_neg hc]
    cases fitnessFunc with
    | none =>
      refine ⟨⟨fun _ => Or.inr (Or.inr (Or.inr rfl)), fun _ => ⟨_, rfl⟩⟩, ?_, ?_⟩
      · intro e he
        cases he
        exact ⟨_, rfl⟩
      · intro ga hga
        cases hga
    | some ff =>
      refine ⟨⟨?_, ?_⟩, ?_, ?_⟩
      · rintro ⟨e, he⟩
        cases he
      · intro h
        rcases h with h | h | h | h
        · exact absurd (Or.inl h) hc
        · exact absurd (Or.inr (Or.inl h)) hc
        · exact absurd (Or.inr (Or.inr h)) hc
        · cases h
      · intro e he
        cases he
      · intro ga hga
        cases hga
        exact ⟨rfl, rfl, rfl, rfl, rfl⟩

/-- Witness of C27: the sample configuration with the sample evaluator is accepted, and
the sample configuration without an evaluator is rejected. -/
theorem ofConfig_fails_iff_witness :
    (∃ ga, GeneticAlgorithm.ofConfig sampleConfig (some sampleFitnessFunction)
          (fun _ => 3 / 4) = .ok ga
        ∧ ga.config = sampleConfig ∧ ga.population = [] ∧ ga.statistics = []
        ∧ ga.currentGeneration = 0)
      ∧ ∃ e, GeneticAlgorithm.ofConfig sampleConfig none (fun _ => 3 / 4) = .error e := by
  have hok : GeneticAlgorithm.ofConfig sampleConfig (some sampleFitnessFunction)
      (fun _ => 3 / 4)
      = .ok { config := sampleConfig, population := [],
              fitnessFunction := sampleFitnessFunction, rng := fun _ => 3 / 4,
              statistics := [], currentGeneration := 0 } := by
    simp [GeneticAlgorithm.ofConfig, sampleConfig]
  obtain ⟨h1, -, h3, h4, h5⟩ :=
    (ofConfig_fails_iff sampleConfig (some sampleFitnessFunction) (fun _ => 3 / 4)).2.2 _ hok
  exact ⟨⟨_, hok, h1, h3, h4, h5⟩,
    (ofConfig_fails_iff sampleConfig none (fun _ => 3 / 4)).1.mpr
      (Or.inr (Or.inr (Or.inr rfl)))⟩

/-! ### Statistics and best/worst individual on an empty population -/

theorem bestLoop_ok (isMax : Bool) :
    ∀ (population : Population) (best : Individual), FullyEvaluated population →
      best.isFitnessValid = true → ∃ r, bestLoop isMax population best = .ok r := by
  intro population
  induction population with
  | nil => exact fun best _ _ => ⟨best, rfl⟩
  | cons a rest ih =>
    intro best hev hb
    obtain ⟨ha, hrest⟩ := (fullyEvaluated_cons a rest).mp hev
    have hfa := getFitness_of_valid a ha
    have hfb := getFitness_of_valid best hb
    cases isMax
    · obtain ⟨r, hr⟩ := ih (if a.fitness < best.fitness then a else best) hrest
        (by split <;> assumption)
      exact ⟨r, by simp only [bestLoop, hfa, hfb, Bool.false_eq_true, if_false, hr]⟩
    · obtain ⟨r, hr⟩ := ih (if a.fitness > best.fitness then a else best) hrest
        (by split <;> assumption)
      exact ⟨r, by simp only [bestLoop, hfa, hfb, if_true, hr]⟩

theorem worstLoop_ok (isMax : Bool) :
    ∀ (population : Population) (worst : Individual), FullyEvaluated population →
      worst.isFitnessValid = true → ∃ r, worstLoop isMax population worst = .ok r := by
  intro population
  induction population with
  | nil => exact fun worst _ _ => ⟨worst, rfl⟩
  | cons a rest ih =>
    intro worst hev hb
    obtain ⟨ha, hrest⟩ := (fullyEvaluated_cons a rest).mp hev
    have hfa := getFitness_of_valid a ha
    have hfb := getFitness_of_valid worst hb
    cases isMax
    · obtain ⟨r, hr⟩ := ih (if a.fitness > worst.fitness then a else worst) hrest
        (by split <;> assumption)
      exact ⟨r, by simp only [worstLoop, hfa, hfb, Bool.false_eq_true, if_false, hr]⟩
    · obtain ⟨r, hr⟩ := ih (if a.fitness < worst.fitness then a else worst) hrest
        (by split <;> assumption)
      exact ⟨r, by simp only [worstLoop, hfa, hfb, if_true, hr]⟩

theorem shl64_error (x k : Nat) (e : Error) (h : shl64 x k = .error e) :
    e = .undefinedBehaviour := by
  unfold shl64 at h
  split at h
  · cases h
  · cases h
    rfl

theorem decodeLoop_error (size : Nat) :
    ∀ (bits : List Bool) (i binaryValue : Nat) (e : Error),
      decodeLoop size bits i binaryValue = .error e → e = .undefinedBehaviour := by
  intro bits
  induction bits with
  | nil =>
    intro i binaryValue e h
    simp only [decodeLoop] at h
    cases h
  | cons bit rest ih =>
    intro i binaryValue e h
    simp only [decodeLoop] at h
    split at h
    · split at h
      · exact ih _ _ e h
      · rename_i e1 he1
        cases h
        exact shl64_error _ _ _ he1
    · exact ih _ _ e h

theorem decodeToValue_error (self : Individual) (minValue maxValue : ℚ) (e : Error)
    (h : self.decodeToValue minValue maxValue = .error e) : e = .undefinedBehaviour := by
  unfold Individual.decodeToValue at h
  split at h
  · cases h
  · split at h
    · rename_i e1 he1
      cases h
      exact decodeLoop_error _ _ _ _ _ he1
    · split at h
      · rename_i e1 he1
        cases h
        exact shl64_error _ _ _ he1
      · cases h

theorem statsLoop_error (config : GAConfig) :
    ∀ (population : Population) (acc : StatsAcc) (e : Error),
      FullyEvaluated population → statsLoop config population acc = .error e →
        e = .undefinedBehaviour := by
  intro population
  induction population with
  | nil =>
    intro acc e _ h
    simp only [statsLoop] at h
    cases h
  | cons a rest ih =>
    intro acc e hev h
    obtain ⟨ha, hrest⟩ := (fullyEvaluated_cons a rest).mp hev
    simp only [statsLoop, getFitness_of_valid a ha] at h
    split at h
    · split at h
      · split at h
        · rename_i e1 he1
          cases h
          exact decodeToValue_error _ _ _ _ he1
        · exact ih _ e hrest h
      · exact ih _ e hrest h
    · split at h
      · split at h
        · rename_i e1 he1
          cases h
          exact decodeToValue_error _ _ _ _ he1
        · exact ih _ e hrest h
      · exact ih _ e hrest h

theorem hammingLoop_error :
    ∀ (chrom1 chrom2 : Chromosome) (d : Int) (e : Error),
      hammingLoop chrom1 chrom2 d = .error e → e = .undefinedBehaviour := by
  intro chrom1
  induction chrom1 with
  | nil =>
    intro chrom2 d e h
    simp only [hammingLoop] at h
    cases h
  | cons b1 rest1 ih =>
    intro chrom2 d e h
    cases chrom2 with
    | nil =>
      simp only [hammingLoop] at h
      cases h
      rfl
    | cons b2 rest2 =>
      simp only [hammingLoop] at h
      exact ih _ _ e h

theorem diversityInner_error (chrom1 : Chromosome) :
    ∀ (others : Population) (acc : ℚ × Int) (e : Error),
      diversityInner chrom1 others acc = .error e → e = .undefinedBehaviour := by
  intro others
  induction others with
  | nil =>
    intro acc e h
    simp only [diversityInner] at h
    cases h
  | cons other rest ih =>
    intro acc e h
    simp only [diversityInner] at h
    split at h
    · rename_i e1 he1
      cases h
      exact hammingLoop_error _ _ _ _ he1
    · exact ih _ e h

theorem diversityOuter_error :
    ∀ (population : Population) (acc : ℚ × Int) (e : Error),
      diversityOuter population acc = .error e → e = .undefinedBehaviour := by
  intro population
  induction population with
  | nil =>
    intro acc e h
    simp only [diversityOuter] at h
    cases h
  | cons a rest ih =>
    intro acc e h
    simp only [diversityOuter] at h
    split at h
    · rename_i e1 he1
      cases h
      exact diversityInner_error _ _ _ _ he1
    · exact ih _ e h

theorem calculatePopulationDiversity_error (ga : GeneticAlgorithm) (e : Error)
    (h : ga.calculatePopulationDiversity = .error e) : e = .undefinedBehaviour := by
  unfold GeneticAlgorithm.calculatePopulationDiversity at h
  split at h
  · cases h
  · split at h
    · rename_i e1 he1
      cases h
      exact diversityOuter_error _ _ _ he1
    · cases h

theorem calculateGenerationStats_error (ga : GeneticAlgorithm) (e : Error)
    (hne : ga.population ≠ []) (hev : FullyEvaluated ga.population)
    (h : ga.calculateGenerationStats = .error e) : e = .undefinedBehaviour := by
  unfold GeneticAlgorithm.calculateGenerationStats at h
  split at h
  · rename_i hp
    exact absurd hp hne
  · rename_i first rest hp
    rw [hp] at hev
    have hf := getFitness_of_valid first (hev first (List.mem_cons_self _ _))
    simp only [hf] at h
    split at h
    · rename_i e1 he1
      cases h
      exact statsLoop_error _ _ _ _ hev he1
    · split at h
      · rename_i e1 he1
        cases h
        exact calculatePopulationDiversity_error ga _ he1
      · cases h

/-- C28: on an empty population `calculateGenerationStats`, `getBestIndividual` and
`getWorstIndividual` each throw `std::runtime_error` and return no value. On a non-empty
fully evaluated population `getBestIndividual` and `getWorstIndividual` return an
individual and `calculateGenerationStats` throws nothing: it returns a snapshot whenever the
chromosomes have one common length between 1 and 63, and the only other outcome is the
undefined behaviour of the source on chromosomes of unequal length or of 64 bits or more. -/
theorem empty_population_fails (ga : GeneticAlgorithm) :
    (ga.population = [] →
        ga.calculateGenerationStats
            = .error (.runtimeError "Cannot calculate statistics for empty population")
          ∧ ga.getBestIndividual = .error (.runtimeError "Population is empty")
          ∧ ga.getWorstIndividual = .error (.runtimeError "Population is empty"))
      ∧ (ga.population ≠ [] → FullyEvaluated ga.population →
        (∃ best, ga.getBestIndividual = .ok best)
          ∧ (∃ worst, ga.getWorstIndividual = .ok worst)
          ∧ (∀ e, ga.calculateGenerationStats = .error e → e = .undefinedBehaviour)
          ∧ (∀ L : Nat, (∀ x ∈ ga.population, x.chromosome.length = L) → 1 ≤ L → L ≤ 63 →
              ∃ stats, ga.calculateGenerationStats = .ok stats)) := by
  constructor
  · intro hp
    refine ⟨?_, ?_, ?_⟩
    · simp only [GeneticAlgorithm.calculateGenerationStats, hp]
    · simp only [GeneticAlgorithm.getBestIndividual, hp]
    · simp only [GeneticAlgorithm.getWorstIndividual, hp]
  · intro hne hev
    refine ⟨?_, ?_, fun e he => calculateGenerationStats_error ga e hne hev he,
      fun L hlen h1 h63 => calculateGenerationStats_ok ga L hne hev hlen h1 h63⟩
    · cases hp : ga.population with
      | nil => exact absurd hp hne
      | cons first rest =>
        rw [hp] at hev
        obtain ⟨r, hr⟩ := bestLoop_ok ga.config.isMaximization (first :: rest) first hev
          (hev first (List.mem_cons_self _ _))
        exact ⟨r, by simp only [GeneticAlgorithm.getBestIndividual, hp, hr]⟩
    · cases hp : ga.population with
      | nil => exact absurd hp hne
      | cons first rest =>
        rw [hp] at hev
        obtain ⟨r, hr⟩ := worstLoop_ok ga.config.isMaximization (first :: rest) first hev
          (hev first (List.mem_cons_self _ _))
        exact ⟨r, by simp only [GeneticAlgorithm.getWorstIndividual, hp, hr]⟩

/-- Witness of C28: the sample engine returns a best individual, a worst individual and a
snapshot; with its population removed the statistics fail. -/
theorem empty_population_fails_witness :
    ((∃ best, sampleEngine.getBestIndividual = .ok best)
        ∧ (∃ worst, sampleEngine.getWorstIndividual = .ok worst)
        ∧ ∃ stats, sampleEngine.calculateGenerationStats = .ok stats)
      ∧ GeneticAlgorithm.calculateGenerationStats { sampleEngine with population := [] }
          = .error (.runtimeError "Cannot calculate statistics for empty population") := by
  obtain ⟨hb, hw, -, hs⟩ := (empty_population_fails sampleEngine).2 (List.cons_ne_nil _ _)
    samplePopulation_fullyEvaluated
  refine ⟨⟨hb, hw, hs 4 ?_ (by decide) (by decide)⟩,
    ((empty_population_fails { sampleEngine with population := [] }).1 rfl).1⟩
  intro x hx
  change x ∈ samplePopulation at hx
  simp only [samplePopulation, List.mem_cons, List.mem_singleton, List.not_mem_nil,
    or_false] at hx
  rcases hx with rfl | rfl | rfl | rfl <;> rfl

/-! ### Diversity -/

theorem hammingDistance_nil_left (b : Chromosome) : hammingDistance [] b = 0 := by
  simp [hammingDistance]

theorem hammingDistance_cons (x y : Bool) (a b : Chromosome) :
    hammingDistance (x :: a) (y :: b)
      = (if x != y then 1 else 0) + hammingDistance a b := by
  simp only [hammingDistance, List.zipWith_cons_cons, List.count_cons]
  cases x <;> cases y <;> simp <;> omega

theorem hammingDistance_le (a b : Chromosome) : hammingDistance a b ≤ a.length := by
  unfold hammingDistance
  calc (List.zipWith (fun x y => x != y) a b).count true
      ≤ (List.zipWith (fun x y => x != y) a b).length := List.count_le_length _ _
    _ ≤ a.length := by simp

theorem hammingDistance_eq_zero :
    ∀ (a b : Chromosome), a.length = b.length → (hammingDistance a b = 0 ↔ a = b) := by
  intro a
  induction a with
  | nil =>
    intro b hlen
    cases b with
    | nil => simp [hammingDistance]
    | cons y b => simp at hlen
  | cons x a ih =>
    intro b hlen
    cases b with
    | nil => simp at hlen
    | cons y b =>
      simp only [List.length_cons, add_left_inj] at hlen
      rw [hammingDistance_cons, Nat.add_eq_zero_iff, ih b hlen]
      cases x <;> cases y <;> simp

theorem hammingLoop_eq :
    ∀ (chrom1 chrom2 : Chromosome) (d : Int), chrom1.length ≤ chrom2.length →
      hammingLoop chrom1 chrom2 d = .ok (d + (hammingDistance chrom1 chrom2 : Int)) := by
  intro chrom1
  induction chrom1 with
  | nil =>
    intro chrom2 d _
    simp [hammingLoop, hammingDistance_nil_left]
  | cons b1 rest1 ih =>
    intro chrom2 d hle
    cases chrom2 with
    | nil => simp at hle
    | cons b2 rest2 =>
      simp only [List.length_cons, Nat.add_le_add_iff_right] at hle
      simp only [hammingLoop, ih rest2 _ hle, hammingDistance_cons]
      congr 1
      split <;> push_cast <;> ring

theorem diversityInner_eq (chrom1 : Chromosome) :
    ∀ (others : Population), (∀ x ∈ others, chrom1.length ≤ x.chromosome.length) →
      ∀ acc : ℚ × Int, diversityInner chrom1 others acc
        = .ok (acc.1 + (others.map fun other =>
              (hammingDistance chrom1 other.chromosome : ℚ) / (chrom1.length : ℚ)).sum,
            acc.2 + (others.length : Int)) := by
  intro others
  induction others with
  | nil =>
    intro _ acc
    simp [diversityInner]
  | cons a rest ih =>
    intro hlen acc
    have ha := hammingLoop_eq chrom1 a.chromosome 0 (hlen a (List.mem_cons_self _ _))
    simp only [diversityInner, ha, ih (fun x hx => hlen x (List.mem_cons_of_mem _ hx)),
      List.map_cons, List.sum_cons, List.length_cons, Individual.getChromosome]
    congr 1
    refine Prod.ext ?_ ?_
    · simp only [zero_add, Int.cast_natCast]
      ring
    · simp only [Nat.cast_add, Nat.cast_one]
      ring

theorem diversityOuter_eq (L : Nat) :
    ∀ (population : Population), (∀ x ∈ population, x.chromosome.length = L) →
      ∀ acc : ℚ × Int, diversityOuter population acc
        = .ok (acc.1 + pairSumList L population,
            acc.2 + ((population.length.choose 2 : Nat) : Int)) := by
  intro population
  induction population with
  | nil =>
    intro _ acc
    simp [diversityOuter, pairSumList]
  | cons a rest ih =>
    intro hlen acc
    have ha : a.chromosome.length = L := hlen a (List.mem_cons_self _ _)
    have hrest : ∀ x ∈ rest, x.chromosome.length = L :=
      fun x hx => hlen x (List.mem_cons_of_mem _ hx)
    have hinner := diversityInner_eq a.chromosome rest
      (fun x hx => by rw [ha, hrest x hx]) acc
    simp only [diversityOuter, Individual.getChromosome, hinner, ih hrest, pairSumList, ha,
      List.length_cons]
    congr 1
    refine Prod.ext ?_ ?_
    · simp only
      ring
    · simp only [Nat.choose_succ_succ, Nat.choose_one_right, Nat.cast_add]
      ring

/-- The value of `calculatePopulationDiversity` on chromosomes of one length: 0 below two
individuals, otherwise the recursive pair sum divided by the number of pairs. -/
theorem calculatePopulationDiversity_eq (ga : GeneticAlgorithm) (L : Nat)
    (hlen : ∀ x ∈ ga.population, x.chromosome.length = L) :
    ga.calculatePopulationDiversity
      = .ok (if ga.population.length < 2 then 0
          else pairSumList L ga.population / ((ga.population.length.choose 2 : Nat) : ℚ)) := by
  unfold GeneticAlgorithm.calculatePopulationDiversity
  by_cases h2 : ga.population.length < 2
  · rw [if_pos h2, if_pos h2]
  · rw [if_neg h2, if_neg h2, diversityOuter_eq L ga.population hlen]
    have hpos : 0 < ga.population.length.choose 2 := Nat.choose_pos (by omega)
    simp only [zero_add]
    rw [if_pos (by exact_mod_cast hpos)]
    simp

theorem chromosomeAt_zero (x : Individual) (rest : Population) :
    chromosomeAt (x :: rest) 0 = x.chromosome := by
  simp [chromosomeAt]

theorem chromosomeAt_succ (x : Individual) (rest : Population) (i : Nat) :
    chromosomeAt (x :: rest) (i + 1) = chromosomeAt rest i := by
  simp [chromosomeAt]

theorem sum_range_chromosomeAt (g : Chromosome → ℚ) :
    ∀ (population : Population),
      ∑ j ∈ Finset.range population.length, g (chromosomeAt population j)
        = (population.map fun y => g y.chromosome).sum := by
  intro population
  induction population with
  | nil => simp
  | cons x rest ih =>
    rw [List.length_cons, Finset.sum_range_succ']
    simp only [chromosomeAt_succ, chromosomeAt_zero, ih, List.map_cons, List.sum_cons]
    ring

theorem pairwiseDistanceSum_cons (L : Nat) (x : Individual) (rest : Population) :
    pairwiseDistanceSum L (x :: rest)
      = (rest.map fun y => (hammingDistance x.chromosome y.chromosome : ℚ) / (L : ℚ)).sum
        + pairwiseDistanceSum L rest := by
  have hrow := sum_range_chromosomeAt
    (fun c => (hammingDistance x.chromosome c : ℚ) / (L : ℚ)) rest
  simp only [pairwiseDistanceSum, List.length_cons]
  rw [Finset.sum_range_succ']
  simp only [Finset.sum_range_succ', chromosomeAt_succ, chromosomeAt_zero,
    Nat.add_lt_add_iff_right, Nat.not_lt_zero, if_false, add_zero, Nat.zero_lt_succ, if_true,
    lt_self_iff_false]
  rw [hrow]
  ring

theorem pairSumList_eq (L : Nat) :
    ∀ population : Population, pairSumList L population = pairwiseDistanceSum L population := by
  intro population
  induction population with
  | nil => simp [pairSumList, pairwiseDistanceSum]
  | cons x rest ih => rw [pairwiseDistanceSum_cons, pairSumList, ih]

theorem pairSumList_nonneg (L : Nat) :
    ∀ population : Population, 0 ≤ pairSumList L population := by
  intro population
  induction population with
  | nil => simp [pairSumList]
  | cons x rest ih =>
    simp only [pairSumList]
    refine add_nonneg (List.sum_nonneg ?_) ih
    intro t ht
    obtain ⟨y, -, rfl⟩ := List.mem_map.mp ht
    positivity

theorem pairSumList_le (L : Nat) (hL : 1 ≤ L) :
    ∀ population : Population, (∀ x ∈ population, x.chromosome.length = L) →
      pairSumList L population ≤ ((population.length.choose 2 : Nat) : ℚ) := by
  intro population
  induction population with
  | nil => intro _; simp [pairSumList]
  | cons x rest ih =>
    intro hlen
    have hx : x.chromosome.length = L := hlen x (List.mem_cons_self _ _)
    have hrest : ∀ y ∈ rest, y.chromosome.length = L :=
      fun y hy => hlen y (List.mem_cons_of_mem _ hy)
    have hLq : (0 : ℚ) < (L : ℚ) := by exact_mod_cast hL
    have hrow : (rest.map fun y =>
        (hammingDistance x.chromosome y.chromosome : ℚ) / (L : ℚ)).sum
        ≤ (rest.length : ℚ) := by
      have hle : ∀ (l : Population), (l.map fun y =>
          (hammingDistance x.chromosome y.chromosome : ℚ) / (L : ℚ)).sum ≤ (l.length : ℚ) := by
        intro l
        induction l with
        | nil => simp
        | cons y l ihl =>
          simp only [List.map_cons, List.sum_cons, List.length_cons, Nat.cast_add,
            Nat.cast_one]
          have h1 : (hammingDistance x.chromosome y.chromosome : ℚ) / (L : ℚ) ≤ 1 := by
            rw [div_le_one hLq]
            have := hammingDistance_le x.chromosome y.chromosome
            rw [hx] at this
            exact_mod_cast this
          linarith
      exact hle rest
    have := ih hrest
    simp only [pairSumList, List.length_cons, Nat.choose_succ_succ, Nat.choose_one_right,
      Nat.cast_add]
    linarith

theorem list_sum_eq_zero_of_nonneg (l : List ℚ) (hnonneg : ∀ t ∈ l, 0 ≤ t) :
    l.sum = 0 ↔ ∀ t ∈ l, t = 0 := by
  induction l with
  | nil => simp
  | cons a rest ih =>
    have ha : 0 ≤ a := hnonneg a (List.mem_cons_self _ _)
    have hrest : ∀ t ∈ rest, 0 ≤ t := fun t ht => hnonneg t (List.mem_cons_of_mem _ ht)
    have hs : 0 ≤ rest.sum := List.sum_nonneg hrest
    simp only [List.sum_cons, List.mem_cons, forall_eq_or_imp]
    constructor
    · intro h
      have ha0 : a = 0 := by linarith
      have hs0 : rest.sum = 0 := by linarith
      exact ⟨ha0, (ih hrest).mp hs0⟩
    · rintro ⟨ha0, hr0⟩
      rw [ha0, (ih hrest).mpr hr0, add_zero]

theorem pairSumList_eq_zero (L : Nat) (hL : 1 ≤ L) :
    ∀ population : Population, (∀ x ∈ population, x.chromosome.length = L) →
      (pairSumList L population = 0
        ↔ List.Pairwise (fun x y : Individual => x.chromosome = y.chromosome) population) := by
  intro population
  induction population with
  | nil => intro _; simp [pairSumList]
  | cons x rest ih =>
    intro hlen
    have hx : x.chromosome.length = L := hlen x (List.mem_cons_self _ _)
    have hrest : ∀ y ∈ rest, y.chromosome.length = L :=
      fun y hy => hlen y (List.mem_cons_of_mem _ hy)
    have hLq : (L : ℚ) ≠ 0 := by
      have : (0 : ℚ) < (L : ℚ) := by exact_mod_cast hL
      exact ne_of_gt this
    have hrow_nonneg : ∀ t ∈ (rest.map fun y =>
        (hammingDistance x.chromosome y.chromosome : ℚ) / (L : ℚ)), 0 ≤ t := by
      intro t ht
      obtain ⟨y, -, rfl⟩ := List.mem_map.mp ht
      positivity
    have hrow : (rest.map fun y =>
        (hammingDistance x.chromosome y.chromosome : ℚ) / (L : ℚ)).sum = 0
        ↔ ∀ y ∈ rest, x.chromosome = y.chromosome := by
      rw [list_sum_eq_zero_of_nonneg _ hrow_nonneg]
      constructor
      · intro h y hy
        have h0 := h _ (List.mem_map.mpr ⟨y, hy, rfl⟩)
        rw [div_eq_zero_iff] at h0
        rcases h0 with h0 | h0
        · exact (hammingDistance_eq_zero _ _ (by rw [hx, hrest y hy])).mp (by exact_mod_cast h0)
        · exact absurd h0 hLq
      · intro h t ht
        obtain ⟨y, hy, rfl⟩ := List.mem_map.mp ht
        rw [(hammingDistance_eq_zero _ _ (by rw [hx, hrest y hy])).mpr (h y hy)]
        simp
    have hs1 := List.sum_nonneg hrow_nonneg
    have hs2 := pairSumList_nonneg L rest
    simp only [pairSumList, List.pairwise_cons]
    rw [← hrow, ← ih hrest]
    constructor
    · intro h
      constructor <;> linarith
    · rintro ⟨h1, h2⟩
      rw [h1, h2, add_zero]

theorem pairwise_eq_iff_all_eq (population : Population) :
    List.Pairwise (fun x y : Individual => x.chromosome = y.chromosome) population
      ↔ ∀ x ∈ population, ∀ y ∈ population, x.chromosome = y.chromosome := by
  induction population with
  | nil => simp
  | cons a rest ih =>
    rw [List.pairwise_cons, ih]
    constructor
    · rintro ⟨h1, h2⟩ x hx y hy
      rcases List.mem_cons.mp hx with hxa | hxr
      · rcases List.mem_cons.mp hy with hya | hyr
        · rw [hxa, hya]
        · rw [hxa]
          exact h1 y hyr
      · rcases List.mem_cons.mp hy with hya | hyr
        · rw [hya]
          exact (h1 x hxr).symm
        · exact h2 x hxr y hyr
    · intro h
      exact ⟨fun y hy => h a (List.mem_cons_self _ _) y (List.mem_cons_of_mem _ hy),
        fun x hx y hy => h x (List.mem_cons_of_mem _ hx) y (List.mem_cons_of_mem _ hy)⟩

theorem samplePopulation_length4 :
    ∀ x ∈ sampleEngine.population, x.chromosome.length = 4 := by
  intro x hx
  change x ∈ samplePopulation at hx
  simp only [samplePopulation, List.mem_cons, List.mem_singleton, List.not_mem_nil,
    or_false] at hx
  rcases hx with rfl | rfl | rfl | rfl <;> rfl

/-- C21: for a population of `n ≥ 2` individuals whose chromosomes all have the length
`L ≥ 1`, `calculatePopulationDiversity` returns the sum over all pairs `i < j` of
`hamming(chromosome_i, chromosome_j) / L` divided by the number of pairs `n (n - 1) / 2`;
for fewer than two individuals it returns 0. -/
theorem calculatePopulationDiversity_mean (ga : GeneticAlgorithm) (L : Nat) (_hL : 1 ≤ L)
    (hlen : ∀ x ∈ ga.population, x.chromosome.length = L) :
    (2 ≤ ga.population.length →
        ga.calculatePopulationDiversity
          = .ok (pairwiseDistanceSum L ga.population
              / ((ga.population.length : ℚ) * ((ga.population.length : ℚ) - 1) / 2)))
      ∧ (ga.population.length < 2 → ga.calculatePopulationDiversity = .ok 0) := by
  rw [calculatePopulationDiversity_eq ga L hlen]
  constructor
  · intro h2
    rw [if_neg (by omega), pairSumList_eq, Nat.cast_choose_two]
  · intro h2
    rw [if_pos h2]

/-- Witness of C21: the six pairs of the sample population (chromosomes 0100, 0011, 0010,
0001) have the distances 3, 2, 2, 1, 1, 2, so its diversity is `(11 / 4) / 6 = 11 / 24`. -/
theorem calculatePopulationDiversity_mean_witness :
    sampleEngine.calculatePopulationDiversity = .ok (11 / 24) := by
  have h := (calculatePopulationDiversity_mean sampleEngine 4 (by decide)
    samplePopulation_length4).1 (by decide)
  have hsum : pairwiseDistanceSum 4 sampleEngine.population = 11 / 4 := by
    simp [pairwiseDistanceSum, Finset.sum_range_succ, chromosomeAt, hammingDistance,
      sampleEngine, samplePopulation]
    norm_num
  have hn : ((sampleEngine.population.length : ℕ) : ℚ) = 4 := by
    simp [sampleEngine, samplePopulation]
  rw [h, hsum, hn]
  norm_num

/-- C22: for a population of `n ≥ 2` individuals with chromosomes of one length `L ≥ 1`,
`calculatePopulationDiversity` returns a value, and that value is exactly 0 if and only if
all individuals have the same chromosome, bit for bit. -/
theorem calculatePopulationDiversity_zero_iff (ga : GeneticAlgorithm) (L : Nat) (hL : 1 ≤ L)
    (hn : 2 ≤ ga.population.length)
    (hlen : ∀ x ∈ ga.population, x.chromosome.length = L) :
    ∃ d, ga.calculatePopulationDiversity = .ok d
      ∧ (d = 0 ↔ ∀ x ∈ ga.population, ∀ y ∈ ga.population, x.chromosome = y.chromosome) := by
  refine ⟨_, calculatePopulationDiversity_eq ga L hlen, ?_⟩
  rw [if_neg (by omega), ← pairwise_eq_iff_all_eq, ← pairSumList_eq_zero L hL _ hlen]
  have hpos : (0 : ℚ) < ((ga.population.length.choose 2 : Nat) : ℚ) := by
    exact_mod_cast Nat.choose_pos (by omega : 2 ≤ ga.population.length)
  rw [div_eq_zero_iff]
  constructor
  · intro h
    rcases h with h | h
    · exact h
    · exact absurd h (ne_of_gt hpos)
  · exact fun h => Or.inl h

/-- Witness of C22: the sample population has two different chromosomes, so its diversity is
not 0. -/
theorem calculatePopulationDiversity_zero_iff_witness :
    ∃ d, sampleEngine.calculatePopulationDiversity = .ok d ∧ d ≠ 0 := by
  obtain ⟨d, hd, hiff⟩ := calculatePopulationDiversity_zero_iff sampleEngine 4 (by decide)
    (by decide) samplePopulation_length4
  refine ⟨d, hd, fun h0 => ?_⟩
  have hall := hiff.mp h0
  have h := hall ⟨[false, true, false, false], 16, 100, true⟩
    (by simp [sampleEngine, samplePopulation])
    ⟨[false, false, true, true], 9, 50, true⟩ (by simp [sampleEngine, samplePopulation])
  simp at h

/-- C23: for a population of any size whose chromosomes all have one length `L ≥ 1`,
`calculatePopulationDiversity` returns a value in the closed interval `[0, 1]`. -/
theorem calculatePopulationDiversity_range (ga : GeneticAlgorithm) (L : Nat) (hL : 1 ≤ L)
    (hlen : ∀ x ∈ ga.population, x.chromosome.length = L) :
    ∃ d, ga.calculatePopulationDiversity = .ok d ∧ 0 ≤ d ∧ d ≤ 1 := by
  refine ⟨_, calculatePopulationDiversity_eq ga L hlen, ?_, ?_⟩
  · split
    · exact le_refl _
    · exact div_nonneg (pairSumList_nonneg L _) (Nat.cast_nonneg _)
  · split
    · exact zero_le_one
    · rename_i h2
      have hpos : (0 : ℚ) < ((ga.population.length.choose 2 : Nat) : ℚ) := by
        exact_mod_cast Nat.choose_pos (by omega : 2 ≤ ga.population.length)
      rw [div_le_one hpos]
      exact pairSumList_le L hL _ hlen

/-- Witness of C23: the diversity of the sample population, and that of an empty
population, lie in `[0, 1]`. -/
theorem calculatePopulationDiversity_range_witness :
    (∃ d, sampleEngine.calculatePopulationDiversity = .ok d ∧ 0 ≤ d ∧ d ≤ 1)
      ∧ ∃ d, GeneticAlgorithm.calculatePopulationDiversity
          { sampleEngine with population := [] } = .ok d ∧ 0 ≤ d ∧ d ≤ 1 :=
  ⟨calculatePopulationDiversity_range sampleEngine 4 (by decide) samplePopulation_length4,
    calculatePopulationDiversity_range { sampleEngine with population := [] } 4 (by decide)
      (fun x hx => absurd hx (List.not_mem_nil _))⟩

/-! ### The run: history, counter and callback -/

theorem sortPopulationByFitness_frame (S : StdSort) (ga sorted : GeneticAlgorithm)
    (h : ga.sortPopulationByFitness S = .ok sorted) : ga.SameButPopulationRng sorted := by
  unfold GeneticAlgorithm.sortPopulationByFitness at h
  split at h
  · cases h
  · split at h <;> (cases h; exact ⟨rfl, rfl, rfl, rfl⟩)

/-- One generation changes at most the population and the random source, and its snapshot
is the statistics of the new population. -/
theorem evolveGeneration_frame (S : StdSort) (ga evolved : GeneticAlgorithm)
    (stats : GenerationStats) (h : ga.evolveGeneration S = .ok (stats, evolved)) :
    ga.SameButPopulationRng evolved ∧ evolved.calculateGenerationStats = .ok stats := by
  obtain ⟨sorted, sel, filled, -, hsorted, hsel, hfilled, hev, hst⟩ :=
    evolveGeneration_ok_inv S ga evolved stats h
  obtain ⟨a1, a2, a3, a4⟩ := sortPopulationByFitness_frame S ga sorted hsorted
  obtain ⟨hsort2, -, hlen⟩ := eliteSelection_ok_inv S sorted _ sel hsel
  obtain ⟨b1, b2, b3, b4⟩ := sortPopulationByFitness_frame S sorted sel.2 hsort2
  have hlenle : sel.1.length ≤ sel.2.config.populationSize.toNat := by
    rw [hlen, b1]
    have := min_le_right (effectiveEliteCount sorted.config
        (truncToInt (roundDouble ((sorted.config.populationSize : ℚ) * sorted.config.elitismRate))))
      sorted.config.populationSize
    omega
  obtain ⟨-, -, d1, -, d2, d3, d4⟩ := fillLoop_ok_inv _ _
    (sel.2.config.populationSize.toNat - sel.1.length) sel.2 sel.1 filled (le_refl _) hlenle
    hfilled
  obtain ⟨⟨e1, e2, e3, e4⟩, -, -⟩ := evaluatePopulation_ok_inv _ evolved hev
  exact ⟨⟨e1.trans (d1.trans (b1.trans a1)), e2.trans (d2.trans (b2.trans a2)),
    e3.trans (d3.trans (b3.trans a3)), e4.trans (d4.trans (b4.trans a4))⟩, hst⟩

/-- The diversity stored in a snapshot is the diversity of the population it was computed
on. -/
theorem calculateGenerationStats_convergence (ga : GeneticAlgorithm) (stats : GenerationStats)
    (h : ga.calculateGenerationStats = .ok stats) :
    ga.calculatePopulationDiversity = .ok stats.convergence
      ∧ stats.generation = ga.currentGeneration := by
  unfold GeneticAlgorithm.calculateGenerationStats at h
  split at h
  · cases h
  · split at h
    · cases h
    · split at h
      · cases h
      · split at h
        · cases h
        · rename_i d hd
          cases h
          exact ⟨hd, rfl⟩

theorem indexedHistory_append (history : List GenerationStats) (stats : GenerationStats) :
    indexedHistory (history ++ [stats])
      = indexedHistory history ++ [((history.length : Int), stats)] := by
  simp [indexedHistory, List.enum, List.enumFrom_append]

theorem indexedHistory_length (history : List GenerationStats) :
    (indexedHistory history).length = history.length := by
  simp [indexedHistory]

theorem indexedHistory_getElem? (history : List GenerationStats) (i : Nat)
    (s : GenerationStats) (h : history[i]? = some s) :
    (indexedHistory history)[i]? = some ((i : Int), s) := by
  simp [indexedHistory, List.getElem?_map, List.enum, List.getElem?_enumFrom, h]

theorem invokeCallback_some_ok_inv (f : ProgressCallback) (generation : Int)
    (stats : GenerationStats) (calls calls1 : List (Int × GenerationStats))
    (h : invokeCallback (some f) generation stats calls = .ok calls1) :
    calls1 = calls ++ [(generation, stats)] := by
  simp only [invokeCallback] at h
  split at h
  · cases h
  · cases h
    rfl

/-- The invocations made by the loop of `run(callback)`: when the loop is entered with one
invocation per snapshot, in order, and the counter equal to the number of snapshots, it ends
in the same way. -/
theorem runCallbackLoop_calls (S : StdSort) (f : ProgressCallback) :
    ∀ (fuel : Nat) (ga : GeneticAlgorithm) (calls : List (Int × GenerationStats))
      (r : GeneticAlgorithm × List (Int × GenerationStats)),
      runCallbackLoop S (some f) fuel ga calls = .ok (some r) →
      (ga.statistics.length : Int) = ga.currentGeneration →
      calls = indexedHistory ga.statistics →
      r.2 = indexedHistory r.1.statistics := by
  intro fuel
  induction fuel with
  | zero =>
    intro ga calls r h
    simp only [runCallbackLoop] at h
    cases h
  | succ fuel ih =>
    intro ga calls r h hcount hcalls
    simp only [runCallbackLoop] at h
    split at h
    · split at h
      · cases h
      · rename_i e he
        have he' : ga.evolveGeneration S = .ok (e.1, e.2) := he
        obtain ⟨⟨-, -, hstats, hgen⟩, -⟩ := evolveGeneration_frame S ga e.2 e.1 he'
        split at h
        · cases h
        · rename_i calls1 hc1
          have hcalls1 := invokeCallback_some_ok_inv f _ _ _ _ hc1
          have hnew : calls1 = indexedHistory (e.2.statistics ++ [e.1]) := by
            rw [hcalls1, indexedHistory_append, hstats, hcalls, hcount, hgen]
          split at h
          · cases h
          · split at h
            · simp only [Except.ok.injEq, Option.some.injEq] at h
              subst h
              exact hnew
            · refine ih _ calls1 r h ?_ hnew
              show ((e.2.statistics ++ [e.1]).length : Int) = e.2.currentGeneration + 1
              rw [hstats, hgen, List.length_append, List.length_singleton]
              push_cast
              omega
    · simp only [Except.ok.injEq, Option.some.injEq] at h
      subst h
      exact hcalls

theorem runCallbackLoop_prefix (S : StdSort) (f : ProgressCallback) :
    ∀ (fuel : Nat) (ga : GeneticAlgorithm) (calls : List (Int × GenerationStats))
      (r : GeneticAlgorithm × List (Int × GenerationStats)),
      runCallbackLoop S (some f) fuel ga calls = .ok (some r) →
      ∃ more, r.2 = calls ++ more := by
  intro fuel
  induction fuel with
  | zero =>
    intro ga calls r h
    simp only [runCallbackLoop] at h
    cases h
  | succ fuel ih =>
    intro ga calls r h
    simp only [runCallbackLoop] at h
    split at h
    · split at h
      · cases h
      · split at h
        · cases h
        · rename_i calls1 hc1
          have hcalls1 := invokeCallback_some_ok_inv f _ _ _ _ hc1
          split at h
          · cases h
          · split at h
            · simp only [Except.ok.injEq, Option.some.injEq] at h
              subst h
              exact ⟨_, hcalls1⟩
            · obtain ⟨more, hmore⟩ := ih _ calls1 r h
              exact ⟨_, by rw [hmore, hcalls1, List.append_assoc]⟩
    · simp only [Except.ok.injEq, Option.some.injEq] at h
      subst h
      exact ⟨[], by simp⟩

/-- C26: for every completed call of `run(callback)` with a non-empty callback, the callback
is invoked exactly once per history snapshot and in order: there are as many invocations as
snapshots in the final history, the invocation number `i` (from 0) receives the generation
index `i` and the snapshot stored at position `i` of the history, and invocation 0 receives
the statistics of the initial evaluated population. -/
theorem runWithCallback_invocations (S : StdSort) (f : ProgressCallback)
    (ga final : GeneticAlgorithm) (stats : GenerationStats)
    (calls : List (Int × GenerationStats))
    (h : ga.runWithCallback S (some f) = .ok (stats, final, calls)) :
    calls.length = final.statistics.length
      ∧ (∀ (i : Nat) (s : GenerationStats),
          final.statistics[i]? = some s → calls[i]? = some ((i : Int), s))
      ∧ (∃ ga1 ga2 initialStats, ga.initializePopulation = .ok ga1
          ∧ ga1.evaluatePopulation = .ok ga2
          ∧ ga2.calculateGenerationStats = .ok initialStats
          ∧ calls[0]? = some (0, initialStats))
      ∧ final.statistics.getLast? = some stats := by
  unfold GeneticAlgorithm.runWithCallback at h
  split at h
  · cases h
  · rename_i ga1 h1
    split at h
    · cases h
    · rename_i ga2 h2
      split at h
      · cases h
      · rename_i initialStats h3
        split at h
        · cases h
        · rename_i calls0 h4
          have hc0 := invokeCallback_some_ok_inv f _ _ _ _ h4
          simp only [List.nil_append] at hc0
          split at h
          · cases h
          · cases h
          · rename_i r hr
            split at h
            · rename_i last hlast
              simp only [Except.ok.injEq, Prod.mk.injEq] at h
              obtain ⟨rfl, rfl, rfl⟩ := h
              have hres := runCallbackLoop_calls S f _ _ _ _ hr (by simp)
                (by rw [hc0]; simp [indexedHistory, List.enum])
              refine ⟨?_, ?_, ⟨ga1, ga2, initialStats, h1, h2, h3, ?_⟩, hlast⟩
              · rw [hres, indexedHistory_length]
              · intro i s hs
                rw [hres]
                exact indexedHistory_getElem? _ i s hs
              · obtain ⟨more, hmore⟩ := runCallbackLoop_prefix S f _ _ _ _ hr
                rw [hmore, hc0]
                simp
            · cases h

set_option maxRecDepth 100000 in
/-- The run with a callback of the fresh sample engine, evaluated. -/
theorem freshEngine_runWithCallback :
    freshEngine.runWithCallback insertionStdSort (some fun _ _ => .ok ())
      = .ok (⟨1, 225, 225, 225, none, 0, 50, 50⟩,
          { freshEngine with
              population := [⟨[true, true, true, true], 225, 50, true⟩,
                ⟨[true, true, true, true], 225, 50, true⟩,
                ⟨[true, true, true, true], 225, 50, true⟩,
                ⟨[true, true, true, true], 225, 50, true⟩],
              statistics := [⟨0, 225, 225, 225, none, 0, 50, 50⟩,
                ⟨1, 225, 225, 225, none, 0, 50, 50⟩],
              currentGeneration := 1 },
          [(0, ⟨0, 225, 225, 225, none, 0, 50, 50⟩),
            (1, ⟨1, 225, 225, 225, none, 0, 50, 50⟩)]) := by
  with_unfolding_all rfl

/-- Witness of C26: on the fresh sample engine, with a callback that returns, the run makes
two invocations, and the second receives the index 1 and the snapshot at position 1 of the
history, which is the snapshot returned. -/
theorem runWithCallback_invocations_witness :
    ∃ stats final calls,
      freshEngine.runWithCallback insertionStdSort (some fun _ _ => .ok ())
        = .ok (stats, final, calls)
      ∧ calls.length = 2 ∧ final.statistics.length = 2
      ∧ final.statistics[1]? = some stats ∧ calls[1]? = some (1, stats) := by
  obtain ⟨hlen, hidx, -, -⟩ := runWithCallback_invocations insertionStdSort
    (fun _ _ => .ok ()) freshEngine _ _ _ freshEngine_runWithCallback
  exact ⟨_, _, _, freshEngine_runWithCallback, rfl, hlen.symm, rfl, hidx 1 _ rfl⟩

theorem hasConverged_ok_inv (ga : GeneticAlgorithm) (threshold : ℚ) (converged : Bool)
    (d : ℚ) (hd : ga.calculatePopulationDiversity = .ok d)
    (h : ga.hasConverged threshold = .ok converged) : converged = decide (d < threshold) := by
  simp only [GeneticAlgorithm.hasConverged, hd, Except.ok.injEq] at h
  exact h.symm

/-- The history written by the evolution loop of `run`, entered with the counter one past
the last position of the history: the snapshots are appended, the one at position `i` has
the generation index `i`, every generation before the last left a population that had not
converged, and the loop ends either with the counter past `maxGenerations` or on a converged
population with the counter at the last generation. -/
theorem runLoop_history (S : StdSort) :
    ∀ (fuel : Nat) (ga final : GeneticAlgorithm),
      runLoop S fuel ga = .ok (some final) →
      ∃ added : List GenerationStats,
        final.statistics = ga.statistics ++ added ∧ final.config = ga.config
          ∧ (∀ (k : Nat) (s : GenerationStats), added[k]? = some s →
              s.generation = ga.currentGeneration + k)
          ∧ (∀ (k : Nat) (s : GenerationStats), k + 1 < added.length → added[k]? = some s →
              ¬ s.convergence < 1 / 100)
          ∧ ((final.currentGeneration = ga.currentGeneration + added.length
                ∧ final.config.maxGenerations < final.currentGeneration
                ∧ (ga.currentGeneration ≤ ga.config.maxGenerations + 1 →
                    final.currentGeneration = ga.config.maxGenerations + 1)
                ∧ ∀ s, added.getLast? = some s → ¬ s.convergence < 1 / 100)
              ∨ (∃ s, added.getLast? = some s ∧ s.convergence < 1 / 100
                ∧ final.currentGeneration + 1 = ga.currentGeneration + added.length
                ∧ final.currentGeneration ≤ final.config.maxGenerations
                ∧ final.hasConverged (1 / 100) = .ok true)) := by
  intro fuel
  induction fuel with
  | zero =>
    intro ga final h
    simp only [runLoop] at h
    cases h
  | succ fuel ih =>
    intro ga final h
    simp only [runLoop] at h
    split at h
    · rename_i hle
      split at h
      · cases h
      · rename_i e he
        have he' : ga.evolveGeneration S = .ok (e.1, e.2) := he
        obtain ⟨⟨hcfg, -, hstats, hgen⟩, hst⟩ := evolveGeneration_frame S ga e.2 e.1 he'
        obtain ⟨hdiv, hsgen⟩ := calculateGenerationStats_convergence e.2 e.1 hst
        have hdiv1 : GeneticAlgorithm.calculatePopulationDiversity
            { e.2 with statistics := e.2.statistics ++ [e.1] } = .ok e.1.convergence := hdiv
        split at h
        · cases h
        · rename_i converged hconv
          have hcv := hasConverged_ok_inv _ _ _ _ hdiv1 hconv
          split at h
          · rename_i htrue
            simp only [Except.ok.injEq, Option.some.injEq] at h
            subst h
            have hlt : e.1.convergence < 1 / 100 := by
              rw [hcv] at htrue
              exact of_decide_eq_true htrue
            refine ⟨[e.1], by rw [← hstats], hcfg, ?_, ?_, Or.inr ⟨e.1, rfl, hlt, ?_, ?_, ?_⟩⟩
            · intro k s hk
              cases k with
              | zero =>
                simp only [List.getElem?_cons_zero, Option.some.injEq] at hk
                subst hk
                rw [hsgen, hgen]
                simp
              | succ k => simp at hk
            · intro k s hk
              simp at hk
            · show e.2.currentGeneration + 1 = ga.currentGeneration + ([e.1].length : Int)
              rw [hgen]
              simp
            · show e.2.currentGeneration ≤ e.2.config.maxGenerations
              rw [hgen, hcfg]
              exact hle
            · rw [hconv, htrue]
          · rename_i hfalse
            have hnlt : ¬ e.1.convergence < 1 / 100 := by
              intro hlt
              apply hfalse
              rw [hcv]
              exact decide_eq_true hlt
            obtain ⟨added, hadd, hc, hidx, hnc, hend⟩ := ih _ final h
            have hadd' : final.statistics = ga.statistics ++ (e.1 :: added) := by
              rw [hadd]
              show e.2.statistics ++ [e.1] ++ added = _
              rw [hstats, List.append_assoc]
              rfl
            have hc' : final.config = ga.config := hc.trans hcfg
            refine ⟨e.1 :: added, hadd', hc', ?_, ?_, ?_⟩
            · intro k s hk
              cases k with
              | zero =>
                simp only [List.getElem?_cons_zero, Option.some.injEq] at hk
                subst hk
                rw [hsgen, hgen]
                simp
              | succ k =>
                simp only [List.getElem?_cons_succ] at hk
                have := hidx k s hk
                rw [this]
                show e.2.currentGeneration + 1 + (k : Int)
                  = ga.currentGeneration + ((k + 1 : Nat) : Int)
                rw [hgen]
                push_cast
                ring
            · intro k s hk1 hk
              cases k with
              | zero =>
                simp only [List.getElem?_cons_zero, Option.some.injEq] at hk
                subst hk
                exact hnlt
              | succ k =>
                simp only [List.getElem?_cons_succ] at hk
                simp only [List.length_cons] at hk1
                exact hnc k s (by omega) hk
            · have hlast : ∀ s, (e.1 :: added).getLast? = some s →
                  (added = [] ∧ s = e.1) ∨ added.getLast? = some s := by
                intro s hs
                cases added with
                | nil =>
                  simp only [List.getLast?_singleton, Option.some.injEq] at hs
                  exact Or.inl ⟨rfl, hs.symm⟩
                | cons a rest =>
                  rw [List.getLast?_cons_cons] at hs
                  exact Or.inr hs
              rcases hend with ⟨hcount, hpast, hexact, hlastnc⟩ | ⟨s, hs, hlt, hcount, hle2, hconv2⟩
              · left
                refine ⟨?_, hpast, ?_, ?_⟩
                · rw [hcount]
                  show e.2.currentGeneration + 1 + (added.length : Int)
                    = ga.currentGeneration + ((e.1 :: added).length : Int)
                  rw [hgen, List.length_cons]
                  push_cast
                  ring
                · intro _
                  have := hexact (by
                    show e.2.currentGeneration + 1 ≤ e.2.config.maxGenerations + 1
                    rw [hgen, hcfg]
                    omega)
                  rw [this]
                  show e.2.config.maxGenerations + 1 = _
                  rw [hcfg]
                · intro s hs
                  rcases hlast s hs with ⟨-, rfl⟩ | hs'
                  · exact hnlt
                  · exact hlastnc s hs'
              · right
                refine ⟨s, ?_, hlt, ?_, hle2, hconv2⟩
                · cases added with
                  | nil => simp at hs
                  | cons a rest => rw [List.getLast?_cons_cons]; exact hs
                · rw [hcount]
                  show e.2.currentGeneration + 1 + (added.length : Int)
                    = ga.currentGeneration + ((e.1 :: added).length : Int)
                  rw [hgen, List.length_cons]
                  push_cast
                  ring
    · rename_i hnle
      simp only [Except.ok.injEq, Option.some.injEq] at h
      subst h
      refine ⟨[], by simp, rfl, ?_, ?_, Or.inl ⟨by simp, by omega, ?_, ?_⟩⟩
      · intro k s hk
        simp at hk
      · intro k s hk
        simp at hk
      · intro hle1
        omega
      · intro s hs
        simp at hs

/-- The history of a completed `run`, from any engine state. With `g` the number of
generations evolved: the history holds `g + 1` snapshots; the snapshot at position 0 carries
the value that the generation counter had when `run` was called, and the snapshot at every
position `i ≥ 1` has the generation index `i`; `run` returns the snapshot at position `g`;
no generation before `g` left a converged population; and either the loop ran through all
generations, leaving the counter at `maxGenerations + 1`, or it stopped on a converged
population with the counter at `g ≤ maxGenerations`. -/
theorem run_history (S : StdSort) (ga final : GeneticAlgorithm) (stats : GenerationStats)
    (h : ga.run S = .ok (stats, final)) :
    ∃ (g : Nat) (initialStats : GenerationStats),
      final.statistics.length = g + 1 ∧ final.config = ga.config
        ∧ final.statistics[0]? = some initialStats
        ∧ initialStats.generation = ga.currentGeneration
        ∧ (∀ (i : Nat) (s : GenerationStats), 1 ≤ i → final.statistics[i]? = some s →
            s.generation = i)
        ∧ final.statistics[g]? = some stats
        ∧ (∀ (i : Nat) (s : GenerationStats), 1 ≤ i → i < g → final.statistics[i]? = some s →
            ¬ s.convergence < 1 / 100)
        ∧ ((final.currentGeneration = g + 1 ∧ ga.config.maxGenerations < g + 1
              ∧ (1 ≤ ga.config.maxGenerations → (g : Int) = ga.config.maxGenerations)
              ∧ (1 ≤ g → ¬ stats.convergence < 1 / 100))
            ∨ (1 ≤ g ∧ final.currentGeneration = g ∧ (g : Int) ≤ ga.config.maxGenerations
              ∧ stats.convergence < 1 / 100 ∧ final.hasConverged (1 / 100) = .ok true)) := by
  unfold GeneticAlgorithm.run at h
  split at h
  · cases h
  · rename_i ga1 h1
    obtain ⟨⟨a1, -, -, a4⟩, -, -⟩ := initializePopulation_ok_inv ga ga1 h1
    split at h
    · cases h
    · rename_i ga2 h2
      obtain ⟨⟨b1, -, -, b4⟩, -, -⟩ := evaluatePopulation_ok_inv ga1 ga2 h2
      split at h
      · cases h
      · rename_i stats0 h3
        obtain ⟨-, hgen0⟩ := calculateGenerationStats_convergence ga2 stats0 h3
        split at h
        · cases h
        · cases h
        · rename_i ga3 hloop
          split at h
          · rename_i last hlast
            simp only [Except.ok.injEq, Prod.mk.injEq] at h
            obtain ⟨rfl, rfl⟩ := h
            obtain ⟨added, hadd, hc, hidx, hnc, hend⟩ := runLoop_history S _ _ _ hloop
            have hadd' : ga3.statistics = stats0 :: added := hadd
            have hc' : ga3.config = ga.config := hc.trans (b1.trans a1)
            have hcfg2 : ga2.config = ga.config := b1.trans a1
            have hidx' : ∀ (k : Nat) (s : GenerationStats), added[k]? = some s →
                s.generation = 1 + (k : Int) := hidx
            have hlast' : (stats0 :: added).getLast? = some last := by rw [← hadd']; exact hlast
            have hg : (stats0 :: added)[added.length]? = some last := by
              rw [List.getLast?_eq_getElem?] at hlast'
              simpa using hlast'
            refine ⟨added.length, stats0, by rw [hadd']; simp, hc', by rw [hadd']; simp,
              by rw [hgen0, b4, a4], ?_, by rw [hadd']; exact hg, ?_, ?_⟩
            · intro i s hi hs
              rw [hadd'] at hs
              obtain ⟨k, rfl⟩ : ∃ k, i = k + 1 := ⟨i - 1, by omega⟩
              simp only [List.getElem?_cons_succ] at hs
              rw [hidx' k s hs]
              push_cast
              ring
            · intro i s hi hig hs
              rw [hadd'] at hs
              obtain ⟨k, rfl⟩ : ∃ k, i = k + 1 := ⟨i - 1, by omega⟩
              simp only [List.getElem?_cons_succ] at hs
              exact hnc k s (by omega) hs
            · have hlastadded : 1 ≤ added.length → added.getLast? = some last := by
                intro hpos
                cases hadded : added with
                | nil => rw [hadded] at hpos; simp at hpos
                | cons a rest =>
                  rw [hadded, List.getLast?_cons_cons] at hlast'
                  exact hlast'
              rcases hend with ⟨hcount, hpast, hexact, hlastnc⟩ | ⟨s, hs, hlt, hcount, hle2, hcv⟩
              · left
                have hcount' : ga3.currentGeneration = 1 + (added.length : Int) := hcount
                have hexact' : (1 : Int) ≤ ga2.config.maxGenerations + 1 →
                    ga3.currentGeneration = ga2.config.maxGenerations + 1 := hexact
                rw [hcfg2] at hexact'
                refine ⟨by rw [hcount']; ring, ?_, ?_, ?_⟩
                · rw [hc', hcount'] at hpast
                  omega
                · intro hmax
                  have := hexact' (by omega)
                  omega
                · intro hpos
                  exact hlastnc last (hlastadded hpos)
              · right
                have hcount' : ga3.currentGeneration + 1 = 1 + (added.length : Int) := hcount
                have hpos : 1 ≤ added.length := by
                  cases hadded : added with
                  | nil => rw [hadded] at hs; simp at hs
                  | cons a rest => simp
                have hsl : s = last := by
                  have := hlastadded hpos
                  rw [hs] at this
                  exact Option.some.inj this
                rw [hc'] at hle2
                exact ⟨hpos, by omega, by omega, hsl ▸ hlt, hcv⟩
          · cases h

set_option maxRecDepth 100000 in
/-- The first run of the fresh sample engine, evaluated: the initial population is four
times 1111, generation 1 leaves it unchanged and converged, and the counter stays at 1. -/
theorem freshEngine_run :
    freshEngine.run insertionStdSort
      = .ok (⟨1, 225, 225, 225, none, 0, 50, 50⟩,
          { freshEngine with
              population := [⟨[true, true, true, true], 225, 50, true⟩,
                ⟨[true, true, true, true], 225, 50, true⟩,
                ⟨[true, true, true, true], 225, 50, true⟩,
                ⟨[true, true, true, true], 225, 50, true⟩],
              statistics := [⟨0, 225, 225, 225, none, 0, 50, 50⟩,
                ⟨1, 225, 225, 225, none, 0, 50, 50⟩],
              currentGeneration := 1 }) := by
  with_unfolding_all rfl

set_option maxRecDepth 100000 in
/-- The second run of the same engine, evaluated: the snapshot at position 0 carries the
generation index 1 left by the first run. -/
theorem freshEngine_run_again :
    GeneticAlgorithm.run insertionStdSort
        { freshEngine with
            population := [⟨[true, true, true, true], 225, 50, true⟩,
              ⟨[true, true, true, true], 225, 50, true⟩,
              ⟨[true, true, true, true], 225, 50, true⟩,
              ⟨[true, true, true, true], 225, 50, true⟩],
            statistics := [⟨0, 225, 225, 225, none, 0, 50, 50⟩,
              ⟨1, 225, 225, 225, none, 0, 50, 50⟩],
            currentGeneration := 1 }
      = .ok (⟨1, 225, 225, 225, none, 0, 50, 50⟩,
          { freshEngine with
              population := [⟨[true, true, true, true], 225, 50, true⟩,
                ⟨[true, true, true, true], 225, 50, true⟩,
                ⟨[true, true, true, true], 225, 50, true⟩,
                ⟨[true, true, true, true], 225, 50, true⟩],
              statistics := [⟨1, 225, 225, 225, none, 0, 50, 50⟩,
                ⟨1, 225, 225, 225, none, 0, 50, 50⟩],
              currentGeneration := 1 }) := by
  with_unfolding_all rfl

/-- C24 fails on an engine on which `run` was already called: the fresh sample engine is
what the constructor returns; its first run ends with the counter at 1, and in the history
of its second run the snapshot at position 0 has the generation index 1, not 0. -/
theorem run_again_initial_generation :
    GeneticAlgorithm.ofConfig sampleConfig (some sampleFitnessFunction) (fun _ => 3 / 4)
        = .ok freshEngine
      ∧ ∃ stats1 final1 stats2 final2 initialStats,
          freshEngine.run insertionStdSort = .ok (stats1, final1)
            ∧ final1.run insertionStdSort = .ok (stats2, final2)
            ∧ final2.statistics.length = 2
            ∧ final2.statistics[0]? = some initialStats
            ∧ initialStats.generation = 1 :=
  ⟨by simp [GeneticAlgorithm.ofConfig, sampleConfig, freshEngine],
    _, _, _, _, _, freshEngine_run, freshEngine_run_again, rfl, rfl, rfl⟩

/-- The run of the two-bit engine, evaluated: generation 1 keeps the elite 11 and adds the
mutated offspring 00, the diversity is 1, and the loop ends with the counter at 2. -/
theorem flipEngine_run :
    flipEngine.run insertionStdSort
      = .ok (⟨1, 3, 3 / 2, 0, none, 1, 100, 50⟩,
          { flipEngine with
              population := [⟨[true, true], 3, 100, true⟩, ⟨[false, false], 0, 0, true⟩],
              statistics := [⟨0, 3, 3, 3, none, 0, 50, 50⟩,
                ⟨1, 3, 3 / 2, 0, none, 1, 100, 50⟩],
              currentGeneration := 2 }) := by
  with_unfolding_all rfl

/-- C25 fails when the loop runs through all generations: on the two-bit engine, fresh from
the constructor with `maxGenerations = 1`, `run` returns with the generation counter at 2
and a population that has not converged (its diversity is 1). -/
theorem run_counter_past_maxGenerations :
    GeneticAlgorithm.ofConfig flipConfig
        (some { evaluate := fun x => x, isMaximization := true, optimalValue := none })
        (fun _ => 3 / 4) = .ok flipEngine
      ∧ ∃ stats final, flipEngine.run insertionStdSort = .ok (stats, final)
          ∧ final.config.maxGenerations = 1 ∧ final.currentGeneration = 2
          ∧ final.calculatePopulationDiversity = .ok 1
          ∧ final.hasConverged (1 / 100) = .ok false := by
  refine ⟨by simp [GeneticAlgorithm.ofConfig, flipConfig, flipEngine],
    _, _, flipEngine_run, rfl, rfl, ?_, ?_⟩
  · with_unfolding_all rfl
  · with_unfolding_all rfl

/-! ### The fitness percentage stays within 0 and 100 -/

theorem clamp_range (x : ℚ) : 0 ≤ max 0 (min 100 x) ∧ max 0 (min 100 x) ≤ 100 :=
  ⟨le_max_left _ _, max_le (by norm_num) (min_le_left _ _)⟩

theorem clamp_eq (x : ℚ) :
    max 0 (min 100 x) = if x < 0 then 0 else if 100 < x then 100 else x := by
  split
  · rename_i h
    rw [min_eq_right (by linarith), max_eq_left (le_of_lt h)]
  · rename_i h
    split
    · rename_i h2
      rw [min_eq_left (le_of_lt h2), max_eq_right (by norm_num)]
    · rename_i h2
      rw [min_eq_right (not_lt.mp h2), max_eq_right (not_lt.mp h)]

theorem empiricalPercentage_range (ff : FitnessFunction) (f best worst : ℚ) :
    0 ≤ ff.empiricalPercentage f best worst ∧ ff.empiricalPercentage f best worst ≤ 100 := by
  unfold FitnessFunction.empiricalPercentage
  dsimp only
  split
  · constructor <;> norm_num
  · split
    · exact clamp_range _
    · exact clamp_range _

theorem calculateFitnessPercentage_range (ff : FitnessFunction) (f best worst : ℚ) :
    0 ≤ ff.calculateFitnessPercentage f best worst
      ∧ ff.calculateFitnessPercentage f best worst ≤ 100 := by
  unfold FitnessFunction.calculateFitnessPercentage
  split
  · split
    · split
      · constructor <;> norm_num
      · split
        · exact clamp_range _
        · exact empiricalPercentage_range _ _ _ _
    · split
      · constructor <;> norm_num
      · split
        · exact clamp_range _
        · exact empiricalPercentage_range _ _ _ _
  · exact empiricalPercentage_range _ _ _ _

theorem reachable_percentage_range (a : Individual) (h : Individual.Reachable a) :
    0 ≤ a.fitnessPercentage ∧ a.fitnessPercentage ≤ 100 := by
  have zero : (0 : ℚ) ≤ 0 ∧ (0 : ℚ) ≤ 100 := ⟨le_refl _, by norm_num⟩
  induction h with
  | default => exact zero
  | ofLength n => exact zero
  | ofChromosome c => exact zero
  | setFitness a f _ ih => exact ih
  | invalidateFitness a _ _ => exact zero
  | setFitnessPercentage a p _ _ => exact clamp_range p
  | setChromosome a c _ _ => exact zero
  | mutate a rate rng _ _ => exact zero
  | randomize a length rng r _ hr _ =>
    unfold Individual.randomize at hr
    split at hr
    · cases hr
    · cases hr
      exact zero
  | singlePointFirst a b c r _ _ hr _ _ =>
    obtain ⟨r1, r2, h1, -⟩ := singlePointCrossover_ok_inv a b c r.1 r.2 hr
    rw [h1]
    exact zero
  | singlePointSecond a b c r _ _ hr _ _ =>
    obtain ⟨r1, r2, -, h2⟩ := singlePointCrossover_ok_inv a b c r.1 r.2 hr
    rw [h2]
    exact zero
  | twoPointFirst a b p1 p2 r _ _ hr _ _ =>
    obtain ⟨r1, r2, h1, -⟩ := twoPointCrossover_ok_inv a b p1 p2 r.1 r.2 hr
    rw [h1]
    exact zero
  | twoPointSecond a b p1 p2 r _ _ hr _ _ =>
    obtain ⟨r1, r2, -, h2⟩ := twoPointCrossover_ok_inv a b p1 p2 r.1 r.2 hr
    rw [h2]
    exact zero
  | uniformFirst a b m r _ _ hr _ _ =>
    obtain ⟨r1, r2, h1, -⟩ := uniformCrossover_ok_inv a b m r.1 r.2 hr
    rw [h1]
    exact zero
  | uniformSecond a b m r _ _ hr _ _ =>
    obtain ⟨r1, r2, -, h2⟩ := uniformCrossover_ok_inv a b m r.1 r.2 hr
    rw [h2]
    exact zero

/-- C32: the fitness percentage is always within `[0, 100]`. `calculateFitnessPercentage`
returns a value in `[0, 100]` for every evaluator and all inputs; `setFitnessPercentage p`
stores `p` clamped to `[0, 100]` (0 below 0, 100 above 100, `p` itself otherwise) and leaves
the other fields alone; and `getFitnessPercentage` is in `[0, 100]` for every individual
reachable through the public operations. -/
theorem fitnessPercentage_within_bounds :
    (∀ (ff : FitnessFunction) (f best worst : ℚ),
        0 ≤ ff.calculateFitnessPercentage f best worst
          ∧ ff.calculateFitnessPercentage f best worst ≤ 100)
      ∧ (∀ (a : Individual) (p : ℚ),
          (a.setFitnessPercentage p).getFitnessPercentage
              = (if p < 0 then 0 else if 100 < p then 100 else p)
            ∧ (a.setFitnessPercentage p).chromosome = a.chromosome
            ∧ (a.setFitnessPercentage p).fitness = a.fitness
            ∧ (a.setFitnessPercentage p).fitnessCalculated = a.fitnessCalculated)
      ∧ (∀ a : Individual, Individual.Reachable a →
          0 ≤ a.getFitnessPercentage ∧ a.getFitnessPercentage ≤ 100) :=
  ⟨calculateFitnessPercentage_range,
    fun _ p => ⟨clamp_eq p, rfl, rfl, rfl⟩,
    reachable_percentage_range⟩

/-- C32 on sample data: a percentage of 250 is stored as 100, one of -3 as 0, and the
individual obtained from the sample chromosome by these two calls is within the bounds. -/
theorem fitnessPercentage_within_bounds_witness :
    ((Individual.ofChromosome [true, false]).setFitnessPercentage 250).getFitnessPercentage
        = 100
      ∧ ((Individual.ofChromosome [true, false]).setFitnessPercentage (-3)).getFitnessPercentage
        = 0
      ∧ 0 ≤ (((Individual.ofChromosome [true, false]).setFitnessPercentage 250).setFitness
          7).getFitnessPercentage
      ∧ (((Individual.ofChromosome [true, false]).setFitnessPercentage 250).setFitness
          7).getFitnessPercentage ≤ 100 := by
  obtain ⟨-, h2, h3⟩ := fitnessPercentage_within_bounds
  refine ⟨?_, ?_, ?_⟩
  · rw [(h2 _ 250).1]
    norm_num
  · rw [(h2 _ (-3)).1]
    norm_num
  · exact h3 _ (Individual.Reachable.setFitness _ 7
      (Individual.Reachable.setFitnessPercentage _ 250 (Individual.Reachable.ofChromosome _)))

/-! ### The decoded value of the best individual -/

/-- C35: on the sample population, whose best individual `0100` (raw fitness 16, decoded
value 4) is at position 0, `calculateGenerationStats` returns `bestFitness = 16` and never
assigns `bestValue`. -/
theorem calculateGenerationStats_bestValue_unassigned :
    (samplePopulation[0]?).map (fun a => (a.fitness, a.decodeToValue 0 15))
        = some (16, .ok 4)
      ∧ sampleEngine.calculateGenerationStats
        = .ok { generation := 0, bestFitness := 16, averageFitness := 15 / 2,
                worstFitness := 1, bestValue := none, convergence := 11 / 24,
                bestFitnessPercentage := 100, averageFitnessPercentage := 85 / 2 } := by
  constructor
  · with_unfolding_all rfl
  · with_unfolding_all rfl

/-! ### Two-point crossover with equal draws -/

/-- C38: with the two-point crossover on chromosomes of 4 bits and a random source whose
two point draws are both 3, `performCrossover` passes `point1 = point2 = 3` and the operator
rejects them. -/
theorem performCrossover_two_point_equal_draws :
    (uniformInt 1 (twoPointEngine.config.chromosomeLength - 1) twoPointEngine.rng).1 = 3
      ∧ (uniformInt 1 (twoPointEngine.config.chromosomeLength - 1)
          (uniformInt 1 (twoPointEngine.config.chromosomeLength - 1) twoPointEngine.rng).2).1
          = 3
      ∧ twoPointEngine.performCrossover (Individual.ofChromosome [true, true, false, false])
          (Individual.ofChromosome [false, false, true, true])
        = .error (.invalidArgument "Invalid crossover points") := by
  refine ⟨?_, ?_, ?_⟩
  · with_unfolding_all rfl
  · with_unfolding_all rfl
  · with_unfolding_all rfl

/-! ### Reset, `updateConfig` and `setFitnessFunction` -/

/-- The size of the population after one generation, when `evolveGeneration` returns. -/
theorem evolveGeneration_length (S : StdSort) (ga evolved : GeneticAlgorithm)
    (stats : GenerationStats) (h : ga.evolveGeneration S = .ok (stats, evolved)) :
    (evolved.population.length : Int) = evolved.config.populationSize := by
  obtain ⟨sorted, sel, filled, hn, hsorted, hsel, hfilled, hev, -⟩ :=
    evolveGeneration_ok_inv S ga evolved stats h
  obtain ⟨a1, -, -, -⟩ := sortPopulationByFitness_frame S ga sorted hsorted
  obtain ⟨hsort2, -, hlen⟩ := eliteSelection_ok_inv S sorted _ sel hsel
  obtain ⟨b1, -, -, -⟩ := sortPopulationByFitness_frame S sorted sel.2 hsort2
  have hlenle : sel.1.length ≤ sel.2.config.populationSize.toNat := by
    rw [hlen, b1]
    have := min_le_right (effectiveEliteCount sorted.config
        (truncToInt (roundDouble ((sorted.config.populationSize : ℚ) * sorted.config.elitismRate))))
      sorted.config.populationSize
    omega
  obtain ⟨hfl, -, d1, -, -, -, -⟩ := fillLoop_ok_inv _ _
    (sel.2.config.populationSize.toNat - sel.1.length) sel.2 sel.1 filled (le_refl _) hlenle
    hfilled
  obtain ⟨⟨e1, -, -, -⟩, -, hrel⟩ := evaluatePopulation_ok_inv _ evolved hev
  have hl : evolved.population.length = filled.1.length := hrel.length_eq.symm
  have hc : evolved.config = ga.config := e1.trans (d1.trans (b1.trans a1))
  rw [hl, hfl, hc, b1, a1]
  omega

theorem runLoop_length (S : StdSort) :
    ∀ (fuel : Nat) (ga final : GeneticAlgorithm),
      runLoop S fuel ga = .ok (some final) →
      (ga.population.length : Int) = ga.config.populationSize →
      (final.population.length : Int) = final.config.populationSize := by
  intro fuel
  induction fuel with
  | zero =>
    intro ga final h
    simp only [runLoop] at h
    cases h
  | succ fuel ih =>
    intro ga final h hsize
    simp only [runLoop] at h
    split at h
    · split at h
      · cases h
      · rename_i e he
        have he' : ga.evolveGeneration S = .ok (e.1, e.2) := he
        have hlen := evolveGeneration_length S ga e.2 e.1 he'
        split at h
        · cases h
        · split at h
          · simp only [Except.ok.injEq, Option.some.injEq] at h
            subst h
            exact hlen
          · exact ih _ final h hlen
    · simp only [Except.ok.injEq, Option.some.injEq] at h
      subst h
      exact hsize

theorem runCallbackLoop_length (S : StdSort) (callback : Option ProgressCallback) :
    ∀ (fuel : Nat) (ga : GeneticAlgorithm) (calls : List (Int × GenerationStats))
      (r : GeneticAlgorithm × List (Int × GenerationStats)),
      runCallbackLoop S callback fuel ga calls = .ok (some r) →
      (ga.population.length : Int) = ga.config.populationSize →
      (r.1.population.length : Int) = r.1.config.populationSize := by
  intro fuel
  induction fuel with
  | zero =>
    intro ga calls r h
    simp only [runCallbackLoop] at h
    cases h
  | succ fuel ih =>
    intro ga calls r h hsize
    simp only [runCallbackLoop] at h
    split at h
    · split at h
      · cases h
      · rename_i e he
        have he' : ga.evolveGeneration S = .ok (e.1, e.2) := he
        have hlen := evolveGeneration_length S ga e.2 e.1 he'
        split at h
        · cases h
        · split at h
          · cases h
          · split at h
            · simp only [Except.ok.injEq, Option.some.injEq] at h
              subst h
              exact hlen
            · exact ih _ _ r h hlen
    · simp only [Except.ok.injEq, Option.some.injEq] at h
      subst h
      exact hsize

/-- The population that `initializePopulation` and `evaluatePopulation` leave at the start
of a run has `populationSize` individuals. -/
theorem initial_population_length (ga ga1 ga2 : GeneticAlgorithm)
    (h1 : ga.initializePopulation = .ok ga1) (h2 : ga1.evaluatePopulation = .ok ga2) :
    (ga2.population.length : Int) = ga2.config.populationSize := by
  obtain ⟨⟨a1, -, -, -⟩, hpos, hlen⟩ := initializePopulation_ok_inv ga ga1 h1
  obtain ⟨⟨b1, -, -, -⟩, -, hrel⟩ := evaluatePopulation_ok_inv ga1 ga2 h2
  rw [← hrel.length_eq, hlen, b1, a1]
  omega

/-- A completed run leaves a population of `populationSize` individuals. -/
theorem run_length (S : StdSort) (ga final : GeneticAlgorithm) (stats : GenerationStats)
    (h : ga.run S = .ok (stats, final)) :
    (final.population.length : Int) = final.config.populationSize := by
  unfold GeneticAlgorithm.run at h
  split at h
  · cases h
  · rename_i ga1 h1
    split at h
    · cases h
    · rename_i ga2 h2
      have hlen := initial_population_length ga ga1 ga2 h1 h2
      split at h
      · cases h
      · rename_i stats0 h3
        split at h
        · cases h
        · cases h
        · rename_i ga3 h4
          have := runLoop_length S _ _ ga3 h4 hlen
          split at h
          · simp only [Except.ok.injEq, Prod.mk.injEq] at h
            rw [← h.2]
            exact this
          · cases h

/-- A completed run with a callback leaves a population of `populationSize` individuals. -/
theorem runWithCallback_length (S : StdSort) (callback : Option ProgressCallback)
    (ga final : GeneticAlgorithm) (stats : GenerationStats)
    (calls : List (Int × GenerationStats))
    (h : ga.runWithCallback S callback = .ok (stats, final, calls)) :
    (final.population.length : Int) = final.config.populationSize := by
  unfold GeneticAlgorithm.runWithCallback at h
  split at h
  · cases h
  · rename_i ga1 h1
    split at h
    · cases h
    · rename_i ga2 h2
      have hlen := initial_population_length ga ga1 ga2 h1 h2
      split at h
      · cases h
      · rename_i stats0 h3
        split at h
        · cases h
        · rename_i calls0 h4
          split at h
          · cases h
          · cases h
          · rename_i r h5
            have := runCallbackLoop_length S callback _ _ _ r h5 hlen
            split at h
            · simp only [Except.ok.injEq, Prod.mk.injEq] at h
              rw [← h.2.1]
              exact this
            · cases h

/-- In every reachable engine state the population either has `populationSize` individuals
or the run is reset: no population, no history, counter 0. -/
theorem reachable_population_length (S : StdSort) (ga : GeneticAlgorithm)
    (h : GeneticAlgorithm.Reachable S ga) :
    (ga.population.length : Int) = ga.config.populationSize
      ∨ (ga.population = [] ∧ ga.statistics = [] ∧ ga.currentGeneration = 0) := by
  induction h with
  | construct config ff seed ga hc =>
    right
    unfold GeneticAlgorithm.ofConfig at hc
    split at hc
    · cases hc
    · split at hc
      · cases hc
      · cases hc
        exact ⟨rfl, rfl, rfl⟩
  | run ga final stats _ hrun _ => exact Or.inl (run_length S ga final stats hrun)
  | runWithCallback ga final callback stats calls _ hrun _ =>
    exact Or.inl (runWithCallback_length S callback ga final stats calls hrun)
  | reset ga _ _ => exact Or.inr ⟨rfl, rfl, rfl⟩
  | updateConfig ga newConfig _ _ =>
    unfold GeneticAlgorithm.updateConfig
    dsimp only
    split
    · exact Or.inr ⟨rfl, rfl, rfl⟩
    · rename_i hne
      exact Or.inl (not_not.mp hne)
  | setFitnessFunction ga updated ff _ hset ih =>
    unfold GeneticAlgorithm.setFitnessFunction at hset
    split at hset
    · cases hset
    · cases hset
      rcases ih with hlen | ⟨hp, hs, hg⟩
      · left
        show ((ga.population.map Individual.invalidateFitness).length : Int) = _
        rw [List.length_map]
        exact hlen
      · right
        refine ⟨?_, hs, hg⟩
        show ga.population.map Individual.invalidateFitness = []
        rw [hp]
        rfl

theorem freshEngine_reachable (S : StdSort) : GeneticAlgorithm.Reachable S freshEngine :=
  GeneticAlgorithm.Reachable.construct sampleConfig (some sampleFitnessFunction)
    (fun _ => 3 / 4) freshEngine (by with_unfolding_all rfl)

set_option maxRecDepth 100000 in
theorem ranEngine_failed_run :
    (ranEngine.updateConfig negativeLengthConfig).initializePopulation = .error .lengthError
      ∧ (ranEngine.updateConfig negativeLengthConfig).run insertionStdSort
          = .error .lengthError := by
  constructor <;> with_unfolding_all rfl

/-- C37 as stated fails in a state left by a call of `run` that threw. The fresh sample
engine runs (four individuals, two snapshots, counter 1); `updateConfig` with the same
`populationSize` and `chromosomeLength = -1` keeps population, history and counter; the next
`run` throws `std::length_error` in `initializePopulation`, after `population.clear()` and
before `statistics.clear()`. In the state it leaves, `updateConfig` with the sample
configuration, whose `populationSize` is the previous one, resets the run: the history of two
snapshots is emptied and the counter goes from 1 to 0. -/
theorem updateConfig_after_thrown_run :
    (∃ stats, freshEngine.run insertionStdSort = .ok (stats, ranEngine))
    ∧ ((ranEngine.updateConfig negativeLengthConfig).population = ranEngine.population
      ∧ (ranEngine.updateConfig negativeLengthConfig).statistics = ranEngine.statistics
      ∧ (ranEngine.updateConfig negativeLengthConfig).currentGeneration = 1)
    ∧ (ranEngine.updateConfig negativeLengthConfig).initializePopulation = .error .lengthError
    ∧ (ranEngine.updateConfig negativeLengthConfig).run insertionStdSort = .error .lengthError
    ∧ sampleConfig.populationSize
        = (ranEngine.updateConfig negativeLengthConfig).afterThrownInitialization.config.populationSize
    ∧ (ranEngine.updateConfig negativeLengthConfig).afterThrownInitialization.statistics.length
        = 2
    ∧ (ranEngine.updateConfig negativeLengthConfig).afterThrownInitialization.currentGeneration
        = 1
    ∧ ((ranEngine.updateConfig negativeLengthConfig).afterThrownInitialization.updateConfig
          sampleConfig).statistics = []
    ∧ ((ranEngine.updateConfig negativeLengthConfig).afterThrownInitialization.updateConfig
          sampleConfig).currentGeneration = 0 := by
  refine ⟨⟨_, freshEngine_run⟩, ⟨rfl, rfl, rfl⟩, ranEngine_failed_run.1, ranEngine_failed_run.2,
    rfl, rfl, rfl, rfl, rfl⟩

/-- C37 (amended): in every engine state reachable through construction, `run`, `reset`,
`updateConfig` and `setFitnessFunction` by calls that returned, `updateConfig newConfig`
stores `newConfig` and keeps the evaluator and the random source; when
`newConfig.populationSize` differs from the previous `populationSize` the run is reset
(population empty, history empty, counter 0), and when it is the same the population, the
history and the counter are unchanged. In every engine state, also one left by a call that
threw, the run is reset when the number of individuals of the population differs from
`newConfig.populationSize` and nothing but the configuration changes when it does not; and
`setFitnessFunction` with a non-null evaluator returns, stores the evaluator, leaves every
individual's fitness invalid and changes no chromosome, nor the order or the number of the
individuals. -/
theorem updateConfig_setFitnessFunction_effect (S : StdSort) (ga : GeneticAlgorithm)
    (hreach : GeneticAlgorithm.Reachable S ga) (newConfig : GAConfig)
    (newFitnessFunction : FitnessFunction) :
    (ga.updateConfig newConfig).config = newConfig
      ∧ (ga.updateConfig newConfig).fitnessFunction = ga.fitnessFunction
      ∧ (ga.updateConfig newConfig).rng = ga.rng
      ∧ (newConfig.populationSize ≠ ga.config.populationSize →
          (ga.updateConfig newConfig).population = []
            ∧ (ga.updateConfig newConfig).statistics = []
            ∧ (ga.updateConfig newConfig).currentGeneration = 0)
      ∧ (newConfig.populationSize = ga.config.populationSize →
          (ga.updateConfig newConfig).population = ga.population
            ∧ (ga.updateConfig newConfig).statistics = ga.statistics
            ∧ (ga.updateConfig newConfig).currentGeneration = ga.currentGeneration)
      ∧ (∀ state : GeneticAlgorithm,
          ((state.population.length : Int) ≠ newConfig.populationSize →
            (state.updateConfig newConfig).population = []
              ∧ (state.updateConfig newConfig).statistics = []
              ∧ (state.updateConfig newConfig).currentGeneration = 0)
          ∧ ((state.population.length : Int) = newConfig.populationSize →
            (state.updateConfig newConfig).population = state.population
              ∧ (state.updateConfig newConfig).statistics = state.statistics
              ∧ (state.updateConfig newConfig).currentGeneration = state.currentGeneration))
      ∧ ∃ updated, ga.setFitnessFunction (some newFitnessFunction) = .ok updated
          ∧ updated.fitnessFunction = newFitnessFunction
          ∧ (∀ individual ∈ updated.population, individual.isFitnessValid = false)
          ∧ updated.population.map Individual.getChromosome
              = ga.population.map Individual.getChromosome
          ∧ updated.config = ga.config ∧ updated.statistics = ga.statistics
          ∧ updated.currentGeneration = ga.currentGeneration ∧ updated.rng = ga.rng := by
  have hinv := reachable_population_length S ga hreach
  refine ⟨?_, ?_, ?_, ?_, ?_, ?_, ?_⟩
  · unfold GeneticAlgorithm.updateConfig
    dsimp only
    split <;> rfl
  · unfold GeneticAlgorithm.updateConfig
    dsimp only
    split <;> rfl
  · unfold GeneticAlgorithm.updateConfig
    dsimp only
    split <;> rfl
  · intro hne
    unfold GeneticAlgorithm.updateConfig
    dsimp only
    split
    · exact ⟨rfl, rfl, rfl⟩
    · rename_i hsame
      have hsame' : (ga.population.length : Int) = newConfig.populationSize :=
        not_not.mp hsame
      rcases hinv with hlen | ⟨hp, hs, hg⟩
      · exact absurd (hsame'.symm.trans hlen) hne
      · exact ⟨hp, hs, hg⟩
  · intro heq
    unfold GeneticAlgorithm.updateConfig
    dsimp only
    split
    · rename_i hdiff
      rcases hinv with hlen | ⟨hp, hs, hg⟩
      · exact absurd (hlen.trans heq.symm) hdiff
      · exact ⟨hp.symm, hs.symm, hg.symm⟩
    · exact ⟨rfl, rfl, rfl⟩
  · intro state
    constructor
    · intro hne
      unfold GeneticAlgorithm.updateConfig
      dsimp only
      rw [if_pos hne]
      exact ⟨rfl, rfl, rfl⟩
    · intro heq
      unfold GeneticAlgorithm.updateConfig
      dsimp only
      rw [if_neg (not_not.mpr heq)]
      exact ⟨rfl, rfl, rfl⟩
  · refine ⟨_, rfl, rfl, ?_, ?_, rfl, rfl, rfl, rfl⟩
    · intro individual hmem
      obtain ⟨a, -, rfl⟩ := List.mem_map.mp hmem
      rfl
    · show (ga.population.map Individual.invalidateFitness).map Individual.getChromosome = _
      rw [List.map_map]
      rfl

/-- Witness of C37 (amended): after a completed run of the fresh sample engine (4 individuals),
`updateConfig` with a configuration of 2 individuals resets the run, `updateConfig` with a
configuration of 4 individuals keeps population, history and counter, and
`setFitnessFunction` returns. -/
theorem updateConfig_setFitnessFunction_effect_witness :
    ∃ (stats : GenerationStats) (final : GeneticAlgorithm),
      freshEngine.run insertionStdSort = .ok (stats, final)
        ∧ final.population.length = 4 ∧ final.statistics.length = 2
        ∧ (final.updateConfig flipConfig).config = flipConfig
        ∧ ((final.updateConfig flipConfig).population = []
            ∧ (final.updateConfig flipConfig).statistics = []
            ∧ (final.updateConfig flipConfig).currentGeneration = 0)
        ∧ ((final.updateConfig { sampleConfig with maxGenerations := 7 }).population
              = final.population
            ∧ (final.updateConfig { sampleConfig with maxGenerations := 7 }).statistics
              = final.statistics
            ∧ (final.updateConfig { sampleConfig with maxGenerations := 7 }).currentGeneration
              = final.currentGeneration)
        ∧ ∃ updated, final.setFitnessFunction (some sampleFitnessFunction) = .ok updated := by
  refine ⟨_, _, freshEngine_run, rfl, rfl, ?_⟩
  have hreach := GeneticAlgorithm.Reachable.run _ _ _ (freshEngine_reachable insertionStdSort)
    freshEngine_run
  obtain ⟨h1, -, -, h2, -, -⟩ :=
    updateConfig_setFitnessFunction_effect insertionStdSort _ hreach flipConfig
      sampleFitnessFunction
  obtain ⟨-, -, -, -, h3, -, updated, h4, -⟩ :=
    updateConfig_setFitnessFunction_effect insertionStdSort _ hreach
      { sampleConfig with maxGenerations := 7 } sampleFitnessFunction
  exact ⟨h1, h2 (by decide), h3 rfl, updated, h4⟩

/-! ### The roulette walk always selects -/

theorem rouletteWeight_min_inv (population : Population) (offset : ℚ) (individual : Individual)
    (x : ℚ) (h : rouletteWeight false population offset individual = .ok x) :
    ∃ m, maxAdjustedLoop offset population 0 = .ok m
      ∧ x = m - (individual.fitness + offset) := by
  unfold rouletteWeight at h
  split at h
  · cases h
  · rename_i f hf
    obtain ⟨hfe, -⟩ := getFitness_ok_inv individual f hf
    simp only [Bool.false_eq_true, if_false] at h
    split at h
    · cases h
    · rename_i m hm
      cases h
      exact ⟨m, hm, by rw [hfe]⟩

/-- C39: for a non-empty fully evaluated population, in exact arithmetic, the weights that
the roulette walk accumulates are nonnegative and sum to exactly the total weight that
bounds the selection point; for minimization each weight is computed from the same maximum
adjusted fitness as the total, although the walk recomputes it for each candidate; hence for
every selection point up to the total weight the walk selects an individual of the
population, and `rouletteWheelSelection` returns that individual and not the fallback. -/
theorem rouletteWalk_always_selects (isMaximization : Bool) (population : Population)
    (hne : population ≠ []) (hev : FullyEvaluated population) :
    ∃ (offset total : ℚ) (w : Individual → ℚ),
      rouletteOffset population = .ok offset
        ∧ rouletteTotal isMaximization population offset = .ok total
        ∧ (∀ individual ∈ population,
            rouletteWeight isMaximization population offset individual = .ok (w individual)
              ∧ 0 ≤ w individual)
        ∧ (population.map w).sum = total
        ∧ (isMaximization = false →
            ∃ m, maxAdjustedLoop offset population 0 = .ok m
              ∧ sumInvertedLoop offset m population 0 = .ok total
              ∧ ∀ individual ∈ population, w individual = m - (individual.fitness + offset))
        ∧ (∀ selectionPoint : ℚ, selectionPoint ≤ total →
            ∃ selected ∈ population,
              rouletteWalk isMaximization population offset selectionPoint population 0
                = .ok (some selected))
        ∧ ∀ ga : GeneticAlgorithm, ga.population = population →
            ga.config.isMaximization = isMaximization → 0 ≤ ga.rng 0 → ga.rng 0 ≤ 1 →
            ∃ selected ∈ population,
              rouletteWalk isMaximization population offset
                  (uniformReal 0 total ga.rng).1 population 0 = .ok (some selected)
                ∧ ga.rouletteWheelSelection
                  = .ok (selected, { ga with rng := (uniformReal 0 total ga.rng).2 }) := by
  obtain ⟨offset, total, w, hoff, htot, hw, hsum, -⟩ :=
    roulette_weights isMaximization population hev
  have hwalk : ∀ selectionPoint : ℚ, selectionPoint ≤ total →
      ∃ selected ∈ population,
        rouletteWalk isMaximization population offset selectionPoint population 0
          = .ok (some selected) := by
    intro point hpoint
    rcases rouletteWalk_spec isMaximization population offset point w population
      (fun x hx => (hw x hx).1) 0 with ⟨i, selected, hi, hsel, -, -⟩ | ⟨-, hall⟩
    · exact ⟨selected, List.getElem?_mem hi, hsel⟩
    · exfalso
      have hpos : 0 < population.length := List.length_pos.mpr hne
      have := hall (population.length - 1) (by omega)
      rw [show population.length - 1 + 1 = population.length by omega, List.take_length,
        zero_add, ← hsum] at this
      linarith
  have htotal_nonneg : 0 ≤ total := by
    rw [hsum]
    exact list_sum_map_nonneg w population (fun x hx => (hw x hx).2)
  refine ⟨offset, total, w, hoff, htot, hw, hsum.symm, ?_, hwalk, ?_⟩
  · intro hmin
    subst hmin
    obtain ⟨first, rest, rfl⟩ := List.exists_cons_of_ne_nil hne
    obtain ⟨m, hm, -⟩ := rouletteWeight_min_inv _ offset first (w first)
      (hw first (List.mem_cons_self _ _)).1
    refine ⟨m, hm, ?_, ?_⟩
    · unfold rouletteTotal at htot
      split at htot
      · cases htot
      · simp only [Bool.not_false, if_true, hm] at htot
        exact htot
    · intro individual hmem
      obtain ⟨m', hm', hx⟩ := rouletteWeight_min_inv _ offset individual (w individual)
        (hw individual hmem).1
      rw [hm] at hm'
      cases hm'
      exact hx
  · intro ga hpop hdir h0 h1
    have hpoint : (uniformReal 0 total ga.rng).1 ≤ total := by
      show 0 + ga.rng 0 * (total - 0) ≤ total
      nlinarith
    obtain ⟨selected, hmem, hsel⟩ := hwalk _ hpoint
    refine ⟨selected, hmem, hsel, ?_⟩
    unfold GeneticAlgorithm.rouletteWheelSelection
    rw [hpop, hdir, hoff]
    dsimp only
    rw [htot]
    dsimp only
    rw [if_neg (not_not.mpr htotal_nonneg)]
    rw [hsel]

/-- C39 on the sample population: with a selection point equal to the total weight the walk
selects an individual. -/
theorem rouletteWalk_always_selects_witness :
    samplePopulation ≠ [] ∧ FullyEvaluated samplePopulation
      ∧ ∃ (offset total : ℚ), rouletteOffset samplePopulation = .ok offset
        ∧ rouletteTotal true samplePopulation offset = .ok total
        ∧ ∃ selected ∈ samplePopulation,
            rouletteWalk true samplePopulation offset total samplePopulation 0
              = .ok (some selected) := by
  refine ⟨by simp [samplePopulation], samplePopulation_fullyEvaluated, ?_⟩
  obtain ⟨offset, total, w, h1, h2, -, -, -, h3, -⟩ :=
    rouletteWalk_always_selects true samplePopulation (by simp [samplePopulation])
      samplePopulation_fullyEvaluated
  exact ⟨offset, total, h1, h2, h3 total (le_refl _)⟩

/-! ### What `evaluatePopulation` does to each individual -/

theorem forall₂_mem_right {R : Individual → Individual → Prop} :
    ∀ (l1 l2 : Population), List.Forall₂ R l1 l2 → ∀ b ∈ l2, ∃ a ∈ l1, R a b := by
  intro l1 l2 h
  induction h with
  | nil => exact fun _ hb => absurd hb (List.not_mem_nil _)
  | cons hab _ ih =>
    intro b hb
    rcases List.mem_cons.mp hb with rfl | hb
    · exact ⟨_, List.mem_cons_self _ _, hab⟩
    · obtain ⟨a, ha, hr⟩ := ih b hb
      exact ⟨a, List.mem_cons_of_mem _ ha, hr⟩

theorem forall₂_mem_left {R : Individual → Individual → Prop} :
    ∀ (l1 l2 : Population), List.Forall₂ R l1 l2 → ∀ a ∈ l1, ∃ b ∈ l2, R a b := by
  intro l1 l2 h
  induction h with
  | nil => exact fun _ ha => absurd ha (List.not_mem_nil _)
  | cons hab _ ih =>
    intro a ha
    rcases List.mem_cons.mp ha with rfl | ha
    · exact ⟨_, List.mem_cons_self _ _, hab⟩
    · obtain ⟨b, hb, hr⟩ := ih a ha
      exact ⟨b, List.mem_cons_of_mem _ hb, hr⟩

/-- The two passes of `evaluatePopulation` when it returns: the list after the first pass,
the best and worst raw fitness found by the second pass, and the percentage given to each
individual. -/
theorem evaluatePopulation_passes (ga evaluated : GeneticAlgorithm)
    (h : ga.evaluatePopulation = .ok evaluated) :
    ∃ middle : Population,
      evaluateLoop ga.fitnessFunction ga.config.minValue ga.config.maxValue ga.population
          = .ok middle
        ∧ evaluated = { ga with population := evaluated.population }
        ∧ ((middle = [] ∧ evaluated.population = [])
          ∨ ∃ first rest bw, middle = first :: rest
              ∧ bestWorstLoop ga.config.isMaximization middle (first.fitness, first.fitness)
                  = .ok bw
              ∧ percentageLoop ga.fitnessFunction bw.1 bw.2 middle
                  = .ok evaluated.population) := by
  unfold GeneticAlgorithm.evaluatePopulation at h
  split at h
  · cases h
  · rename_i ev hev
    refine ⟨ev, hev, ?_⟩
    split at h
    · cases h
      exact ⟨rfl, Or.inl ⟨rfl, rfl⟩⟩
    · rename_i first rest
      split at h
      · cases h
      · rename_i f0 hf0
        obtain ⟨hf0e, -⟩ := getFitness_ok_inv first f0 hf0
        subst hf0e
        split at h
        · cases h
        · rename_i bw hbw
          split at h
          · cases h
          · rename_i withPct hpct
            cases h
            exact ⟨rfl, Or.inr ⟨first, rest, bw, rfl, hbw, hpct⟩⟩

theorem evaluatePopulation_each (ga evaluated : GeneticAlgorithm)
    (h : ga.evaluatePopulation = .ok evaluated) :
    List.Forall₂ (fun a b => b.chromosome = a.chromosome ∧ b.isFitnessValid = true
        ∧ (a.isFitnessValid = true → b.fitness = a.fitness)
        ∧ (a.isFitnessValid = false →
            ∃ x, a.decodeToValue ga.config.minValue ga.config.maxValue = .ok x
              ∧ b.fitness = ga.fitnessFunction.evaluate x))
      ga.population evaluated.population := by
  obtain ⟨middle, h1, -, hcase⟩ := evaluatePopulation_passes ga evaluated h
  have hrel := evaluateLoop_ok_inv _ _ _ _ _ h1
  rcases hcase with ⟨hm, he⟩ | ⟨first, rest, bw, -, -, hpct⟩
  · rw [he]
    rw [hm] at hrel
    have hnil : ga.population = [] := List.forall₂_nil_right_iff.mp hrel
    rw [hnil]
    exact List.Forall₂.nil
  · have h2 := percentageLoop_ok_inv _ _ _ _ _ hpct
    refine forall₂_trans_imp ?_ _ _ _ hrel h2
    intro a b d hab hbd
    obtain ⟨hc, hv, hkeep, hnew⟩ := hab
    obtain ⟨hd, -⟩ := hbd
    subst hd
    refine ⟨hc, hv, fun hva => ?_, fun hia => ?_⟩
    · rw [hkeep hva]
      rfl
    · obtain ⟨x, hx, hfx⟩ := hnew hia
      exact ⟨x, hx, hfx⟩

theorem decodeToValue_ok_of_le (self : Individual) (minValue maxValue : ℚ)
    (h : self.chromosome.length ≤ 63) :
    ∃ x, self.decodeToValue minValue maxValue = .ok x := by
  by_cases h0 : self.chromosome.length = 0
  · have hnil : self.chromosome = [] := List.length_eq_zero.mp h0
    exact ⟨minValue, by simp [Individual.decodeToValue, hnil]⟩
  · exact decodeToValue_ok self minValue maxValue (by omega) h

theorem evaluateLoop_completes (ff : FitnessFunction) (minValue maxValue : ℚ) :
    ∀ population : Population,
      (∀ x ∈ population, x.isFitnessValid = false → x.chromosome.length ≤ 63) →
      ∃ evaluated, evaluateLoop ff minValue maxValue population = .ok evaluated := by
  intro population
  induction population with
  | nil => intro _; exact ⟨_, rfl⟩
  | cons a rest ih =>
    intro hlen
    obtain ⟨rest1, hrest⟩ := ih (fun x hx => hlen x (List.mem_cons_of_mem _ hx))
    by_cases hv : a.isFitnessValid = true
    · refine ⟨a :: rest1, ?_⟩
      simp only [evaluateLoop, hv, Bool.not_true, Bool.false_eq_true, if_false, hrest]
    · have hv' : a.isFitnessValid = false := by simpa using hv
      obtain ⟨x, hx⟩ := decodeToValue_ok_of_le a minValue maxValue
        (hlen a (List.mem_cons_self _ _) hv')
      refine ⟨a.setFitness (ff.evaluate x) :: rest1, ?_⟩
      simp only [evaluateLoop, hv', Bool.not_false, if_true,
        FitnessFunction.evaluateIndividual, hx, hrest]

theorem evaluatePopulation_completes (ga : GeneticAlgorithm)
    (hlen : ∀ x ∈ ga.population, x.isFitnessValid = false → x.chromosome.length ≤ 63) :
    ∃ evaluated, ga.evaluatePopulation = .ok evaluated := by
  obtain ⟨ev, hev⟩ := evaluateLoop_completes ga.fitnessFunction ga.config.minValue
    ga.config.maxValue ga.population hlen
  have hfe := evaluateLoop_fullyEvaluated _ _ _ _ _ hev
  cases ev with
  | nil => exact ⟨_, by simp only [GeneticAlgorithm.evaluatePopulation, hev]; rfl⟩
  | cons first rest =>
    have hf := getFitness_of_valid first (hfe first (List.mem_cons_self _ _))
    obtain ⟨bw, hbw⟩ := bestWorstLoop_ok ga.config.isMaximization (first :: rest) hfe
      (first.fitness, first.fitness)
    obtain ⟨wp, hwp⟩ := percentageLoop_ok ga.fitnessFunction bw.1 bw.2 (first :: rest) hfe
    exact ⟨_, by simp only [GeneticAlgorithm.evaluatePopulation, hev, hf, hbw, hwp]; rfl⟩

/-- C33: when `evaluatePopulation` returns, the population has the same number of
individuals in the same order; position by position the chromosome is unchanged and the
fitness is valid; an individual whose cache was invalid has the raw fitness
`evaluate (decodeToValue minValue maxValue)` of its chromosome, and one whose cache was
valid keeps its raw fitness, whatever the evaluator would give; nothing else of the engine
changes. It returns whenever every individual to evaluate has at most 63 bits. -/
theorem evaluatePopulation_fills_cache (ga : GeneticAlgorithm) :
    (∀ evaluated, ga.evaluatePopulation = .ok evaluated →
        evaluated.population.length = ga.population.length
          ∧ (∀ (i : Nat) (a : Individual), ga.population[i]? = some a →
              ∃ b, evaluated.population[i]? = some b
                ∧ b.getChromosome = a.getChromosome ∧ b.isFitnessValid = true
                ∧ (a.isFitnessValid = false →
                    ∃ x, a.decodeToValue ga.config.minValue ga.config.maxValue = .ok x
                      ∧ b.getFitness = .ok (ga.fitnessFunction.evaluate x))
                ∧ (a.isFitnessValid = true → b.getFitness = .ok a.fitness))
          ∧ evaluated.config = ga.config ∧ evaluated.fitnessFunction = ga.fitnessFunction
          ∧ evaluated.rng = ga.rng ∧ evaluated.statistics = ga.statistics
          ∧ evaluated.currentGeneration = ga.currentGeneration)
      ∧ ((∀ a ∈ ga.population, a.isFitnessValid = false → a.chromosome.length ≤ 63) →
          ∃ evaluated, ga.evaluatePopulation = .ok evaluated) := by
  refine ⟨?_, evaluatePopulation_completes ga⟩
  intro evaluated h
  have hrel := evaluatePopulation_each ga evaluated h
  obtain ⟨⟨c1, c2, c3, c4⟩, c5, -⟩ := evaluatePopulation_ok_inv ga evaluated h
  refine ⟨hrel.length_eq.symm, ?_, c1, c2, c5, c3, c4⟩
  intro i a hia
  obtain ⟨b, hb, hc, hv, hkeep, hnew⟩ := forall₂_getElem? _ _ hrel i a hia
  refine ⟨b, hb, hc, hv, fun hinv => ?_, fun hval => ?_⟩
  · obtain ⟨x, hx, hfx⟩ := hnew hinv
    exact ⟨x, hx, by rw [getFitness_of_valid b hv, hfx]⟩
  · rw [getFitness_of_valid b hv, hkeep hval]

/-- C33 on sample data: of two individuals with the chromosome `0011` on `[0, 15]` under
`f(x) = x * x`, the one with an invalid cache gets the raw fitness 9 and the one with the
valid cached fitness 5 keeps it. -/
theorem evaluatePopulation_fills_cache_witness :
    ∃ evaluated,
      GeneticAlgorithm.evaluatePopulation
          { sampleEngine with
            population := [⟨[false, false, true, true], 0, 0, false⟩,
              ⟨[false, false, true, true], 5, 0, true⟩] } = .ok evaluated
        ∧ evaluated.population.length = 2
        ∧ ∃ b d, evaluated.population[0]? = some b ∧ evaluated.population[1]? = some d
            ∧ b.getChromosome = [false, false, true, true]
            ∧ d.getChromosome = [false, false, true, true]
            ∧ b.getFitness = .ok 9 ∧ d.getFitness = .ok 5 := by
  obtain ⟨hinv, hok⟩ := evaluatePopulation_fills_cache
    { sampleEngine with
      population := [⟨[false, false, true, true], 0, 0, false⟩,
        ⟨[false, false, true, true], 5, 0, true⟩] }
  obtain ⟨evaluated, hev⟩ := hok (by
    intro a ha _
    simp only [List.mem_cons, List.mem_singleton, List.not_mem_nil, or_false] at ha
    rcases ha with rfl | rfl <;> simp)
  obtain ⟨hlen, hpos, -⟩ := hinv evaluated hev
  obtain ⟨b, hb, hbc, -, hbnew, -⟩ := hpos 0 _ rfl
  obtain ⟨d, hd, hdc, -, -, hdkeep⟩ := hpos 1 _ rfl
  obtain ⟨x, hx, hfx⟩ := hbnew rfl
  have hx9 : x = 3 := by
    have : Individual.decodeToValue ⟨[false, false, true, true], 0, 0, false⟩
        sampleEngine.config.minValue sampleEngine.config.maxValue = .ok 3 := by
      with_unfolding_all rfl
    have hx' : Individual.decodeToValue ⟨[false, false, true, true], 0, 0, false⟩
        sampleEngine.config.minValue sampleEngine.config.maxValue = .ok x := hx
    rw [this] at hx'
    cases hx'
    rfl
  subst hx9
  refine ⟨evaluated, hev, hlen, b, d, hb, hd, hbc, hdc, ?_, hdkeep rfl⟩
  rw [hfx]
  show Except.ok (sampleFitnessFunction.evaluate 3) = Except.ok 9
  norm_num [sampleFitnessFunction]

/-! ### The percentages of the best and of the worst individual -/

theorem bestWorstLoop_spec (isMax : Bool) :
    ∀ (l : Population) (acc bw : ℚ × ℚ), bestWorstLoop isMax l acc = .ok bw →
      (bw.1 = acc.1 ∨ ∃ a ∈ l, a.fitness = bw.1)
        ∧ ¬ betterFitness isMax acc.1 bw.1
        ∧ (∀ a ∈ l, ¬ betterFitness isMax a.fitness bw.1)
        ∧ (bw.2 = acc.2 ∨ ∃ a ∈ l, a.fitness = bw.2)
        ∧ ¬ betterFitness isMax bw.2 acc.2
        ∧ (∀ a ∈ l, ¬ betterFitness isMax bw.2 a.fitness) := by
  intro l
  induction l with
  | nil =>
    intro acc bw h
    simp only [bestWorstLoop] at h
    cases h
    exact ⟨Or.inl rfl, betterFitness_irrefl _ _, fun _ hx => absurd hx (List.not_mem_nil _),
      Or.inl rfl, betterFitness_irrefl _ _, fun _ hx => absurd hx (List.not_mem_nil _)⟩
  | cons a rest ih =>
    intro acc bw h
    simp only [bestWorstLoop] at h
    split at h
    · cases h
    · rename_i f hf
      obtain ⟨hfe, -⟩ := getFitness_ok_inv a f hf
      subst hfe
      cases isMax with
      | true =>
        simp only [if_true] at h
        obtain ⟨h1, h2, h3, h4, h5, h6⟩ := ih _ bw h
        simp only [betterFitness, if_true, not_lt, gt_iff_lt] at h2 h3 h5 h6 ⊢
        have m1 : acc.1 ≤ max acc.1 a.fitness := le_max_left _ _
        have m2 : a.fitness ≤ max acc.1 a.fitness := le_max_right _ _
        have m3 : min acc.2 a.fitness ≤ acc.2 := min_le_left _ _
        have m4 : min acc.2 a.fitness ≤ a.fitness := min_le_right _ _
        refine ⟨?_, le_trans m1 h2, ?_, ?_, le_trans h5 m3, ?_⟩
        · rcases h1 with h1 | ⟨x, hx, hxe⟩
          · rcases max_choice acc.1 a.fitness with hc | hc
            · exact Or.inl (h1.trans hc)
            · exact Or.inr ⟨a, List.mem_cons_self _ _, (h1.trans hc).symm⟩
          · exact Or.inr ⟨x, List.mem_cons_of_mem _ hx, hxe⟩
        · intro x hx
          rcases List.mem_cons.mp hx with rfl | hx
          · exact le_trans m2 h2
          · exact h3 x hx
        · rcases h4 with h4 | ⟨x, hx, hxe⟩
          · rcases min_choice acc.2 a.fitness with hc | hc
            · exact Or.inl (h4.trans hc)
            · exact Or.inr ⟨a, List.mem_cons_self _ _, (h4.trans hc).symm⟩
          · exact Or.inr ⟨x, List.mem_cons_of_mem _ hx, hxe⟩
        · intro x hx
          rcases List.mem_cons.mp hx with rfl | hx
          · exact le_trans h5 m4
          · exact h6 x hx
      | false =>
        simp only [Bool.false_eq_true, if_false] at h
        obtain ⟨h1, h2, h3, h4, h5, h6⟩ := ih _ bw h
        simp only [betterFitness, Bool.false_eq_true, if_false, not_lt] at h2 h3 h5 h6 ⊢
        have m1 : acc.2 ≤ max acc.2 a.fitness := le_max_left _ _
        have m2 : a.fitness ≤ max acc.2 a.fitness := le_max_right _ _
        have m3 : min acc.1 a.fitness ≤ acc.1 := min_le_left _ _
        have m4 : min acc.1 a.fitness ≤ a.fitness := min_le_right _ _
        refine ⟨?_, le_trans h2 m3, ?_, ?_, le_trans m1 h5, ?_⟩
        · rcases h1 with h1 | ⟨x, hx, hxe⟩
          · rcases min_choice acc.1 a.fitness with hc | hc
            · exact Or.inl (h1.trans hc)
            · exact Or.inr ⟨a, List.mem_cons_self _ _, (h1.trans hc).symm⟩
          · exact Or.inr ⟨x, List.mem_cons_of_mem _ hx, hxe⟩
        · intro x hx
          rcases List.mem_cons.mp hx with rfl | hx
          · exact le_trans h2 m4
          · exact h3 x hx
        · rcases h4 with h4 | ⟨x, hx, hxe⟩
          · rcases max_choice acc.2 a.fitness with hc | hc
            · exact Or.inl (h4.trans hc)
            · exact Or.inr ⟨a, List.mem_cons_self _ _, (h4.trans hc).symm⟩
          · exact Or.inr ⟨x, List.mem_cons_of_mem _ hx, hxe⟩
        · intro x hx
          rcases List.mem_cons.mp hx with rfl | hx
          · exact le_trans m2 h5
          · exact h6 x hx

theorem betterFitness_antisymm (isMax : Bool) (a b : ℚ) (h1 : ¬ betterFitness isMax a b)
    (h2 : ¬ betterFitness isMax b a) : a = b := by
  cases isMax <;> simp only [betterFitness, Bool.false_eq_true, if_false, if_true, not_lt,
    gt_iff_lt] at h1 h2 <;> exact le_antisymm (by assumption) (by assumption)

/-- The percentages that `evaluatePopulation` stores: with `best` and `worst` the extremes
of the raw fitness in the direction of the configuration, every individual gets the clamped
result of `calculateFitnessPercentage` on its raw fitness, `best` and `worst`. -/
theorem evaluatePopulation_percentages (ga evaluated : GeneticAlgorithm)
    (h : ga.evaluatePopulation = .ok evaluated) (hne : evaluated.population ≠ []) :
    ∃ best worst : ℚ,
      (∃ a ∈ evaluated.population, a.fitness = best)
        ∧ (∀ a ∈ evaluated.population, ¬ betterFitness ga.config.isMaximization a.fitness best)
        ∧ (∃ a ∈ evaluated.population, a.fitness = worst)
        ∧ (∀ a ∈ evaluated.population,
            ¬ betterFitness ga.config.isMaximization worst a.fitness)
        ∧ ∀ a ∈ evaluated.population,
            a.fitnessPercentage = max 0 (min 100
              (ga.fitnessFunction.calculateFitnessPercentage a.fitness best worst)) := by
  obtain ⟨middle, -, -, hcase⟩ := evaluatePopulation_passes ga evaluated h
  rcases hcase with ⟨-, he⟩ | ⟨first, rest, bw, hm, hbw, hpct⟩
  · exact absurd he hne
  · have hrel := percentageLoop_ok_inv _ _ _ _ _ hpct
    obtain ⟨h1, -, h3, h4, -, h6⟩ := bestWorstLoop_spec _ _ _ _ hbw
    have hfirst : first ∈ middle := by rw [hm]; exact List.mem_cons_self _ _
    have hback : ∀ x ∈ evaluated.population, ∃ a ∈ middle, x.fitness = a.fitness
        ∧ x.fitnessPercentage = max 0 (min 100
            (ga.fitnessFunction.calculateFitnessPercentage a.fitness bw.1 bw.2)) := by
      intro x hx
      obtain ⟨a, ha, hxa, -⟩ := forall₂_mem_right _ _ hrel x hx
      exact ⟨a, ha, by rw [hxa]; rfl, by rw [hxa]; rfl⟩
    have hforth : ∀ a ∈ middle, ∃ x ∈ evaluated.population, x.fitness = a.fitness := by
      intro a ha
      obtain ⟨x, hx, hxa, -⟩ := forall₂_mem_left _ _ hrel a ha
      exact ⟨x, hx, by rw [hxa]; rfl⟩
    refine ⟨bw.1, bw.2, ?_, ?_, ?_, ?_, ?_⟩
    · rcases h1 with h1 | ⟨a, ha, hae⟩
      · obtain ⟨x, hx, hxe⟩ := hforth first hfirst
        exact ⟨x, hx, by rw [hxe, h1]⟩
      · obtain ⟨x, hx, hxe⟩ := hforth a ha
        exact ⟨x, hx, by rw [hxe, hae]⟩
    · intro x hx
      obtain ⟨a, ha, hxa, -⟩ := hback x hx
      rw [hxa]
      exact h3 a ha
    · rcases h4 with h4 | ⟨a, ha, hae⟩
      · obtain ⟨x, hx, hxe⟩ := hforth first hfirst
        exact ⟨x, hx, by rw [hxe, h4]⟩
      · obtain ⟨x, hx, hxe⟩ := hforth a ha
        exact ⟨x, hx, by rw [hxe, hae]⟩
    · intro x hx
      obtain ⟨a, ha, hxa, -⟩ := hback x hx
      rw [hxa]
      exact h6 a ha
    · intro x hx
      obtain ⟨a, -, hxa, hp⟩ := hback x hx
      rw [hp, hxa]

/-- C31 fails on the code when the direction of the configuration is not the one of the
evaluator, without a known optimum. Under a configuration that minimizes and an evaluator
that maximizes, `evaluatePopulation` gives the percentage 0 to every individual of the sample
population (raw fitness 16, 9, 4, 1), the best one included, which has the smallest raw
fitness 1. Under a configuration that maximizes and an evaluator that minimizes it also gives
0 to every individual, the best one included, which has the largest raw fitness 16. -/
theorem evaluatePopulation_direction_mismatch :
    (minimizingEngine.config.isMaximization = false
      ∧ minimizingEngine.fitnessFunction.isMaximization = true
      ∧ minimizingEngine.fitnessFunction.optimalValue = none
      ∧ Except.map (fun engine => engine.population) minimizingEngine.evaluatePopulation
        = .ok [⟨[false, true, false, false], 16, 0, true⟩,
            ⟨[false, false, true, true], 9, 0, true⟩,
            ⟨[false, false, true, false], 4, 0, true⟩,
            ⟨[false, false, false, true], 1, 0, true⟩])
    ∧ (mixedEngine.config.isMaximization = true
      ∧ mixedEngine.fitnessFunction.isMaximization = false
      ∧ mixedEngine.fitnessFunction.optimalValue = none
      ∧ Except.map (fun engine => engine.population) mixedEngine.evaluatePopulation
        = .ok [⟨[false, true, false, false], 16, 0, true⟩,
            ⟨[false, false, true, true], 9, 0, true⟩,
            ⟨[false, false, true, false], 4, 0, true⟩,
            ⟨[false, false, false, true], 1, 0, true⟩]) := by
  refine ⟨⟨rfl, rfl, rfl, ?_⟩, ⟨rfl, rfl, rfl, ?_⟩⟩
  · with_unfolding_all rfl
  · with_unfolding_all rfl

/-- The percentages of the extremes when the two directions agree: for an evaluator without
a known optimum whose direction is the one of the configuration, after `evaluatePopulation` on a population whose best and worst raw fitness
differ by at least `1e-10`, every individual holding the best raw fitness in the configured
direction has the percentage 100 and every individual holding the worst has 0. -/
theorem evaluatePopulation_extreme_percentages (ga evaluated : GeneticAlgorithm)
    (h : ga.evaluatePopulation = .ok evaluated)
    (hopt : ga.fitnessFunction.optimalValue = none)
    (hdir : ga.fitnessFunction.isMaximization = ga.config.isMaximization)
    (best worst : Individual) (hb : best ∈ evaluated.population)
    (hw : worst ∈ evaluated.population)
    (hbest : ∀ x ∈ evaluated.population,
      ¬ betterFitness ga.config.isMaximization x.fitness best.fitness)
    (hworst : ∀ x ∈ evaluated.population,
      ¬ betterFitness ga.config.isMaximization worst.fitness x.fitness)
    (hrange : 1 / 10 ^ 10 ≤ |best.fitness - worst.fitness|) :
    best.getFitnessPercentage = 100 ∧ worst.getFitnessPercentage = 0 := by
  obtain ⟨b, w, ⟨xb, hxb, hxbe⟩, hball, ⟨xw, hxw, hxwe⟩, hwall, hpct⟩ :=
    evaluatePopulation_percentages ga evaluated h (List.ne_nil_of_mem hb)
  have e1 : best.fitness = b := by
    refine betterFitness_antisymm ga.config.isMaximization _ _ (hball best hb) ?_
    rw [← hxbe]
    exact hbest xb hxb
  have e2 : worst.fitness = w := by
    refine betterFitness_antisymm ga.config.isMaximization _ _ ?_ (hwall worst hw)
    rw [← hxwe]
    exact hworst xw hxw
  have hpb := hpct best hb
  have hpw := hpct worst hw
  rw [calculateFitnessPercentage_none _ _ _ _ hopt, e1] at hpb
  rw [calculateFitnessPercentage_none _ _ _ _ hopt, e2] at hpw
  rw [e1, e2] at hrange
  have hnot : ¬ |b - w| < 1 / 10 ^ 10 := not_lt.mpr hrange
  have hpos : 0 < |b - w| := lt_of_lt_of_le (by norm_num) hrange
  have hord := hball worst hw
  rw [e2] at hord
  obtain ⟨-, emax, emin⟩ := empiricalPercentage_eq ga.fitnessFunction b b w
  obtain ⟨-, wmax, wmin⟩ := empiricalPercentage_eq ga.fitnessFunction w b w
  show best.fitnessPercentage = 100 ∧ worst.fitnessPercentage = 0
  cases hmax : ga.config.isMaximization with
  | true =>
    rw [hmax] at hdir hord
    simp only [betterFitness, if_true, not_lt, gt_iff_lt] at hord
    have habs : |b - w| = b - w := abs_of_nonneg (by linarith)
    rw [emax hnot hdir, habs] at hpb
    rw [wmax hnot hdir, habs] at hpw
    rw [habs] at hpos
    have q1 : 100 * (b - w) / (b - w) = 100 := by field_simp
    have q2 : 100 * (w - w) / (b - w) = 0 := by simp
    rw [q1] at hpb
    rw [q2] at hpw
    constructor
    · rw [hpb]; norm_num
    · rw [hpw]; norm_num
  | false =>
    rw [hmax] at hdir hord
    simp only [betterFitness, Bool.false_eq_true, if_false, not_lt] at hord
    have habs : |b - w| = w - b := by rw [abs_sub_comm]; exact abs_of_nonneg (by linarith)
    rw [emin hnot hdir, habs] at hpb
    rw [wmin hnot hdir, habs] at hpw
    rw [habs] at hpos
    have q1 : 100 * (w - b) / (w - b) = 100 := by field_simp
    have q2 : 100 * (w - w) / (w - b) = 0 := by simp
    rw [q1] at hpb
    rw [q2] at hpw
    constructor
    · rw [hpb]; norm_num
    · rw [hpw]; norm_num

theorem sampleEngine_evaluatePopulation :
    sampleEngine.evaluatePopulation
      = .ok { sampleEngine with
              population := [⟨[false, true, false, false], 16, 100, true⟩,
                ⟨[false, false, true, true], 9, 160 / 3, true⟩,
                ⟨[false, false, true, false], 4, 20, true⟩,
                ⟨[false, false, false, true], 1, 0, true⟩] } := by
  with_unfolding_all rfl

/-- The sample engine, whose evaluator and configuration both maximize: after
`evaluatePopulation` the individual of raw fitness 16 has the percentage 100 and the one of
raw fitness 1 has 0. -/
theorem evaluatePopulation_extreme_percentages_witness :
    ∃ (evaluated : GeneticAlgorithm) (best worst : Individual),
      sampleEngine.evaluatePopulation = .ok evaluated
        ∧ evaluated.population[0]? = some best ∧ evaluated.population[3]? = some worst
        ∧ best.fitness = 16 ∧ worst.fitness = 1
        ∧ best.getFitnessPercentage = 100 ∧ worst.getFitnessPercentage = 0 := by
  refine ⟨_, ⟨[false, true, false, false], 16, 100, true⟩,
    ⟨[false, false, false, true], 1, 0, true⟩, sampleEngine_evaluatePopulation, rfl, rfl,
    rfl, rfl, ?_⟩
  refine evaluatePopulation_extreme_percentages sampleEngine _
    sampleEngine_evaluatePopulation rfl rfl _ _ ?_ ?_ ?_ ?_ ?_
  · simp
  · simp
  · intro x hx
    simp only [List.mem_cons, List.mem_singleton, List.not_mem_nil, or_false] at hx
    rcases hx with rfl | rfl | rfl | rfl <;>
      simp only [betterFitness, sampleEngine, sampleConfig, if_true] <;> norm_num
  · intro x hx
    simp only [List.mem_cons, List.mem_singleton, List.not_mem_nil, or_false] at hx
    rcases hx with rfl | rfl | rfl | rfl <;>
      simp only [betterFitness, sampleEngine, sampleConfig, if_true] <;> norm_num
  · norm_num

/-! ### The fields of the statistics -/

theorem statsLoop_cons_totals (config : GAConfig) (a : Individual) (rest : Population)
    (acc acc' : StatsAcc) (h : statsLoop config (a :: rest) acc = .ok acc') :
    ∃ acc1, statsLoop config rest acc1 = .ok acc'
      ∧ acc1.totalFitness = acc.totalFitness + a.fitness
      ∧ (acc1.worstFitness = acc.worstFitness ∨ acc1.worstFitness = a.fitness)
      ∧ ¬ betterFitness config.isMaximization acc1.worstFitness acc.worstFitness
      ∧ ¬ betterFitness config.isMaximization acc1.worstFitness a.fitness := by
  simp only [statsLoop] at h
  split at h
  · cases h
  · rename_i f hf
    obtain ⟨hfe, -⟩ := getFitness_ok_inv a f hf
    subst hfe
    have key : ∀ w : ℚ,
        (config.isMaximization = true →
          w = (if a.fitness < acc.worstFitness then a.fitness else acc.worstFitness)) →
        (config.isMaximization = false →
          w = (if a.fitness > acc.worstFitness then a.fitness else acc.worstFitness)) →
        (w = acc.worstFitness ∨ w = a.fitness)
          ∧ ¬ betterFitness config.isMaximization w acc.worstFitness
          ∧ ¬ betterFitness config.isMaximization w a.fitness := by
      intro w h1 h2
      cases hmax : config.isMaximization with
      | true =>
        have hw := h1 hmax
        simp only [betterFitness, if_true, not_lt, gt_iff_lt]
        split at hw
        · rename_i hlt
          exact ⟨Or.inr hw, by rw [hw]; exact le_of_lt hlt, by rw [hw]⟩
        · rename_i hge
          exact ⟨Or.inl hw, by rw [hw], by rw [hw]; exact not_lt.mp hge⟩
      | false =>
        have hw := h2 hmax
        simp only [betterFitness, Bool.false_eq_true, if_false, not_lt]
        split at hw
        · rename_i hgt
          exact ⟨Or.inr hw, by rw [hw]; exact le_of_lt hgt, by rw [hw]⟩
        · rename_i hle
          exact ⟨Or.inl hw, by rw [hw], by rw [hw]; exact not_lt.mp hle⟩
    cases hmax : config.isMaximization with
    | true =>
      simp only [hmax, if_true] at h
      split at h
      · split at h
        · cases h
        · exact ⟨_, h, rfl, hmax ▸ key _ (fun _ => rfl) (fun hc => by rw [hmax] at hc; cases hc)⟩
      · exact ⟨_, h, rfl, hmax ▸ key _ (fun _ => rfl) (fun hc => by rw [hmax] at hc; cases hc)⟩
    | false =>
      simp only [hmax, Bool.false_eq_true, if_false] at h
      split at h
      · split at h
        · cases h
        · exact ⟨_, h, rfl, hmax ▸ key _ (fun hc => by rw [hmax] at hc; cases hc) (fun _ => rfl)⟩
      · exact ⟨_, h, rfl, hmax ▸ key _ (fun hc => by rw [hmax] at hc; cases hc) (fun _ => rfl)⟩

theorem statsLoop_totals (config : GAConfig) :
    ∀ (population : Population) (acc acc' : StatsAcc),
      statsLoop config population acc = .ok acc' →
        acc'.totalFitness = acc.totalFitness + (population.map Individual.fitness).sum
        ∧ (acc'.worstFitness = acc.worstFitness
            ∨ ∃ a ∈ population, a.fitness = acc'.worstFitness)
        ∧ ¬ betterFitness config.isMaximization acc'.worstFitness acc.worstFitness
        ∧ ∀ b ∈ population,
            ¬ betterFitness config.isMaximization acc'.worstFitness b.fitness := by
  intro population
  induction population with
  | nil =>
    intro acc acc' h
    simp only [statsLoop] at h
    cases h
    exact ⟨by simp, Or.inl rfl, betterFitness_irrefl _ _,
      fun _ hx => absurd hx (List.not_mem_nil _)⟩
  | cons a rest ih =>
    intro acc acc' h
    obtain ⟨acc1, h1, htot, hstep, hnb, hna⟩ := statsLoop_cons_totals config a rest acc acc' h
    obtain ⟨htot1, hatt, hnb1, hall⟩ := ih acc1 acc' h1
    refine ⟨?_, ?_, not_betterFitness_trans _ _ _ _ hnb1 hnb, ?_⟩
    · rw [htot1, htot, List.map_cons, List.sum_cons]
      ring
    · rcases hatt with heq | ⟨b, hb, hbe⟩
      · rcases hstep with hs | hs
        · exact Or.inl (heq.trans hs)
        · exact Or.inr ⟨a, List.mem_cons_self _ _, (heq.trans hs).symm⟩
      · exact Or.inr ⟨b, List.mem_cons_of_mem _ hb, hbe⟩
    · intro b hb
      rcases List.mem_cons.mp hb with rfl | hb
      · exact not_betterFitness_trans _ _ _ _ hnb1 hna
      · exact hall b hb

theorem list_sum_bounds (f : Individual → ℚ) (lo hi : ℚ) :
    ∀ l : Population, (∀ b ∈ l, lo ≤ f b ∧ f b ≤ hi) →
      (l.length : ℚ) * lo ≤ (l.map f).sum ∧ (l.map f).sum ≤ (l.length : ℚ) * hi := by
  intro l
  induction l with
  | nil => intro _; simp
  | cons a rest ih =>
    intro h
    obtain ⟨h1, h2⟩ := ih (fun b hb => h b (List.mem_cons_of_mem _ hb))
    obtain ⟨h3, h4⟩ := h a (List.mem_cons_self _ _)
    simp only [List.map_cons, List.sum_cons, List.length_cons]
    push_cast
    constructor <;> linarith

/-- The fields of the statistics other than `bestValue` and the percentages. -/
theorem calculateGenerationStats_fields (ga : GeneticAlgorithm) (stats : GenerationStats)
    (h : ga.calculateGenerationStats = .ok stats) :
    (∃ a ∈ ga.population, a.fitness = stats.worstFitness)
      ∧ (∀ b ∈ ga.population,
          ¬ betterFitness ga.config.isMaximization stats.worstFitness b.fitness)
      ∧ stats.averageFitness
        = (ga.population.map Individual.fitness).sum / (ga.population.length : ℚ) := by
  unfold GeneticAlgorithm.calculateGenerationStats at h
  split at h
  · cases h
  · rename_i first rest hpop
    split at h
    · cases h
    · rename_i f0 hf0
      obtain ⟨hf0e, -⟩ := getFitness_ok_inv first f0 hf0
      split at h
      · cases h
      · rename_i acc hacc
        obtain ⟨htot, hatt, -, hall⟩ := statsLoop_totals ga.config _ _ _ hacc
        split at h
        · cases h
        · cases h
          rw [hpop]
          refine ⟨?_, hall, ?_⟩
          · rcases hatt with heq | hex
            · exact ⟨first, List.mem_cons_self _ _, by rw [heq, hf0e]⟩
            · exact hex
          · show acc.totalFitness / _ = _
            rw [htot, zero_add]

set_option maxRecDepth 100000 in
theorem tenthEngine_calculateGenerationStatsDouble :
    tenthEngine.calculateGenerationStatsDouble
      = .ok { generation := 0,
              bestFitness := 3602879701896397 / 36028797018963968,
              averageFitness := 7205759403792795 / 72057594037927936,
              worstFitness := 3602879701896397 / 36028797018963968,
              bestValue := none, convergence := 0,
              bestFitnessPercentage := 50, averageFitnessPercentage := 50 } := by
  with_unfolding_all rfl

/-- C34 as stated fails in `double` arithmetic: for three individuals of raw fitness `0.1`
the total `0.1 + 0.1 + 0.1` rounds to `0.30000000000000004` and the average to
`0.10000000000000002`, above `bestFitness = worstFitness = 0.1`, and different from the sum
of the raw fitness divided by the population size. -/
theorem calculateGenerationStatsDouble_average_outside :
    (tenthEngine.population ≠ [] ∧ FullyEvaluated tenthEngine.population)
    ∧ ∃ stats, tenthEngine.calculateGenerationStatsDouble = .ok stats
        ∧ stats.bestFitness = roundDouble (1 / 10)
        ∧ stats.worstFitness = roundDouble (1 / 10)
        ∧ max stats.worstFitness stats.bestFitness < stats.averageFitness
        ∧ stats.averageFitness
          ≠ (tenthEngine.population.map Individual.fitness).sum
              / (tenthEngine.population.length : ℚ) := by
  have hev : FullyEvaluated tenthEngine.population := by
    intro individual hmem
    simp only [tenthEngine, List.mem_cons, List.mem_singleton, List.not_mem_nil,
      or_false] at hmem
    rcases hmem with rfl | rfl | rfl <;> rfl
  refine ⟨⟨List.cons_ne_nil _ _, hev⟩, _, tenthEngine_calculateGenerationStatsDouble, ?_, ?_,
    ?_, ?_⟩
  · rw [roundDouble_tenth]
  · rw [roundDouble_tenth]
  · show max (3602879701896397 / 36028797018963968 : ℚ) (3602879701896397 / 36028797018963968)
      < 7205759403792795 / 72057594037927936
    rw [max_self]
    norm_num
  · show (7205759403792795 / 72057594037927936 : ℚ)
      ≠ ([roundDouble (1 / 10), roundDouble (1 / 10), roundDouble (1 / 10)] : List ℚ).sum
          / ((3 : Nat) : ℚ)
    rw [roundDouble_tenth]
    norm_num

/-- C34 (amended): in exact arithmetic, when `calculateGenerationStats` returns,
`bestFitness` is the largest raw fitness
of the population for a maximization configuration (the smallest for minimization) and
`worstFitness` the opposite extreme, both attained by an individual; `averageFitness` is the
sum of the raw fitness divided by the population size; `convergence` is the result of
`calculatePopulationDiversity`; and `averageFitness` lies between `worstFitness` and
`bestFitness`. It returns for every non-empty fully evaluated population whose chromosomes
have one length between 1 and 63. -/
theorem calculateGenerationStats_extremes_average (ga : GeneticAlgorithm) :
    (∀ stats, ga.calculateGenerationStats = .ok stats →
        (∃ a ∈ ga.population, a.fitness = stats.bestFitness)
          ∧ (∃ a ∈ ga.population, a.fitness = stats.worstFitness)
          ∧ (ga.config.isMaximization = true → ∀ b ∈ ga.population,
              stats.worstFitness ≤ b.fitness ∧ b.fitness ≤ stats.bestFitness)
          ∧ (ga.config.isMaximization = false → ∀ b ∈ ga.population,
              stats.bestFitness ≤ b.fitness ∧ b.fitness ≤ stats.worstFitness)
          ∧ stats.averageFitness
            = (ga.population.map Individual.fitness).sum / (ga.population.length : ℚ)
          ∧ ga.calculatePopulationDiversity = .ok stats.convergence
          ∧ min stats.worstFitness stats.bestFitness ≤ stats.averageFitness
          ∧ stats.averageFitness ≤ max stats.worstFitness stats.bestFitness)
      ∧ (∀ L : Nat, ga.population ≠ [] → FullyEvaluated ga.population →
          (∀ x ∈ ga.population, x.chromosome.length = L) → 1 ≤ L → L ≤ 63 →
          ∃ stats, ga.calculateGenerationStats = .ok stats) := by
  refine ⟨?_, fun L hne hev hlen h1 h2 => calculateGenerationStats_ok ga L hne hev hlen h1 h2⟩
  intro stats h
  obtain ⟨hne, -, hbatt, hball, -⟩ := calculateGenerationStats_ok_inv ga stats h
  obtain ⟨hwatt, hwall, havg⟩ := calculateGenerationStats_fields ga stats h
  obtain ⟨hdiv, -⟩ := calculateGenerationStats_convergence ga stats h
  have hlenpos : (0 : ℚ) < (ga.population.length : ℚ) := by
    have := List.length_pos.mpr hne
    exact_mod_cast this
  have hmaxcase : ga.config.isMaximization = true → ∀ b ∈ ga.population,
      stats.worstFitness ≤ b.fitness ∧ b.fitness ≤ stats.bestFitness := by
    intro hmax b hb
    have h1 := hball b hb
    have h2 := hwall b hb
    rw [hmax] at h1 h2
    simp only [betterFitness, if_true, not_lt, gt_iff_lt] at h1 h2
    exact ⟨h2, h1⟩
  have hmincase : ga.config.isMaximization = false → ∀ b ∈ ga.population,
      stats.bestFitness ≤ b.fitness ∧ b.fitness ≤ stats.worstFitness := by
    intro hmin b hb
    have h1 := hball b hb
    have h2 := hwall b hb
    rw [hmin] at h1 h2
    simp only [betterFitness, Bool.false_eq_true, if_false, not_lt] at h1 h2
    exact ⟨h1, h2⟩
  have hbetween : ∀ b ∈ ga.population,
      min stats.worstFitness stats.bestFitness ≤ b.fitness
        ∧ b.fitness ≤ max stats.worstFitness stats.bestFitness := by
    intro b hb
    cases hmax : ga.config.isMaximization with
    | true =>
      obtain ⟨h1, h2⟩ := hmaxcase hmax b hb
      exact ⟨le_trans (min_le_left _ _) h1, le_trans h2 (le_max_right _ _)⟩
    | false =>
      obtain ⟨h1, h2⟩ := hmincase hmax b hb
      exact ⟨le_trans (min_le_right _ _) h1, le_trans h2 (le_max_left _ _)⟩
  obtain ⟨s1, s2⟩ := list_sum_bounds Individual.fitness _ _ ga.population hbetween
  refine ⟨hbatt, hwatt, hmaxcase, hmincase, havg, hdiv, ?_, ?_⟩
  · rw [havg, le_div_iff₀ hlenpos]
    linarith
  · rw [havg, div_le_iff₀ hlenpos]
    linarith

/-- Witness of C34 (amended), the sample engine: the statistics are best 16, worst 1,
average 15/2 and convergence 11/24. -/
theorem calculateGenerationStats_extremes_average_witness :
    ∃ stats, sampleEngine.calculateGenerationStats = .ok stats
      ∧ stats.bestFitness = 16 ∧ stats.worstFitness = 1
      ∧ stats.averageFitness
        = (sampleEngine.population.map Individual.fitness).sum
            / (sampleEngine.population.length : ℚ)
      ∧ sampleEngine.calculatePopulationDiversity = .ok stats.convergence
      ∧ min stats.worstFitness stats.bestFitness ≤ stats.averageFitness
      ∧ stats.averageFitness ≤ max stats.worstFitness stats.bestFitness := by
  obtain ⟨hinv, hok⟩ := calculateGenerationStats_extremes_average sampleEngine
  have hstats : sampleEngine.calculateGenerationStats
      = .ok { generation := 0, bestFitness := 16, averageFitness := 15 / 2,
              worstFitness := 1, bestValue := none, convergence := 11 / 24,
              bestFitnessPercentage := 100, averageFitnessPercentage := 85 / 2 } := by
    with_unfolding_all rfl
  obtain ⟨-, -, -, -, h5, h6, h7, h8⟩ := hinv _ hstats
  exact ⟨_, hstats, rfl, rfl, h5, h6, h7, h8⟩

/-! ### The best and the worst individual -/

theorem betterFitness_of_better_of_not (isMax : Bool) (r b a : ℚ)
    (h1 : betterFitness isMax r b) (h2 : ¬ betterFitness isMax a b) :
    betterFitness isMax r a := by
  cases isMax <;> simp only [betterFitness, Bool.false_eq_true, if_false, if_true, not_lt,
    gt_iff_lt] at h1 h2 ⊢ <;> linarith

theorem betterFitness_not (isMax : Bool) (a b : ℚ) :
    betterFitness (!isMax) a b ↔ betterFitness isMax b a := by
  cases isMax <;> simp [betterFitness]

/-- The loop of `getBestIndividual`: the result is the starting individual when no
individual of the list is strictly better, otherwise it is the first individual of the list
that no individual of the list is strictly better than. -/
theorem bestLoop_spec (isMax : Bool) :
    ∀ (l : Population) (best r : Individual), bestLoop isMax l best = .ok r →
      (r = best ∧ ∀ b ∈ l, ¬ betterFitness isMax b.fitness best.fitness)
        ∨ ∃ pre post, l = pre ++ r :: post
            ∧ (∀ b ∈ pre, betterFitness isMax r.fitness b.fitness)
            ∧ betterFitness isMax r.fitness best.fitness
            ∧ ∀ b ∈ post, ¬ betterFitness isMax b.fitness r.fitness := by
  intro l
  induction l with
  | nil =>
    intro best r h
    simp only [bestLoop] at h
    cases h
    exact Or.inl ⟨rfl, fun _ hx => absurd hx (List.not_mem_nil _)⟩
  | cons a rest ih =>
    intro best r h
    simp only [bestLoop] at h
    split at h
    · cases h
    · rename_i f hf
      obtain ⟨hfe, -⟩ := getFitness_ok_inv a f hf
      subst hfe
      split at h
      · cases h
      · rename_i bf hbf
        obtain ⟨hbfe, -⟩ := getFitness_ok_inv best bf hbf
        subst hbfe
        have hstep : bestLoop isMax rest
            (if betterFitness isMax a.fitness best.fitness then a else best) = .ok r := by
          cases isMax
          · simpa only [betterFitness, Bool.false_eq_true, if_false] using h
          · simpa only [betterFitness, if_true] using h
        by_cases hab : betterFitness isMax a.fitness best.fitness
        · rw [if_pos hab] at hstep
          rcases ih a r hstep with ⟨hr, hall⟩ | ⟨pre, post, hl, hpre, hra, hpost⟩
          · subst hr
            exact Or.inr ⟨[], rest, rfl, fun _ hx => absurd hx (List.not_mem_nil _), hab, hall⟩
          · refine Or.inr ⟨a :: pre, post, by rw [hl]; rfl, ?_,
              betterFitness_trans _ _ _ _ hra hab, hpost⟩
            intro b hb
            rcases List.mem_cons.mp hb with rfl | hb
            · exact hra
            · exact hpre b hb
        · rw [if_neg hab] at hstep
          rcases ih best r hstep with ⟨hr, hall⟩ | ⟨pre, post, hl, hpre, hrb, hpost⟩
          · refine Or.inl ⟨hr, ?_⟩
            intro b hb
            rcases List.mem_cons.mp hb with rfl | hb
            · exact hab
            · exact hall b hb
          · refine Or.inr ⟨a :: pre, post, by rw [hl]; rfl, ?_, hrb, hpost⟩
            intro b hb
            rcases List.mem_cons.mp hb with rfl | hb
            · exact betterFitness_of_better_of_not _ _ _ _ hrb hab
            · exact hpre b hb

theorem worstLoop_eq_bestLoop (isMax : Bool) :
    ∀ (l : Population) (worst : Individual),
      worstLoop isMax l worst = bestLoop (!isMax) l worst := by
  intro l
  induction l with
  | nil => intro worst; rfl
  | cons a rest ih =>
    intro worst
    cases isMax <;> simp only [worstLoop, bestLoop, Bool.not_false, Bool.not_true,
      Bool.false_eq_true, if_false, if_true, ih]

/-- The loop of `getBestIndividual` started, as the source does, from the first individual
of the population: the result is at a position `i` of the population, no individual is
strictly better and every individual before position `i` is strictly worse. -/
theorem bestLoop_first (isMax : Bool) (first : Individual) (rest : Population)
    (r : Individual) (h : bestLoop isMax (first :: rest) first = .ok r) :
    ∃ i : Nat, (first :: rest)[i]? = some r
      ∧ (∀ x ∈ first :: rest, ¬ betterFitness isMax x.fitness r.fitness)
      ∧ ∀ (k : Nat) (x : Individual), k < i → (first :: rest)[k]? = some x →
          betterFitness isMax r.fitness x.fitness := by
  rcases bestLoop_spec isMax _ first r h with ⟨hr, hall⟩ | ⟨pre, post, hl, hpre, hrb, hpost⟩
  · subst hr
    exact ⟨0, List.getElem?_cons_zero, hall, fun k x hk => absurd hk (Nat.not_lt_zero k)⟩
  · refine ⟨pre.length, ?_, ?_, ?_⟩
    · rw [hl, List.getElem?_append_right (le_refl _), Nat.sub_self]
      exact List.getElem?_cons_zero
    · intro x hx
      rw [hl] at hx
      rcases List.mem_append.mp hx with hx | hx
      · exact betterFitness_asymm _ _ _ (hpre x hx)
      · rcases List.mem_cons.mp hx with rfl | hx
        · exact betterFitness_irrefl _ _
        · exact hpost x hx
    · intro k x hk hkx
      rw [hl, List.getElem?_append_left hk] at hkx
      exact hpre x (List.getElem?_mem hkx)

/-- C36: on a non-empty fully evaluated population `getBestIndividual` returns the
individual at some position `i` of the population: its raw fitness is at least every
member's for a maximization configuration (at most for minimization) and every individual
before position `i` is strictly worse, so that it is the first such member;
`getWorstIndividual` symmetrically returns the first member with the opposite extreme; and
the raw fitness of the best individual is the `bestFitness` that `calculateGenerationStats`
reports on the same population (likewise the worst and `worstFitness`). -/
theorem getBestIndividual_first_extreme (ga : GeneticAlgorithm) (hne : ga.population ≠ [])
    (hev : FullyEvaluated ga.population) :
    ∃ (best worst : Individual) (i j : Nat),
      ga.getBestIndividual = .ok best ∧ ga.population[i]? = some best
        ∧ (∀ x ∈ ga.population,
            (ga.config.isMaximization = true → x.fitness ≤ best.fitness)
              ∧ (ga.config.isMaximization = false → best.fitness ≤ x.fitness))
        ∧ (∀ (k : Nat) (x : Individual), k < i → ga.population[k]? = some x →
            betterFitness ga.config.isMaximization best.fitness x.fitness)
        ∧ ga.getWorstIndividual = .ok worst ∧ ga.population[j]? = some worst
        ∧ (∀ x ∈ ga.population,
            (ga.config.isMaximization = true → worst.fitness ≤ x.fitness)
              ∧ (ga.config.isMaximization = false → x.fitness ≤ worst.fitness))
        ∧ (∀ (k : Nat) (x : Individual), k < j → ga.population[k]? = some x →
            betterFitness ga.config.isMaximization x.fitness worst.fitness)
        ∧ ∀ stats, ga.calculateGenerationStats = .ok stats →
            stats.bestFitness = best.fitness ∧ stats.worstFitness = worst.fitness := by
  obtain ⟨first, rest, hpop⟩ := List.exists_cons_of_ne_nil hne
  have hfv : first.isFitnessValid = true := hev first (by rw [hpop]; exact List.mem_cons_self _ _)
  rw [hpop] at hev
  obtain ⟨best, hbest⟩ := bestLoop_ok ga.config.isMaximization (first :: rest) first hev hfv
  obtain ⟨worst, hworst⟩ := worstLoop_ok ga.config.isMaximization (first :: rest) first hev hfv
  obtain ⟨i, hi, hiall, hibefore⟩ := bestLoop_first _ first rest best hbest
  have hworst' := hworst
  rw [worstLoop_eq_bestLoop] at hworst'
  obtain ⟨j, hj, hjall, hjbefore⟩ := bestLoop_first _ first rest worst hworst'
  have hbmem : best ∈ ga.population := by rw [hpop]; exact List.getElem?_mem hi
  have hwmem : worst ∈ ga.population := by rw [hpop]; exact List.getElem?_mem hj
  refine ⟨best, worst, i, j, ?_, by rw [hpop]; exact hi, ?_, ?_, ?_, by rw [hpop]; exact hj,
    ?_, ?_, ?_⟩
  · unfold GeneticAlgorithm.getBestIndividual
    rw [hpop]
    exact hbest
  · intro x hx
    rw [hpop] at hx
    exact (not_betterFitness_iff _ _ _).mp (hiall x hx)
  · intro k x hk hkx
    rw [hpop] at hkx
    exact hibefore k x hk hkx
  · unfold GeneticAlgorithm.getWorstIndividual
    rw [hpop]
    exact hworst
  · intro x hx
    rw [hpop] at hx
    have := hjall x hx
    rw [betterFitness_not] at this
    exact (not_betterFitness_iff _ _ _).mp this
  · intro k x hk hkx
    rw [hpop] at hkx
    have := hjbefore k x hk hkx
    rw [betterFitness_not] at this
    exact this
  · intro stats hstats
    obtain ⟨-, -, ⟨a, ha, hae⟩, hball, -⟩ := calculateGenerationStats_ok_inv ga stats hstats
    obtain ⟨⟨d, hd, hde⟩, hwall, -⟩ := calculateGenerationStats_fields ga stats hstats
    constructor
    · refine betterFitness_antisymm ga.config.isMaximization _ _ ?_ (hball best hbmem)
      rw [← hae]
      rw [hpop] at ha
      exact hiall a ha
    · refine betterFitness_antisymm ga.config.isMaximization _ _ (hwall worst hwmem) ?_
      rw [← hde]
      rw [hpop] at hd
      have := hjall d hd
      rw [betterFitness_not] at this
      exact this

/-- C36 on sample data: in a population with raw fitness 4, 16, 1, 16, 1 the best individual
is the one at position 1 and the worst the one at position 2. -/
theorem getBestIndividual_first_extreme_witness :
    ∃ (best worst : Individual),
      GeneticAlgorithm.getBestIndividual
          { sampleEngine with
            population := [⟨[false, false, true, false], 4, 20, true⟩,
              ⟨[false, true, false, false], 16, 100, true⟩,
              ⟨[false, false, false, true], 1, 0, true⟩,
              ⟨[true, true, false, false], 16, 100, true⟩,
              ⟨[true, true, true, true], 1, 0, true⟩] } = .ok best
        ∧ best = ⟨[false, true, false, false], 16, 100, true⟩
        ∧ GeneticAlgorithm.getWorstIndividual
          { sampleEngine with
            population := [⟨[false, false, true, false], 4, 20, true⟩,
              ⟨[false, true, false, false], 16, 100, true⟩,
              ⟨[false, false, false, true], 1, 0, true⟩,
              ⟨[true, true, false, false], 16, 100, true⟩,
              ⟨[true, true, true, true], 1, 0, true⟩] } = .ok worst
        ∧ worst = ⟨[false, false, false, true], 1, 0, true⟩ := by
  obtain ⟨best, worst, i, j, h1, -, -, -, h5, -⟩ :=
    getBestIndividual_first_extreme
      { sampleEngine with
        population := [⟨[false, false, true, false], 4, 20, true⟩,
          ⟨[false, true, false, false], 16, 100, true⟩,
          ⟨[false, false, false, true], 1, 0, true⟩,
          ⟨[true, true, false, false], 16, 100, true⟩,
          ⟨[true, true, true, true], 1, 0, true⟩] }
      (List.cons_ne_nil _ _)
      (by
        intro x hx
        simp only [List.mem_cons, List.mem_singleton, List.not_mem_nil, or_false] at hx
        rcases hx with rfl | rfl | rfl | rfl | rfl <;> rfl)
  have e1 : GeneticAlgorithm.getBestIndividual
      { sampleEngine with
        population := [⟨[false, false, true, false], 4, 20, true⟩,
          ⟨[false, true, false, false], 16, 100, true⟩,
          ⟨[false, false, false, true], 1, 0, true⟩,
          ⟨[true, true, false, false], 16, 100, true⟩,
          ⟨[true, true, true, true], 1, 0, true⟩] }
      = .ok ⟨[false, true, false, false], 16, 100, true⟩ := by
    with_unfolding_all rfl
  have e2 : GeneticAlgorithm.getWorstIndividual
      { sampleEngine with
        population := [⟨[false, false, true, false], 4, 20, true⟩,
          ⟨[false, true, false, false], 16, 100, true⟩,
          ⟨[false, false, false, true], 1, 0, true⟩,
          ⟨[true, true, false, false], 16, 100, true⟩,
          ⟨[true, true, true, true], 1, 0, true⟩] }
      = .ok ⟨[false, false, false, true], 1, 0, true⟩ := by
    with_unfolding_all rfl
  refine ⟨best, worst, h1, ?_, h5, ?_⟩
  · rw [e1] at h1
    cases h1
    rfl
  · rw [e2] at h5
    cases h5
    rfl

/-! ### A generation without mutation stays within the gene pool -/

theorem inGenePool_of_mem (population : Population) (L : Nat) (a : Individual)
    (ha : a ∈ population) (hl : a.chromosome.length = L) :
    InGenePool population L a.chromosome :=
  ⟨hl, fun _ _ => ⟨a, ha, rfl⟩⟩

theorem inGenePool_mix (population : Population) (L : Nat) (p1 p2 child : Chromosome)
    (h1 : InGenePool population L p1) (h2 : InGenePool population L p2)
    (hl : child.length = L)
    (hbits : ∀ j : Nat, j < L → child[j]? = p1[j]? ∨ child[j]? = p2[j]?) :
    InGenePool population L child := by
  refine ⟨hl, fun i hi => ?_⟩
  rcases hbits i hi with hb | hb
  · obtain ⟨a, ha, hae⟩ := h1.2 i hi
    exact ⟨a, ha, hb.trans hae⟩
  · obtain ⟨a, ha, hae⟩ := h2.2 i hi
    exact ⟨a, ha, hb.trans hae⟩

theorem inGenePool_mono (pool1 pool2 : Population) (L : Nat) (c : Chromosome)
    (hsub : ∀ a ∈ pool1, a ∈ pool2) (h : InGenePool pool1 L c) : InGenePool pool2 L c := by
  refine ⟨h.1, fun i hi => ?_⟩
  obtain ⟨a, ha, hae⟩ := h.2 i hi
  exact ⟨a, hsub a ha, hae⟩

theorem singlePointCrossover_bits (p1 p2 : Individual) (c : Int) (r : Individual × Individual)
    (hlen : p2.chromosome.length = p1.chromosome.length)
    (h : p1.singlePointCrossover p2 c = .ok r) :
    r.1.chromosome.length = p1.chromosome.length
      ∧ r.2.chromosome.length = p1.chromosome.length
      ∧ ∀ j : Nat, j < p1.chromosome.length →
          (r.1.chromosome[j]? = p1.chromosome[j]? ∨ r.1.chromosome[j]? = p2.chromosome[j]?)
            ∧ (r.2.chromosome[j]? = p1.chromosome[j]?
              ∨ r.2.chromosome[j]? = p2.chromosome[j]?) := by
  by_cases hrej : c < 0 ∨ c ≥ (p1.chromosome.length : Int)
  · rw [singlePointCrossover_reject p1 p2 c hrej] at h
    cases h
  · obtain ⟨r1, r2, hres, hl1, hl2, hbits⟩ := singlePointCrossover_spec p1 p2 c hlen
      (by omega) (by omega)
    rw [hres] at h
    cases h
    refine ⟨hl1, hl2, fun j hj => ?_⟩
    obtain ⟨b1, b2⟩ := hbits j hj
    show (r1[j]? = _ ∨ r1[j]? = _) ∧ (r2[j]? = _ ∨ r2[j]? = _)
    rw [b1, b2]
    split
    · exact ⟨Or.inl rfl, Or.inr rfl⟩
    · exact ⟨Or.inr rfl, Or.inl rfl⟩

theorem twoPointCrossover_bits (p1 p2 : Individual) (point1 point2 : Int)
    (r : Individual × Individual)
    (hlen : p2.chromosome.length = p1.chromosome.length)
    (h : p1.twoPointCrossover p2 point1 point2 = .ok r) :
    r.1.chromosome.length = p1.chromosome.length
      ∧ r.2.chromosome.length = p1.chromosome.length
      ∧ ∀ j : Nat, j < p1.chromosome.length →
          (r.1.chromosome[j]? = p1.chromosome[j]? ∨ r.1.chromosome[j]? = p2.chromosome[j]?)
            ∧ (r.2.chromosome[j]? = p1.chromosome[j]?
              ∨ r.2.chromosome[j]? = p2.chromosome[j]?) := by
  by_cases hrej : point1 < 0 ∨ point2 ≥ (p1.chromosome.length : Int) ∨ point1 ≥ point2
  · rw [twoPointCrossover_reject p1 p2 point1 point2 hrej] at h
    cases h
  · obtain ⟨r1, r2, hres, hl1, hl2, hbits⟩ := twoPointCrossover_spec p1 p2 point1 point2 hlen
      (by omega) (by omega) (by omega)
    rw [hres] at h
    cases h
    refine ⟨hl1, hl2, fun j hj => ?_⟩
    obtain ⟨b1, b2⟩ := hbits j hj
    show (r1[j]? = _ ∨ r1[j]? = _) ∧ (r2[j]? = _ ∨ r2[j]? = _)
    rw [b1, b2]
    split
    · exact ⟨Or.inr rfl, Or.inl rfl⟩
    · exact ⟨Or.inl rfl, Or.inr rfl⟩

theorem uniformCrossover_bits (p1 p2 : Individual) (mask : Chromosome)
    (r : Individual × Individual)
    (hlen : p2.chromosome.length = p1.chromosome.length)
    (h : p1.uniformCrossover p2 mask = .ok r) :
    r.1.chromosome.length = p1.chromosome.length
      ∧ r.2.chromosome.length = p1.chromosome.length
      ∧ ∀ j : Nat, j < p1.chromosome.length →
          (r.1.chromosome[j]? = p1.chromosome[j]? ∨ r.1.chromosome[j]? = p2.chromosome[j]?)
            ∧ (r.2.chromosome[j]? = p1.chromosome[j]?
              ∨ r.2.chromosome[j]? = p2.chromosome[j]?) := by
  by_cases hrej : mask.length ≠ p1.chromosome.length ∨ mask.length ≠ p2.chromosome.length
  · rw [uniformCrossover_reject p1 p2 mask hrej] at h
    cases h
  · obtain ⟨r1, r2, hres, hl1, hl2, hbits⟩ := uniformCrossover_spec p1 p2 mask hlen
      (by
        by_contra hne
        exact hrej (Or.inl hne))
    rw [hres] at h
    cases h
    refine ⟨hl1, hl2, fun j hj => ?_⟩
    obtain ⟨b1, b2⟩ := hbits j hj
    show (r1[j]? = _ ∨ r1[j]? = _) ∧ (r2[j]? = _ ∨ r2[j]? = _)
    rw [b1, b2]
    split
    · exact ⟨Or.inl rfl, Or.inr rfl⟩
    · exact ⟨Or.inr rfl, Or.inl rfl⟩

/-- The children of `performCrossover`, when it returns, for parents of one length: both
have that length and each of their bits is the bit of a parent at the same position; the
random source is advanced. -/
theorem performCrossover_bits (ga : GeneticAlgorithm) (p1 p2 : Individual)
    (r : (Individual × Individual) × GeneticAlgorithm)
    (hlen : p2.chromosome.length = p1.chromosome.length)
    (h : ga.performCrossover p1 p2 = .ok r) :
    (r.1.1.chromosome.length = p1.chromosome.length
      ∧ r.1.2.chromosome.length = p1.chromosome.length
      ∧ ∀ j : Nat, j < p1.chromosome.length →
          (r.1.1.chromosome[j]? = p1.chromosome[j]?
              ∨ r.1.1.chromosome[j]? = p2.chromosome[j]?)
            ∧ (r.1.2.chromosome[j]? = p1.chromosome[j]?
              ∨ r.1.2.chromosome[j]? = p2.chromosome[j]?))
      ∧ ∃ k : Nat, r.2.rng = fun m => ga.rng (m + k) := by
  unfold GeneticAlgorithm.performCrossover at h
  split at h
  · cases h
  · split at h
    · dsimp only at h
      split at h
      · cases h
      · rename_i offspring hoff
        cases h
        exact ⟨singlePointCrossover_bits p1 p2 _ offspring hlen hoff, 1, rfl⟩
    · dsimp only at h
      split at h
      · cases h
      · rename_i offspring hoff
        cases h
        exact ⟨twoPointCrossover_bits p1 p2 _ _ offspring hlen hoff, 2, rfl⟩
    · dsimp only at h
      split at h
      · cases h
      · rename_i offspring hoff
        cases h
        exact ⟨uniformCrossover_bits p1 p2 _ offspring hlen hoff, _,
          randomizeLoop_rng _ _⟩

/-- With a mutation rate of 0 and nonnegative draws, `performMutation` leaves the
chromosome as it is. -/
theorem performMutation_rate_zero (ga : GeneticAlgorithm) (individual : Individual)
    (hrate : ga.config.mutationRate = 0) (hrng : ∀ j, 0 ≤ ga.rng j) :
    (ga.performMutation individual).1.chromosome = individual.chromosome
      ∧ (ga.performMutation individual).2.config = ga.config
      ∧ ∀ j, 0 ≤ (ga.performMutation individual).2.rng j := by
  refine ⟨?_, rfl, ?_⟩
  · show (mutateLoop ga.config.mutationRate individual.chromosome ga.rng).1 = _
    rw [hrate]
    exact mutateLoop_rate_zero _ _ hrng
  · show ∀ j, 0 ≤ (mutateLoop ga.config.mutationRate individual.chromosome ga.rng).2 j
    rw [mutateLoop_rng]
    exact fun j => hrng _

theorem rouletteWalk_mem (isMax : Bool) (population : Population) (offset point : ℚ) :
    ∀ (remaining : Population) (cumulative : ℚ) (x : Individual),
      rouletteWalk isMax population offset point remaining cumulative = .ok (some x) →
        x ∈ remaining := by
  intro remaining
  induction remaining with
  | nil =>
    intro cumulative x h
    simp only [rouletteWalk] at h
    cases h
  | cons a rest ih =>
    intro cumulative x h
    simp only [rouletteWalk] at h
    split at h
    · cases h
    · split at h
      · simp only [Except.ok.injEq, Option.some.injEq] at h
        rw [← h]
        exact List.mem_cons_self _ _
      · exact List.mem_cons_of_mem _ (ih _ _ h)

theorem rouletteWheelSelection_mem (ga : GeneticAlgorithm)
    (r : Individual × GeneticAlgorithm) (h : ga.rouletteWheelSelection = .ok r) :
    r.1 ∈ ga.population ∧ r.2.rng = fun m => ga.rng (m + 1) := by
  unfold GeneticAlgorithm.rouletteWheelSelection at h
  split at h
  · cases h
  · split at h
    · cases h
    · split at h
      · cases h
      · dsimp only at h
        split at h
        · cases h
        · rename_i x hx
          cases h
          exact ⟨rouletteWalk_mem _ _ _ _ _ _ _ hx, rfl⟩
        · split at h
          · rename_i x hx
            cases h
            exact ⟨List.mem_of_getLast?_eq_some hx, rfl⟩
          · cases h

theorem tournamentSelection_rng (ga : GeneticAlgorithm) (tournamentSize : Int)
    (r : Individual × GeneticAlgorithm) (h : ga.tournamentSelection tournamentSize = .ok r) :
    ∃ k : Nat, r.2.rng = fun m => ga.rng (m + k) := by
  unfold GeneticAlgorithm.tournamentSelection at h
  dsimp only at h
  split at h
  · cases h
  · split at h
    · cases h
    · split at h
      · cases h
      · rename_i x hx
        cases h
        have := tournamentLoop_rng _ _ _ _ _ _ _ hx
        exact ⟨(effectiveTournamentSize ga.config tournamentSize - 1).toNat + 1, by
          show x.2 = _
          rw [this]
          rfl⟩

/-- The parents chosen by `selectParents`, when it returns, are individuals of the
population, and the random source is advanced. -/
theorem selectParents_mem (ga : GeneticAlgorithm) (eliteCount : Int)
    (r : (Individual × Individual) × GeneticAlgorithm)
    (h : ga.selectParents eliteCount = .ok r) :
    r.1.1 ∈ ga.population ∧ r.1.2 ∈ ga.population
      ∧ ∃ k : Nat, r.2.rng = fun m => ga.rng (m + k) := by
  unfold GeneticAlgorithm.selectParents at h
  split at h
  · split at h
    · cases h
    · rename_i r1 h1
      split at h
      · cases h
      · rename_i r2 h2
        cases h
        obtain ⟨f1, m1⟩ := tournamentSelection_frame _ _ _ h1
        obtain ⟨-, m2⟩ := tournamentSelection_frame _ _ _ h2
        obtain ⟨k1, e1⟩ := tournamentSelection_rng _ _ _ h1
        obtain ⟨k2, e2⟩ := tournamentSelection_rng _ _ _ h2
        refine ⟨m1, ?_, k1 + k2, ?_⟩
        · rw [← f1.2.1]
          exact m2
        · show r2.2.rng = _
          rw [e2, e1]
          funext m
          show ga.rng (m + k2 + k1) = ga.rng (m + (k1 + k2))
          congr 1
          omega
  · split at h
    · cases h
    · rename_i r1 h1
      split at h
      · cases h
      · rename_i r2 h2
        cases h
        have f1 := rouletteWheelSelection_frame _ _ h1
        obtain ⟨m1, e1⟩ := rouletteWheelSelection_mem _ _ h1
        obtain ⟨m2, e2⟩ := rouletteWheelSelection_mem _ _ h2
        refine ⟨m1, ?_, 2, ?_⟩
        · rw [← f1.2.1]
          exact m2
        · show r2.2.rng = _
          rw [e2, e1]
  · dsimp only at h
    split at h
    · cases h
    · split at h
      · cases h
      · rename_i parent1 hp1
        split at h
        · cases h
        · rename_i parent2 hp2
          cases h
          exact ⟨(indexPopulation_ok_inv _ _ _ hp1).2.2, (indexPopulation_ok_inv _ _ _ hp2).2.2,
            2, rfl⟩

/-- One pairing without mutation: both children have `L` bits, each taken from the same
position of an individual of the population. -/
theorem breedPair_genePool (ga : GeneticAlgorithm) (eliteCount : Int)
    (r : (Individual × Individual) × GeneticAlgorithm) (L : Nat)
    (hrate : ga.config.mutationRate = 0) (hrng : ∀ j, 0 ≤ ga.rng j)
    (hlen : ∀ a ∈ ga.population, a.chromosome.length = L)
    (h : ga.breedPair eliteCount = .ok r) :
    InGenePool ga.population L r.1.1.chromosome
      ∧ InGenePool ga.population L r.1.2.chromosome
      ∧ ∀ j, 0 ≤ r.2.rng j := by
  unfold GeneticAlgorithm.breedPair at h
  split at h
  · cases h
  · rename_i sel hsel
    obtain ⟨m1, m2, k, hk⟩ := selectParents_mem ga eliteCount sel hsel
    have hframe := selectParents_frame ga eliteCount sel hsel
    have hcfg : sel.2.config = ga.config := hframe.1
    have g1 := inGenePool_of_mem ga.population L sel.1.1 m1 (hlen _ m1)
    have g2 := inGenePool_of_mem ga.population L sel.1.2 m2 (hlen _ m2)
    have hrng1 : ∀ j, 0 ≤ (uniformReal01 sel.2.rng).2 j := by
      intro j
      show 0 ≤ sel.2.rng (j + 1)
      rw [hk]
      exact hrng _
    dsimp only at h
    split at h
    · split at h
      · cases h
      · rename_i x hx
        cases h
        obtain ⟨⟨l1, l2, hbits⟩, kx, hkx⟩ := performCrossover_bits _ _ _ x
          ((hlen _ m2).trans (hlen _ m1).symm) hx
        have hxcfg : x.2.config = ga.config :=
          (performCrossover_frame _ _ _ _ hx).1.trans hcfg
        have hxrng : ∀ j, 0 ≤ x.2.rng j := by
          intro j
          rw [hkx]
          exact hrng1 _
        have c1 : InGenePool ga.population L x.1.1.chromosome :=
          inGenePool_mix _ _ _ _ _ g1 g2 (l1.trans (hlen _ m1))
            (fun j hj => (hbits j (by rw [hlen _ m1]; exact hj)).1)
        have c2 : InGenePool ga.population L x.1.2.chromosome :=
          inGenePool_mix _ _ _ _ _ g1 g2 (l2.trans (hlen _ m1))
            (fun j hj => (hbits j (by rw [hlen _ m1]; exact hj)).2)
        obtain ⟨e1, f1, n1⟩ := performMutation_rate_zero x.2 x.1.1 (hxcfg ▸ hrate) hxrng
        obtain ⟨e2, -, n2⟩ := performMutation_rate_zero (x.2.performMutation x.1.1).2 x.1.2
          (by rw [f1, hxcfg]; exact hrate) n1
        refine ⟨?_, ?_, n2⟩
        · show InGenePool _ _ (x.2.performMutation x.1.1).1.chromosome
          rw [e1]
          exact c1
        · show InGenePool _ _
            ((x.2.performMutation x.1.1).2.performMutation x.1.2).1.chromosome
          rw [e2]
          exact c2
    · cases h
      have hcfg1 : ({ sel.2 with rng := (uniformReal01 sel.2.rng).2 } :
          GeneticAlgorithm).config.mutationRate = 0 := by
        show sel.2.config.mutationRate = 0
        rw [hcfg]
        exact hrate
      obtain ⟨e1, f1, n1⟩ := performMutation_rate_zero
        { sel.2 with rng := (uniformReal01 sel.2.rng).2 } sel.1.1 hcfg1 hrng1
      obtain ⟨e2, -, n2⟩ := performMutation_rate_zero
        (GeneticAlgorithm.performMutation
          { sel.2 with rng := (uniformReal01 sel.2.rng).2 } sel.1.1).2 sel.1.2
        (by rw [f1]; exact hcfg1) n1
      refine ⟨?_, ?_, n2⟩
      · show InGenePool _ _ (GeneticAlgorithm.performMutation
          { sel.2 with rng := (uniformReal01 sel.2.rng).2 } sel.1.1).1.chromosome
        rw [e1]
        exact g1
      · show InGenePool _ _ (GeneticAlgorithm.performMutation
          (GeneticAlgorithm.performMutation
            { sel.2 with rng := (uniformReal01 sel.2.rng).2 } sel.1.1).2
          sel.1.2).1.chromosome
        rw [e2]
        exact g2

/-- The fill loop without mutation: every individual of the new population is in the gene
pool of the current population. -/
theorem fillLoop_genePool (eliteCount : Int) (n L : Nat) (pool : Population)
    (hlen : ∀ a ∈ pool, a.chromosome.length = L) :
    ∀ (k : Nat) (ga : GeneticAlgorithm) (newPopulation : Population)
      (r : Population × GeneticAlgorithm),
      n - newPopulation.length ≤ k → ga.population = pool →
      ga.config.mutationRate = 0 → (∀ j, 0 ≤ ga.rng j) →
      (∀ x ∈ newPopulation, InGenePool pool L x.chromosome) →
      fillLoop eliteCount n ga newPopulation = .ok r →
        ∀ x ∈ r.1, InGenePool pool L x.chromosome := by
  intro k
  induction k with
  | zero =>
    intro ga newPopulation r hk _ _ _ hnew h
    rw [fillLoop_done _ _ _ _ (by omega)] at h
    cases h
    exact hnew
  | succ k ih =>
    intro ga newPopulation r hk hpool hrate hrng hnew h
    by_cases hlt : newPopulation.length < n
    · rw [fillLoop_step _ _ _ _ hlt] at h
      split at h
      · cases h
      · rename_i x hx
        obtain ⟨added, hadd, h1, -, hmem⟩ :=
          pushOffspring_append n newPopulation x.1.1 x.1.2 hlt
        rw [hadd] at h
        obtain ⟨c1, c2, hrng'⟩ := breedPair_genePool ga eliteCount x L hrate hrng
          (by rw [hpool]; exact hlen) hx
        rw [hpool] at c1 c2
        have hframe := breedPair_frame _ _ _ hx
        refine ih x.2 (newPopulation ++ added) r
          (by simp only [List.length_append]; omega) (hframe.2.1.trans hpool)
          (by rw [hframe.1]; exact hrate) hrng' ?_ h
        intro y hy
        rcases List.mem_append.mp hy with hy | hy
        · exact hnew y hy
        · rcases hmem y hy with rfl | rfl
          · exact c1
          · exact c2
    · rw [fillLoop_done _ _ _ _ hlt] at h
      cases h
      exact hnew

/-- One generation without mutation: every individual of the new population is in the gene
pool of the old one. -/
theorem evolveGeneration_genePool (S : StdSort) (hS : S.Valid) (ga evolved : GeneticAlgorithm)
    (stats : GenerationStats) (L : Nat)
    (hrate : ga.config.mutationRate = 0) (hrng : ∀ j, 0 ≤ ga.rng j)
    (hlen : ∀ a ∈ ga.population, a.chromosome.length = L)
    (h : ga.evolveGeneration S = .ok (stats, evolved)) :
    ∀ x ∈ evolved.population, InGenePool ga.population L x.chromosome := by
  obtain ⟨sorted, sel, filled, -, hsorted, hsel, hfilled, hev, -⟩ :=
    evolveGeneration_ok_inv S ga evolved stats h
  obtain ⟨a1, a2, a3, -⟩ := sortPopulationByFitness_ok_inv S hS ga sorted hsorted
  obtain ⟨hsort2, htake, -⟩ := eliteSelection_ok_inv S sorted _ sel hsel
  obtain ⟨b1, b2, b3, -⟩ := sortPopulationByFitness_ok_inv S hS sorted sel.2 hsort2
  have hperm : List.Perm sel.2.population ga.population := b3.trans a3
  have hlen2 : ∀ a ∈ sel.2.population, a.chromosome.length = L :=
    fun a ha => hlen a (hperm.mem_iff.mp ha)
  have hfill := fillLoop_genePool _ sel.2.config.populationSize.toNat L sel.2.population hlen2
    (sel.2.config.populationSize.toNat - sel.1.length) sel.2 sel.1 filled (le_refl _) rfl
    (by rw [b1.1, a1.1]; exact hrate) (by rw [b2, a2]; exact hrng)
    (by
      intro x hx
      rw [htake] at hx
      have hx' := List.mem_of_mem_take hx
      exact inGenePool_of_mem _ _ _ hx' (hlen2 x hx'))
    hfilled
  obtain ⟨-, -, hrel⟩ := evaluatePopulation_ok_inv _ evolved hev
  intro x hx
  obtain ⟨a, ha, hxa, -⟩ := forall₂_mem_right _ _ hrel x hx
  rw [hxa]
  exact inGenePool_mono _ _ _ _ (fun y hy => hperm.mem_iff.mp hy) (hfill a ha)

theorem pairSumList_of_all_eq (L : Nat) :
    ∀ population : Population,
      (∀ x ∈ population, ∀ y ∈ population, x.chromosome = y.chromosome) →
      pairSumList L population = 0 := by
  intro population
  induction population with
  | nil => intro _; rfl
  | cons a rest ih =>
    intro hall
    have hrest := ih (fun x hx y hy =>
      hall x (List.mem_cons_of_mem _ hx) y (List.mem_cons_of_mem _ hy))
    have hzero : (rest.map fun other =>
        (hammingDistance a.chromosome other.chromosome : ℚ) / (L : ℚ)) = rest.map fun _ => 0 := by
      refine List.map_congr_left ?_
      intro other hother
      have he : a.chromosome = other.chromosome :=
        hall a (List.mem_cons_self _ _) other (List.mem_cons_of_mem _ hother)
      rw [← he, (hammingDistance_eq_zero a.chromosome a.chromosome rfl).mpr rfl]
      simp
    simp only [pairSumList, hzero, hrest, add_zero]
    simp

/-- A diversity of 0 on a population whose chromosomes have one length: all chromosomes are
the same. -/
theorem all_eq_of_diversity_zero (ga : GeneticAlgorithm) (L : Nat)
    (hlen : ∀ x ∈ ga.population, x.chromosome.length = L)
    (h : ga.calculatePopulationDiversity = .ok 0) :
    ∀ x ∈ ga.population, ∀ y ∈ ga.population, x.chromosome = y.chromosome := by
  rw [calculatePopulationDiversity_eq ga L hlen] at h
  simp only [Except.ok.injEq] at h
  by_cases hL : 1 ≤ L
  · by_cases hn : ga.population.length < 2
    · intro x hx y hy
      have hone : ∃ a, ga.population = [a] := by
        cases hp : ga.population with
        | nil => rw [hp] at hx; exact absurd hx (List.not_mem_nil _)
        | cons a rest =>
          cases rest with
          | nil => exact ⟨a, rfl⟩
          | cons b rest2 =>
            rw [hp] at hn
            simp only [List.length_cons] at hn
            omega
      obtain ⟨a, ha⟩ := hone
      rw [ha] at hx hy
      rw [List.mem_singleton.mp hx, List.mem_singleton.mp hy]
    · rw [if_neg hn] at h
      have hchoose : (0 : ℚ) < ((ga.population.length.choose 2 : Nat) : ℚ) := by
        have : 0 < ga.population.length.choose 2 := Nat.choose_pos (by omega)
        exact_mod_cast this
      have hsum : pairSumList L ga.population = 0 := by
        rcases div_eq_zero_iff.mp h with h0 | h0
        · exact h0
        · exact absurd h0 (ne_of_gt hchoose)
      exact (pairwise_eq_iff_all_eq _).mp ((pairSumList_eq_zero L hL _ hlen).mp hsum)
  · intro x hx y hy
    have hx0 : x.chromosome.length = 0 := by rw [hlen x hx]; omega
    have hy0 : y.chromosome.length = 0 := by rw [hlen y hy]; omega
    rw [List.length_eq_zero.mp hx0, List.length_eq_zero.mp hy0]

set_option maxRecDepth 100000 in
theorem noMutationEngine_evolveGeneration :
    noMutationEngine.evolveGeneration insertionStdSort
      = .ok (⟨0, 16, 19 / 4, 1, none, 1 / 4, 100, 25⟩,
          { noMutationEngine with
              population := [⟨[false, true, false, false], 16, 100, true⟩,
                ⟨[false, false, false, true], 1, 0, true⟩,
                ⟨[false, false, false, true], 1, 0, true⟩,
                ⟨[false, false, false, true], 1, 0, true⟩],
              rng := fun _ => 3 / 4 }) := by
  with_unfolding_all rfl

/-- C40: with `mutationRate = 0`, on a population of `populationSize` individuals of
`chromosomeLength` bits and with draws in `[0, 1)`, whenever `evolveGeneration` returns
(whatever the selection type, the crossover type, the rates and the draws): a bit value that
every individual of the old population has at a position is the bit of every individual of
the new population at that position; every new chromosome has `chromosomeLength` bits; and
a diversity of 0 before the step is a diversity of 0 after it. -/
theorem evolveGeneration_without_mutation (S : StdSort) (hS : S.Valid)
    (ga evolved : GeneticAlgorithm) (stats : GenerationStats)
    (hrate : ga.config.mutationRate = 0)
    (hsize : (ga.population.length : Int) = ga.config.populationSize)
    (hlen : ∀ a ∈ ga.population, (a.chromosome.length : Int) = ga.config.chromosomeLength)
    (hu : UnitDraws ga.rng)
    (h : ga.evolveGeneration S = .ok (stats, evolved)) :
    (∀ (i : Nat) (v : Bool), (∀ a ∈ ga.population, a.chromosome[i]? = some v) →
        ∀ b ∈ evolved.population, b.chromosome[i]? = some v)
      ∧ (∀ b ∈ evolved.population,
          (b.chromosome.length : Int) = evolved.config.chromosomeLength)
      ∧ (ga.calculatePopulationDiversity = .ok 0 →
          evolved.calculatePopulationDiversity = .ok 0) := by
  have hlen' : ∀ a ∈ ga.population,
      a.chromosome.length = ga.config.chromosomeLength.toNat := by
    intro a ha
    have := hlen a ha
    omega
  have hpool := evolveGeneration_genePool S hS ga evolved stats _ hrate
    (fun j => (hu j).1) hlen' h
  obtain ⟨⟨hcfg, -, -, -⟩, hstats⟩ := evolveGeneration_frame S ga evolved stats h
  obtain ⟨hne, -⟩ := calculateGenerationStats_ok_inv evolved stats hstats
  have hsize' := evolveGeneration_length S ga evolved stats h
  have hold : ga.population ≠ [] := by
    intro hnil
    rw [hcfg, ← hsize, hnil] at hsize'
    exact hne (List.length_eq_zero.mp (by exact_mod_cast hsize'))
  obtain ⟨a0, rest, hpop⟩ := List.exists_cons_of_ne_nil hold
  have ha0 : a0 ∈ ga.population := by rw [hpop]; exact List.mem_cons_self _ _
  have hnewlen : ∀ b ∈ evolved.population,
      b.chromosome.length = ga.config.chromosomeLength.toNat := fun b hb => (hpool b hb).1
  refine ⟨?_, ?_, ?_⟩
  · intro i v hall b hb
    have hi : i < ga.config.chromosomeLength.toNat := by
      rw [← hlen' a0 ha0]
      exact (List.getElem?_eq_some.mp (hall a0 ha0)).1
    obtain ⟨a, ha, hba⟩ := (hpool b hb).2 i hi
    rw [hba]
    exact hall a ha
  · intro b hb
    have h1 := hnewlen b hb
    have h2 := hlen a0 ha0
    rw [hcfg]
    omega
  · intro hdiv
    have hall := all_eq_of_diversity_zero ga _ hlen' hdiv
    have hsame : ∀ b ∈ evolved.population, b.chromosome = a0.chromosome := by
      intro b hb
      refine List.ext_getElem? (fun i => ?_)
      by_cases hi : i < ga.config.chromosomeLength.toNat
      · obtain ⟨a, ha, hba⟩ := (hpool b hb).2 i hi
        rw [hba, hall a ha a0 ha0]
      · rw [List.getElem?_eq_none (by rw [hnewlen b hb]; omega),
          List.getElem?_eq_none (by rw [hlen' a0 ha0]; omega)]
    rw [calculatePopulationDiversity_eq evolved _ hnewlen,
      pairSumList_of_all_eq _ _ (fun x hx y hy => (hsame x hx).trans (hsame y hy).symm)]
    simp

/-- C40 on the sample engine with a mutation rate of 0: every individual of the sample
population has the bit 0 at position 0, and so has every individual after one generation;
all of them have 4 bits. -/
theorem evolveGeneration_without_mutation_witness :
    ∃ stats evolved, noMutationEngine.evolveGeneration insertionStdSort = .ok (stats, evolved)
      ∧ evolved.population.length = 4
      ∧ (∀ b ∈ evolved.population, b.chromosome[0]? = some false)
      ∧ ∀ b ∈ evolved.population, (b.chromosome.length : Int) = 4 := by
  have hmain := evolveGeneration_without_mutation insertionStdSort insertionStdSort_valid
    noMutationEngine _ _ rfl (by rfl)
    (by
      intro a ha
      change a ∈ samplePopulation at ha
      simp only [samplePopulation, List.mem_cons, List.mem_singleton, List.not_mem_nil,
        or_false] at ha
      rcases ha with rfl | rfl | rfl | rfl <;> rfl)
    (by
      intro j
      show (0 : ℚ) ≤ 3 / 4 ∧ (3 / 4 : ℚ) < 1
      norm_num)
    noMutationEngine_evolveGeneration
  refine ⟨_, _, noMutationEngine_evolveGeneration, rfl, ?_, hmain.2.1⟩
  refine hmain.1 0 false ?_
  intro a ha
  change a ∈ samplePopulation at ha
  simp only [samplePopulation, List.mem_cons, List.mem_singleton, List.not_mem_nil,
    or_false] at ha
  rcases ha with rfl | rfl | rfl | rfl <;> rfl

/-! ### The general form of the two defects -/

/-- Whenever the two point draws of the two-point crossover coincide, `performCrossover`
fails with the error of the operator. -/
theorem performCrossover_two_point_same_draw (ga : GeneticAlgorithm)
    (parent1 parent2 : Individual) (hL : 1 ≤ ga.config.chromosomeLength - 1)
    (hct : ga.config.crossoverType = CrossoverType.TWO_POINT)
    (heq : (uniformInt 1 (ga.config.chromosomeLength - 1) ga.rng).1
      = (uniformInt 1 (ga.config.chromosomeLength - 1)
          (uniformInt 1 (ga.config.chromosomeLength - 1) ga.rng).2).1) :
    ga.performCrossover parent1 parent2
      = .error (.invalidArgument "Invalid crossover points") := by
  unfold GeneticAlgorithm.performCrossover
  rw [if_neg (not_not.mpr hL), hct]
  dsimp only
  rw [← heq]
  simp only [gt_iff_lt, lt_self_iff_false, if_false]
  rw [twoPointCrossover_reject _ _ _ _ (Or.inr (Or.inr (le_refl _)))]

theorem statsLoop_bestValue_kept (config : GAConfig) :
    ∀ (population : Population) (acc acc' : StatsAcc),
      statsLoop config population acc = .ok acc' →
      (∀ b ∈ population, ¬ betterFitness config.isMaximization b.fitness acc.bestFitness) →
      acc'.bestValue = acc.bestValue ∧ acc'.bestFitness = acc.bestFitness := by
  intro population
  induction population with
  | nil =>
    intro acc acc' h _
    simp only [statsLoop] at h
    cases h
    exact ⟨rfl, rfl⟩
  | cons a rest ih =>
    intro acc acc' h hall
    have ha := hall a (List.mem_cons_self _ _)
    have hrest : ∀ acc1 : StatsAcc, acc1.bestFitness = acc.bestFitness →
        ∀ b ∈ rest, ¬ betterFitness config.isMaximization b.fitness acc1.bestFitness := by
      intro acc1 he b hb
      rw [he]
      exact hall b (List.mem_cons_of_mem _ hb)
    simp only [statsLoop] at h
    split at h
    · cases h
    · rename_i f hf
      obtain ⟨hfe, -⟩ := getFitness_ok_inv a f hf
      subst hfe
      cases hmax : config.isMaximization with
      | true =>
        rw [hmax] at ha
        simp only [betterFitness, if_true] at ha
        simp only [hmax, if_true, if_neg ha] at h
        have hnext := ih _ acc' h (hrest _ rfl)
        exact hnext
      | false =>
        rw [hmax] at ha
        simp only [betterFitness, Bool.false_eq_true, if_false] at ha
        simp only [hmax, Bool.false_eq_true, if_false, if_neg ha] at h
        have hnext := ih _ acc' h (hrest _ rfl)
        exact hnext

/-- Whenever no individual is strictly better than the first one, the statistics leave
`bestValue` unassigned. -/
theorem calculateGenerationStats_bestValue_none (ga : GeneticAlgorithm) (first : Individual)
    (rest : Population) (stats : GenerationStats) (hpop : ga.population = first :: rest)
    (hbest : ∀ b ∈ ga.population,
      ¬ betterFitness ga.config.isMaximization b.fitness first.fitness)
    (h : ga.calculateGenerationStats = .ok stats) :
    stats.bestValue = none ∧ stats.bestFitness = first.fitness := by
  unfold GeneticAlgorithm.calculateGenerationStats at h
  rw [hpop] at h hbest
  dsimp only at h
  split at h
  · cases h
  · rename_i f0 hf0
    obtain ⟨hf0e, -⟩ := getFitness_ok_inv first f0 hf0
    subst hf0e
    split at h
    · cases h
    · rename_i acc hacc
      obtain ⟨h1, h2⟩ := statsLoop_bestValue_kept ga.config _ _ _ hacc hbest
      split at h
      · cases h
      · cases h
        exact ⟨h1, h2⟩

end GA
